import Mathlib

/-!
# easy_memory: a shallow embedding of `easy_memory.h`

The allocator is embedded for the 64-bit GCC/clang release build:

* `sizeof(uintptr_t) = sizeof(size_t) = 8`, `sizeof(Block) = sizeof(EM) = sizeof(Bump) = 32`,
  `MIN_EXPONENT = 3`, `EM_MIN_BUFFER_SIZE = 16`, `EM_DEFAULT_ALIGNMENT = 16`;
* `DEBUG` is not defined, hence `EM_POISONING` is off and `EM_ASSERT` has no run-time
  effect (its conditions are not evaluated by the embedding);
* memory is a map from byte addresses to 64-bit words; the allocator only performs
  word-sized accesses.  A header located at address `b` owns the four words
  `b`, `b + 8`, `b + 16`, `b + 24`
  (`size_and_alignment`, `prev`, `left_free`/`em`/`tail`, `right_free`/`magic`/`free_blocks`);
* `size_t`/`uintptr_t` arithmetic wraps modulo `2 ^ 64` (`wadd`, `wsub`, `wshl`, `wnot`);
* C loops and the recursion of `insert_block` are driven by a fuel argument; the public
  entry points pass `FUEL = 2 ^ 64`, more than the number of distinct headers that fit
  in the address space.
-/

-- The evaluated scenarios produce large proof terms; the linters are not run over them.
set_option linter.all false

namespace EasyMemory

/-! ## Machine words -/

/-- Number of values of a 64-bit machine word. -/
@[reducible] def WORD : Nat := 18446744073709551616

/-- Wrapping addition of `size_t` / `uintptr_t`. -/
def wadd (a b : Nat) : Nat := (a + b) % WORD

/-- Wrapping subtraction of `size_t` / `uintptr_t`. -/
def wsub (a b : Nat) : Nat := (a + (WORD - b % WORD)) % WORD

/-- Left shift truncated to the word. -/
def wshl (a k : Nat) : Nat := (a <<< k) % WORD

/-- Bitwise complement of a word. -/
def wnot (a : Nat) : Nat := WORD - 1 - a % WORD

/-- Memory: the word stored at each byte address. -/
abbrev Mem := Nat → Nat

/-- Store the word `v` at address `a`. -/
def Mem.write (m : Mem) (a v : Nat) : Mem := fun x => if x = a then v else m x

/-! ## Constants of `easy_memory.h` -/

@[reducible] def WORD_SIZE : Nat := 8
@[reducible] def SIZEOF_BLOCK : Nat := 32
@[reducible] def SIZEOF_EM : Nat := 32
@[reducible] def EM_MIN_BUFFER_SIZE : Nat := 16
@[reducible] def EM_DEFAULT_ALIGNMENT : Nat := 16
@[reducible] def MIN_EXPONENT : Nat := 3
/-- `MAX_ALIGNMENT = (size_t)(256 << MIN_EXPONENT)`. -/
@[reducible] def MAX_ALIGNMENT : Nat := 256 <<< MIN_EXPONENT
/-- `MIN_ALIGNMENT = sizeof(uintptr_t)`. -/
@[reducible] def MIN_ALIGNMENT : Nat := 8
@[reducible] def ALIGNMENT_MASK : Nat := 7
/-- `SIZE_MASK = ~(uintptr_t)7`. -/
@[reducible] def SIZE_MASK : Nat := 18446744073709551608
@[reducible] def IS_FREE_FLAG : Nat := 1
@[reducible] def COLOR_FLAG : Nat := 2
/-- `PREV_MASK = ~(uintptr_t)3`. -/
@[reducible] def PREV_MASK : Nat := 18446744073709551612
@[reducible] def IS_DYNAMIC_FLAG : Nat := 1
@[reducible] def IS_NESTED_FLAG : Nat := 2
@[reducible] def TAIL_MASK : Nat := 18446744073709551612
@[reducible] def IS_PADDING : Nat := 1
@[reducible] def HAS_SCRATCH_FLAG : Nat := 2
@[reducible] def FREE_BLOCKS_MASK : Nat := 18446744073709551612
/-- `BLOCK_MIN_SIZE = sizeof(Block) + EM_MIN_BUFFER_SIZE`. -/
@[reducible] def BLOCK_MIN_SIZE : Nat := SIZEOF_BLOCK + EM_MIN_BUFFER_SIZE
/-- `EM_MIN_SIZE = sizeof(EM) + BLOCK_MIN_SIZE`. -/
@[reducible] def EM_MIN_SIZE : Nat := SIZEOF_EM + BLOCK_MIN_SIZE
/-- The magic constant `0xDEADBEEF`. -/
@[reducible] def MAGIC : Nat := 3735928559
/-- `RED = false`, `BLACK = true`. -/
@[reducible] def RED : Bool := false
@[reducible] def BLACK : Bool := true
/-- Fuel handed to every loop by the public entry points. -/
@[reducible] def FUEL : Nat := 18446744073709551616

/-! ## Helpers -/

/-- `align_up(size, alignment) = (size + alignment - 1) & ~(alignment - 1)`. -/
def align_up (size alignment : Nat) : Nat :=
  (wsub (wadd size alignment) 1) &&& (wnot (wsub alignment 1))

/-- `align_down(size, alignment) = size & ~(alignment - 1)`. -/
def align_down (size alignment : Nat) : Nat :=
  size &&& (wnot (wsub alignment 1))

/-- Count of trailing zero bits among the lowest `fuel` bits of `x`. -/
def ctz_loop : Nat → Nat → Nat
  | 0, _ => 0
  | fuel + 1, x => if x % 2 = 1 then 0 else 1 + ctz_loop fuel (x / 2)

/-- `__builtin_ctz` takes an `unsigned int`: the argument is truncated to 32 bits
(the C result is undefined when these are all zero; the embedding then yields 32). -/
def builtin_ctz (x : Nat) : Nat := ctz_loop 32 (x % 4294967296)

/-- `min_exponent_of(num)`: `0` for `0`, else `__builtin_ctz(num)`. -/
def min_exponent_of (num : Nat) : Nat :=
  if num = 0 then 0 else builtin_ctz num

/-! ## Block header accessors -/

/-- `block_data(block) = (char *)block + sizeof(Block)`. -/
def block_data (block : Nat) : Nat := wadd block SIZEOF_BLOCK

def get_alignment (m : Mem) (block : Nat) : Nat :=
  let exponent := (m block &&& ALIGNMENT_MASK) + MIN_EXPONENT
  wshl 1 exponent

def set_alignment (m : Mem) (block alignment : Nat) : Mem :=
  let exponent := min_exponent_of (alignment >>> MIN_EXPONENT)
  let spot := m block &&& ALIGNMENT_MASK
  let m1 := m.write block (m block ^^^ spot)
  m1.write block (m1 block ||| exponent)

def get_size (m : Mem) (block : Nat) : Nat := m block >>> 3

def set_size (m : Mem) (block size : Nat) : Mem :=
  let alignment_piece := m block &&& ALIGNMENT_MASK
  m.write block (wshl size 3 ||| alignment_piece)

def get_prev (m : Mem) (block : Nat) : Nat := m (block + 8) &&& PREV_MASK

def set_prev (m : Mem) (block ptr : Nat) : Mem :=
  let flags_tips := m (block + 8) &&& wnot PREV_MASK
  m.write (block + 8) (ptr ||| flags_tips)

def get_is_free (m : Mem) (block : Nat) : Bool := (m (block + 8) &&& IS_FREE_FLAG) != 0

def set_is_free (m : Mem) (block : Nat) (is_free : Bool) : Mem :=
  let int_ptr := m (block + 8)
  m.write (block + 8) (if is_free then int_ptr ||| IS_FREE_FLAG else int_ptr &&& wnot IS_FREE_FLAG)

/-- The colour bit: `true` is `BLACK`, `false` is `RED`. -/
def get_color (m : Mem) (block : Nat) : Bool := (m (block + 8) &&& COLOR_FLAG) != 0

def set_color (m : Mem) (block : Nat) (color : Bool) : Mem :=
  let int_ptr := m (block + 8)
  m.write (block + 8) (if color then int_ptr ||| COLOR_FLAG else int_ptr &&& wnot COLOR_FLAG)

def get_left_tree (m : Mem) (block : Nat) : Nat := m (block + 16)

def set_left_tree (m : Mem) (parent_block left_child_block : Nat) : Mem :=
  m.write (parent_block + 16) left_child_block

def get_right_tree (m : Mem) (block : Nat) : Nat := m (block + 24)

def set_right_tree (m : Mem) (parent_block right_child_block : Nat) : Mem :=
  m.write (parent_block + 24) right_child_block

def get_magic (m : Mem) (block : Nat) : Nat := m (block + 24)

def set_magic (m : Mem) (block user_ptr : Nat) : Mem :=
  m.write (block + 24) (MAGIC ^^^ user_ptr)

def is_valid_magic (m : Mem) (block user_ptr : Nat) : Bool :=
  (get_magic m block ^^^ user_ptr) == MAGIC

def get_em (m : Mem) (block : Nat) : Nat := m (block + 16)

def set_em (m : Mem) (block em : Nat) : Mem := m.write (block + 16) em

def get_is_in_scratch (m : Mem) (block : Nat) : Bool :=
  !get_is_free m block && (get_color m block == BLACK)

/-! ## Arena header accessors -/

def em_get_tail (m : Mem) (em : Nat) : Nat := m (em + 16) &&& TAIL_MASK

def em_set_tail (m : Mem) (em block : Nat) : Mem :=
  let flags_tips := m (em + 16) &&& wnot TAIL_MASK
  m.write (em + 16) (block ||| flags_tips)

def em_get_is_dynamic (m : Mem) (em : Nat) : Bool := (m (em + 16) &&& IS_DYNAMIC_FLAG) != 0

def em_set_is_dynamic (m : Mem) (em : Nat) (is_dynamic : Bool) : Mem :=
  let int_ptr := m (em + 16)
  m.write (em + 16)
    (if is_dynamic then int_ptr ||| IS_DYNAMIC_FLAG else int_ptr &&& wnot IS_DYNAMIC_FLAG)

def em_get_is_nested (m : Mem) (em : Nat) : Bool := (m (em + 16) &&& IS_NESTED_FLAG) != 0

def em_set_is_nested (m : Mem) (em : Nat) (is_nested : Bool) : Mem :=
  let int_ptr := m (em + 16)
  m.write (em + 16)
    (if is_nested then int_ptr ||| IS_NESTED_FLAG else int_ptr &&& wnot IS_NESTED_FLAG)

def em_get_padding_bit (m : Mem) (em : Nat) : Bool := (m (em + 24) &&& IS_PADDING) != 0

def em_set_padding_bit (m : Mem) (em : Nat) (has_padding : Bool) : Mem :=
  let int_ptr := m (em + 24)
  m.write (em + 24) (if has_padding then int_ptr ||| IS_PADDING else int_ptr &&& wnot IS_PADDING)

def em_get_has_scratch (m : Mem) (em : Nat) : Bool := (m (em + 24) &&& HAS_SCRATCH_FLAG) != 0

def em_set_has_scratch (m : Mem) (em : Nat) (has_scratch : Bool) : Mem :=
  let int_ptr := m (em + 24)
  m.write (em + 24)
    (if has_scratch then int_ptr ||| HAS_SCRATCH_FLAG else int_ptr &&& wnot HAS_SCRATCH_FLAG)

def em_get_free_blocks (m : Mem) (em : Nat) : Nat := m (em + 24) &&& FREE_BLOCKS_MASK

def em_set_free_blocks (m : Mem) (em block : Nat) : Mem :=
  let flags_tips := m (em + 24) &&& wnot FREE_BLOCKS_MASK
  m.write (em + 24) (block ||| flags_tips)

def em_get_capacity (m : Mem) (em : Nat) : Nat := get_size m em

def em_set_capacity (m : Mem) (em size : Nat) : Mem := set_size m em size

def em_get_alignment (m : Mem) (em : Nat) : Nat := get_alignment m em

def em_set_alignment (m : Mem) (em alignment : Nat) : Mem := set_alignment m em alignment

def em_get_first_block (m : Mem) (em : Nat) : Nat :=
  let align := em_get_alignment m em
  let raw_start := wadd em SIZEOF_EM
  wsub (align_up (wadd raw_start SIZEOF_BLOCK) align) SIZEOF_BLOCK

/-! ## Physical block list -/

def free_size_in_tail (m : Mem) (em : Nat) : Nat :=
  let tail := em_get_tail m em
  if tail = 0 || !get_is_free m tail then 0
  else
    let occupied_relative_to_em := wsub (wadd (wadd tail SIZEOF_BLOCK) (get_size m tail)) em
    let em_capacity := em_get_capacity m em
    let em_capacity :=
      if em_get_has_scratch m em then
        let raw_end := wadd em em_capacity
        let aligned_end := align_down raw_end MIN_ALIGNMENT
        let stored_size_ptr := wsub aligned_end WORD_SIZE
        wsub em_capacity (m stored_size_ptr)
      else em_capacity
    wsub em_capacity occupied_relative_to_em

def next_block_unsafe (m : Mem) (block : Nat) : Nat :=
  wadd (block_data block) (get_size m block)

def is_block_within_em (m : Mem) (em block : Nat) : Bool :=
  decide (em_get_first_block m em ≤ block) && decide (block < wadd em (em_get_capacity m em))

def is_block_in_active_part (m : Mem) (em block : Nat) : Bool :=
  if !is_block_within_em m em block then false
  else decide (block ≤ em_get_tail m em)

/-- `next_block`: the physically next header, or `0` (NULL) when it is not in the active part. -/
def next_block (m : Mem) (em block : Nat) : Nat :=
  let next := next_block_unsafe m block
  if !is_block_in_active_part m em next then 0 else next

def create_block (m : Mem) (point : Nat) : Mem :=
  let block := point
  let m := set_size m block 0
  let m := set_prev m block 0
  let m := set_is_free m block true
  let m := set_color m block RED
  let m := set_left_tree m block 0
  set_right_tree m block 0

/-- `create_next_block`: the new memory and the created header (`0` when the safety check
finds the next block already present). -/
def create_next_block (m : Mem) (em prev_block : Nat) : Mem × Nat :=
  if is_block_within_em m em prev_block then
    let next := next_block_unsafe m prev_block
    if is_block_in_active_part m em next && get_prev m next == prev_block then (m, 0)
    else
      let m := create_block m next
      let m := set_prev m next prev_block
      (m, next)
  else
    let m := create_block m 0
    let m := set_prev m 0 prev_block
    (m, 0)

def merge_blocks_logic (m : Mem) (em target source : Nat) : Mem :=
  let new_size := wadd (wadd (get_size m target) SIZEOF_BLOCK) (get_size m source)
  let m := set_size m target new_size
  let following := next_block m em target
  if following != 0 then set_prev m following target else m

/-! ## Free-block tree (left-leaning red-black tree stored in the headers) -/

def rotateLeft (m : Mem) (current_block : Nat) : Mem × Nat :=
  let x := get_right_tree m current_block
  let m := set_right_tree m current_block (get_left_tree m x)
  let m := set_left_tree m x current_block
  let m := set_color m x (get_color m current_block)
  let m := set_color m current_block RED
  (m, x)

def rotateRight (m : Mem) (current_block : Nat) : Mem × Nat :=
  let x := get_left_tree m current_block
  let m := set_left_tree m current_block (get_right_tree m x)
  let m := set_right_tree m x current_block
  let m := set_color m x (get_color m current_block)
  let m := set_color m current_block RED
  (m, x)

def flipColors (m : Mem) (current_block : Nat) : Mem :=
  let m := set_color m current_block RED
  let m := set_color m (get_left_tree m current_block) BLACK
  set_color m (get_right_tree m current_block) BLACK

def is_red (m : Mem) (block : Nat) : Bool :=
  if block = 0 then false else get_color m block == RED

def balance (m : Mem) (h : Nat) : Mem × Nat :=
  let s1 := if is_red m (get_right_tree m h) then rotateLeft m h else (m, h)
  let s2 :=
    if is_red s1.1 (get_left_tree s1.1 s1.2) &&
        is_red s1.1 (get_left_tree s1.1 (get_left_tree s1.1 s1.2)) then
      rotateRight s1.1 s1.2
    else s1
  let m3 :=
    if is_red s2.1 (get_left_tree s2.1 s2.2) && is_red s2.1 (get_right_tree s2.1 s2.2) then
      flipColors s2.1 s2.2
    else s2.1
  (m3, s2.2)

/-- `insert_block(h, new_block)`; the recursion of the C function is bounded by `fuel`. -/
def insert_block : Nat → Mem → Nat → Nat → Mem × Nat
  | 0, m, h, _ => (m, h)
  | fuel + 1, m, h, new_block =>
    if h = 0 then (m, new_block)
    else
      let h_size := get_size m h
      let new_size := get_size m new_block
      let go_left : Bool :=
        if new_size < h_size then true
        else if new_size > h_size then false
        else
          let h_quality := min_exponent_of (block_data h)
          let new_quality := min_exponent_of (block_data new_block)
          if new_quality < h_quality then true
          else if new_quality > h_quality then false
          else decide (new_block > h)
      if go_left then
        let r := insert_block fuel m (get_left_tree m h) new_block
        balance (set_left_tree r.1 h r.2) h
      else
        let r := insert_block fuel m (get_right_tree m h) new_block
        balance (set_right_tree r.1 h r.2) h

/-- The `while (current != NULL)` loop of `find_best_fit`; yields `(best, best_parent)`. -/
def find_best_fit_loop (m : Mem) (size alignment : Nat) :
    Nat → Nat → Nat → Nat → Nat → Nat × Nat
  | 0, best, best_parent, _, _ => (best, best_parent)
  | fuel + 1, best, best_parent, current, current_parent =>
    if current = 0 then (best, best_parent)
    else
      let current_size := get_size m current
      if current_size < size then
        find_best_fit_loop m size alignment fuel best best_parent (get_right_tree m current) current
      else
        let data_ptr := block_data current
        let aligned_ptr := align_up data_ptr alignment
        let padding := wsub aligned_ptr data_ptr
        if current_size ≥ wadd size padding then
          if best = 0 || current_size < get_size m best then
            find_best_fit_loop m size alignment fuel current current_parent
              (get_left_tree m current) current
          else
            find_best_fit_loop m size alignment fuel best best_parent
              (get_left_tree m current) current
        else
          find_best_fit_loop m size alignment fuel best best_parent
            (get_right_tree m current) current

/-- `find_best_fit(root, size, alignment, &parent)`: the pair `(best, parent)`; `parent`
keeps its initial value `NULL` when the root is `NULL`. -/
def find_best_fit (fuel : Nat) (m : Mem) (root size alignment : Nat) : Nat × Nat :=
  if root = 0 then (0, 0)
  else find_best_fit_loop m size alignment fuel 0 0 root 0

/-- The `while (get_left_tree(min_node))` loop of `detach_block_fast`;
yields `(min_parent, min_node)`. -/
def min_node_loop (m : Mem) : Nat → Nat → Nat → Nat × Nat
  | 0, min_parent, min_node => (min_parent, min_node)
  | fuel + 1, min_parent, min_node =>
    if get_left_tree m min_node != 0 then
      min_node_loop m fuel min_node (get_left_tree m min_node)
    else (min_parent, min_node)

/-- `detach_block_fast(&tree_root, target, parent)`: new memory and new `*tree_root`. -/
def detach_block_fast (fuel : Nat) (m : Mem) (tree_root target parent : Nat) : Mem × Nat :=
  let left_child := get_left_tree m target
  let right_child := get_right_tree m target
  let s1 : Mem × Nat :=
    if right_child = 0 then (m, left_child)
    else if left_child = 0 then (m, right_child)
    else
      let mn := min_node_loop m fuel target right_child
      let min_parent := mn.1
      let min_node := mn.2
      let m1 :=
        if min_parent != target then
          let m0 := set_left_tree m min_parent (get_right_tree m min_node)
          set_right_tree m0 min_node right_child
        else m
      (set_left_tree m1 min_node left_child, min_node)
  let replacement := s1.2
  let s2 : Mem × Nat :=
    if parent = 0 then (s1.1, replacement)
    else if get_left_tree s1.1 parent = target then (set_left_tree s1.1 parent replacement, tree_root)
    else (set_right_tree s1.1 parent replacement, tree_root)
  let m3 := set_left_tree s2.1 target 0
  let m3 := set_right_tree m3 target 0
  let m3 := set_color m3 target RED
  if s2.2 != 0 then balance m3 s2.2 else (m3, s2.2)

/-- `find_and_detach_block(&tree_root, size, alignment)`:
`(memory, new *tree_root, detached block or NULL)`. -/
def find_and_detach_block (fuel : Nat) (m : Mem) (tree_root size alignment : Nat) :
    Mem × Nat × Nat :=
  if tree_root = 0 then (m, tree_root, 0)
  else
    let bf := find_best_fit fuel m tree_root size alignment
    if bf.1 != 0 then
      let d := detach_block_fast fuel m tree_root bf.1 bf.2
      (d.1, d.2, bf.1)
    else (m, tree_root, 0)

/-- The search loop of `detach_block_by_ptr`; yields `(current, parent)`. -/
def find_by_ptr_loop (m : Mem) (target target_size target_quality : Nat) :
    Nat → Nat → Nat → Nat × Nat
  | 0, current, parent => (current, parent)
  | fuel + 1, current, parent =>
    if current != 0 && current != target then
      let current_size := get_size m current
      let next : Nat :=
        if target_size < current_size then get_left_tree m current
        else if target_size > current_size then get_right_tree m current
        else
          let current_quality := min_exponent_of (block_data current)
          if target_quality < current_quality then get_left_tree m current
          else if target_quality > current_quality then get_right_tree m current
          else if target > current then get_left_tree m current
          else get_right_tree m current
      find_by_ptr_loop m target target_size target_quality fuel next current
    else (current, parent)

/-- `detach_block_by_ptr(&tree_root, target)`: new memory and new `*tree_root`. -/
def detach_block_by_ptr (fuel : Nat) (m : Mem) (tree_root target : Nat) : Mem × Nat :=
  let target_size := get_size m target
  let target_quality := min_exponent_of (block_data target)
  let cp := find_by_ptr_loop m target target_size target_quality fuel tree_root 0
  if cp.1 = target then detach_block_fast fuel m tree_root target cp.2
  else (m, tree_root)

/-! ## Free engine -/

def em_free_scratch (m : Mem) (em : Nat) : Mem :=
  if em = 0 || !em_get_has_scratch m em then m
  else em_set_has_scratch m em false

/-- `em_free_block_full(em, block)` (without poisoning). -/
def em_free_block_full (m : Mem) (em block : Nat) : Mem :=
  if get_is_in_scratch m block then em_free_scratch m em
  else
    let m := set_is_free m block true
    let m := set_left_tree m block 0
    let m := set_right_tree m block 0
    let m := set_color m block RED
    let tail := em_get_tail m em
    let prev := get_prev m block
    -- memory and `result_to_tree` after the look at the next block
    let s1 : Mem × Nat :=
      if block = tail then (set_size m block 0, 0)
      else
        let next := next_block m em block
        if next = tail then (em_set_tail (set_size m block 0) em block, 0)
        else if next != 0 && get_is_free m next then
          let free_blocks_root := em_get_free_blocks m em
          let d := detach_block_by_ptr FUEL m free_blocks_root next
          let m1 := em_set_free_blocks d.1 em d.2
          (merge_blocks_logic m1 em block next, block)
        else (m, block)
    -- memory and `result_to_tree` after the look at the previous block
    let s2 : Mem × Nat :=
      if prev != 0 && get_is_free s1.1 prev then
        let free_blocks_root := em_get_free_blocks s1.1 em
        let d := detach_block_by_ptr FUEL s1.1 free_blocks_root prev
        let m1 := em_set_free_blocks d.1 em d.2
        if s1.2 = 0 then (em_set_tail (set_size m1 prev 0) em prev, 0)
        else (merge_blocks_logic m1 em prev s1.2, prev)
      else s1
    if s2.2 != 0 then
      let free_blocks_root := em_get_free_blocks s2.1 em
      let r := insert_block FUEL s2.1 free_blocks_root s2.2
      em_set_free_blocks r.1 em r.2
    else s2.1

def split_block (m : Mem) (em block needed_size : Nat) : Mem :=
  let full_size := get_size m block
  if full_size > needed_size && wsub full_size needed_size ≥ BLOCK_MIN_SIZE then
    let m := set_size m block needed_size
    let remainder := next_block_unsafe m block
    let m := create_block m remainder
    let m := set_prev m remainder block
    let m := set_size m remainder (wsub (wsub full_size needed_size) SIZEOF_BLOCK)
    let following := next_block m em remainder
    let m := if following != 0 then set_prev m following remainder else m
    em_free_block_full m em remainder
  else m

/-! ## Allocation engine -/

/-- `alloc_in_free_blocks(em, size, alignment)`: new memory and the user pointer (`0` = NULL). -/
def alloc_in_free_blocks (m : Mem) (em size alignment : Nat) : Mem × Nat :=
  let root := em_get_free_blocks m em
  let fd := find_and_detach_block FUEL m root size alignment
  let m := em_set_free_blocks fd.1 em fd.2.1
  let block := fd.2.2
  if block = 0 then (m, 0)
  else
    let m := set_is_free m block false
    let data_ptr := block_data block
    let aligned_ptr := align_up data_ptr alignment
    let padding := wsub aligned_ptr data_ptr
    let total_needed := wadd padding size
    let aligned_needed := align_up total_needed WORD_SIZE
    let m := split_block m em block aligned_needed
    let m :=
      if padding > 0 then m.write (wsub aligned_ptr WORD_SIZE) (block ^^^ aligned_ptr) else m
    let m := set_em m block em
    let m := set_magic m block aligned_ptr
    let m := set_color m block RED
    (m, aligned_ptr)

/-- `alloc_in_tail_full(em, size, alignment)`: new memory and the user pointer (`0` = NULL). -/
def alloc_in_tail_full (m : Mem) (em size alignment : Nat) : Mem × Nat :=
  if free_size_in_tail m em < size then (m, 0)
  else
    let tail := em_get_tail m em
    let raw_data_ptr := block_data tail
    let aligned_data_ptr := align_up raw_data_ptr alignment
    let padding := wsub aligned_data_ptr raw_data_ptr
    let minimal_needed_block_size := wadd padding size
    let free_space := free_size_in_tail m em
    if minimal_needed_block_size > free_space then (m, 0)
    else
      -- front split: memory, tail and padding afterwards
      let s : Mem × Nat × Nat :=
        if alignment > em_get_alignment m em && padding > 0 then
          if padding ≥ BLOCK_MIN_SIZE then
            let m := set_size m tail (wsub padding SIZEOF_BLOCK)
            let free_blocks_root := em_get_free_blocks m em
            let r := insert_block FUEL m free_blocks_root tail
            let m := em_set_free_blocks r.1 em r.2
            let c := create_next_block m em tail
            let m := em_set_tail c.1 em c.2
            (m, c.2, 0)
          else (m, tail, padding)
        else (m, tail, padding)
      let m := s.1
      let tail := s.2.1
      let padding := s.2.2
      let minimal_needed_block_size := wadd padding size
      let free_space := free_size_in_tail m em
      if minimal_needed_block_size > free_space then (m, 0)
      else
        let final_needed_block_size :=
          if wsub free_space minimal_needed_block_size ≥ BLOCK_MIN_SIZE then
            let raw_data_end_ptr := wadd aligned_data_ptr size
            let aligned_data_end_ptr :=
              wsub (align_up (wadd raw_data_end_ptr SIZEOF_BLOCK) (em_get_alignment m em))
                SIZEOF_BLOCK
            let end_padding := wsub aligned_data_end_ptr raw_data_end_ptr
            let full_needed_block_size := wadd minimal_needed_block_size end_padding
            if wsub free_space full_needed_block_size ≥ BLOCK_MIN_SIZE then
              full_needed_block_size
            else free_space
          else free_space
        let m :=
          if padding > 0 then
            m.write (wsub aligned_data_ptr WORD_SIZE) (tail ^^^ aligned_data_ptr)
          else m
        let m := set_size m tail final_needed_block_size
        let m := set_is_free m tail false
        let m := set_magic m tail aligned_data_ptr
        let m := set_color m tail RED
        let m := set_em m tail em
        let m :=
          if free_space != final_needed_block_size then
            let c := create_next_block m em tail
            em_set_tail c.1 em c.2
          else m
        (m, aligned_data_ptr)

/-- `em_free(data)` (without poisoning). -/
def em_free (m : Mem) (data : Nat) : Mem :=
  if data = 0 then m
  else if data % WORD_SIZE != 0 then m
  else
    let spot_before_user_data := wsub data WORD_SIZE
    let check := m spot_before_user_data ^^^ data
    let found : Option Nat :=
      if check = MAGIC then some (wsub data SIZEOF_BLOCK)
      else if check % WORD_SIZE != 0 then none
      else some check
    match found with
    | none => m
    | some block =>
      if get_size m block > SIZE_MASK then m
      else if get_is_free m block then m
      else if !is_valid_magic m block data then m
      else
        let em := get_em m block
        if !is_block_within_em m em block then m
        else em_free_block_full m em block

/-- `em_alloc_aligned(em, size, alignment)`: new memory and the user pointer (`0` = NULL). -/
def em_alloc_aligned (m : Mem) (em size alignment : Nat) : Mem × Nat :=
  if em = 0 || size = 0 || size > em_get_capacity m em then (m, 0)
  else if (alignment &&& wsub alignment 1) != 0 then (m, 0)
  else if alignment < MIN_ALIGNMENT || alignment > MAX_ALIGNMENT then (m, 0)
  else
    let r := alloc_in_free_blocks m em size alignment
    if r.2 != 0 then r
    else if free_size_in_tail r.1 em = 0 then (r.1, 0)
    else alloc_in_tail_full r.1 em size alignment

def em_alloc (m : Mem) (em size : Nat) : Mem × Nat :=
  if em = 0 then (m, 0)
  else em_alloc_aligned m em size (em_get_alignment m em)

/-! ## Arena lifecycle -/

/-- `em_create_static_aligned(memory, size, alignment)`: new memory and the arena (`0` = NULL). -/
def em_create_static_aligned (m : Mem) (memory size alignment : Nat) : Mem × Nat :=
  if memory = 0 || size < EM_MIN_SIZE || size > SIZE_MASK then (m, 0)
  else if (alignment &&& wsub alignment 1) != 0 then (m, 0)
  else if alignment < MIN_ALIGNMENT || alignment > MAX_ALIGNMENT then (m, 0)
  else
    let raw_addr := memory
    let aligned_addr := align_up raw_addr MIN_ALIGNMENT
    let em_padding := wsub aligned_addr raw_addr
    if size < wadd (wadd em_padding SIZEOF_EM) BLOCK_MIN_SIZE then (m, 0)
    else
      let em := aligned_addr
      let aligned_block_start :=
        wsub (align_up (wadd (wadd aligned_addr SIZEOF_BLOCK) SIZEOF_EM) alignment) SIZEOF_BLOCK
      let block := aligned_block_start
      let m := create_block m aligned_block_start
      let m :=
        if aligned_block_start > wadd aligned_addr SIZEOF_EM then
          let offset := wsub aligned_block_start em
          let detector_spot := wsub aligned_block_start WORD_SIZE
          m.write detector_spot (wshl offset 1 ||| 1)
        else m
      let m := em_set_alignment m em alignment
      let m := em_set_capacity m em (wsub size em_padding)
      let m := em_set_free_blocks m em 0
      let m := em_set_has_scratch m em false
      let m := em_set_padding_bit m em false
      let m := em_set_tail m em block
      let m := em_set_is_dynamic m em false
      let m := em_set_is_nested m em false
      (m, em)

def em_create_static (m : Mem) (memory size : Nat) : Mem × Nat :=
  em_create_static_aligned m memory size EM_DEFAULT_ALIGNMENT

def em_reset (m : Mem) (em : Nat) : Mem :=
  if em = 0 then m
  else
    let first_block := em_get_first_block m em
    let m := set_size m first_block 0
    let m := set_prev m first_block 0
    let m := set_is_free m first_block true
    let m := set_color m first_block RED
    let m := set_left_tree m first_block 0
    let m := set_right_tree m first_block 0
    let m := em_set_free_blocks m em 0
    let m := em_set_tail m em first_block
    em_set_has_scratch m em false

/-! ## Scratch allocation, `em_calloc`, nested arenas -/

/-- `set_is_in_scratch(block, is_scratch)`. -/
def set_is_in_scratch (m : Mem) (block : Nat) ( is_scratch : Bool) : Mem :=
  let m := set_is_free m block (! is_scratch)
  if is_scratch then set_color m block BLACK else set_color m block RED

/-- `em_alloc_scratch_aligned(em, size, alignment)`: new memory and the user pointer
(`0` = NULL). -/
def em_alloc_scratch_aligned (m : Mem) (em size alignment : Nat) : Mem × Nat :=
  if em = 0 || size = 0 || em_get_has_scratch m em || size > em_get_capacity m em then (m, 0)
  else if (alignment &&& wsub alignment 1) != 0 then (m, 0)
  else if alignment < MIN_ALIGNMENT || alignment > MAX_ALIGNMENT then (m, 0)
  else if size > free_size_in_tail m em then (m, 0)
  else
    let raw_end_of_em := wadd em (em_get_capacity m em)
    let end_of_em := align_down raw_end_of_em MIN_ALIGNMENT
    let end_of_em := wsub end_of_em WORD_SIZE
    let scratch_size_spot := end_of_em
    let scratch_data_spot := wsub end_of_em size
    let scratch_data_spot := align_down scratch_data_spot alignment
    let block_metadata_spot := wsub scratch_data_spot SIZEOF_BLOCK
    let tail := em_get_tail m em
    if block_metadata_spot < wadd (wadd tail SIZEOF_BLOCK) (get_size m tail) then (m, 0)
    else
      let scratch_size := wsub scratch_size_spot scratch_data_spot
      let scratch_block := block_metadata_spot
      let m := create_block m block_metadata_spot
      let m := set_size m scratch_block scratch_size
      let m := set_is_free m scratch_block false
      let m := set_magic m scratch_block scratch_data_spot
      let m := set_em m scratch_block em
      let m := set_is_in_scratch m scratch_block true
      let m := m.write scratch_size_spot (wsub raw_end_of_em block_metadata_spot)
      let m := em_set_has_scratch m em true
      (m, scratch_data_spot)

def em_alloc_scratch (m : Mem) (em size : Nat) : Mem × Nat :=
  if em = 0 then (m, 0)
  else em_alloc_scratch_aligned m em size (em_get_alignment m em)

/-- The byte stored at address `x`: words are little-endian and live at the multiples of
the word size. -/
def byte_at (m : Mem) (x : Nat) : Nat := m (x - x % 8) / 256 ^ (x % 8) % 256

/-- `memset(p, 0, n)`: every word keeps its bytes outside `[p, p + n)` and loses the
others. -/
def memset_zero (m : Mem) (p n : Nat) : Mem := fun w =>
  if w % 8 = 0 then
    ((List.range 8).map fun k =>
      if p ≤ w + k ∧ w + k < p + n then 0 else byte_at m (w + k) * 256 ^ k).sum
  else m w

/-- `SIZE_MAX`. -/
@[reducible] def SIZE_MAX : Nat := 18446744073709551615

/-- `em_calloc(em, nmemb, size)`: new memory and the user pointer (`0` = NULL). -/
def em_calloc (m : Mem) (em nmemb size : Nat) : Mem × Nat :=
  if em = 0 then (m, 0)
  else if nmemb > 0 && SIZE_MAX / nmemb < size then (m, 0)
  else
    let total_size := (nmemb * size) % WORD
    let r := em_alloc m em total_size
    if r.2 != 0 then (memset_zero r.1 r.2 total_size, r.2) else r

/-- The walk of `get_parent_em` along the `prev` pointers: `Sum.inl em` when the loop
returns the owner of an occupied block, `Sum.inr prev` when it ends at the first block. -/
def parent_walk (m : Mem) : Nat → Nat → Sum Nat Nat
  | 0, prev => Sum.inr prev
  | fuel + 1, prev =>
    if get_prev m prev != 0 then
      let prev := get_prev m prev
      if !get_is_free m prev && !em_get_is_nested m prev then Sum.inl (get_em m prev)
      else parent_walk m fuel prev
    else Sum.inr prev

/-- `get_parent_em(block)`. -/
def get_parent_em (m : Mem) (block : Nat) : Nat :=
  if get_is_in_scratch m block then get_prev m block
  else
    match parent_walk m FUEL block with
    | Sum.inl em => em
    | Sum.inr prev =>
      let detector_spot := wsub prev WORD_SIZE
      let val := m detector_spot
      if val &&& 1 != 0 then wsub prev (val >>> 1)
      else wsub prev SIZEOF_EM

/-- `em_destroy(em)`; releasing a heap arena to the system allocator does not touch the
modelled memory. -/
def em_destroy (m : Mem) (em : Nat) : Mem :=
  if em = 0 then m
  else if em_get_is_nested m em then
    let parent := get_parent_em m em
    em_free_block_full m parent em
  else m

/-- `em_create_nested_aligned(parent_em, size, alignment)`: new memory and the arena
(`0` = NULL).  The call `em_set_is_nested(em, true)` is made on whatever
`em_create_static_aligned` returned, NULL (address `0`) included. -/
def em_create_nested_aligned (m : Mem) (parent_em size alignment : Nat) : Mem × Nat :=
  if parent_em = 0 || size < BLOCK_MIN_SIZE || size > SIZE_MASK then (m, 0)
  else if (alignment &&& wsub alignment 1) != 0 then (m, 0)
  else if alignment < MIN_ALIGNMENT || alignment > MAX_ALIGNMENT then (m, 0)
  else
    let a := em_alloc m parent_em size
    let data := a.2
    if data = 0 then (a.1, 0)
    else
      let check := a.1 (wsub data WORD_SIZE) ^^^ data
      let block := if check = MAGIC then wsub data SIZEOF_BLOCK else check
      let c := em_create_static_aligned a.1 block size alignment
      (em_set_is_nested c.1 c.2 true, c.2)

def em_create_nested (m : Mem) (parent_em size : Nat) : Mem × Nat :=
  if parent_em = 0 || size < BLOCK_MIN_SIZE || size > SIZE_MASK then (m, 0)
  else em_create_nested_aligned m parent_em size (em_get_alignment m parent_em)

/-- `em_create_scratch_aligned(parent_em, size, alignment)`: new memory and the arena
(`0` = NULL). -/
def em_create_scratch_aligned (m : Mem) (parent_em size alignment : Nat) : Mem × Nat :=
  if parent_em = 0 || em_get_has_scratch m parent_em || size < BLOCK_MIN_SIZE ||
      size > SIZE_MASK then (m, 0)
  else if (alignment &&& wsub alignment 1) != 0 then (m, 0)
  else if alignment < MIN_ALIGNMENT || alignment > MAX_ALIGNMENT then (m, 0)
  else
    let a := em_alloc_scratch_aligned m parent_em size alignment
    let data := a.2
    if data = 0 then (a.1, 0)
    else
      let block := wsub data SIZEOF_BLOCK
      let m1 := set_prev a.1 block parent_em
      let c := em_create_static_aligned m1 block size alignment
      (em_set_is_nested c.1 c.2 true, c.2)

def em_create_scratch (m : Mem) (parent_em size : Nat) : Mem × Nat :=
  if parent_em = 0 then (m, 0)
  else em_create_scratch_aligned m parent_em size (em_get_alignment m parent_em)


/-! ## Bump allocator -/

/-- `sizeof(Bump)`; the code asserts that it equals `sizeof(Block)`. -/
@[reducible] def SIZEOF_BUMP : Nat := 32

def bump_get_em (m : Mem) (bump : Nat) : Nat := get_em m bump

def bump_set_em (m : Mem) (bump em : Nat) : Mem := set_em m bump em

/-- `bump->as.self.offset`: the fourth word of the header. -/
def bump_get_offset (m : Mem) (bump : Nat) : Nat := m (bump + 24)

def bump_set_offset (m : Mem) (bump offset : Nat) : Mem := m.write (bump + 24) offset

def bump_get_capacity (m : Mem) (bump : Nat) : Nat := get_size m bump

def bump_set_capacity (m : Mem) (bump size : Nat) : Mem := set_size m bump size

/-- `em_create_bump(parent_em, size)`: new memory and the bump allocator (`0` = NULL). -/
def em_create_bump (m : Mem) (parent_em size : Nat) : Mem × Nat :=
  if parent_em = 0 then (m, 0)
  else if size > SIZE_MASK || size < EM_MIN_BUFFER_SIZE then (m, 0)
  else
    let r := em_alloc m parent_em size
    let data := r.2
    if data = 0 then (r.1, 0)
    else
      let m := r.1
      let check := m (wsub data WORD_SIZE) ^^^ data
      let block := if check = MAGIC then wsub data SIZEOF_BLOCK else check
      let m := bump_set_em m block parent_em
      let m := bump_set_offset m block SIZEOF_BUMP
      (m, block)

/-- `em_bump_alloc(bump, size)`: new memory and the pointer (`0` = NULL). -/
def em_bump_alloc (m : Mem) (bump size : Nat) : Mem × Nat :=
  if bump = 0 then (m, 0)
  else
    let offset := bump_get_offset m bump
    if size = 0 || size ≥ wadd (wsub (bump_get_capacity m bump) offset) SIZEOF_BUMP then (m, 0)
    else
      let memory := wadd bump offset
      (bump_set_offset m bump (wadd offset size), memory)

/-- `em_bump_alloc_aligned(bump, size, alignment)`: new memory and the pointer. -/
def em_bump_alloc_aligned (m : Mem) (bump size alignment : Nat) : Mem × Nat :=
  if bump = 0 then (m, 0)
  else if (alignment &&& wsub alignment 1) != 0 then (m, 0)
  else if alignment < MIN_ALIGNMENT || alignment > MAX_ALIGNMENT then (m, 0)
  else if size = 0 then (m, 0)
  else
    let current_ptr := wadd bump (bump_get_offset m bump)
    let aligned_ptr := align_up current_ptr alignment
    let padding := wsub aligned_ptr current_ptr
    if size > wsub SIZE_MAX padding then (m, 0)
    else
      let total_size := wadd padding size
      let offset := bump_get_offset m bump
      if total_size ≥ wadd (wsub (bump_get_capacity m bump) offset) SIZEOF_BUMP then (m, 0)
      else (bump_set_offset m bump (wadd offset total_size), aligned_ptr)

/-- `em_bump_trim(bump)`. -/
def em_bump_trim (m : Mem) (bump : Nat) : Mem :=
  if bump = 0 then m
  else
    let parent := bump_get_em m bump
    let parent_align := em_get_alignment m parent
    let bump_addr := bump
    let current_end := wadd bump_addr (bump_get_offset m bump)
    let next_data_aligned := align_up (wadd current_end SIZEOF_BLOCK) parent_align
    let remainder_addr := wsub next_data_aligned SIZEOF_BLOCK
    let new_payload_size := wsub remainder_addr (wadd bump SIZEOF_BLOCK)
    if bump_get_capacity m bump > new_payload_size then
      split_block m parent bump new_payload_size
    else m

/-- `em_bump_reset(bump)`. -/
def em_bump_reset (m : Mem) (bump : Nat) : Mem :=
  if bump = 0 then m else bump_set_offset m bump SIZEOF_BUMP

/-- `em_bump_destroy(bump)`. -/
def em_bump_destroy (m : Mem) (bump : Nat) : Mem :=
  if bump = 0 then m else em_free_block_full m (bump_get_em m bump) bump


/-! ## Definitions used to state the properties -/

/-- The all-zero memory, used as the initial memory of the concrete scenarios. -/
def zero_mem : Mem := fun _ => 0

/-- Powers of two. -/
def IsPow2 (a : Nat) : Prop := ∃ k, a = 2 ^ k

/-- The header address that `em_free(data)` recovers from the word before `data`:
`data - sizeof(Block)` when that word XOR `data` is the magic constant, otherwise the XOR value. -/
def recovered_header (m : Mem) (data : Nat) : Nat :=
  let check := m (wsub data WORD_SIZE) ^^^ data
  if check = MAGIC then wsub data SIZEOF_BLOCK else check

/-! ### Concrete scenarios (all on the all-zero initial memory) -/

/-- Scenario A: `em = em_create_static(4096, 1024)`. -/
def scenA_create : Mem × Nat := em_create_static zero_mem 4096 1024
/-- Scenario A: `p1 = em_alloc(em, 512)`. -/
def scenA_alloc1 : Mem × Nat := em_alloc scenA_create.1 scenA_create.2 512
/-- Scenario A: `p2 = em_alloc(em, free_size_in_tail(em))`, absorbing the tail. -/
def scenA_alloc2 : Mem × Nat :=
  em_alloc scenA_alloc1.1 scenA_create.2 (free_size_in_tail scenA_alloc1.1 scenA_create.2)
/-- Scenario A: `em_free(p1)` while `p2` is live. -/
def scenA_free1 : Mem := em_free scenA_alloc2.1 scenA_alloc1.2
/-- Scenario A: `p3 = em_alloc(em, 600)` after `em_free(p1)`. -/
def scenA_alloc3 : Mem × Nat := em_alloc scenA_free1 scenA_create.2 600
/-- Scenario A: `em_free(p1)` then `em_free(p2)`. -/
def scenA_free1_free2 : Mem := em_free scenA_free1 scenA_alloc2.2
/-- Scenario A: `em_free(p2)` then `em_free(p1)`. -/
def scenA_free2_free1 : Mem := em_free (em_free scenA_alloc2.1 scenA_alloc2.2) scenA_alloc1.2

/-- Scenario B: `em = em_create_static_aligned(4096, 152, 64)`. -/
def scenB_create : Mem × Nat := em_create_static_aligned zero_mem 4096 152 64
/-- Scenario B: `p = em_alloc_aligned(em, 40, 64)`. -/
def scenB_alloc : Mem × Nat := em_alloc_aligned scenB_create.1 scenB_create.2 40 64
/-- Scenario B: `em_free(p)` right after the allocation. -/
def scenB_free : Mem := em_free scenB_alloc.1 scenB_alloc.2

/-- Scenario C: `p = em_alloc(em, 64)` on the arena of scenario A. -/
def scenC_alloc : Mem × Nat := em_alloc scenA_create.1 scenA_create.2 64
/-- Scenario C: the caller stores the words `0, 0, em, 0xDEADBEEF ^ p` into the payload. -/
def scenC_written : Mem :=
  (((scenC_alloc.1.write scenC_alloc.2 0).write (scenC_alloc.2 + 8) 0).write
    (scenC_alloc.2 + 16) scenA_create.2).write (scenC_alloc.2 + 24) (MAGIC ^^^ scenC_alloc.2)
/-- Scenario C: the first `em_free(p)`. -/
def scenC_free1 : Mem := em_free scenC_written scenC_alloc.2
/-- Scenario C: the second `em_free(p)`. -/
def scenC_free2 : Mem := em_free scenC_free1 scenC_alloc.2

/-- Scenario D: `em = em_create_static_aligned(4096, 4096, 2048)`. -/
def scenD_create : Mem × Nat := em_create_static_aligned zero_mem 4096 4096 2048
/-- Scenario D: `em_reset(em)`. -/
def scenD_reset : Mem := em_reset scenD_create.1 scenD_create.2

/-! ## Definitions used in the proofs -/

/-- The alignments that pass the checks of the public entry points. -/
def ValidAlignment (a : Nat) : Prop := a ∈ [8, 16, 32, 64, 128, 256, 512, 1024, 2048]

instance (a : Nat) : Decidable (ValidAlignment a) := by
  unfold ValidAlignment; infer_instance

/-- Headers of the list are pairwise at least one header (32 bytes) apart. -/
def HeadersApart (H : List Nat) : Prop :=
  ∀ a ∈ H, ∀ b ∈ H, a ≠ b → a + 32 ≤ b ∨ b + 32 ≤ a

/-- Both tree links of every listed header are NULL or point to a listed header. -/
def LinksClosed (m : Mem) (H : List Nat) : Prop :=
  ∀ h ∈ H, (m (h + 16) = 0 ∨ m (h + 16) ∈ H) ∧ (m (h + 24) = 0 ∨ m (h + 24) ∈ H)

/-- Two `prev` words that agree in every bit except the colour bit. -/
def SameButColor (w w' : Nat) : Prop :=
  w &&& 18446744073709551613 = w' &&& 18446744073709551613

/-- `m'` differs from `m` at most in the two links and the colour bit of listed headers. -/
def TreeFrame (H : List Nat) (m m' : Mem) : Prop :=
  (∀ x, (∀ h ∈ H, x ≠ h + 8 ∧ x ≠ h + 16 ∧ x ≠ h + 24) → m' x = m x) ∧
  (∀ h ∈ H, SameButColor (m (h + 8)) (m' (h + 8)))

/-- Frame and closure facts carried through the tree operations. -/
def TreeInv (H : List Nat) (m0 m : Mem) : Prop :=
  TreeFrame H m0 m ∧ LinksClosed m H

/-- The block size chosen by `alloc_in_tail_full` (`final_needed_block_size`). -/
def tail_final (m : Mem) (em size padding aligned_data_ptr : Nat) : Nat :=
  let minimal_needed_block_size := wadd padding size
  let free_space := free_size_in_tail m em
  if wsub free_space minimal_needed_block_size ≥ BLOCK_MIN_SIZE then
    let raw_data_end_ptr := wadd aligned_data_ptr size
    let aligned_data_end_ptr :=
      wsub (align_up (wadd raw_data_end_ptr SIZEOF_BLOCK) (em_get_alignment m em))
        SIZEOF_BLOCK
    let end_padding := wsub aligned_data_end_ptr raw_data_end_ptr
    let full_needed_block_size := wadd minimal_needed_block_size end_padding
    if wsub free_space full_needed_block_size ≥ BLOCK_MIN_SIZE then
      full_needed_block_size
    else free_space
  else free_space

/-- The writes of `alloc_in_tail_full` that turn the tail into an occupied block. -/
def tail_stamp (m : Mem) (em tail final padding aligned_data_ptr : Nat) : Mem :=
  let m :=
    if padding > 0 then
      m.write (wsub aligned_data_ptr WORD_SIZE) (tail ^^^ aligned_data_ptr)
    else m
  let m := set_size m tail final
  let m := set_is_free m tail false
  let m := set_magic m tail aligned_data_ptr
  let m := set_color m tail RED
  set_em m tail em

/-- The part of `alloc_in_tail_full` that follows the front split. -/
def tail_commit (m : Mem) (em size tail padding aligned_data_ptr : Nat) : Mem × Nat :=
  if wadd padding size > free_size_in_tail m em then (m, 0)
  else
    let final := tail_final m em size padding aligned_data_ptr
    let m1 := tail_stamp m em tail final padding aligned_data_ptr
    let m2 :=
      if free_size_in_tail m em != final then
        let c := create_next_block m1 em tail
        em_set_tail c.1 em c.2
      else m1
    (m2, aligned_data_ptr)

/-- The front split of `alloc_in_tail_full`: memory, tail and padding afterwards. -/
def tail_front_split (m : Mem) (em alignment tail padding : Nat) : Mem × Nat × Nat :=
  if alignment > em_get_alignment m em && padding > 0 then
    if padding ≥ BLOCK_MIN_SIZE then
      let m := set_size m tail (wsub padding SIZEOF_BLOCK)
      let free_blocks_root := em_get_free_blocks m em
      let r := insert_block FUEL m free_blocks_root tail
      let m := em_set_free_blocks r.1 em r.2
      let c := create_next_block m em tail
      let m := em_set_tail c.1 em c.2
      (m, c.2, 0)
    else (m, tail, padding)
  else (m, tail, padding)

/-- The address of the word that stores the size of the scratch region. -/
def scratch_size_spot (m : Mem) (em : Nat) : Nat :=
  wsub (align_down (wadd em (em_get_capacity m em)) MIN_ALIGNMENT) WORD_SIZE

/-- Well-formedness of the free tail and of the free tree as far as an allocation from
the tail relies on it.  `H` lists headers that contain every node of the free tree. -/
structure TailLayout (m : Mem) (em : Nat) (H : List Nat) : Prop where
  /-- the `free_blocks` word is a 64-bit word -/
  root_word : m (em + 24) < 18446744073709551616
  /-- the tail is a free block of size 0 without tree links -/
  tail_free : get_is_free m (em_get_tail m em) = true
  tail_size : get_size m (em_get_tail m em) = 0
  tail_left : get_left_tree m (em_get_tail m em) = 0
  tail_right : get_right_tree m (em_get_tail m em) = 0
  /-- the tail header lies inside the arena, behind the arena header -/
  tail_within : is_block_within_em m em (em_get_tail m em) = true
  tail_after : em + 32 ≤ em_get_tail m em
  /-- the free tail space does not leave the address space and is an encodable size -/
  space_fits : em_get_tail m em + 32 + free_size_in_tail m em ≤ 18446744073709551616
  space_small : free_size_in_tail m em < 2305843009213693952
  /-- the tail and the tree headers do not overlap -/
  apart : HeadersApart (em_get_tail m em :: H)
  /-- the tree links stay inside `H` -/
  closed : LinksClosed m H
  root_in : em_get_free_blocks m em = 0 ∨ em_get_free_blocks m em ∈ H
  /-- tree headers are 4-aligned addresses behind the arena header -/
  nodes : ∀ h ∈ H, em + 32 ≤ h ∧ h % 4 = 0 ∧ h < 18446744073709551616
  /-- with an active scratch region, its size word lies behind the free tail space and
  behind every tree header -/
  scratch : em_get_has_scratch m em = true →
    em_get_tail m em + 32 + free_size_in_tail m em ≤ scratch_size_spot m em ∧
      ∀ h ∈ H, h + 32 ≤ scratch_size_spot m em

/-- The capacity that `free_size_in_tail` works with: the capacity minus the stored size
of an active scratch region. -/
def effective_capacity (m : Mem) (em : Nat) : Nat :=
  if em_get_has_scratch m em then
    wsub (em_get_capacity m em) (m (scratch_size_spot m em))
  else em_get_capacity m em

/-- The padding that `alloc_in_tail_full` computes in front of the user data. -/
def tail_padding (m : Mem) (em alignment : Nat) : Nat :=
  wsub (align_up (block_data (em_get_tail m em)) alignment) (block_data (em_get_tail m em))

/-- A block fits a request of `size` bytes at alignment `a` in the sense of `find_best_fit`. -/
def Fits (m : Mem) (size a b : Nat) : Prop :=
  size ≤ get_size m b ∧
    wadd size (wsub (align_up (block_data b) a) (block_data b)) ≤ get_size m b

/-- First part of `detach_block_fast`: the replacement node is chosen and linked. -/
def detach_replace (fuel : Nat) (m : Mem) (target : Nat) : Mem × Nat :=
  let left_child := get_left_tree m target
  let right_child := get_right_tree m target
  if right_child = 0 then (m, left_child)
  else if left_child = 0 then (m, right_child)
  else
    let mn := min_node_loop m fuel target right_child
    let min_parent := mn.1
    let min_node := mn.2
    let m1 :=
      if min_parent != target then
        let m0 := set_left_tree m min_parent (get_right_tree m min_node)
        set_right_tree m0 min_node right_child
      else m
    (set_left_tree m1 min_node left_child, min_node)

/-- Second part of `detach_block_fast`: the parent (or the root) takes the replacement. -/
def detach_relink (s1 : Mem × Nat) (tree_root target parent : Nat) : Mem × Nat :=
  if parent = 0 then (s1.1, s1.2)
  else if get_left_tree s1.1 parent = target then
    (set_left_tree s1.1 parent s1.2, tree_root)
  else (set_right_tree s1.1 parent s1.2, tree_root)

/-- Last part of `detach_block_fast`: the target is cleared and the root rebalanced. -/
def detach_finish (s2 : Mem × Nat) (target : Nat) : Mem × Nat :=
  let m3 := set_left_tree s2.1 target 0
  let m3 := set_right_tree m3 target 0
  let m3 := set_color m3 target RED
  if s2.2 != 0 then balance m3 s2.2 else (m3, s2.2)

/-- Well-formedness of the physical block list as far as an allocation from the free
tree relies on it.  `F` lists headers that contain every node of the free tree, `Bs`
lists the headers of the blocks. -/
structure BlockLayout (m : Mem) (em : Nat) (F Bs : List Nat) : Prop where
  /-- the capacity word is a 64-bit word and the arena does not leave the address space -/
  header_word : m em < 18446744073709551616
  arena_fits : em + em_get_capacity m em ≤ 18446744073709551616
  /-- tree nodes are blocks -/
  free_in_blocks : ∀ h ∈ F, h ∈ Bs
  /-- blocks are 4-aligned and lie behind the arena header, inside the arena -/
  blocks_fit : ∀ b ∈ Bs, em + 32 ≤ b ∧ b % 4 = 0 ∧
    b + 32 + get_size m b ≤ em + em_get_capacity m em
  /-- blocks do not overlap -/
  blocks_apart : ∀ a ∈ Bs, ∀ b ∈ Bs, a ≠ b →
    a + 32 + get_size m a ≤ b ∨ b + 32 + get_size m b ≤ a
  /-- the physical successor of a block, when it is in the active part, is a block -/
  chain : ∀ b ∈ Bs, is_block_in_active_part m em ( next_block_unsafe m b) = true →
    next_block_unsafe m b ∈ Bs
  /-- the tree links stay inside `F` -/
  closed : LinksClosed m F
  root_in : em_get_free_blocks m em = 0 ∨ em_get_free_blocks m em ∈ F

/-- `m'` keeps the capacity word of the arena and, for every listed block except `R`,
the size word and the free flag. -/
def BlockFrame (Bs : List Nat) (em R : Nat) (m m' : Mem) : Prop :=
  m' em = m em ∧ ∀ b ∈ Bs, b ≠ R → m' b = m b ∧ get_is_free m' b = get_is_free m b

/-- First writes of `em_free_block_full`: the block is marked free and unlinked. -/
def free_mark (m : Mem) (block : Nat) : Mem :=
  let m := set_is_free m block true
  let m := set_left_tree m block 0
  let m := set_right_tree m block 0
  set_color m block RED

/-- The look of `em_free_block_full` at the next block: memory and `result_to_tree`. -/
def free_look_next (m : Mem) (em block : Nat) : Mem × Nat :=
  let tail := em_get_tail m em
  if block = tail then (set_size m block 0, 0)
  else
    let next := next_block m em block
    if next = tail then (em_set_tail (set_size m block 0) em block, 0)
    else if next != 0 && get_is_free m next then
      let free_blocks_root := em_get_free_blocks m em
      let d := detach_block_by_ptr FUEL m free_blocks_root next
      let m1 := em_set_free_blocks d.1 em d.2
      (merge_blocks_logic m1 em block next, block)
    else (m, block)

/-- The look of `em_free_block_full` at the previous block. -/
def free_look_prev (s1 : Mem × Nat) (em prev : Nat) : Mem × Nat :=
  if prev != 0 && get_is_free s1.1 prev then
    let free_blocks_root := em_get_free_blocks s1.1 em
    let d := detach_block_by_ptr FUEL s1.1 free_blocks_root prev
    let m1 := em_set_free_blocks d.1 em d.2
    if s1.2 = 0 then (em_set_tail (set_size m1 prev 0) em prev, 0)
    else (merge_blocks_logic m1 em prev s1.2, prev)
  else s1

/-- The last step of `em_free_block_full`: the resulting block enters the tree. -/
def free_insert (s2 : Mem × Nat) (em : Nat) : Mem :=
  if s2.2 != 0 then
    let free_blocks_root := em_get_free_blocks s2.1 em
    let r := insert_block FUEL s2.1 free_blocks_root s2.2
    em_set_free_blocks r.1 em r.2
  else s2.1

/-- The writes of `split_block` that lay out the remainder block. -/
def split_carve (m : Mem) (em block needed_size : Nat) : Mem :=
  let full_size := get_size m block
  let m := set_size m block needed_size
  let remainder := next_block_unsafe m block
  let m := create_block m remainder
  let m := set_prev m remainder block
  let m := set_size m remainder (wsub (wsub full_size needed_size) SIZEOF_BLOCK)
  let following := next_block m em remainder
  if following != 0 then set_prev m following remainder else m

/-- Scenario E: `p1 = em_alloc(em, 64)` on the arena of scenario A. -/
def scenE_alloc1 : Mem × Nat := em_alloc scenA_create.1 scenA_create.2 64
/-- Scenario E: `p2 = em_alloc(em, 64)`. -/
def scenE_alloc2 : Mem × Nat := em_alloc scenE_alloc1.1 scenA_create.2 64
/-- Scenario E: `em_free(p1)`; the free tree now holds the block of `p1`. -/
def scenE_free1 : Mem := em_free scenE_alloc2.1 scenE_alloc1.2

/-! ### Further concrete scenarios -/

/-- Scenario G: `em = em_create_static(4096, 4096)`. -/
def scenG_create : Mem × Nat := em_create_static zero_mem 4096 4096
/-- Scenario G: `p1 = em_alloc_aligned(em, 3072, 1024)`: the padding of 960 bytes becomes
a free block of the tree and the allocation absorbs the rest of the tail. -/
def scenG_alloc1 : Mem × Nat := em_alloc_aligned scenG_create.1 scenG_create.2 3072 1024
/-- Scenario G: `p2 = em_alloc_aligned(em, 16, 16)`, served from the free tree. -/
def scenG_alloc2 : Mem × Nat := em_alloc_aligned scenG_alloc1.1 scenG_create.2 16 16

/-- Scenario H: `a = em_alloc(em, 128)` on the arena of scenario A. -/
def scenH_allocA : Mem × Nat := em_alloc scenA_create.1 scenA_create.2 128
/-- Scenario H: `b = em_alloc(em, 128)`. -/
def scenH_allocB : Mem × Nat := em_alloc scenH_allocA.1 scenA_create.2 128
/-- Scenario H: `c = em_alloc(em, free_size_in_tail(em))`. -/
def scenH_allocC : Mem × Nat :=
  em_alloc scenH_allocB.1 scenA_create.2 (free_size_in_tail scenH_allocB.1 scenA_create.2)
/-- Scenario H: `em_free(a)` then `em_free(b)`. -/
def scenH_freeAB : Mem := em_free (em_free scenH_allocC.1 scenH_allocA.2) scenH_allocB.2
/-- Scenario H: `em_free(b)` then `em_free(a)`. -/
def scenH_freeBA : Mem := em_free (em_free scenH_allocC.1 scenH_allocB.2) scenH_allocA.2

/-- Scenario I: `nested = em_create_nested(parent, 1000)` on the arena of scenario G. -/
def scenI_nested : Mem × Nat := em_create_nested scenG_create.1 scenG_create.2 1000
/-- Scenario I: `em_destroy(nested)`. -/
def scenI_destroy : Mem := em_destroy scenI_nested.1 scenI_nested.2

/-- Scenario J: `em_create_nested_aligned(parent, 64, 16)` on the arena of scenario G. -/
def scenJ_nested : Mem × Nat := em_create_nested_aligned scenG_create.1 scenG_create.2 64 16
/-- Scenario J: `em_create_scratch_aligned(parent, 64, 16)` on the arena of scenario G. -/
def scenJ_scratch : Mem × Nat := em_create_scratch_aligned scenG_create.1 scenG_create.2 64 16


/-- The writes of a successful `em_alloc_scratch_aligned`. -/
def scratch_stamp (m : Mem) (em meta data ssize spot stored : Nat) : Mem :=
  let m := create_block m meta
  let m := set_size m meta ssize
  let m := set_is_free m meta false
  let m := set_magic m meta data
  let m := set_em m meta em
  let m := set_is_in_scratch m meta true
  let m := m.write spot stored
  em_set_has_scratch m em true

/-- What a scratch allocation relies on: the arena lies above the first 2048 bytes of the
address space and does not reach its end, its capacity word is a 64-bit word, and the
tail block lies behind the arena header and inside the arena. -/
structure ScratchLayout (m : Mem) (em : Nat) : Prop where
  low : 2048 ≤ em
  header_word : m em < 18446744073709551616
  arena_fits : em + em_get_capacity m em < 18446744073709551616
  tail_after : em + 32 ≤ em_get_tail m em
  tail_inside : em_get_tail m em + 32 + get_size m (em_get_tail m em) ≤
    em + em_get_capacity m em

/-! ### The free tree as a binary tree -/

/-- A binary tree of block headers: the shape of a free tree. -/
inductive FreeTree where
  | nil : FreeTree
  | node (left : FreeTree) (block : Nat) (right : FreeTree) : FreeTree

/-- The blocks of a tree, from left to right. -/
def FreeTree.blocks : FreeTree → List Nat
  | .nil => []
  | .node l b r => l.blocks ++ b :: r.blocks

def FreeTree.height : FreeTree → Nat
  | .nil => 0
  | .node l _ r => max l.height r.height + 1

/-- The `left_tree` and `right_tree` links of memory `m` below `root` spell out the tree. -/
def FreeTree.InMem (m : Mem) : FreeTree → Nat → Prop
  | .nil, root => root = 0
  | .node l b r, root =>
    root = b ∧ b ≠ 0 ∧ l.InMem m (get_left_tree m b) ∧ r.InMem m (get_right_tree m b)

instance FreeTree.decInMem (m : Mem) : (t : FreeTree) → (root : Nat) →
    Decidable (t.InMem m root)
  | .nil, root => inferInstanceAs (Decidable (root = 0))
  | .node l b r, root =>
    have := FreeTree.decInMem m l (get_left_tree m b)
    have := FreeTree.decInMem m r (get_right_tree m b)
    inferInstanceAs (Decidable (root = b ∧ b ≠ 0 ∧ l.InMem m (get_left_tree m b) ∧
      r.InMem m (get_right_tree m b)))

/-- The order of `insert_block`: block `x` is placed to the left of block `y`.  The keys are
the size, then the alignment quality of the payload address, then the address, where the
higher address goes left. -/
def key_before (m : Mem) (x y : Nat) : Prop :=
  get_size m x < get_size m y ∨
    (get_size m x = get_size m y ∧
      (min_exponent_of (block_data x) < min_exponent_of (block_data y) ∨
        (min_exponent_of (block_data x) = min_exponent_of (block_data y) ∧ y < x)))

instance (m : Mem) (x y : Nat) : Decidable (key_before m x y) := by
  unfold key_before
  infer_instance

/-- The tree is a search tree for the order of `insert_block`. -/
def FreeTree.Ordered (m : Mem) : FreeTree → Prop
  | .nil => True
  | .node l b r =>
    (∀ x ∈ l.blocks, key_before m x b) ∧ (∀ x ∈ r.blocks, key_before m b x) ∧
      l.Ordered m ∧ r.Ordered m

instance FreeTree.decOrdered (m : Mem) : (t : FreeTree) → Decidable (t.Ordered m)
  | .nil => inferInstanceAs (Decidable True)
  | .node l b r =>
    have := FreeTree.decOrdered m l
    have := FreeTree.decOrdered m r
    inferInstanceAs (Decidable ((∀ x ∈ l.blocks, key_before m x b) ∧
      (∀ x ∈ r.blocks, key_before m b x) ∧ l.Ordered m ∧ r.Ordered m))

/-- Block `b` can take a request of `size` bytes at alignment `a`:
`size(b) ≥ size + (align_up(payload(b), a) - payload(b))`, in unbounded arithmetic. -/
def FitsRequest (m : Mem) (size a b : Nat) : Prop :=
  size + (align_up (block_data b) a - block_data b) ≤ get_size m b

instance (m : Mem) (size a b : Nat) : Decidable (FitsRequest m size a b) := by
  unfold FitsRequest
  infer_instance

/-- Scenario K: four allocations of 16, 16, 32 and 16 bytes on the arena of scenario G. -/
def scenK_alloc1 : Mem × Nat := em_alloc scenG_create.1 scenG_create.2 16
def scenK_alloc2 : Mem × Nat := em_alloc scenK_alloc1.1 scenG_create.2 16
def scenK_alloc3 : Mem × Nat := em_alloc scenK_alloc2.1 scenG_create.2 32
def scenK_alloc4 : Mem × Nat := em_alloc scenK_alloc3.1 scenG_create.2 16
/-- Scenario K: the first and the third block are freed; the free tree is the block at 4224
(32 bytes, payload 4256) with the block at 4128 (16 bytes, payload 4160) as left child. -/
def scenK_free : Mem := em_free (em_free scenK_alloc4.1 scenK_alloc1.2) scenK_alloc3.2
/-- Scenario K: the free tree as a `FreeTree`. -/
def scenK_tree : FreeTree := .node (.node .nil 4128 .nil) 4224 .nil

/-- Scenario L: `bump = em_create_bump(em, 256)` on the arena of scenario G. -/
def scenL_bump : Mem × Nat := em_create_bump scenG_create.1 scenG_create.2 256

/-- Scenario M: `em_create_static_aligned(4096, 80, 1024)`: a region of 80 bytes and an
alignment of 1024. -/
def scenM_create : Mem × Nat := em_create_static_aligned zero_mem 4096 80 1024

/-- Scenario I: `p = em_alloc(parent, 64)` after the nested arena was created. -/
def scenI_alloc : Mem × Nat := em_alloc scenI_nested.1 scenG_create.2 64

/-- Scenario B: the tail allocation `alloc_in_tail_full(em, 40, 64)` on the fresh arena. -/
def scenB_tail : Mem × Nat := alloc_in_tail_full scenB_create.1 scenB_create.2 40 64

/-- The capacity that `em_bump_trim` leaves when it splits the block:
`align_up(bump + offset + sizeof(Block), parent alignment) - 2*sizeof(Block) - bump`. -/
def trim_payload (m : Mem) (bump : Nat) : Nat :=
  align_up (bump + bump_get_offset m bump + SIZEOF_BLOCK)
    (em_get_alignment m (bump_get_em m bump)) - 2 * SIZEOF_BLOCK - bump

/-- Scenario L, continued: 40 bytes are taken from the bump allocator. -/
def scenL_alloc : Mem × Nat := em_bump_alloc scenL_bump.1 scenL_bump.2 40
/-! ### The free tree with its colours -/

/-- A binary tree of block headers with the colour of every node (`true` is red). -/
inductive ColorTree where
  | nil : ColorTree
  | node (left : ColorTree) (block : Nat) (red : Bool) (right : ColorTree) : ColorTree

/-- The blocks of a coloured tree, from left to right. -/
def ColorTree.blocks : ColorTree → List Nat
  | .nil => []
  | .node l b _ r => l.blocks ++ b :: r.blocks

def ColorTree.height : ColorTree → Nat
  | .nil => 0
  | .node l _ _ r => max l.height r.height + 1

/-- The tree without its colours. -/
def ColorTree.shape : ColorTree → FreeTree
  | .nil => .nil
  | .node l b _ r => .node l.shape b r.shape

/-- The colour of the root; a null link is not red. -/
def ColorTree.isRed : ColorTree → Bool
  | .nil => false
  | .node _ _ c _ => c

def ColorTree.left : ColorTree → ColorTree
  | .nil => .nil
  | .node l _ _ _ => l

def ColorTree.right : ColorTree → ColorTree
  | .nil => .nil
  | .node _ _ _ r => r

/-- The links and colour bits of memory `m` below `root` spell out the coloured tree. -/
def ColorTree.InMem (m : Mem) : ColorTree → Nat → Prop
  | .nil, root => root = 0
  | .node l b c r, root =>
    root = b ∧ b ≠ 0 ∧ is_red m b = c ∧
      l.InMem m (get_left_tree m b) ∧ r.InMem m (get_right_tree m b)

instance ColorTree.decInMem (m : Mem) : (t : ColorTree) → (root : Nat) →
    Decidable (t.InMem m root)
  | .nil, root => inferInstanceAs (Decidable (root = 0))
  | .node l b c r, root =>
    have := ColorTree.decInMem m l (get_left_tree m b)
    have := ColorTree.decInMem m r (get_right_tree m b)
    inferInstanceAs (Decidable (root = b ∧ b ≠ 0 ∧ is_red m b = c ∧
      l.InMem m (get_left_tree m b) ∧ r.InMem m (get_right_tree m b)))

/-- The free tree read with the colours found in memory. -/
def FreeTree.paint (m : Mem) : FreeTree → ColorTree
  | .nil => .nil
  | .node l b r => .node (l.paint m) b (is_red m b) (r.paint m)

/-- `rotateLeft` on trees. -/
def ColorTree.rotateLeft : ColorTree → ColorTree
  | .node l b c (.node rl x _ rr) => .node (.node l b true rl) x c rr
  | t => t

/-- `rotateRight` on trees. -/
def ColorTree.rotateRight : ColorTree → ColorTree
  | .node (.node ll x _ lr) b c r => .node ll x c (.node lr b true r)
  | t => t

/-- `flipColors` on trees. -/
def ColorTree.flipColors : ColorTree → ColorTree
  | .node (.node ll x _ lr) b _ (.node rl y _ rr) =>
    .node (.node ll x false lr) b true (.node rl y false rr)
  | t => t

/-- `balance` on trees. -/
def ColorTree.balance (t : ColorTree) : ColorTree :=
  let s1 := if t.right.isRed then t.rotateLeft else t
  let s2 := if s1.left.isRed && s1.left.left.isRed then s1.rotateRight else s1
  if s2.left.isRed && s2.right.isRed then s2.flipColors else s2

/-- The comparison of `insert_block` and of `detach_block_by_ptr`: block `x` descends to
the left of node `h`. -/
def goes_left (m : Mem) (x h : Nat) : Bool :=
  if get_size m x < get_size m h then true
  else if get_size m x > get_size m h then false
  else if min_exponent_of (block_data x) < min_exponent_of (block_data h) then true
  else if min_exponent_of (block_data x) > min_exponent_of (block_data h) then false
  else decide (x > h)

/-- `insert_block` on trees: the new node takes the colour it has in memory. -/
def ColorTree.insert (m : Mem) (x : Nat) : ColorTree → ColorTree
  | .nil => .node .nil x (is_red m x) .nil
  | .node l h c r =>
    if goes_left m x h then (ColorTree.node (l.insert m x) h c r).balance
    else (ColorTree.node l h c (r.insert m x)).balance

/-- The leftmost node of a tree: its block and its colour. -/
def ColorTree.minNode : ColorTree → Nat × Bool
  | .nil => (0, false)
  | .node .nil b c _ => (b, c)
  | .node l _ _ _ => l.minNode

/-- The tree without its leftmost node, whose right subtree moves up. -/
def ColorTree.dropMin : ColorTree → ColorTree
  | .nil => .nil
  | .node .nil _ _ r => r
  | .node l b c r => .node l.dropMin b c r

/-- The replacement that `detach_block_fast` builds for a node with the subtrees `l` and
`r`: the other subtree when one is empty, else the leftmost node of `r` on top of `l` and of
the rest of `r`. -/
def ColorTree.splice (l r : ColorTree) : ColorTree :=
  match r, l with
  | .nil, _ => l
  | _, .nil => r
  | _, _ => .node l r.minNode.1 r.minNode.2 r.dropMin

/-- The walk of `detach_block_by_ptr` to `target` and the replacement of that node. -/
def ColorTree.remove (m : Mem) (target : Nat) : ColorTree → ColorTree
  | .nil => .nil
  | .node l b c r =>
    if b = target then ColorTree.splice l r
    else if goes_left m target b then .node (l.remove m target) b c r
    else .node l b c (r.remove m target)

/-- The parent that the walk of `detach_block_by_ptr` reports for `target`. -/
def ColorTree.parentOf (m : Mem) (target : Nat) : ColorTree → Nat → Nat
  | .nil, par => par
  | .node l b _ r, par =>
    if b = target then par
    else if goes_left m target b then l.parentOf m target b
    else r.parentOf m target b

/-- `detach_block_by_ptr` on trees: the node is replaced and the root balanced once. -/
def ColorTree.detach (m : Mem) (target : Nat) (t : ColorTree) : ColorTree :=
  (t.remove m target).balance

/-- Two headers do not overlap. -/
def HeaderGap (a b : Nat) : Prop := a + 32 ≤ b ∨ b + 32 ≤ a

instance (a b : Nat) : Decidable (HeaderGap a b) := by
  unfold HeaderGap
  infer_instance

/-- Number of black nodes on the leftmost path. -/
def ColorTree.blackHeight : ColorTree → Nat
  | .nil => 0
  | .node l _ c _ => l.blackHeight + (if c then 0 else 1)

/-- The colour invariants of a left-leaning red-black tree below the root: no right child
is red, no red node has a red child, and all paths to a null link have the same number of
black nodes. -/
def ColorTree.Valid : ColorTree → Prop
  | .nil => True
  | .node l _ c r =>
    l.Valid ∧ r.Valid ∧ l.blackHeight = r.blackHeight ∧ r.isRed = false ∧
      (c = true → l.isRed = false)

instance ColorTree.decValid : (t : ColorTree) → Decidable t.Valid
  | .nil => inferInstanceAs (Decidable True)
  | .node l _ c r =>
    have := ColorTree.decValid l
    have := ColorTree.decValid r
    inferInstanceAs (Decidable (l.Valid ∧ r.Valid ∧ l.blackHeight = r.blackHeight ∧
      r.isRed = false ∧ (c = true → l.isRed = false)))

/-- The tree with its root taken as black. -/
def ColorTree.blacken : ColorTree → ColorTree
  | .nil => .nil
  | .node l b _ r => .node l b false r
/-- The colour invariants of a left-leaning red-black tree: the root is black, no right
child is red, no red node has a red child, and all paths to a null link have the same
number of black nodes. -/
def ColorTree.IsLLRB (t : ColorTree) : Prop := t.isRed = false ∧ t.Valid

instance (t : ColorTree) : Decidable t.IsLLRB := by
  unfold ColorTree.IsLLRB
  infer_instance

/-- A sequence of `insert_block` calls, each on the root that the call before returned. -/
def insert_blocks (fuel : Nat) : Mem × Nat → List Nat → Mem × Nat
  | s, [] => s
  | s, b :: bs => insert_blocks fuel (insert_block fuel s.1 s.2 b) bs

/-- Scenario N: three aligned allocations on the arena of scenario G, each of which leaves
its padding in front as a free block, then an allocation that is served from the tree. -/
def scenN_alloc1 : Mem × Nat := em_alloc_aligned scenG_create.1 scenG_create.2 48 256
def scenN_alloc2 : Mem × Nat := em_alloc_aligned scenN_alloc1.1 scenG_create.2 32 256
def scenN_alloc3 : Mem × Nat := em_alloc_aligned scenN_alloc2.1 scenG_create.2 48 256
def scenN_alloc4 : Mem × Nat := em_alloc scenN_alloc3.1 scenG_create.2 64

/-- The free tree of scenario N after the first allocation. -/
def scenN_tree1 : ColorTree := .node .nil 4128 true .nil
/-- The free tree of scenario N after the third allocation. -/
def scenN_tree3 : ColorTree :=
  .node (.node .nil 4400 false .nil) 4640 true (.node .nil 4128 false .nil)
/-- The free tree of scenario N after the last allocation. -/
def scenN_tree4 : ColorTree :=
  .node (.node .nil 4496 true .nil) 4640 true (.node .nil 4128 false .nil)

/-! ### The tail invariant -/

/-- Scenario P: `p = em_alloc(em, 64)` on the fresh arena of scenario G. -/
def scenP_alloc : Mem × Nat := em_alloc scenG_create.1 scenG_create.2 64
/-- Scenario P: a bump allocator of 256 bytes behind the block of `p`. -/
def scenP_bump : Mem × Nat := em_create_bump scenP_alloc.1 scenG_create.2 256


/-- Scenario Q: three blocks of 128 bytes on the arena of scenario G. -/
def scenQ_alloc1 : Mem × Nat := em_alloc scenG_create.1 scenG_create.2 128
def scenQ_alloc2 : Mem × Nat := em_alloc scenQ_alloc1.1 scenG_create.2 128
def scenQ_alloc3 : Mem × Nat := em_alloc scenQ_alloc2.1 scenG_create.2 128
/-- Scenario Q: the first two blocks are freed and merge into a free block of payload
`288 = 2 * 128 + sizeof(Block)` at 4128, in front of the occupied third block. -/
def scenQ_merged : Mem := em_free (em_free scenQ_alloc3.1 scenQ_alloc1.2) scenQ_alloc2.2
/-- Scenario Q: `em_alloc(em, 240)`, that is `288 - sizeof(Block) - EM_MIN_BUFFER_SIZE`. -/
def scenQ_fit : Mem × Nat := em_alloc scenQ_merged scenG_create.2 240
/-- Scenario Q: one byte more, `em_alloc(em, 241)` from the same block. -/
def scenQ_full : Mem × Nat := em_alloc scenQ_merged scenG_create.2 241

/-- The writes of `em_create_static_aligned` once its argument checks have passed: the
first block at `block`, the offset word in front of it when there is a gap, and the arena
header at `em`. -/
def create_static_writes (m : Mem) (em block alignment capacity : Nat) : Mem :=
  let m := create_block m block
  let m :=
    if block > wadd em SIZEOF_EM then
      let offset := wsub block em
      let detector_spot := wsub block WORD_SIZE
      m.write detector_spot (wshl offset 1 ||| 1)
    else m
  let m := em_set_alignment m em alignment
  let m := em_set_capacity m em capacity
  let m := em_set_free_blocks m em 0
  let m := em_set_has_scratch m em false
  let m := em_set_padding_bit m em false
  let m := em_set_tail m em block
  let m := em_set_is_dynamic m em false
  em_set_is_nested m em false

/-- A buffer that was filled with the byte `0xFE` before it is handed to the allocator. -/
def fill_mem : Mem := fun _ => 18374403900871474942

/-- Scenario R: `em_create_static_aligned(4096, 4096, 2048)` on the filled buffer. -/
def scenR_create : Mem × Nat := em_create_static_aligned fill_mem 4096 4096 2048
/-- Scenario R: the call of `test_static_em_detector_coverage`, a start address one byte
behind a 64-aligned address and alignment 64, on the filled buffer. -/
def scenR_test : Mem × Nat := em_create_static_aligned fill_mem 4097 1024 64

/-- Scenario S: on the arena of scenario P (alignment 16, one block of 64 bytes), a second
block of 64 bytes. -/
def scenS_alloc2 : Mem × Nat := em_alloc scenP_alloc.1 scenG_create.2 64
/-- Scenario S: the first block is freed; it stays a free block of 64 bytes in the tree. -/
def scenS_free : Mem := em_free scenS_alloc2.1 scenP_alloc.2
/-- Scenario S: `em_alloc(em, 1)` is served from that free block. -/
def scenS_small : Mem × Nat := em_alloc scenS_free scenG_create.2 1

/-- Scenario T: `em_create_static_aligned(4096, 1024, 8)`, an arena of alignment 8. -/
def scenT_create : Mem × Nat := em_create_static_aligned zero_mem 4096 1024 8
/-- Scenario T: two allocations of 8 bytes from the tail. -/
def scenT_alloc1 : Mem × Nat := em_alloc scenT_create.1 scenT_create.2 8
def scenT_alloc2 : Mem × Nat := em_alloc scenT_alloc1.1 scenT_create.2 8
/-- Scenario T: the first of them is freed. -/
def scenT_free : Mem := em_free scenT_alloc2.1 scenT_alloc1.2


/-- The loop of `count_blocks_in_em` (src/tests/validation_test.c): one step per block,
until `next_block` yields NULL. -/
def count_blocks_loop (m : Mem) (em : Nat) : Nat → Nat → Nat
  | 0, _ => 0
  | fuel + 1, current =>
    if current != 0 then 1 + count_blocks_loop m em fuel (next_block m em current)
    else 0

/-- `count_blocks_in_em(em)` of the tests: the number of blocks that `next_block` visits
from the first block on. -/
def count_blocks_in_em (m : Mem) (em : Nat) : Nat :=
  count_blocks_loop m em FUEL (em_get_first_block m em)

/-- `P` lists, in order, the blocks that `next_block` visits from `b` before it reaches
the block `T`. -/
def ChainTo (m : Mem) (em : Nat) : Nat → List Nat → Nat → Prop
  | b, [], T => b = T
  | b, x :: P, T => b = x ∧ x ≠ 0 ∧ ChainTo m em (next_block m em x) P T

instance ChainTo.dec (m : Mem) (em : Nat) : (b : Nat) → (P : List Nat) → (T : Nat) →
    Decidable (ChainTo m em b P T)
  | b, [], T => inferInstanceAs (Decidable (b = T))
  | b, x :: P, T =>
    have := ChainTo.dec m em (next_block m em x) P T
    inferInstanceAs (Decidable (b = x ∧ x ≠ 0 ∧ ChainTo m em (next_block m em x) P T))

/-- Scenario U: `em_create_static_aligned(4104, 2048, 8)`, an arena of alignment 8 whose
first payload (at 4168) is 8-aligned but not 16-aligned, as in `test_alignment_alloc`. -/
def scenU_create : Mem × Nat := em_create_static_aligned zero_mem 4104 2048 8
/-- Scenario U, case 1 of the test: `alloc_in_tail_full(em, 50, 8)`, no padding. -/
def scenU_plain : Mem × Nat := alloc_in_tail_full scenU_create.1 scenU_create.2 50 8
/-- Scenario U, case 2 of the test: `alloc_in_tail_full(em, 50, 16)`, 8 bytes of padding. -/
def scenU_small : Mem × Nat := alloc_in_tail_full scenU_create.1 scenU_create.2 50 16
/-- Scenario U, case 3 of the test: `alloc_in_tail_full(em, 50, 128)`, 56 bytes of
padding and a front split. -/
def scenU_split : Mem × Nat := alloc_in_tail_full scenU_create.1 scenU_create.2 50 128

/-! ### Scenarios and predicates for nested arenas and sequences of bump calls -/

/-- Scenario V: the three blocks of scenario Q with only the second one freed: the occupied
block at 4128 is followed by the free block at 4288 (payload 128), which is not the tail. -/
def scenV_free : Mem := em_free scenQ_alloc3.1 scenQ_alloc2.2

/-- The state of an arena together with its exact free tree `t` and its exact list of block
headers `Bs`, except that the block `R` is exempt from the rule that free blocks are tree
nodes: the state in which `em_free_block_full(em, R)` starts. -/
structure HeapAt (m : Mem) (em : Nat) (t : ColorTree) (Bs : List Nat) (R : Nat) : Prop where
  layout : BlockLayout m em t.blocks Bs
  /-- the free tree in memory is `t`, a search tree without repeated headers -/
  tree : t.InMem m (em_get_free_blocks m em)
  ordered : t.blocks.Pairwise (key_before m)
  gaps : t.blocks.Pairwise HeaderGap
  /-- the tail is a block and not a tree node -/
  tail_mem : em_get_tail m em ∈ Bs
  tail_out : em_get_tail m em ∉ t.blocks
  /-- tree nodes are free; free blocks other than the tail and `R` are tree nodes -/
  tree_free : ∀ b ∈ t.blocks, get_is_free m b = true
  free_tree : ∀ b ∈ Bs, b ≠ R → get_is_free m b = true →
    b = em_get_tail m em ∨ b ∈ t.blocks
  block : R ∈ Bs
  fresh : R ∉ t.blocks

/-- The state of an arena with its exact free tree `t` and its exact list of block headers
`Bs`: every free block other than the tail is a tree node. -/
@[reducible] def Heap (m : Mem) (em : Nat) (t : ColorTree) (Bs : List Nat) : Prop :=
  HeapAt m em t Bs (em_get_tail m em)

/-- The state in the middle of `em_free_block_full(em, R)`: `R` is marked free and has no
tree links, and is not in the tree yet. -/
@[reducible] def HeapPending (m : Mem) (em : Nat) (t : ColorTree) (Bs : List Nat) (R : Nat) : Prop :=
  HeapAt m em t Bs R ∧ get_is_free m R = true ∧ m (R + 16) = 0 ∧ m (R + 24) = 0

/-- A call on a bump allocator: `em_bump_alloc(bump, size)`,
`em_bump_alloc_aligned(bump, size, alignment)`, `em_bump_reset(bump)` or
`em_bump_trim(bump)`. -/
inductive BumpCall where
  | alloc (size : Nat)
  | alloc_aligned (size alignment : Nat)
  | reset
  | trim

/-- One call on `bump`: the new memory and the ranges `(pointer, size)` handed out since the
last reset (a NULL result hands out nothing). -/
def bump_call (bump : Nat) (s : Mem × List (Nat × Nat)) : BumpCall → Mem × List (Nat × Nat)
  | .alloc size =>
    let r := em_bump_alloc s.1 bump size
    (r.1, if r.2 = 0 then s.2 else (r.2, size) :: s.2)
  | .alloc_aligned size alignment =>
    let r := em_bump_alloc_aligned s.1 bump size alignment
    (r.1, if r.2 = 0 then s.2 else (r.2, size) :: s.2)
  | .reset => (em_bump_reset s.1 bump, [])
  | .trim => (em_bump_trim s.1 bump, s.2)

/-- A sequence of calls on `bump`. -/
def bump_calls (bump : Nat) (s : Mem × List (Nat × Nat)) (cs : List BumpCall) :
    Mem × List (Nat × Nat) :=
  cs.foldl (bump_call bump) s

/-- The bump allocator `bump` is an occupied block of the well-formed arena `em`, and its
offset lies between `sizeof(Bump)` and `capacity + sizeof(Bump)`. -/
def BumpInv (m : Mem) (em bump : Nat) : Prop :=
  ∃ t Bs, Heap m em t Bs ∧ bump ∈ Bs ∧ get_is_free m bump = false ∧
    bump_get_em m bump = em ∧ 32 ≤ bump_get_offset m bump ∧
    bump_get_offset m bump ≤ bump_get_capacity m bump + 32

/-- The ranges handed out lie between the first payload byte and the current offset, and
do not overlap. -/
def RangesIn (m : Mem) (bump : Nat) (rs : List (Nat × Nat)) : Prop :=
  (∀ r ∈ rs, bump + 32 ≤ r.1 ∧ r.1 + r.2 ≤ bump + bump_get_offset m bump) ∧
    rs.Pairwise (fun a b => a.1 + a.2 ≤ b.1 ∨ b.1 + b.2 ≤ a.1)

/-! ## Lemmas -/

/-- A nonzero number that shares no bit with its predecessor is a power of two. -/
theorem isPow2_of_and_pred_eq_zero (a : Nat) (h : a ≠ 0) (h2 : a &&& (a - 1) = 0) :
    IsPow2 a := by
  induction a using Nat.strong_induction_on with
  | _ a ih =>
    have key : ∀ i, ((a / 2).testBit i && ((a - 1) / 2).testBit i) = false := by
      intro i
      have h3 : (a &&& (a - 1)).testBit (i + 1) = (0 : Nat).testBit (i + 1) := by rw [h2]
      rw [Nat.testBit_and, Nat.zero_testBit, Nat.testBit_succ, Nat.testBit_succ] at h3
      exact h3
    rcases Nat.even_or_odd a with he | ho
    · obtain ⟨b, hb⟩ := he
      have hb0 : b ≠ 0 := by omega
      have e1 : a / 2 = b := by omega
      have e2 : (a - 1) / 2 = b - 1 := by omega
      rw [e1, e2] at key
      have hand : b &&& (b - 1) = 0 := by
        apply Nat.eq_of_testBit_eq
        intro i
        simp only [Nat.testBit_and, Nat.zero_testBit]
        exact key i
      obtain ⟨k, hk⟩ := ih b (by omega) hb0 hand
      exact ⟨k + 1, by rw [pow_succ]; omega⟩
    · obtain ⟨b, hb⟩ := ho
      have e1 : a / 2 = b := by omega
      have e2 : (a - 1) / 2 = b := by omega
      rw [e1, e2] at key
      have hb0 : b = 0 := by
        apply Nat.eq_of_testBit_eq
        intro i
        have := key i
        simpa using this
      exact ⟨0, by subst hb0; simpa using hb⟩

theorem wsub_one_of_pos {a : Nat} (h0 : 0 < a) (h1 : a < WORD) : wsub a 1 = a - 1 := by
  unfold wsub
  simp only [WORD] at *
  omega

theorem Mem.write_eq (m : Mem) (a v : Nat) : (m.write a v) a = v := by
  simp [Mem.write]

theorem Mem.write_ne (m : Mem) {a x : Nat} (v : Nat) (h : x ≠ a) : (m.write a v) x = m x := by
  simp [Mem.write, h]

/-- Masking with `~(2^k - 1)` clears the low `k` bits. -/
theorem and_high_mask (x k : Nat) (hx : x < WORD) (hk : k ≤ 64) :
    x &&& (WORD - 2 ^ k) = x - x % 2 ^ k := by
  apply Nat.eq_of_testBit_eq
  intro i
  have e1 : WORD - 2 ^ k = 2 ^ k * (2 ^ (64 - k) - 1) := by
    have : (2:Nat) ^ 64 = 2 ^ k * 2 ^ (64 - k) := by
      rw [← pow_add]; congr 1; omega
    have hw : WORD = 2 ^ 64 := by decide
    rw [hw, this, Nat.mul_sub, Nat.mul_one]
  have e2 : x - x % 2 ^ k = 2 ^ k * (x >>> k) := by
    rw [Nat.shiftRight_eq_div_pow]
    have := Nat.div_add_mod x (2 ^ k)
    omega
  rw [Nat.testBit_and, e1, e2, Nat.testBit_mul_pow_two, Nat.testBit_mul_pow_two]
  by_cases hik : k ≤ i
  · have e3 : k + (i - k) = i := by omega
    simp only [hik, decide_True, Bool.true_and, Nat.testBit_two_pow_sub_one,
      Nat.testBit_shiftRight, e3]
    by_cases hi : i < 64
    · have : i - k < 64 - k := by omega
      simp [this]
    · have hxi : x.testBit i = false := by
        apply Nat.testBit_lt_two_pow
        have hw : WORD = 2 ^ 64 := by decide
        have : (2:Nat) ^ 64 ≤ 2 ^ i := Nat.pow_le_pow_right (by decide) (by omega)
        omega
      simp [hxi]
  · simp [hik]

theorem validAlignment_pow (a : Nat) (h : ValidAlignment a) :
    ∃ k, k ≤ 64 ∧ a = 2 ^ k := by
  simp only [ValidAlignment, List.mem_cons, List.mem_singleton, List.not_mem_nil,
    or_false] at h
  rcases h with h | h | h | h | h | h | h | h | h
  · exact ⟨3, by omega, by rw [h]; rfl⟩
  · exact ⟨4, by omega, by rw [h]; rfl⟩
  · exact ⟨5, by omega, by rw [h]; rfl⟩
  · exact ⟨6, by omega, by rw [h]; rfl⟩
  · exact ⟨7, by omega, by rw [h]; rfl⟩
  · exact ⟨8, by omega, by rw [h]; rfl⟩
  · exact ⟨9, by omega, by rw [h]; rfl⟩
  · exact ⟨10, by omega, by rw [h]; rfl⟩
  · exact ⟨11, by omega, by rw [h]; rfl⟩

/-- `align_up` in arithmetic form, for the accepted alignments. -/
theorem align_up_eq (x a : Nat) (ha : ValidAlignment a) :
    align_up x a = (x + a - 1) % WORD - (x + a - 1) % WORD % a := by
  obtain ⟨k, hk, hak⟩ := validAlignment_pow a ha
  have hpos : 0 < a := by rw [hak]; exact Nat.two_pow_pos k
  have hle : a ≤ 2048 := by
    simp only [ValidAlignment, List.mem_cons, List.mem_singleton, List.not_mem_nil,
      or_false] at ha
    omega
  unfold align_up
  have h1 : wsub a 1 = a - 1 := wsub_one_of_pos hpos (by simp only [WORD]; omega)
  have h2 : wnot (a - 1) = WORD - a := by
    unfold wnot
    have : (a - 1) % WORD = a - 1 := Nat.mod_eq_of_lt (by simp only [WORD]; omega)
    rw [this]; simp only [WORD]; omega
  have h3 : wsub (wadd x a) 1 = (x + a - 1) % WORD := by
    unfold wsub wadd
    simp only [WORD]
    omega
  rw [h1, h2, h3, hak, and_high_mask _ k (Nat.mod_lt _ (by decide)) hk]

theorem sameButColor_refl (w : Nat) : SameButColor w w := rfl

theorem sameButColor_trans {a b c : Nat} (h1 : SameButColor a b) (h2 : SameButColor b c) :
    SameButColor a c := h1.trans h2

theorem sameButColor_set (w : Nat) (c : Bool) :
    SameButColor w (if c then w ||| COLOR_FLAG else w &&& wnot COLOR_FLAG) := by
  unfold SameButColor
  cases c
  · have : wnot COLOR_FLAG = 18446744073709551613 := by decide
    simp only [this, Bool.false_eq_true, if_false, Nat.and_assoc, Nat.and_self]
  · have : COLOR_FLAG &&& 18446744073709551613 = 0 := by decide
    simp only [if_true, Nat.and_distrib_right, this, Nat.or_zero]

theorem treeFrame_refl (H : List Nat) (m : Mem) : TreeFrame H m m :=
  ⟨fun _ _ => rfl, fun _ _ => rfl⟩

theorem treeFrame_trans {H : List Nat} {m1 m2 m3 : Mem}
    (h12 : TreeFrame H m1 m2) (h23 : TreeFrame H m2 m3) : TreeFrame H m1 m3 :=
  ⟨fun x hx => (h23.1 x hx).trans (h12.1 x hx),
   fun h hh => sameButColor_trans (h12.2 h hh) (h23.2 h hh)⟩

theorem treeFrame_set_left {H : List Nat} (hA : HeadersApart H) (m : Mem) {h : Nat}
    (hh : h ∈ H) (v : Nat) : TreeFrame H m (set_left_tree m h v) := by
  refine ⟨fun x hx => Mem.write_ne m v (hx h hh).2.1, fun b hb => ?_⟩
  have : b + 8 ≠ h + 16 := by
    intro e
    have hne : b ≠ h := by omega
    rcases hA b hb h hh hne with h1 | h1 <;> omega
  unfold set_left_tree
  rw [Mem.write_ne m v this]
  exact sameButColor_refl _

theorem treeFrame_set_right {H : List Nat} (hA : HeadersApart H) (m : Mem) {h : Nat}
    (hh : h ∈ H) (v : Nat) : TreeFrame H m (set_right_tree m h v) := by
  refine ⟨fun x hx => Mem.write_ne m v (hx h hh).2.2, fun b hb => ?_⟩
  have : b + 8 ≠ h + 24 := by
    intro e
    have hne : b ≠ h := by omega
    rcases hA b hb h hh hne with h1 | h1 <;> omega
  unfold set_right_tree
  rw [Mem.write_ne m v this]
  exact sameButColor_refl _

theorem treeFrame_set_color {H : List Nat} (_hA : HeadersApart H) (m : Mem) {h : Nat}
    (hh : h ∈ H) (c : Bool) : TreeFrame H m (set_color m h c) := by
  refine ⟨fun x hx => Mem.write_ne m _ (hx h hh).1, fun b hb => ?_⟩
  unfold set_color
  by_cases hb2 : b = h
  · subst hb2
    simp only [Mem.write_eq]
    exact sameButColor_set _ c
  · have : b + 8 ≠ h + 8 := by omega
    rw [Mem.write_ne m _ this]
    exact sameButColor_refl _

theorem linksClosed_set_left {H : List Nat} (hA : HeadersApart H) {m : Mem} {h v : Nat}
    (hh : h ∈ H) (hv : v = 0 ∨ v ∈ H) (hc : LinksClosed m H) :
    LinksClosed (set_left_tree m h v) H := by
  intro b hb
  unfold set_left_tree
  have h24 : b + 24 ≠ h + 16 := by
    intro e
    have hne : b ≠ h := by omega
    rcases hA b hb h hh hne with h1 | h1 <;> omega
  rw [Mem.write_ne m v h24]
  refine ⟨?_, (hc b hb).2⟩
  by_cases hb2 : b = h
  · subst hb2
    rw [Mem.write_eq]; exact hv
  · have : b + 16 ≠ h + 16 := by omega
    rw [Mem.write_ne m v this]; exact (hc b hb).1

theorem linksClosed_set_right {H : List Nat} (hA : HeadersApart H) {m : Mem} {h v : Nat}
    (hh : h ∈ H) (hv : v = 0 ∨ v ∈ H) (hc : LinksClosed m H) :
    LinksClosed (set_right_tree m h v) H := by
  intro b hb
  unfold set_right_tree
  have h16 : b + 16 ≠ h + 24 := by
    intro e
    have hne : b ≠ h := by omega
    rcases hA b hb h hh hne with h1 | h1 <;> omega
  rw [Mem.write_ne m v h16]
  refine ⟨(hc b hb).1, ?_⟩
  by_cases hb2 : b = h
  · subst hb2
    rw [Mem.write_eq]; exact hv
  · have : b + 24 ≠ h + 24 := by omega
    rw [Mem.write_ne m v this]; exact (hc b hb).2

theorem linksClosed_set_color {H : List Nat} (hA : HeadersApart H) {m : Mem} {h : Nat}
    (hh : h ∈ H) (c : Bool) (hc : LinksClosed m H) :
    LinksClosed (set_color m h c) H := by
  intro b hb
  unfold set_color
  have h16 : b + 16 ≠ h + 8 := by
    intro e
    have hne : b ≠ h := by omega
    rcases hA b hb h hh hne with h1 | h1 <;> omega
  have h24 : b + 24 ≠ h + 8 := by
    intro e
    have hne : b ≠ h := by omega
    rcases hA b hb h hh hne with h1 | h1 <;> omega
  rw [Mem.write_ne m _ h16, Mem.write_ne m _ h24]
  exact hc b hb

theorem treeInv_refl {H : List Nat} {m : Mem} (hc : LinksClosed m H) : TreeInv H m m :=
  ⟨treeFrame_refl H m, hc⟩

theorem treeInv_set_left {H : List Nat} (hA : HeadersApart H) {m0 m : Mem} {h v : Nat}
    (hh : h ∈ H) (hv : v = 0 ∨ v ∈ H) (hi : TreeInv H m0 m) :
    TreeInv H m0 (set_left_tree m h v) :=
  ⟨treeFrame_trans hi.1 (treeFrame_set_left hA m hh v), linksClosed_set_left hA hh hv hi.2⟩

theorem treeInv_set_right {H : List Nat} (hA : HeadersApart H) {m0 m : Mem} {h v : Nat}
    (hh : h ∈ H) (hv : v = 0 ∨ v ∈ H) (hi : TreeInv H m0 m) :
    TreeInv H m0 (set_right_tree m h v) :=
  ⟨treeFrame_trans hi.1 (treeFrame_set_right hA m hh v), linksClosed_set_right hA hh hv hi.2⟩

theorem treeInv_set_color {H : List Nat} (hA : HeadersApart H) {m0 m : Mem} {h : Nat}
    (hh : h ∈ H) (c : Bool) (hi : TreeInv H m0 m) :
    TreeInv H m0 (set_color m h c) :=
  ⟨treeFrame_trans hi.1 (treeFrame_set_color hA m hh c), linksClosed_set_color hA hh c hi.2⟩

theorem ne_zero_of_is_red {m : Mem} {x : Nat} (h : is_red m x = true) : x ≠ 0 := by
  intro e
  simp [is_red, e] at h

theorem treeInv_rotateLeft {H : List Nat} (hA : HeadersApart H) {m0 m : Mem} {h : Nat}
    (hh : h ∈ H) (hx : get_right_tree m h ≠ 0) (hi : TreeInv H m0 m) :
    TreeInv H m0 (rotateLeft m h).1 ∧ (rotateLeft m h).2 ∈ H := by
  have hxH : get_right_tree m h ∈ H := by
    rcases (hi.2 h hh).2 with e | e
    · exact absurd e hx
    · exact e
  have hl : get_left_tree m (get_right_tree m h) = 0 ∨
      get_left_tree m (get_right_tree m h) ∈ H := (hi.2 _ hxH).1
  unfold rotateLeft
  refine ⟨?_, hxH⟩
  exact treeInv_set_color hA hh _ (treeInv_set_color hA hxH _
    (treeInv_set_left hA hxH (Or.inr hh) (treeInv_set_right hA hh hl hi)))

theorem treeInv_rotateRight {H : List Nat} (hA : HeadersApart H) {m0 m : Mem} {h : Nat}
    (hh : h ∈ H) (hx : get_left_tree m h ≠ 0) (hi : TreeInv H m0 m) :
    TreeInv H m0 (rotateRight m h).1 ∧ (rotateRight m h).2 ∈ H := by
  have hxH : get_left_tree m h ∈ H := by
    rcases (hi.2 h hh).1 with e | e
    · exact absurd e hx
    · exact e
  have hl : get_right_tree m (get_left_tree m h) = 0 ∨
      get_right_tree m (get_left_tree m h) ∈ H := (hi.2 _ hxH).2
  unfold rotateRight
  refine ⟨?_, hxH⟩
  exact treeInv_set_color hA hh _ (treeInv_set_color hA hxH _
    (treeInv_set_right hA hxH (Or.inr hh) (treeInv_set_left hA hh hl hi)))

theorem set_color_ne (m : Mem) (b : Nat) (c : Bool) {x : Nat} (h : x ≠ b + 8) :
    (set_color m b c) x = m x := Mem.write_ne m _ h

theorem links_set_color {H : List Nat} (hA : HeadersApart H) (m : Mem) {h b : Nat}
    (hh : h ∈ H) (hb : b ∈ H) (c : Bool) :
    get_left_tree (set_color m b c) h = get_left_tree m h ∧
      get_right_tree (set_color m b c) h = get_right_tree m h := by
  have h16 : h + 16 ≠ b + 8 := by
    intro e
    have hne : b ≠ h := by omega
    rcases hA b hb h hh hne with h1 | h1 <;> omega
  have h24 : h + 24 ≠ b + 8 := by
    intro e
    have hne : b ≠ h := by omega
    rcases hA b hb h hh hne with h1 | h1 <;> omega
  exact ⟨set_color_ne m b c h16, set_color_ne m b c h24⟩

theorem treeInv_flipColors {H : List Nat} (hA : HeadersApart H) {m0 m : Mem} {h : Nat}
    (hh : h ∈ H) (hl : get_left_tree m h ≠ 0) (hr : get_right_tree m h ≠ 0)
    (hi : TreeInv H m0 m) : TreeInv H m0 (flipColors m h) := by
  have hlH : get_left_tree m h ∈ H := by
    rcases (hi.2 h hh).1 with e | e
    · exact absurd e hl
    · exact e
  have hrH : get_right_tree m h ∈ H := by
    rcases (hi.2 h hh).2 with e | e
    · exact absurd e hr
    · exact e
  unfold flipColors
  have i1 := treeInv_set_color hA hh RED hi
  have e1 := links_set_color hA m hh hh RED
  have hl1 : get_left_tree (set_color m h RED) h ∈ H := by rw [e1.1]; exact hlH
  have i2 := treeInv_set_color hA hl1 BLACK i1
  have e2 := links_set_color hA (set_color m h RED) hh hl1 BLACK
  have hr2 : get_right_tree (set_color (set_color m h RED) (get_left_tree (set_color m h RED) h)
      BLACK) h ∈ H := by rw [e2.2, e1.2]; exact hrH
  exact treeInv_set_color hA hr2 BLACK i2

theorem treeInv_balance {H : List Nat} (hA : HeadersApart H) {m0 m : Mem} {h : Nat}
    (hh : h ∈ H) (hi : TreeInv H m0 m) :
    TreeInv H m0 (balance m h).1 ∧ (balance m h).2 ∈ H := by
  unfold balance
  -- first step
  have s1 : TreeInv H m0 (if is_red m (get_right_tree m h) then rotateLeft m h else (m, h)).1 ∧
      (if is_red m (get_right_tree m h) then rotateLeft m h else (m, h)).2 ∈ H := by
    by_cases c : is_red m (get_right_tree m h) = true
    · rw [if_pos c]
      exact treeInv_rotateLeft hA hh (ne_zero_of_is_red c) hi
    · rw [if_neg c]
      exact ⟨hi, hh⟩
  generalize (if is_red m (get_right_tree m h) then rotateLeft m h else (m, h)) = p1 at s1 ⊢
  have s2 : TreeInv H m0 (if (is_red p1.1 (get_left_tree p1.1 p1.2) &&
        is_red p1.1 (get_left_tree p1.1 (get_left_tree p1.1 p1.2))) = true then
        rotateRight p1.1 p1.2 else p1).1 ∧
      (if (is_red p1.1 (get_left_tree p1.1 p1.2) &&
        is_red p1.1 (get_left_tree p1.1 (get_left_tree p1.1 p1.2))) = true then
        rotateRight p1.1 p1.2 else p1).2 ∈ H := by
    by_cases c : (is_red p1.1 (get_left_tree p1.1 p1.2) &&
        is_red p1.1 (get_left_tree p1.1 (get_left_tree p1.1 p1.2))) = true
    · rw [if_pos c]
      rw [Bool.and_eq_true] at c
      exact treeInv_rotateRight hA s1.2 (ne_zero_of_is_red c.1) s1.1
    · rw [if_neg c]
      exact s1
  simp only []
  generalize (if (is_red p1.1 (get_left_tree p1.1 p1.2) &&
        is_red p1.1 (get_left_tree p1.1 (get_left_tree p1.1 p1.2))) = true then
        rotateRight p1.1 p1.2 else p1) = p2 at s2 ⊢
  refine ⟨?_, s2.2⟩
  by_cases c : (is_red p2.1 (get_left_tree p2.1 p2.2) &&
      is_red p2.1 (get_right_tree p2.1 p2.2)) = true
  · rw [if_pos c]
    rw [Bool.and_eq_true] at c
    exact treeInv_flipColors hA s2.2 (ne_zero_of_is_red c.1) (ne_zero_of_is_red c.2) s2.1
  · rw [if_neg c]
    exact s2.1

theorem bool_ite_cases {α : Type} (P : α → Prop) (c : Bool) (a b : α)
    (ha : P a) (hb : P b) : P (if c = true then a else b) := by
  cases c
  · exact hb
  · exact ha

theorem treeInv_insert_block {H : List Nat} (hA : HeadersApart H) {m0 : Mem} {nb : Nat}
    (hnb : nb ∈ H) :
    ∀ (fuel : Nat) (m : Mem) (h : Nat), (h = 0 ∨ h ∈ H) → TreeInv H m0 m →
      TreeInv H m0 (insert_block fuel m h nb).1 ∧
        ((insert_block fuel m h nb).2 = 0 ∨ (insert_block fuel m h nb).2 ∈ H) := by
  intro fuel
  induction fuel with
  | zero =>
    intro m h hh hi
    exact ⟨hi, hh⟩
  | succ fuel ih =>
    intro m h hh hi
    unfold insert_block
    by_cases h0 : h = 0
    · rw [if_pos h0]
      exact ⟨hi, Or.inr hnb⟩
    · rw [if_neg h0]
      have hH : h ∈ H := hh.resolve_left h0
      refine bool_ite_cases (fun r : Mem × Nat => TreeInv H m0 r.1 ∧ (r.2 = 0 ∨ r.2 ∈ H))
        _ _ _ ?_ ?_
      · have r := ih m (get_left_tree m h) (hi.2 h hH).1 hi
        have := treeInv_balance hA hH (treeInv_set_left hA hH r.2 r.1)
        exact ⟨this.1, Or.inr this.2⟩
      · have r := ih m (get_right_tree m h) (hi.2 h hH).2 hi
        have := treeInv_balance hA hH (treeInv_set_right hA hH r.2 r.1)
        exact ⟨this.1, Or.inr this.2⟩

/-- Arithmetic facts about `align_up` for the accepted alignments: the result is a
multiple of `a`, the padding `align_up x a - x` (computed with wrap-around) is smaller
than `a`, keeps word alignment, and leads from `x` to the result. -/
theorem align_up_spec (x a : Nat) (ha : ValidAlignment a) (hx : x < WORD) :
    align_up x a < WORD ∧ align_up x a % a = 0 ∧ wsub (align_up x a) x < a ∧
      (x % 8 = 0 → wsub (align_up x a) x % 8 = 0) ∧
      (x + wsub (align_up x a) x < WORD → align_up x a = x + wsub (align_up x a) x) := by
  rw [align_up_eq x a ha]
  simp only [ValidAlignment, List.mem_cons, List.mem_singleton, List.not_mem_nil,
    or_false] at ha
  unfold wsub
  simp only [WORD] at *
  rcases ha with h | h | h | h | h | h | h | h | h <;> subst h <;> omega

/-! ### Reading through the setters -/

theorem set_size_ne (m : Mem) (b s : Nat) {x : Nat} (h : x ≠ b) : set_size m b s x = m x :=
  Mem.write_ne m _ h
theorem set_size_eq (m : Mem) (b s : Nat) :
    set_size m b s b = (wshl s 3 ||| (m b &&& ALIGNMENT_MASK)) := Mem.write_eq m _ _
theorem set_prev_ne (m : Mem) (b p : Nat) {x : Nat} (h : x ≠ b + 8) : set_prev m b p x = m x :=
  Mem.write_ne m _ h
theorem set_prev_eq (m : Mem) (b p : Nat) :
    set_prev m b p (b + 8) = (p ||| (m (b + 8) &&& wnot PREV_MASK)) := Mem.write_eq m _ _
theorem set_is_free_ne (m : Mem) (b : Nat) (f : Bool) {x : Nat} (h : x ≠ b + 8) :
    set_is_free m b f x = m x := Mem.write_ne m _ h
theorem set_is_free_eq (m : Mem) (b : Nat) (f : Bool) :
    set_is_free m b f (b + 8) =
      (if f then m (b + 8) ||| IS_FREE_FLAG else m (b + 8) &&& wnot IS_FREE_FLAG) :=
  Mem.write_eq m _ _
theorem set_color_eq (m : Mem) (b : Nat) (c : Bool) :
    set_color m b c (b + 8) =
      (if c then m (b + 8) ||| COLOR_FLAG else m (b + 8) &&& wnot COLOR_FLAG) :=
  Mem.write_eq m _ _
theorem set_left_tree_ne (m : Mem) (b v : Nat) {x : Nat} (h : x ≠ b + 16) :
    set_left_tree m b v x = m x := Mem.write_ne m _ h
theorem set_left_tree_eq (m : Mem) (b v : Nat) : set_left_tree m b v (b + 16) = v :=
  Mem.write_eq m _ _
theorem set_right_tree_ne (m : Mem) (b v : Nat) {x : Nat} (h : x ≠ b + 24) :
    set_right_tree m b v x = m x := Mem.write_ne m _ h
theorem set_right_tree_eq (m : Mem) (b v : Nat) : set_right_tree m b v (b + 24) = v :=
  Mem.write_eq m _ _
theorem set_em_ne (m : Mem) (b v : Nat) {x : Nat} (h : x ≠ b + 16) :
    set_em m b v x = m x := Mem.write_ne m _ h
theorem set_em_eq (m : Mem) (b v : Nat) : set_em m b v (b + 16) = v := Mem.write_eq m _ _
theorem set_magic_ne (m : Mem) (b v : Nat) {x : Nat} (h : x ≠ b + 24) :
    set_magic m b v x = m x := Mem.write_ne m _ h
theorem set_magic_eq (m : Mem) (b v : Nat) : set_magic m b v (b + 24) = MAGIC ^^^ v :=
  Mem.write_eq m _ _
theorem em_set_tail_ne (m : Mem) (em b : Nat) {x : Nat} (h : x ≠ em + 16) :
    em_set_tail m em b x = m x := Mem.write_ne m _ h
theorem em_set_tail_eq (m : Mem) (em b : Nat) :
    em_set_tail m em b (em + 16) = (b ||| (m (em + 16) &&& wnot TAIL_MASK)) :=
  Mem.write_eq m _ _
theorem em_set_free_blocks_ne (m : Mem) (em b : Nat) {x : Nat} (h : x ≠ em + 24) :
    em_set_free_blocks m em b x = m x := Mem.write_ne m _ h
theorem em_set_free_blocks_eq (m : Mem) (em b : Nat) :
    em_set_free_blocks m em b (em + 24) = (b ||| (m (em + 24) &&& wnot FREE_BLOCKS_MASK)) :=
  Mem.write_eq m _ _

/-! ### Bit-level facts -/

/-- The size field survives packing when it fits 61 bits. -/
theorem size_word (s w : Nat) (hs : s < 2305843009213693952) :
    (wshl s 3 ||| (w &&& ALIGNMENT_MASK)) >>> 3 = s := by
  have h1 : wshl s 3 = 2 ^ 3 * s := by
    unfold wshl
    rw [Nat.shiftLeft_eq, Nat.mod_eq_of_lt (by simp only [WORD]; omega)]
    omega
  have h2 : w &&& ALIGNMENT_MASK < 2 ^ 3 := by
    have : w &&& ALIGNMENT_MASK ≤ ALIGNMENT_MASK := Nat.and_le_right
    simp only [ALIGNMENT_MASK] at this ⊢
    omega
  rw [h1, ← Nat.mul_add_lt_is_or h2, Nat.shiftRight_eq_div_pow]
  omega

theorem is_free_clear (w : Nat) : ((w &&& wnot IS_FREE_FLAG) &&& IS_FREE_FLAG) = 0 := by
  have : wnot IS_FREE_FLAG &&& IS_FREE_FLAG = 0 := by decide
  rw [Nat.and_assoc, this, Nat.and_zero]

theorem is_free_color_clear (w : Nat) :
    ((w &&& wnot COLOR_FLAG) &&& IS_FREE_FLAG) = w &&& IS_FREE_FLAG := by
  have : wnot COLOR_FLAG &&& IS_FREE_FLAG = IS_FREE_FLAG := by decide
  rw [Nat.and_assoc, this]

theorem alloc_in_tail_full_eq (m : Mem) (em size alignment : Nat) :
    alloc_in_tail_full m em size alignment =
      if free_size_in_tail m em < size then (m, 0)
      else if wadd (wsub (align_up (block_data (em_get_tail m em)) alignment)
          (block_data (em_get_tail m em))) size > free_size_in_tail m em then (m, 0)
      else
        tail_commit
          (tail_front_split m em alignment (em_get_tail m em)
            (wsub (align_up (block_data (em_get_tail m em)) alignment)
              (block_data (em_get_tail m em)))).1
          em size
          (tail_front_split m em alignment (em_get_tail m em)
            (wsub (align_up (block_data (em_get_tail m em)) alignment)
              (block_data (em_get_tail m em)))).2.1
          (tail_front_split m em alignment (em_get_tail m em)
            (wsub (align_up (block_data (em_get_tail m em)) alignment)
              (block_data (em_get_tail m em)))).2.2
          (align_up (block_data (em_get_tail m em)) alignment) := by
  rfl

/-- What `tail_stamp` leaves in memory. -/
theorem tail_stamp_spec (m : Mem) (em tail final pad p : Nat)
    (hp : p = tail + 32 + pad)
    (hfin : final < 2305843009213693952) (hw : p < 18446744073709551616) :
    get_size (tail_stamp m em tail final pad p) tail = final ∧
      get_is_free (tail_stamp m em tail final pad p) tail = false ∧
      get_color (tail_stamp m em tail final pad p) tail = RED ∧
      get_em (tail_stamp m em tail final pad p) tail = em ∧
      is_valid_magic (tail_stamp m em tail final pad p) tail p = true ∧
      (∀ x, (x < tail ∨ tail + 32 ≤ x) → x ≠ p - 8 →
        tail_stamp m em tail final pad p x = m x) ∧
      (pad = 0 → ∀ x, (x < tail ∨ tail + 32 ≤ x) →
        tail_stamp m em tail final pad p x = m x) ∧
      (0 < pad → tail_stamp m em tail final pad p (p - 8) = tail ^^^ p) := by
  have hspot : pad > 0 → wsub p WORD_SIZE = p - 8 := by
    intro h; unfold wsub; simp only [WORD, WORD_SIZE]; omega
  unfold tail_stamp
  refine ⟨?_, ?_, ?_, ?_, ?_, ?_, ?_, ?_⟩
  · simp (disch := omega) only [get_size, set_em_ne, set_color_ne,
      set_magic_ne, set_is_free_ne, set_size_eq]
    exact size_word _ _ hfin
  · simp (disch := omega) only [get_is_free, set_em_ne, set_color_eq, set_magic_ne,
      set_is_free_eq, is_free_color_clear, is_free_clear, Bool.false_eq_true, if_false]
    rfl
  · simp (disch := omega) only [get_color, set_em_ne, set_color_eq, Bool.false_eq_true,
      if_false]
    have : ∀ w, (w &&& wnot COLOR_FLAG) &&& COLOR_FLAG = 0 := by
      intro w
      have : wnot COLOR_FLAG &&& COLOR_FLAG = 0 := by decide
      rw [Nat.and_assoc, this, Nat.and_zero]
    rw [this]; rfl
  · simp only [get_em, set_em_eq]
  · simp (disch := omega) only [is_valid_magic, get_magic, set_em_ne, set_color_ne,
      set_magic_eq]
    rw [Nat.xor_assoc, Nat.xor_self, Nat.xor_zero]
    exact beq_self_eq_true _
  · intro x hx hx2
    by_cases hp0 : pad > 0
    · simp (disch := omega) only [if_pos hp0, hspot hp0, set_em_ne, set_color_ne,
        set_magic_ne, set_is_free_ne, set_size_ne, Mem.write_ne]
    · simp (disch := omega) only [if_neg hp0, set_em_ne, set_color_ne,
        set_magic_ne, set_is_free_ne, set_size_ne]
  · intro hp0 x hx
    have : ¬ pad > 0 := by omega
    simp (disch := omega) only [if_neg this, set_em_ne, set_color_ne,
      set_magic_ne, set_is_free_ne, set_size_ne]
  · intro hp0
    simp (disch := omega) only [if_pos hp0, hspot hp0, set_em_ne, set_color_ne,
      set_magic_ne, set_is_free_ne, set_size_ne, Mem.write_eq]

theorem free_size_in_tail_occupied (m : Mem) (em : Nat)
    (h : get_is_free m (em_get_tail m em) = false) : free_size_in_tail m em = 0 := by
  unfold free_size_in_tail
  simp [h]

theorem tail_commit_absorb (m : Mem) (em size tail pad p : Nat)
    (htail : em_get_tail m em = tail)
    (hgeo : em + 32 ≤ tail) (hp : p = tail + 32 + pad)
    (hfit : pad + size ≤ free_size_in_tail m em)
    (hsmall : free_size_in_tail m em < pad + size + 48)
    (hfs : free_size_in_tail m em < 2305843009213693952) (hsz : 0 < size)
    (hw : tail + 32 + free_size_in_tail m em ≤ 18446744073709551616) :
    tail_commit m em size tail pad p =
        (tail_stamp m em tail (free_size_in_tail m em) pad p, p) ∧
      em_get_tail (tail_stamp m em tail (free_size_in_tail m em) pad p) em = tail ∧
      free_size_in_tail (tail_stamp m em tail (free_size_in_tail m em) pad p) em = 0 := by
  have hmin : wadd pad size = pad + size := by
    unfold wadd; simp only [WORD]; omega
  have hnot : ¬ (wadd pad size > free_size_in_tail m em) := by rw [hmin]; omega
  have hfinal : tail_final m em size pad p = free_size_in_tail m em := by
    unfold tail_final
    have hsub : ¬ (wsub (free_size_in_tail m em) (wadd pad size) ≥ BLOCK_MIN_SIZE) := by
      rw [hmin]; unfold wsub
      simp only [WORD, BLOCK_MIN_SIZE, SIZEOF_BLOCK, EM_MIN_BUFFER_SIZE]
      omega
    simp only [if_neg hsub]
  have hs := tail_stamp_spec m em tail (free_size_in_tail m em) pad p hp hfs (by omega)
  have htl : em_get_tail (tail_stamp m em tail (free_size_in_tail m em) pad p) em = tail := by
    unfold em_get_tail
    rw [hs.2.2.2.2.2.1 (em + 16) (by omega) (by omega)]
    exact htail
  refine ⟨?_, htl, ?_⟩
  · unfold tail_commit
    simp only [if_neg hnot, hfinal, bne_self_eq_false, Bool.false_eq_true, if_false]
  · apply free_size_in_tail_occupied
    rw [htl]
    exact hs.2.1

/-! ### Tagged pointers -/

theorem and_three (b : Nat) : b &&& 3 = b % 4 := by
  have := Nat.and_pow_two_sub_one_eq_mod b 2
  simpa using this

theorem ptr_and_mask (b : Nat) (hb : b % 4 = 0) (hlt : b < 18446744073709551616) :
    b &&& 18446744073709551612 = b := by
  have := and_high_mask b 2 hlt (by omega)
  have e : WORD - 2 ^ 2 = 18446744073709551612 := by decide
  rw [e] at this
  rw [this]
  have : b % 2 ^ 2 = 0 := hb
  omega

/-- A 4-aligned pointer tagged with two flag bits: the pointer part. -/
theorem tagged_ptr (b w : Nat) (hb : b % 4 = 0) (hlt : b < 18446744073709551616) :
    (b ||| (w &&& 3)) &&& 18446744073709551612 = b := by
  rw [Nat.and_distrib_right, Nat.and_assoc]
  have : 3 &&& 18446744073709551612 = 0 := by decide
  rw [this, Nat.and_zero, Nat.or_zero]
  exact ptr_and_mask b hb hlt

/-- A 4-aligned pointer tagged with two flag bits: the low flag. -/
theorem tagged_flag1 (b w : Nat) (hb : b % 4 = 0) : (b ||| (w &&& 3)) &&& 1 = w &&& 1 := by
  rw [Nat.and_distrib_right, Nat.and_assoc]
  have : 3 &&& 1 = 1 := by decide
  rw [this]
  have hb1 : b &&& 1 = 0 := by
    rw [Nat.and_one_is_mod]; omega
  rw [hb1, Nat.zero_or]

/-- A 4-aligned pointer tagged with two flag bits: the high flag. -/
theorem tagged_flag2 (b w : Nat) (hb : b % 4 = 0) : (b ||| (w &&& 3)) &&& 2 = w &&& 2 := by
  rw [Nat.and_distrib_right, Nat.and_assoc]
  have : 3 &&& 2 = 2 := by decide
  rw [this]
  have hb1 : b &&& 2 = 0 := by
    have e : b &&& 2 = (b &&& 3) &&& 2 := by rw [Nat.and_assoc, this]
    rw [e, and_three, hb]; rfl
  rw [hb1, Nat.zero_or]

theorem and_mask_mod4 (w : Nat) : (w &&& 18446744073709551612) % 4 = 0 := by
  rw [← and_three, Nat.and_assoc]
  have : 18446744073709551612 &&& 3 = 0 := by decide
  rw [this, Nat.and_zero]

theorem and_mask_lt (w : Nat) : w &&& 18446744073709551612 < 18446744073709551616 := by
  have : w &&& 18446744073709551612 ≤ 18446744073709551612 := Nat.and_le_right
  omega

theorem em_get_tail_mod4 (m : Mem) (em : Nat) : em_get_tail m em % 4 = 0 :=
  and_mask_mod4 _

theorem em_get_tail_lt (m : Mem) (em : Nat) : em_get_tail m em < 18446744073709551616 :=
  and_mask_lt _

/-- What `create_block` leaves in memory. -/
theorem create_block_spec (m : Mem) (b : Nat) :
    get_size (create_block m b) b = 0 ∧ get_is_free (create_block m b) b = true ∧
      get_color (create_block m b) b = RED ∧ get_prev (create_block m b) b = 0 ∧
      get_left_tree (create_block m b) b = 0 ∧ get_right_tree (create_block m b) b = 0 ∧
      (∀ x, x ≠ b → x ≠ b + 8 → x ≠ b + 16 → x ≠ b + 24 → create_block m b x = m x) := by
  unfold create_block
  refine ⟨?_, ?_, ?_, ?_, ?_, ?_, ?_⟩
  · simp (disch := omega) only [get_size, set_right_tree_ne, set_left_tree_ne, set_color_ne,
      set_is_free_ne, set_prev_ne, set_size_eq]
    exact size_word 0 _ (by omega)
  · simp (disch := omega) only [get_is_free, set_right_tree_ne, set_left_tree_ne, set_color_eq,
      set_is_free_eq, Bool.false_eq_true, if_false, if_true, is_free_color_clear]
    rw [Nat.and_distrib_right]
    have : IS_FREE_FLAG &&& IS_FREE_FLAG = 1 := by decide
    rw [this]
    have h2 : ∀ y : Nat, (y ||| 1) ≠ 0 := by
      intro y h
      have h3 : (y ||| 1) % 2 = 1 := Nat.or_mod_two_eq_one.mpr (Or.inr rfl)
      rw [h] at h3
      exact absurd h3 (by decide)
    simpa using h2 _
  · simp (disch := omega) only [get_color, set_right_tree_ne, set_left_tree_ne, set_color_eq,
      Bool.false_eq_true, if_false]
    have : ∀ w, (w &&& wnot COLOR_FLAG) &&& COLOR_FLAG = 0 := by
      intro w
      have : wnot COLOR_FLAG &&& COLOR_FLAG = 0 := by decide
      rw [Nat.and_assoc, this, Nat.and_zero]
    rw [this]; rfl
  · simp (disch := omega) only [get_prev, set_right_tree_ne, set_left_tree_ne, set_color_eq,
      set_is_free_eq, set_prev_eq, Bool.false_eq_true, if_false, if_true, Nat.zero_or]
    have e1 : wnot PREV_MASK = 3 := by decide
    have e2 : wnot COLOR_FLAG &&& PREV_MASK = PREV_MASK := by decide
    have e3 : IS_FREE_FLAG &&& PREV_MASK = 0 := by decide
    have e4 : 3 &&& PREV_MASK = 0 := by decide
    rw [Nat.and_assoc, e2, Nat.and_distrib_right, e3, e1, Nat.and_assoc, e4]
    simp
  · simp (disch := omega) only [get_left_tree, set_right_tree_ne, set_left_tree_eq]
  · simp (disch := omega) only [get_right_tree, set_right_tree_eq]
  · intro x h0 h1 h2 h3
    simp (disch := omega) only [set_right_tree_ne, set_left_tree_ne, set_color_ne,
      set_is_free_ne, set_prev_ne, set_size_ne]

/-! ### Getters only depend on one word -/

theorem get_size_congr {m1 m2 : Mem} {b : Nat} (h : m1 b = m2 b) :
    get_size m1 b = get_size m2 b := by unfold get_size; rw [h]
theorem get_alignment_congr {m1 m2 : Mem} {b : Nat} (h : m1 b = m2 b) :
    get_alignment m1 b = get_alignment m2 b := by unfold get_alignment; rw [h]
theorem get_is_free_congr {m1 m2 : Mem} {b : Nat} (h : m1 (b + 8) = m2 (b + 8)) :
    get_is_free m1 b = get_is_free m2 b := by unfold get_is_free; rw [h]
theorem get_prev_congr {m1 m2 : Mem} {b : Nat} (h : m1 (b + 8) = m2 (b + 8)) :
    get_prev m1 b = get_prev m2 b := by unfold get_prev; rw [h]
theorem em_get_tail_congr {m1 m2 : Mem} {em : Nat} (h : m1 (em + 16) = m2 (em + 16)) :
    em_get_tail m1 em = em_get_tail m2 em := by unfold em_get_tail; rw [h]
theorem em_get_free_blocks_congr {m1 m2 : Mem} {em : Nat} (h : m1 (em + 24) = m2 (em + 24)) :
    em_get_free_blocks m1 em = em_get_free_blocks m2 em := by
  unfold em_get_free_blocks; rw [h]
theorem em_get_has_scratch_congr {m1 m2 : Mem} {em : Nat} (h : m1 (em + 24) = m2 (em + 24)) :
    em_get_has_scratch m1 em = em_get_has_scratch m2 em := by
  unfold em_get_has_scratch; rw [h]
theorem em_get_first_block_congr {m1 m2 : Mem} {em : Nat} (h : m1 em = m2 em) :
    em_get_first_block m1 em = em_get_first_block m2 em := by
  unfold em_get_first_block em_get_alignment; rw [get_alignment_congr h]
theorem is_block_within_em_congr {m1 m2 : Mem} {em : Nat} (h : m1 em = m2 em) (b : Nat) :
    is_block_within_em m1 em b = is_block_within_em m2 em b := by
  unfold is_block_within_em em_get_capacity
  rw [em_get_first_block_congr h, get_size_congr h]

/-- `free_size_in_tail` is determined by the arena header, the tail header and the
scratch size word. -/
theorem free_size_in_tail_congr {m1 m2 : Mem} {em : Nat}
    (h0 : m1 em = m2 em) (h16 : m1 (em + 16) = m2 (em + 16)) (h24 : m1 (em + 24) = m2 (em + 24))
    (ht0 : m1 (em_get_tail m2 em) = m2 (em_get_tail m2 em))
    (ht8 : m1 (em_get_tail m2 em + 8) = m2 (em_get_tail m2 em + 8))
    (hs : m1 (scratch_size_spot m2 em) = m2 (scratch_size_spot m2 em)) :
    free_size_in_tail m1 em = free_size_in_tail m2 em := by
  have e1 : em_get_tail m1 em = em_get_tail m2 em := em_get_tail_congr h16
  have e2 : em_get_capacity m1 em = em_get_capacity m2 em := get_size_congr h0
  unfold free_size_in_tail
  simp only [e1, e2, get_is_free_congr ht8, get_size_congr ht0, em_get_has_scratch_congr h24]
  unfold scratch_size_spot at hs
  rw [hs]

theorem treeInv_insert_block_mem {H : List Nat} (hA : HeadersApart H) {m0 : Mem} {nb : Nat}
    (hnb : nb ∈ H) (fuel : Nat) (m : Mem) (h : Nat) (hh : h = 0 ∨ h ∈ H)
    (hi : TreeInv H m0 m) : (insert_block (fuel + 1) m h nb).2 ∈ H := by
  unfold insert_block
  by_cases h0 : h = 0
  · rw [if_pos h0]; exact hnb
  · rw [if_neg h0]
    have hH : h ∈ H := hh.resolve_left h0
    refine bool_ite_cases (fun r : Mem × Nat => r.2 ∈ H) _ _ _ ?_ ?_
    · have r := treeInv_insert_block hA hnb fuel m (get_left_tree m h) (hi.2 h hH).1 hi
      exact (treeInv_balance hA hH (treeInv_set_left hA hH r.2 r.1)).2
    · have r := treeInv_insert_block hA hnb fuel m (get_right_tree m h) (hi.2 h hH).2 hi
      exact (treeInv_balance hA hH (treeInv_set_right hA hH r.2 r.1)).2

/-- The front split of a tail allocation: the old tail becomes a free block of payload
`pad - 32` in the tree, and a new empty tail is laid out `pad` bytes further. -/
theorem tail_front_split_spec (m : Mem) (em a pad : Nat) (H : List Nat)
    (hL : TailLayout m em H) (h48 : 48 ≤ pad) (hpad4 : pad % 4 = 0)
    (hfit : pad < free_size_in_tail m em)
    (hal : (decide (a > em_get_alignment m em) && decide (pad > 0)) = true) :
    (tail_front_split m em a (em_get_tail m em) pad).2.1 = em_get_tail m em + pad ∧
      (tail_front_split m em a (em_get_tail m em) pad).2.2 = 0 ∧
      em_get_tail (tail_front_split m em a (em_get_tail m em) pad).1 em
        = em_get_tail m em + pad ∧
      free_size_in_tail (tail_front_split m em a (em_get_tail m em) pad).1 em
        = free_size_in_tail m em - pad ∧
      em_get_free_blocks (tail_front_split m em a (em_get_tail m em) pad).1 em ≠ 0 ∧
      get_size (tail_front_split m em a (em_get_tail m em) pad).1 (em_get_tail m em)
        = pad - 32 ∧
      get_is_free (tail_front_split m em a (em_get_tail m em) pad).1 (em_get_tail m em)
        = true ∧
      (tail_front_split m em a (em_get_tail m em) pad).1 em = m em ∧
      (∀ x, (x < em_get_tail m em + pad ∨ em_get_tail m em + pad + 32 ≤ x) →
        x ≠ em + 16 → x ≠ em + 24 →
        (tail_front_split m em a (em_get_tail m em) pad).1 x =
          (insert_block FUEL (set_size m (em_get_tail m em) (pad - 32))
            (em_get_free_blocks m em) (em_get_tail m em)).1 x) ∧
      em_get_free_blocks (tail_front_split m em a (em_get_tail m em) pad).1 em =
        (insert_block FUEL (set_size m (em_get_tail m em) (pad - 32))
          (em_get_free_blocks m em) (em_get_tail m em)).2 := by
  obtain ⟨tail, htail⟩ : ∃ t, t = em_get_tail m em := ⟨_, rfl⟩
  have ht4 : tail % 4 = 0 := by rw [htail]; exact em_get_tail_mod4 m em
  have htlt : tail < 18446744073709551616 := by rw [htail]; exact em_get_tail_lt m em
  have hgeo : em + 32 ≤ tail := by rw [htail]; exact hL.tail_after
  have hfits := hL.space_fits
  have hsmall := hL.space_small
  rw [← htail] at hfits ⊢
  have hA : HeadersApart (tail :: H) := by rw [htail]; exact hL.apart
  have hnodes := hL.nodes
  -- step 1: the old tail gets its size
  have hsub : wsub pad SIZEOF_BLOCK = pad - 32 := by
    unfold wsub; simp only [WORD, SIZEOF_BLOCK]; omega
  obtain ⟨ma, hma⟩ : ∃ x, x = set_size m tail (pad - 32) := ⟨_, rfl⟩
  have hma_ne : ∀ x, x ≠ tail → ma x = m x := by
    intro x hx; rw [hma]; exact set_size_ne m _ _ hx
  have hma_size : get_size ma tail = pad - 32 := by
    rw [hma]; unfold get_size; rw [set_size_eq]; exact size_word _ _ (by omega)
  have hroot : em_get_free_blocks ma em = em_get_free_blocks m em :=
    em_get_free_blocks_congr (hma_ne _ (by omega))
  -- step 2: insertion into the tree
  have hclosed : LinksClosed ma (tail :: H) := by
    intro h hh
    have h16 : ma (h + 16) = m (h + 16) := by
      apply hma_ne
      intro e
      rcases List.mem_cons.mp hh with e1 | e1
      · omega
      · have := (hnodes h e1).1
        rcases hA h hh tail (List.mem_cons_self _ _) (by omega) with h1 | h1 <;> omega
    have h24 : ma (h + 24) = m (h + 24) := by
      apply hma_ne
      intro e
      rcases List.mem_cons.mp hh with e1 | e1
      · omega
      · rcases hA h hh tail (List.mem_cons_self _ _) (by omega) with h1 | h1 <;> omega
    rw [h16, h24]
    rcases List.mem_cons.mp hh with e1 | e1
    · subst e1
      have hl := hL.tail_left
      have hr := hL.tail_right
      rw [← htail] at hl hr
      unfold get_left_tree at hl
      unfold get_right_tree at hr
      exact ⟨Or.inl hl, Or.inl hr⟩
    · have := hL.closed h e1
      exact ⟨this.1.imp id (List.mem_cons_of_mem _), this.2.imp id (List.mem_cons_of_mem _)⟩
  have hrootin : em_get_free_blocks ma em = 0 ∨ em_get_free_blocks ma em ∈ tail :: H := by
    rw [hroot]; exact hL.root_in.imp id (List.mem_cons_of_mem _)
  have hins := treeInv_insert_block hA (List.mem_cons_self tail H) FUEL ma
    (em_get_free_blocks ma em) hrootin (treeInv_refl hclosed)
  have hinsmem : (insert_block FUEL ma (em_get_free_blocks ma em) tail).2 ∈ tail :: H :=
    treeInv_insert_block_mem hA (List.mem_cons_self tail H) 18446744073709551615 ma
      (em_get_free_blocks ma em) hrootin (treeInv_refl hclosed)
  obtain ⟨mb, hmb⟩ : ∃ x, x = (insert_block FUEL ma (em_get_free_blocks ma em) tail).1 :=
    ⟨_, rfl⟩
  obtain ⟨r, hr⟩ : ∃ x, x = (insert_block FUEL ma (em_get_free_blocks ma em) tail).2 :=
    ⟨_, rfl⟩
  rw [← hmb] at hins
  rw [← hr] at hinsmem
  have hr_props : em + 32 ≤ r ∧ r % 4 = 0 ∧ r < 18446744073709551616 := by
    rcases List.mem_cons.mp hinsmem with e | e
    · rw [e]; exact ⟨hgeo, ht4, htlt⟩
    · exact hnodes r e
  -- words outside the tree fields are kept by the insertion
  have hframe : ∀ x, (x < em + 32 ∨ x = tail) → mb x = ma x := by
    intro x hx
    apply hins.1.1.1
    intro h hh
    rcases List.mem_cons.mp hh with e1 | e1
    · subst e1; omega
    · have := (hnodes h e1).1
      rcases hx with hx | hx
      · omega
      · by_cases hne : h = tail
        · omega
        · rcases hA h hh tail (List.mem_cons_self _ _) hne with h1 | h1 <;> omega
  have hflag : get_is_free mb tail = get_is_free ma tail := by
    have := hins.1.1.2 tail (List.mem_cons_self _ _)
    unfold SameButColor at this
    unfold get_is_free
    have e : ∀ w : Nat, w &&& IS_FREE_FLAG = (w &&& 18446744073709551613) &&& IS_FREE_FLAG := by
      intro w
      have : 18446744073709551613 &&& IS_FREE_FLAG = IS_FREE_FLAG := by decide
      rw [Nat.and_assoc, this]
    rw [e (mb (tail + 8)), e (ma (tail + 8)), this]
  have hma_free : get_is_free ma tail = true := by
    have := hL.tail_free
    rw [← htail] at this
    rw [← this]
    exact get_is_free_congr (hma_ne _ (by omega))
  -- step 3: the root is stored
  obtain ⟨mc, hmc⟩ : ∃ x, x = em_set_free_blocks mb em r := ⟨_, rfl⟩
  have hmc_ne : ∀ x, x ≠ em + 24 → mc x = mb x := by
    intro x hx; rw [hmc]; exact em_set_free_blocks_ne mb _ _ hx
  have hmc_em : mc em = m em := by
    rw [hmc_ne _ (by omega), hframe _ (Or.inl (by omega)), hma_ne _ (by omega)]
  have hmc_16 : mc (em + 16) = m (em + 16) := by
    rw [hmc_ne _ (by omega), hframe _ (Or.inl (by omega)), hma_ne _ (by omega)]
  have hmc_tail : mc tail = ma tail := by
    rw [hmc_ne _ (by omega), hframe _ (Or.inr rfl)]
  have hmc_24 : mc (em + 24) = r ||| (m (em + 24) &&& 3) := by
    rw [hmc, em_set_free_blocks_eq, hframe _ (Or.inl (by omega)), hma_ne _ (by omega)]
    rfl
  -- step 4: the new tail header
  have hnt : next_block_unsafe mc tail = tail + pad := by
    unfold next_block_unsafe block_data
    rw [get_size_congr hmc_tail, hma_size]
    unfold wadd; simp only [WORD, SIZEOF_BLOCK]; omega
  have hwithin : is_block_within_em mc em tail = true := by
    rw [is_block_within_em_congr hmc_em, htail]; exact hL.tail_within
  have hactive : is_block_in_active_part mc em (tail + pad) = false := by
    unfold is_block_in_active_part
    have : em_get_tail mc em = tail := by rw [em_get_tail_congr hmc_16, htail]
    rw [this]
    by_cases hw : is_block_within_em mc em (tail + pad) = true
    · simp only [hw, Bool.not_true, Bool.false_eq_true, if_false, decide_eq_false_iff_not]
      omega
    · simp [hw]
  have hcnb : create_next_block mc em tail =
      (set_prev (create_block mc (tail + pad)) (tail + pad) tail, tail + pad) := by
    unfold create_next_block
    simp only [hwithin, if_true, hnt, hactive, Bool.false_and, Bool.false_eq_true, if_false]
  obtain ⟨me, hme⟩ : ∃ x, x = em_set_tail
      (set_prev (create_block mc (tail + pad)) (tail + pad) tail) em (tail + pad) := ⟨_, rfl⟩
  have hcb := create_block_spec mc (tail + pad)
  have hme_ne : ∀ x, (x < tail + pad ∨ tail + pad + 32 ≤ x) → x ≠ em + 16 → me x = mc x := by
    intro x hx hx2
    rw [hme, em_set_tail_ne _ _ _ hx2, set_prev_ne _ _ _ (by omega)]
    exact hcb.2.2.2.2.2.2 x (by omega) (by omega) (by omega) (by omega)
  have hme_tail : em_get_tail me em = tail + pad := by
    unfold em_get_tail
    rw [hme, em_set_tail_eq]
    have : wnot TAIL_MASK = 3 := by decide
    rw [this]
    exact tagged_ptr _ _ (by omega) (by omega)
  have hme_free : get_is_free me (tail + pad) = true := by
    have e1 : me (tail + pad + 8) =
        set_prev (create_block mc (tail + pad)) (tail + pad) tail (tail + pad + 8) := by
      rw [hme]; exact em_set_tail_ne _ _ _ (by omega)
    unfold get_is_free
    rw [e1, set_prev_eq]
    have : wnot PREV_MASK = 3 := by decide
    rw [this, tagged_flag1 _ _ ht4]
    exact hcb.2.1
  have hme_size : get_size me (tail + pad) = 0 := by
    have e1 : me (tail + pad) = create_block mc (tail + pad) (tail + pad) := by
      rw [hme, em_set_tail_ne _ _ _ (by omega), set_prev_ne _ _ _ (by omega)]
    rw [get_size_congr e1]; exact hcb.1
  have hme_em : me em = m em := by rw [hme_ne _ (Or.inl (by omega)) (by omega), hmc_em]
  have hme_24 : me (em + 24) = r ||| (m (em + 24) &&& 3) := by
    rw [hme_ne _ (Or.inl (by omega)) (by omega), hmc_24]
  have hme_scr : em_get_has_scratch me em = em_get_has_scratch m em := by
    unfold em_get_has_scratch
    rw [hme_24, tagged_flag2 _ _ hr_props.2.1]
  have hme_spot0 : scratch_size_spot me em = scratch_size_spot m em := by
    unfold scratch_size_spot em_get_capacity
    rw [get_size_congr hme_em]
  have hme_cap : effective_capacity me em = effective_capacity m em := by
    unfold effective_capacity
    rw [hme_scr, hme_spot0]
    have ecap : em_get_capacity me em = em_get_capacity m em := get_size_congr hme_em
    rw [ecap]
    by_cases hs : em_get_has_scratch m em = true
    · have hsc := hL.scratch hs
      rw [← htail] at hsc
      have hsp : me (scratch_size_spot m em) = m (scratch_size_spot m em) := by
        rw [hme_ne _ (Or.inr (by omega)) (by omega), hmc_ne _ (by omega)]
        rw [hins.1.1.1 _ ?_, hma_ne _ (by omega)]
        intro h hh
        rcases List.mem_cons.mp hh with e1 | e1
        · subst e1; omega
        · have := hsc.2 h e1; omega
      simp only [hs, if_true, hsp]
    · rw [if_neg hs, if_neg hs]
  have hfs_me : free_size_in_tail me em =
      wsub (effective_capacity me em) (wsub (wadd (wadd (tail + pad) SIZEOF_BLOCK) 0) em) := by
    unfold free_size_in_tail effective_capacity scratch_size_spot
    simp only [hme_tail, hme_free, hme_size, Bool.not_true, Bool.or_false,
      decide_eq_true_eq]
    rw [if_neg (by omega)]
  have hfs_m : free_size_in_tail m em =
      wsub (effective_capacity m em) (wsub (wadd (wadd tail SIZEOF_BLOCK) 0) em) := by
    have hf := hL.tail_free
    have hz := hL.tail_size
    rw [← htail] at hf hz
    unfold free_size_in_tail effective_capacity scratch_size_spot
    simp only [← htail, hf, hz, Bool.not_true, Bool.or_false, decide_eq_true_eq]
    rw [if_neg (by omega)]
  have hfs : free_size_in_tail me em = free_size_in_tail m em - pad := by
    rw [hfs_me, hme_cap]
    rw [hfs_m] at hfit hfits hsmall ⊢
    generalize effective_capacity m em = C at *
    unfold wsub wadd at *
    simp only [WORD, SIZEOF_BLOCK] at *
    omega
  have hroot_me : em_get_free_blocks me em ≠ 0 := by
    unfold em_get_free_blocks
    rw [hme_24]
    have : (r ||| (m (em + 24) &&& 3)) &&& FREE_BLOCKS_MASK = r :=
      tagged_ptr _ _ hr_props.2.1 hr_props.2.2
    rw [this]; omega
  have hme_osz : get_size me tail = pad - 32 := by
    have : me tail = ma tail := by
      rw [hme_ne _ (Or.inl (by omega)) (by omega), hmc_tail]
    rw [get_size_congr this, hma_size]
  have hme_ofree : get_is_free me tail = true := by
    have : me (tail + 8) = mb (tail + 8) := by
      rw [hme_ne _ (Or.inl (by omega)) (by omega), hmc_ne _ (by omega)]
    rw [get_is_free_congr this, hflag, hma_free]
  -- assemble
  have hres : tail_front_split m em a tail pad = (me, tail + pad, 0) := by
    unfold tail_front_split
    have h48b : pad ≥ BLOCK_MIN_SIZE := h48
    rw [if_pos hal, if_pos h48b]
    simp only [hsub, ← hma, ← hmb, ← hr, ← hmc, hcnb, ← hme]
  rw [hres]
  refine ⟨rfl, rfl, hme_tail, hfs, hroot_me, hme_osz, hme_ofree, hme_em, ?_, ?_⟩
  · intro x hx h16 h24
    show me x = _
    rw [hme_ne x hx h16, hmc_ne x h24, hmb, hroot, hma]
  · show em_get_free_blocks me em = _
    unfold em_get_free_blocks
    rw [hme_24]
    have : (r ||| (m (em + 24) &&& 3)) &&& FREE_BLOCKS_MASK = r :=
      tagged_ptr _ _ hr_props.2.1 hr_props.2.2
    rw [this, hr]
    show (insert_block FUEL ma (em_get_free_blocks ma em) tail).2 = _
    rw [hroot, hma]
    rfl


/-! ### Allocation from the tail -/

theorem word_split (w : Nat) (hw : w < 18446744073709551616) :
    (w &&& 18446744073709551612) ||| (w &&& 3) = w := by
  rw [← Nat.and_or_distrib_left]
  have : (18446744073709551612 ||| 3) = 2 ^ 64 - 1 := by decide
  rw [this, Nat.and_pow_two_sub_one_eq_mod]
  exact Nat.mod_eq_of_lt hw

theorem em_set_free_blocks_self (m : Mem) (em : Nat)
    (hw : m (em + 24) < 18446744073709551616) :
    em_set_free_blocks m em (em_get_free_blocks m em) = m := by
  funext x
  by_cases hx : x = em + 24
  · subst hx
    rw [em_set_free_blocks_eq]
    unfold em_get_free_blocks
    have : wnot FREE_BLOCKS_MASK = 3 := by decide
    rw [this]
    exact word_split _ hw
  · exact em_set_free_blocks_ne m _ _ hx

theorem alloc_in_free_blocks_none (m : Mem) (em size a : Nat)
    (hw : m (em + 24) < 18446744073709551616)
    (hnone : (find_best_fit FUEL m (em_get_free_blocks m em) size a).1 = 0) :
    alloc_in_free_blocks m em size a = (m, 0) := by
  have hfd : find_and_detach_block FUEL m (em_get_free_blocks m em) size a =
      (m, em_get_free_blocks m em, 0) := by
    unfold find_and_detach_block
    by_cases hr : em_get_free_blocks m em = 0
    · rw [if_pos hr]
    · rw [if_neg hr]
      simp only [hnone, bne_self_eq_false, Bool.false_eq_true, if_false]
  unfold alloc_in_free_blocks
  simp only [hfd, em_set_free_blocks_self m em hw, if_true]

theorem alloc_in_tail_full_eq_pad (m : Mem) (em size alignment : Nat) :
    alloc_in_tail_full m em size alignment =
      if free_size_in_tail m em < size then (m, 0)
      else if wadd (tail_padding m em alignment) size > free_size_in_tail m em then (m, 0)
      else
        tail_commit
          (tail_front_split m em alignment (em_get_tail m em) (tail_padding m em alignment)).1
          em size
          (tail_front_split m em alignment (em_get_tail m em) (tail_padding m em alignment)).2.1
          (tail_front_split m em alignment (em_get_tail m em) (tail_padding m em alignment)).2.2
          (align_up (block_data (em_get_tail m em)) alignment) := by
  rfl

/-- A tail allocation whose remainder is too small for a block: the outcome. -/
theorem tail_alloc_core (m : Mem) (em size a : Nat) (H : List Nat)
    (hL : TailLayout m em H) (hsz : 0 < size) (ha : ValidAlignment a)
    (hfit : tail_padding m em a + size ≤ free_size_in_tail m em)
    (hsmall : free_size_in_tail m em < tail_padding m em a + size + 48) :
    (alloc_in_tail_full m em size a).2 = align_up (block_data (em_get_tail m em)) a ∧
      align_up (block_data (em_get_tail m em)) a
        = em_get_tail m em + 32 + tail_padding m em a ∧
      get_is_free (alloc_in_tail_full m em size a).1
        (em_get_tail (alloc_in_tail_full m em size a).1 em) = false ∧
      is_valid_magic (alloc_in_tail_full m em size a).1
        (em_get_tail (alloc_in_tail_full m em size a).1 em)
        (alloc_in_tail_full m em size a).2 = true ∧
      get_em (alloc_in_tail_full m em size a).1
        (em_get_tail (alloc_in_tail_full m em size a).1 em) = em ∧
      em_get_tail (alloc_in_tail_full m em size a).1 em + 32
        ≤ (alloc_in_tail_full m em size a).2 ∧
      em_get_tail (alloc_in_tail_full m em size a).1 em + 32 +
          get_size (alloc_in_tail_full m em size a).1
            (em_get_tail (alloc_in_tail_full m em size a).1 em)
        = em_get_tail m em + 32 + free_size_in_tail m em ∧
      free_size_in_tail (alloc_in_tail_full m em size a).1 em = 0 ∧
      (em_get_free_blocks (alloc_in_tail_full m em size a).1 em = 0 →
        (alloc_in_tail_full m em size a).1 (em + 24) < 18446744073709551616) := by
  have hfits := hL.space_fits
  have hsm := hL.space_small
  have hgeo := hL.tail_after
  have ht4 := em_get_tail_mod4 m em
  obtain ⟨tail, htail⟩ : ∃ t, t = em_get_tail m em := ⟨_, rfl⟩
  obtain ⟨pad, hpad⟩ : ∃ t, t = tail_padding m em a := ⟨_, rfl⟩
  obtain ⟨fs, hfsd⟩ : ∃ t, t = free_size_in_tail m em := ⟨_, rfl⟩
  rw [← htail] at hfits hgeo ht4
  rw [← hfsd] at hfits hsm hfit hsmall
  rw [← hpad] at hfit hsmall
  have hbd : block_data tail = tail + 32 := by
    unfold block_data wadd; simp only [WORD, SIZEOF_BLOCK]; omega
  have hspec := align_up_spec (block_data tail) a ha (by rw [hbd]; simp only [WORD]; omega)
  have hpad2 : wsub (align_up (block_data tail) a) (block_data tail) = pad := by
    rw [hpad, htail]; rfl
  rw [hpad2] at hspec
  have hp : align_up (block_data tail) a = tail + 32 + pad := by
    rw [hspec.2.2.2.2 (by rw [hbd]; simp only [WORD]; omega), hbd]
  have ha8 : a % 8 = 0 := by
    simp only [ValidAlignment, List.mem_cons, List.mem_singleton, List.not_mem_nil,
      or_false] at ha
    omega
  have hp8 : (tail + 32 + pad) % 8 = 0 := by
    have h1 := hspec.2.1
    rw [hp] at h1
    have := Nat.mod_mod_of_dvd (tail + 32 + pad) (Nat.dvd_of_mod_eq_zero ha8)
    omega
  have hpad4 : pad % 4 = 0 := by omega
  rw [alloc_in_tail_full_eq_pad]
  rw [← htail, ← hpad, ← hfsd]
  have hwadd : wadd pad size = pad + size := by
    unfold wadd; simp only [WORD]; omega
  rw [if_neg (by omega), if_neg (by rw [hwadd]; omega), hp]
  by_cases hc : (decide (a > em_get_alignment m em) && decide (pad > 0)) = true ∧ 48 ≤ pad
  · -- front split
    have hs := tail_front_split_spec m em a pad H hL hc.2 hpad4
      (by rw [← hfsd]; omega) hc.1
    rw [← htail, ← hfsd] at hs
    obtain ⟨s, hsd⟩ : ∃ t, t = tail_front_split m em a tail pad := ⟨_, rfl⟩
    rw [← hsd] at hs ⊢
    obtain ⟨hs1, hs2, hs3, hs4, hs5, hs6, hs7, hs8, _⟩ := hs
    rw [hs1, hs2]
    have hca := tail_commit_absorb s.1 em size (tail + pad) 0 (tail + 32 + pad)
      hs3 (by omega) (by omega) (by rw [hs4]; omega) (by rw [hs4]; omega)
      (by rw [hs4]; omega) hsz (by rw [hs4]; omega)
    rw [hs4] at hca
    have hst := tail_stamp_spec s.1 em (tail + pad) (fs - pad) 0 (tail + 32 + pad)
      (by omega) (by omega) (by omega)
    rw [hca.1]
    refine ⟨rfl, rfl, ?_, ?_, ?_, ?_, ?_, hca.2.2, ?_⟩
    · show get_is_free _ (em_get_tail _ em) = false
      rw [hca.2.1]; exact hst.2.1
    · show is_valid_magic _ (em_get_tail _ em) _ = true
      rw [hca.2.1]; exact hst.2.2.2.2.1
    · show get_em _ (em_get_tail _ em) = em
      rw [hca.2.1]; exact hst.2.2.2.1
    · show em_get_tail _ em + 32 ≤ tail + 32 + pad
      rw [hca.2.1]; omega
    · show em_get_tail _ em + 32 + get_size _ (em_get_tail _ em) = _
      rw [hca.2.1, hst.1]; omega
    · intro h0
      exfalso
      apply hs5
      rw [← h0]
      apply em_get_free_blocks_congr
      exact (hst.2.2.2.2.2.2.1 rfl (em + 24) (Or.inl (by omega))).symm
  · -- no front split
    have hsplit : tail_front_split m em a tail pad = (m, tail, pad) := by
      unfold tail_front_split
      by_cases h1 : (decide (a > em_get_alignment m em) && decide (pad > 0)) = true
      · have h2 : ¬ pad ≥ BLOCK_MIN_SIZE := fun h => hc ⟨h1, h⟩
        rw [if_pos h1, if_neg h2]
      · rw [if_neg h1]
    rw [hsplit]
    have hca := tail_commit_absorb m em size tail pad (tail + 32 + pad)
      htail.symm hgeo rfl (by rw [← hfsd]; omega) (by rw [← hfsd]; omega)
      (by rw [← hfsd]; omega) hsz (by rw [← hfsd]; omega)
    rw [← hfsd] at hca
    have hst := tail_stamp_spec m em tail fs pad (tail + 32 + pad) rfl (by omega) (by omega)
    rw [hca.1]
    refine ⟨rfl, rfl, ?_, ?_, ?_, ?_, ?_, hca.2.2, ?_⟩
    · show get_is_free _ (em_get_tail _ em) = false
      rw [hca.2.1]; exact hst.2.1
    · show is_valid_magic _ (em_get_tail _ em) _ = true
      rw [hca.2.1]; exact hst.2.2.2.2.1
    · show get_em _ (em_get_tail _ em) = em
      rw [hca.2.1]; exact hst.2.2.2.1
    · show em_get_tail _ em + 32 ≤ tail + 32 + pad
      rw [hca.2.1]; omega
    · show em_get_tail _ em + 32 + get_size _ (em_get_tail _ em) = _
      rw [hca.2.1, hst.1]
    · intro _
      show tail_stamp m em tail fs pad (tail + 32 + pad) (em + 24) < _
      have hx : tail_stamp m em tail fs pad (tail + 32 + pad) (em + 24) = m (em + 24) :=
        hst.2.2.2.2.2.1 (em + 24) (Or.inl (by omega)) (by omega)
      rw [hx]; exact hL.root_word

/-- With an empty free tree and no free tail space `em_alloc` fails and changes nothing. -/
theorem em_alloc_exhausted (m : Mem) (em n : Nat)
    (hroot : em_get_free_blocks m em = 0) (hw : m (em + 24) < 18446744073709551616)
    (hfs : free_size_in_tail m em = 0) : em_alloc m em n = (m, 0) := by
  have hnone : alloc_in_free_blocks m em n (em_get_alignment m em) = (m, 0) := by
    apply alloc_in_free_blocks_none m em n _ hw
    rw [hroot]; rfl
  unfold em_alloc em_alloc_aligned
  by_cases h1 : em = 0
  · rw [if_pos h1]
  · rw [if_neg h1]
    split
    · rfl
    · split
      · rfl
      · split
        · rfl
        · simp only [hnone, bne_self_eq_false, Bool.false_eq_true, if_false, hfs, if_true]

/-- The argument checks of `em_alloc_aligned` pass for valid arguments. -/
theorem em_alloc_aligned_valid (m : Mem) (em size a : Nat) (hem : em ≠ 0) (hsz : 0 < size)
    (hcap : size ≤ em_get_capacity m em) (ha : ValidAlignment a) :
    em_alloc_aligned m em size a =
      if ((alloc_in_free_blocks m em size a).2 != 0) = true then
        alloc_in_free_blocks m em size a
      else if free_size_in_tail (alloc_in_free_blocks m em size a).1 em = 0 then
        ((alloc_in_free_blocks m em size a).1, 0)
      else alloc_in_tail_full (alloc_in_free_blocks m em size a).1 em size a := by
  have h1 : ¬ ((em = 0 || size = 0 || decide (size > em_get_capacity m em)) = true) := by
    simp only [Bool.or_eq_true, decide_eq_true_eq, not_or, gt_iff_lt, not_lt]
    exact ⟨⟨hem, by omega⟩, hcap⟩
  have h2 : ¬ (((a &&& wsub a 1) != 0) = true) ∧
      ¬ ((decide (a < MIN_ALIGNMENT) || decide (a > MAX_ALIGNMENT)) = true) := by
    simp only [ValidAlignment, List.mem_cons, List.mem_singleton, List.not_mem_nil,
      or_false] at ha
    rcases ha with h | h | h | h | h | h | h | h | h <;> subst h <;> decide
  unfold em_alloc_aligned
  rw [if_neg h1, if_neg h2.1, if_neg h2.2]


/-! ### The free tree: search and removal -/

theorem find_best_fit_loop_spec {F : List Nat} {m : Mem} (hc : LinksClosed m F)
    (size a : Nat) :
    ∀ (fuel best bp cur cp : Nat),
      (best = 0 ∨ (best ∈ F ∧ Fits m size a best)) → (bp = 0 ∨ bp ∈ F) →
      (cur = 0 ∨ cur ∈ F) → (cp = 0 ∨ cp ∈ F) →
      ((find_best_fit_loop m size a fuel best bp cur cp).1 = 0 ∨
        ((find_best_fit_loop m size a fuel best bp cur cp).1 ∈ F ∧
          Fits m size a (find_best_fit_loop m size a fuel best bp cur cp).1)) ∧
      ((find_best_fit_loop m size a fuel best bp cur cp).2 = 0 ∨
        (find_best_fit_loop m size a fuel best bp cur cp).2 ∈ F) := by
  intro fuel
  induction fuel with
  | zero =>
    intro best bp cur cp hb hbp _ _
    unfold find_best_fit_loop
    exact ⟨hb, hbp⟩
  | succ n ih =>
    intro best bp cur cp hb hbp hcur hcp
    unfold find_best_fit_loop
    by_cases h0 : cur = 0
    · rw [if_pos h0]; exact ⟨hb, hbp⟩
    · rw [if_neg h0]
      have hcF : cur ∈ F := hcur.resolve_left h0
      have hl : get_left_tree m cur = 0 ∨ get_left_tree m cur ∈ F := (hc cur hcF).1
      have hr : get_right_tree m cur = 0 ∨ get_right_tree m cur ∈ F := (hc cur hcF).2
      dsimp only
      by_cases h1 : get_size m cur < size
      · rw [if_pos h1]; exact ih _ _ _ _ hb hbp hr (Or.inr hcF)
      · rw [if_neg h1]
        by_cases h2 : get_size m cur ≥
            wadd size (wsub (align_up (block_data cur) a) (block_data cur))
        · rw [if_pos h2]
          by_cases h3 : (best = 0 || decide (get_size m cur < get_size m best)) = true
          · rw [if_pos h3]
            exact ih _ _ _ _ (Or.inr ⟨hcF, ⟨by omega, h2⟩⟩) hcp hl (Or.inr hcF)
          · rw [if_neg h3]; exact ih _ _ _ _ hb hbp hl (Or.inr hcF)
        · rw [if_neg h2]; exact ih _ _ _ _ hb hbp hr (Or.inr hcF)

theorem find_best_fit_spec {F : List Nat} {m : Mem} (hc : LinksClosed m F)
    (size a fuel root : Nat) (hroot : root = 0 ∨ root ∈ F) :
    ((find_best_fit fuel m root size a).1 = 0 ∨
        ((find_best_fit fuel m root size a).1 ∈ F ∧
          Fits m size a (find_best_fit fuel m root size a).1)) ∧
      ((find_best_fit fuel m root size a).2 = 0 ∨
        (find_best_fit fuel m root size a).2 ∈ F) := by
  unfold find_best_fit
  by_cases h0 : root = 0
  · rw [if_pos h0]; exact ⟨Or.inl rfl, Or.inl rfl⟩
  · rw [if_neg h0]
    exact find_best_fit_loop_spec hc size a fuel 0 0 root 0 (Or.inl rfl) (Or.inl rfl) hroot
      (Or.inl rfl)

theorem min_node_loop_mem {F : List Nat} {m : Mem} (hc : LinksClosed m F) :
    ∀ (fuel mp mn : Nat), mp ∈ F → mn ∈ F →
      (min_node_loop m fuel mp mn).1 ∈ F ∧ (min_node_loop m fuel mp mn).2 ∈ F := by
  intro fuel
  induction fuel with
  | zero =>
    intro mp mn hmp hmn
    unfold min_node_loop
    exact ⟨hmp, hmn⟩
  | succ n ih =>
    intro mp mn hmp hmn
    unfold min_node_loop
    by_cases h0 : (get_left_tree m mn != 0) = true
    · rw [if_pos h0]
      have hl : get_left_tree m mn = 0 ∨ get_left_tree m mn ∈ F := (hc mn hmn).1
      have hne : get_left_tree m mn ≠ 0 := by simpa using h0
      exact ih _ _ hmn (hl.resolve_left hne)
    · rw [if_neg h0]; exact ⟨hmp, hmn⟩

theorem detach_block_fast_eq (fuel : Nat) (m : Mem) (tree_root target parent : Nat) :
    detach_block_fast fuel m tree_root target parent =
      detach_finish (detach_relink (detach_replace fuel m target) tree_root target parent)
        target := by
  rfl

theorem treeInv_detach_replace {F : List Nat} (hA : HeadersApart F) {m0 m : Mem}
    (fuel : Nat) {target : Nat} (ht : target ∈ F) (hi : TreeInv F m0 m) :
    TreeInv F m0 (detach_replace fuel m target).1 ∧
      ((detach_replace fuel m target).2 = 0 ∨ (detach_replace fuel m target).2 ∈ F) := by
  have hl : get_left_tree m target = 0 ∨ get_left_tree m target ∈ F := (hi.2 target ht).1
  have hr : get_right_tree m target = 0 ∨ get_right_tree m target ∈ F := (hi.2 target ht).2
  unfold detach_replace
  dsimp only
  by_cases h0 : get_right_tree m target = 0
  · rw [if_pos h0]; exact ⟨hi, hl⟩
  · rw [if_neg h0]
    by_cases h1 : get_left_tree m target = 0
    · rw [if_pos h1]; exact ⟨hi, hr⟩
    · rw [if_neg h1]
      have hrF := hr.resolve_left h0
      have hmn := min_node_loop_mem hi.2 fuel target (get_right_tree m target) ht hrF
      refine ⟨?_, Or.inr hmn.2⟩
      apply treeInv_set_left hA hmn.2 hl
      by_cases h2 : ((min_node_loop m fuel target (get_right_tree m target)).1 != target) = true
      · rw [if_pos h2]
        apply treeInv_set_right hA hmn.2 hr
        apply treeInv_set_left hA hmn.1 _ hi
        exact (hi.2 _ hmn.2).2
      · rw [if_neg h2]; exact hi

theorem treeInv_detach_relink {F : List Nat} (hA : HeadersApart F) {m0 : Mem}
    (s1 : Mem × Nat) (tree_root target parent : Nat)
    (hroot : tree_root = 0 ∨ tree_root ∈ F) (hp : parent = 0 ∨ parent ∈ F)
    (hi : TreeInv F m0 s1.1) (hs : s1.2 = 0 ∨ s1.2 ∈ F) :
    TreeInv F m0 (detach_relink s1 tree_root target parent).1 ∧
      ((detach_relink s1 tree_root target parent).2 = 0 ∨
        (detach_relink s1 tree_root target parent).2 ∈ F) := by
  unfold detach_relink
  by_cases h0 : parent = 0
  · rw [if_pos h0]; exact ⟨hi, hs⟩
  · rw [if_neg h0]
    have hpF := hp.resolve_left h0
    by_cases h1 : get_left_tree s1.1 parent = target
    · rw [if_pos h1]; exact ⟨treeInv_set_left hA hpF hs hi, hroot⟩
    · rw [if_neg h1]; exact ⟨treeInv_set_right hA hpF hs hi, hroot⟩

theorem treeInv_detach_finish {F : List Nat} (hA : HeadersApart F) {m0 : Mem}
    (s2 : Mem × Nat) {target : Nat} (ht : target ∈ F)
    (hi : TreeInv F m0 s2.1) (hs : s2.2 = 0 ∨ s2.2 ∈ F) :
    TreeInv F m0 (detach_finish s2 target).1 ∧
      ((detach_finish s2 target).2 = 0 ∨ (detach_finish s2 target).2 ∈ F) := by
  have h3 : TreeInv F m0
      (set_color (set_right_tree (set_left_tree s2.1 target 0) target 0) target RED) :=
    treeInv_set_color hA ht RED
      (treeInv_set_right hA ht (Or.inl rfl) (treeInv_set_left hA ht (Or.inl rfl) hi))
  unfold detach_finish
  dsimp only
  by_cases h0 : (s2.2 != 0) = true
  · rw [if_pos h0]
    have hne : s2.2 ≠ 0 := by simpa using h0
    have hb := treeInv_balance hA (hs.resolve_left hne) h3
    exact ⟨hb.1, Or.inr hb.2⟩
  · rw [if_neg h0]; exact ⟨h3, hs⟩

/-- Removing a node keeps every write inside the tree words of the listed headers. -/
theorem treeInv_detach_block_fast {F : List Nat} (hA : HeadersApart F) {m0 m : Mem}
    (fuel tree_root : Nat) {target : Nat} (parent : Nat) (ht : target ∈ F)
    (hroot : tree_root = 0 ∨ tree_root ∈ F) (hp : parent = 0 ∨ parent ∈ F)
    (hi : TreeInv F m0 m) :
    TreeInv F m0 (detach_block_fast fuel m tree_root target parent).1 ∧
      ((detach_block_fast fuel m tree_root target parent).2 = 0 ∨
        (detach_block_fast fuel m tree_root target parent).2 ∈ F) := by
  rw [detach_block_fast_eq]
  have h1 := treeInv_detach_replace hA fuel ht hi
  have h2 := treeInv_detach_relink hA _ tree_root target parent hroot hp h1.1 h1.2
  exact treeInv_detach_finish hA _ ht h2.1 h2.2

theorem find_by_ptr_loop_mem {F : List Nat} {m : Mem} (hc : LinksClosed m F)
    (target ts tq : Nat) :
    ∀ (fuel cur par : Nat), (cur = 0 ∨ cur ∈ F) → (par = 0 ∨ par ∈ F) →
      ((find_by_ptr_loop m target ts tq fuel cur par).1 = 0 ∨
        (find_by_ptr_loop m target ts tq fuel cur par).1 ∈ F) ∧
      ((find_by_ptr_loop m target ts tq fuel cur par).2 = 0 ∨
        (find_by_ptr_loop m target ts tq fuel cur par).2 ∈ F) := by
  intro fuel
  induction fuel with
  | zero =>
    intro cur par hcur hpar
    unfold find_by_ptr_loop
    exact ⟨hcur, hpar⟩
  | succ n ih =>
    intro cur par hcur hpar
    unfold find_by_ptr_loop
    by_cases h0 : (cur != 0 && cur != target) = true
    · rw [if_pos h0]
      have hne : cur ≠ 0 := by
        simp only [Bool.and_eq_true, bne_iff_ne, ne_eq] at h0
        exact h0.1
      have hcF := hcur.resolve_left hne
      have hl : get_left_tree m cur = 0 ∨ get_left_tree m cur ∈ F := (hc cur hcF).1
      have hr : get_right_tree m cur = 0 ∨ get_right_tree m cur ∈ F := (hc cur hcF).2
      apply ih _ _ _ (Or.inr hcF)
      dsimp only
      split
      · exact hl
      · split
        · exact hr
        · split
          · exact hl
          · split
            · exact hr
            · split
              · exact hl
              · exact hr
    · rw [if_neg h0]; exact ⟨hcur, hpar⟩

theorem treeInv_detach_block_by_ptr {F : List Nat} (hA : HeadersApart F) {m0 m : Mem}
    (fuel tree_root target : Nat) (ht : target ≠ 0)
    (hroot : tree_root = 0 ∨ tree_root ∈ F) (hi : TreeInv F m0 m) :
    TreeInv F m0 (detach_block_by_ptr fuel m tree_root target).1 ∧
      ((detach_block_by_ptr fuel m tree_root target).2 = 0 ∨
        (detach_block_by_ptr fuel m tree_root target).2 ∈ F) := by
  unfold detach_block_by_ptr
  dsimp only
  have hf := find_by_ptr_loop_mem hi.2 target (get_size m target)
    (min_exponent_of (block_data target)) fuel tree_root 0 hroot (Or.inl rfl)
  by_cases h0 : (find_by_ptr_loop m target (get_size m target)
      (min_exponent_of (block_data target)) fuel tree_root 0).1 = target
  · rw [if_pos h0]
    have htF : target ∈ F := by
      rcases hf.1 with h | h
      · rw [h0] at h; exact absurd h ht
      · rw [h0] at h; exact h
    exact treeInv_detach_block_fast hA fuel tree_root _ htF hroot hf.2 hi
  · rw [if_neg h0]; exact ⟨hi, hroot⟩

theorem get_alignment_valid (m : Mem) (b : Nat) : ValidAlignment (get_alignment m b) := by
  unfold get_alignment
  have h : m b &&& ALIGNMENT_MASK ≤ 7 := Nat.and_le_right
  generalize m b &&& ALIGNMENT_MASK = e at h
  dsimp only
  interval_cases e <;> decide

theorem create_next_block_cases (m : Mem) (em prev : Nat) :
    create_next_block m em prev = (m, 0) ∨
      create_next_block m em prev =
        (set_prev (create_block m ( next_block_unsafe m prev)) ( next_block_unsafe m prev) prev,
          next_block_unsafe m prev) ∨
      create_next_block m em prev = (set_prev (create_block m 0) 0 prev, 0) := by
  unfold create_next_block
  by_cases hw : is_block_within_em m em prev = true
  · rw [if_pos hw]
    by_cases hc : (is_block_in_active_part m em ( next_block_unsafe m prev) &&
        get_prev m ( next_block_unsafe m prev) == prev) = true
    · left; simp only [hc, if_true]
    · right; left; simp only [hc]; rfl
  · rw [if_neg hw]; right; right; rfl

theorem create_next_block_frame (m : Mem) (em prev : Nat) (x : Nat)
    (h1 : x ≠ next_block_unsafe m prev ∧ x ≠ next_block_unsafe m prev + 8 ∧
      x ≠ next_block_unsafe m prev + 16 ∧ x ≠ next_block_unsafe m prev + 24)
    (h2 : x ≠ 0 ∧ x ≠ 8 ∧ x ≠ 16 ∧ x ≠ 24) :
    (create_next_block m em prev).1 x = m x := by
  have hA : ∀ nb, (x ≠ nb ∧ x ≠ nb + 8 ∧ x ≠ nb + 16 ∧ x ≠ nb + 24) →
      set_prev (create_block m nb) nb prev x = m x := by
    intro nb h
    rw [set_prev_ne _ _ _ h.2.1]
    exact (create_block_spec m nb).2.2.2.2.2.2 x h.1 h.2.1 h.2.2.1 h.2.2.2
  rcases create_next_block_cases m em prev with h | h | h
  · rw [h]
  · rw [h]; exact hA _ h1
  · rw [h]; exact hA 0 (by omega)

theorem tail_final_bounds (m : Mem) (em size pad p : Nat)
    (hfit : pad + size ≤ free_size_in_tail m em)
    (hfs : free_size_in_tail m em + 1024 ≤ 2305843009213693952) :
    pad + size ≤ tail_final m em size pad p ∧
      tail_final m em size pad p < 2305843009213693952 ∧
      tail_final m em size pad p < free_size_in_tail m em + 1024 := by
  have hmin : wadd pad size = pad + size := by
    unfold wadd; simp only [WORD]; omega
  have hv := get_alignment_valid m em
  have hal : em_get_alignment m em ≤ 1024 := by
    have : em_get_alignment m em = get_alignment m em := rfl
    rw [this]
    unfold get_alignment wshl
    have h : m em &&& ALIGNMENT_MASK ≤ 7 := Nat.and_le_right
    generalize m em &&& ALIGNMENT_MASK = e at h
    dsimp only
    interval_cases e <;> decide
  have hsp := align_up_spec (wadd (wadd p size) SIZEOF_BLOCK) (em_get_alignment m em) hv
    (by unfold wadd; exact Nat.mod_lt _ (by decide))
  have hend : wsub (wsub (align_up (wadd (wadd p size) SIZEOF_BLOCK) (em_get_alignment m em))
      SIZEOF_BLOCK) (wadd p size) < 1024 := by
    have h3 := hsp.2.2.1
    have h4 := hsp.1
    generalize align_up (wadd (wadd p size) SIZEOF_BLOCK) (em_get_alignment m em) = au at *
    generalize wadd p size = e at *
    have he : wadd e SIZEOF_BLOCK < WORD := by unfold wadd; exact Nat.mod_lt _ (by decide)
    unfold wsub wadd at *
    simp only [WORD, SIZEOF_BLOCK] at *
    omega
  unfold tail_final
  dsimp only
  rw [hmin]
  generalize wsub (wsub (align_up (wadd (wadd p size) SIZEOF_BLOCK) (em_get_alignment m em))
      SIZEOF_BLOCK) (wadd p size) = ep at *
  have hfull : wadd (pad + size) ep = pad + size + ep := by
    unfold wadd; simp only [WORD]; omega
  rw [hfull]
  split
  · split
    · omega
    · omega
  · omega

theorem recovered_header_padded (m : Mem) (p h : Nat) (hb : m (wsub p WORD_SIZE) = h ^^^ p)
    (h4 : h % 4 = 0) : recovered_header m p = h := by
  have hc : m (wsub p WORD_SIZE) ^^^ p = h := by
    rw [hb, Nat.xor_assoc, Nat.xor_self, Nat.xor_zero]
  unfold recovered_header
  dsimp only
  rw [hc]
  have hne : h ≠ MAGIC := by
    intro e
    have : MAGIC % 4 = 3 := by decide
    rw [← e] at this
    omega
  rw [if_neg hne]

theorem recovered_header_direct (m : Mem) (p h : Nat) (hv : is_valid_magic m h p = true)
    (hp : p = h + 32) (hlt : p < 18446744073709551616) : recovered_header m p = h := by
  have h8 : wsub p WORD_SIZE = h + 24 := by
    unfold wsub; simp only [WORD, WORD_SIZE]; omega
  have h32 : wsub p SIZEOF_BLOCK = h := by
    unfold wsub; simp only [WORD, SIZEOF_BLOCK]; omega
  have hc : m (h + 24) ^^^ p = MAGIC := by
    unfold is_valid_magic get_magic at hv
    simpa using hv
  unfold recovered_header
  dsimp only
  rw [h8, hc, if_pos rfl, h32]

/-- What the second half of a tail allocation leaves behind. -/
theorem tail_commit_spec (m : Mem) (em size tail pad p : Nat)
    (hgeo : em + 32 ≤ tail) (ht4 : tail % 4 = 0)
    (hp : p = tail + 32 + pad)
    (hfit : pad + size ≤ free_size_in_tail m em)
    (hfs : free_size_in_tail m em + 1024 ≤ 2305843009213693952) (hsz : 0 < size)
    (hw : tail + 32 + free_size_in_tail m em ≤ 18446744073709551616) :
    ∃ mF, tail_commit m em size tail pad p = (mF, p) ∧
      get_is_free mF tail = false ∧ get_em mF tail = em ∧
      is_valid_magic mF tail p = true ∧ recovered_header mF p = tail ∧
      pad + size ≤ get_size mF tail ∧ (2048 ≤ em → mF em = m em) := by
  have hb := tail_final_bounds m em size pad p hfit hfs
  obtain ⟨final, hfinal⟩ : ∃ f, f = tail_final m em size pad p := ⟨_, rfl⟩
  rw [← hfinal] at hb
  have hs := tail_stamp_spec m em tail final pad p hp hb.2.1 (by omega)
  obtain ⟨m1, hm1⟩ : ∃ x, x = tail_stamp m em tail final pad p := ⟨_, rfl⟩
  rw [← hm1] at hs
  obtain ⟨s1, s2, _, s4, s5, s6, _, s8⟩ := hs
  have key : ∀ mF : Mem, (∀ x, tail ≤ x → x < p → mF x = m1 x) →
      (2048 ≤ em → mF em = m1 em) →
      get_is_free mF tail = false ∧ get_em mF tail = em ∧
      is_valid_magic mF tail p = true ∧ recovered_header mF p = tail ∧
      pad + size ≤ get_size mF tail ∧ (2048 ≤ em → mF em = m em) := by
    intro mF hF hE
    have e0 : mF tail = m1 tail := hF _ (by omega) (by omega)
    have e8 : mF (tail + 8) = m1 (tail + 8) := hF _ (by omega) (by omega)
    have e16 : mF (tail + 16) = m1 (tail + 16) := hF _ (by omega) (by omega)
    have e24 : mF (tail + 24) = m1 (tail + 24) := hF _ (by omega) (by omega)
    have hv : is_valid_magic mF tail p = true := by
      unfold is_valid_magic get_magic at s5 ⊢
      rw [e24]; exact s5
    refine ⟨?_, ?_, hv, ?_, ?_, ?_⟩
    · rw [get_is_free_congr e8]; exact s2
    · unfold get_em at s4 ⊢
      rw [e16]; exact s4
    · by_cases hp0 : 0 < pad
      · apply recovered_header_padded _ _ _ _ ht4
        have hsp : wsub p WORD_SIZE = p - 8 := by
          unfold wsub; simp only [WORD, WORD_SIZE]; omega
        rw [hsp, hF _ (by omega) (by omega)]
        exact s8 hp0
      · exact recovered_header_direct _ _ _ hv (by omega) (by omega)
    · rw [get_size_congr e0, s1]; exact hb.1
    · intro h2048
      rw [hE h2048]
      exact s6 em (Or.inl (by omega)) (by omega)
  have hmin : wadd pad size = pad + size := by
    unfold wadd; simp only [WORD]; omega
  have hnot : ¬ (wadd pad size > free_size_in_tail m em) := by rw [hmin]; omega
  unfold tail_commit
  rw [if_neg hnot]
  dsimp only
  rw [← hfinal, ← hm1]
  by_cases hd : (free_size_in_tail m em != final) = true
  · rw [if_pos hd]
    have hnb : next_block_unsafe m1 tail = (tail + 32 + final) % 18446744073709551616 := by
      unfold next_block_unsafe block_data
      rw [s1]
      unfold wadd; simp only [WORD, SIZEOF_BLOCK]; omega
    refine ⟨_, rfl, key _ ?_ ?_⟩
    · intro x hx1 hx2
      rw [em_set_tail_ne _ _ _ (by omega)]
      apply create_next_block_frame
      · rw [hnb]
        omega
      · omega
    · intro h2048
      rw [em_set_tail_ne _ _ _ (by omega)]
      apply create_next_block_frame
      · rw [hnb]
        omega
      · omega
  · rw [if_neg hd]
    exact ⟨_, rfl, key _ (fun _ _ _ => rfl) (fun _ => rfl)⟩

/-- A tail allocation either fails without a write or stamps a block that holds the
requested range. -/
theorem tail_alloc_spec (m : Mem) (em size a : Nat) (F : List Nat)
    (hL : TailLayout m em F) (hsz : 0 < size) (ha : ValidAlignment a)
    (hfs : free_size_in_tail m em + 1024 ≤ 2305843009213693952) :
    alloc_in_tail_full m em size a = (m, 0) ∨
      ∃ mF p h, alloc_in_tail_full m em size a = (mF, p) ∧ p ≠ 0 ∧ p % a = 0 ∧
        get_is_free mF h = false ∧ get_em mF h = em ∧ is_valid_magic mF h p = true ∧
        recovered_header mF p = h ∧ block_data h ≤ p ∧
        p + size ≤ block_data h + get_size mF h ∧
        (2048 ≤ em → mF em = m em) ∧ h + 32 ≤ p ∧ em_get_tail m em ≤ h ∧
        p + size ≤ em_get_tail m em + 32 + free_size_in_tail m em := by
  have hfits := hL.space_fits
  have hgeo := hL.tail_after
  have ht4 := em_get_tail_mod4 m em
  obtain ⟨tail, htail⟩ : ∃ t, t = em_get_tail m em := ⟨_, rfl⟩
  obtain ⟨pad, hpad⟩ : ∃ t, t = tail_padding m em a := ⟨_, rfl⟩
  obtain ⟨fs, hfsd⟩ : ∃ t, t = free_size_in_tail m em := ⟨_, rfl⟩
  rw [← htail] at hfits hgeo ht4
  rw [← hfsd] at hfits hfs
  rw [alloc_in_tail_full_eq_pad, ← htail, ← hpad, ← hfsd]
  by_cases h1 : fs < size
  · left; rw [if_pos h1]
  rw [if_neg h1]
  have hbd : block_data tail = tail + 32 := by
    unfold block_data wadd; simp only [WORD, SIZEOF_BLOCK]; omega
  have hspec := align_up_spec (block_data tail) a ha (by rw [hbd]; simp only [WORD]; omega)
  have hpad2 : wsub (align_up (block_data tail) a) (block_data tail) = pad := by
    rw [hpad, htail]; rfl
  rw [hpad2] at hspec
  have ha8 : a % 8 = 0 ∧ a ≤ 2048 := by
    simp only [ValidAlignment, List.mem_cons, List.mem_singleton, List.not_mem_nil,
      or_false] at ha
    omega
  have hpadlt : pad < a := hspec.2.2.1
  have hwadd : wadd pad size = (pad + size) % 18446744073709551616 := by
    unfold wadd; simp only [WORD]
  by_cases h2 : wadd pad size > fs
  · left; rw [if_pos h2]
  rw [if_neg h2]
  right
  have hfit : pad + size ≤ fs := by
    rw [hwadd] at h2; omega
  have hp : align_up (block_data tail) a = tail + 32 + pad := by
    rw [hspec.2.2.2.2 (by rw [hbd]; simp only [WORD]; omega), hbd]
  have hp8 : (tail + 32 + pad) % 8 = 0 := by
    have h1 := hspec.2.1
    rw [hp] at h1
    have := Nat.mod_mod_of_dvd (tail + 32 + pad) (Nat.dvd_of_mod_eq_zero ha8.1)
    omega
  have hpad4 : pad % 4 = 0 := by omega
  have hpa : (tail + 32 + pad) % a = 0 := by
    have h1 := hspec.2.1
    rw [hp] at h1; exact h1
  rw [hp]
  by_cases hc : (decide (a > em_get_alignment m em) && decide (pad > 0)) = true ∧ 48 ≤ pad
  · -- front split
    have hs := tail_front_split_spec m em a pad F hL hc.2 hpad4
      (by rw [← hfsd]; omega) hc.1
    rw [← htail, ← hfsd] at hs
    obtain ⟨s, hsd⟩ : ∃ t, t = tail_front_split m em a tail pad := ⟨_, rfl⟩
    rw [← hsd] at hs ⊢
    obtain ⟨hs1, hs2, hs3, hs4, hs5, hs6, hs7, hs8, _⟩ := hs
    rw [hs1, hs2]
    obtain ⟨mF, hc1, hc2, hc3, hc4, hc5, hc6, hc7⟩ :=
      tail_commit_spec s.1 em size (tail + pad) 0 (tail + 32 + pad)
        (by omega) (by omega) (by omega) (by rw [hs4]; omega) (by rw [hs4]; omega) hsz
        (by rw [hs4]; omega)
    have hbd2 : block_data (tail + pad) = tail + pad + 32 := by
      unfold block_data wadd; simp only [WORD, SIZEOF_BLOCK]; omega
    exact ⟨mF, tail + 32 + pad, tail + pad, hc1, by omega, hpa, hc2, hc3, hc4, hc5,
      by rw [hbd2]; omega, by rw [hbd2]; omega, fun h => (hc7 h).trans hs8, by omega,
      by omega, by omega⟩
  · -- no front split
    have hsplit : tail_front_split m em a tail pad = (m, tail, pad) := by
      unfold tail_front_split
      by_cases h1 : (decide (a > em_get_alignment m em) && decide (pad > 0)) = true
      · have h2 : ¬ pad ≥ BLOCK_MIN_SIZE := fun h => hc ⟨h1, h⟩
        rw [if_pos h1, if_neg h2]
      · rw [if_neg h1]
    rw [hsplit]
    obtain ⟨mF, hc1, hc2, hc3, hc4, hc5, hc6, hc7⟩ :=
      tail_commit_spec m em size tail pad (tail + 32 + pad)
        hgeo ht4 rfl (by rw [← hfsd]; omega) (by rw [← hfsd]; omega) hsz
        (by rw [← hfsd]; omega)
    exact ⟨mF, tail + 32 + pad, tail, hc1, by omega, hpa, hc2, hc3, hc4, hc5,
      by rw [hbd]; omega, by rw [hbd]; omega, hc7, by omega, by omega, by omega⟩

theorem em_free_block_full_eq (m : Mem) (em block : Nat) :
    em_free_block_full m em block =
      if get_is_in_scratch m block then em_free_scratch m em
      else
        free_insert
          (free_look_prev (free_look_next (free_mark m block) em block) em
            (get_prev (free_mark m block) block)) em := by
  rfl

theorem split_block_eq (m : Mem) (em block needed : Nat) :
    split_block m em block needed =
      if get_size m block > needed && wsub (get_size m block) needed ≥ BLOCK_MIN_SIZE then
        em_free_block_full (split_carve m em block needed) em
          ( next_block_unsafe (set_size m block needed) block)
      else m := by
  rfl


/-! ### Frames over the block list -/

theorem sameButColor_free {w w' : Nat} (h : SameButColor w w') :
    w &&& IS_FREE_FLAG = w' &&& IS_FREE_FLAG := by
  unfold SameButColor at h
  have e : (18446744073709551613 : Nat) &&& IS_FREE_FLAG = IS_FREE_FLAG := by decide
  have h1 : (w &&& 18446744073709551613) &&& IS_FREE_FLAG =
      (w' &&& 18446744073709551613) &&& IS_FREE_FLAG := by rw [h]
  rw [Nat.and_assoc, Nat.and_assoc, e] at h1
  exact h1

theorem free_bit_or (w : Nat) : ((w ||| IS_FREE_FLAG) &&& IS_FREE_FLAG != 0) = true := by
  rw [Nat.and_distrib_right]
  have : IS_FREE_FLAG &&& IS_FREE_FLAG = 1 := by decide
  rw [this]
  have h2 : ∀ y : Nat, (y ||| 1) ≠ 0 := by
    intro y h
    have h3 : (y ||| 1) % 2 = 1 := Nat.or_mod_two_eq_one.mpr (Or.inr rfl)
    rw [h] at h3
    exact absurd h3 (by decide)
  simpa using h2 _

theorem prev_bits_or (w : Nat) : (w ||| IS_FREE_FLAG) &&& PREV_MASK = w &&& PREV_MASK := by
  have e3 : IS_FREE_FLAG &&& PREV_MASK = 0 := by decide
  rw [Nat.and_distrib_right, e3, Nat.or_zero]

theorem prev_bits_color (w : Nat) :
    (w &&& wnot COLOR_FLAG) &&& PREV_MASK = w &&& PREV_MASK := by
  have e2 : wnot COLOR_FLAG &&& PREV_MASK = PREV_MASK := by decide
  rw [Nat.and_assoc, e2]

theorem next_block_unsafe_congr {m1 m2 : Mem} {b : Nat} (h : m1 b = m2 b) :
    next_block_unsafe m1 b = next_block_unsafe m2 b := by
  unfold next_block_unsafe; rw [get_size_congr h]

theorem is_block_in_active_part_congr {m1 m2 : Mem} {em : Nat} (h0 : m1 em = m2 em)
    (h16 : m1 (em + 16) = m2 (em + 16)) (b : Nat) :
    is_block_in_active_part m1 em b = is_block_in_active_part m2 em b := by
  unfold is_block_in_active_part
  rw [is_block_within_em_congr h0, em_get_tail_congr h16]

theorem next_block_congr {m1 m2 : Mem} {em b : Nat} (h0 : m1 em = m2 em)
    (h16 : m1 (em + 16) = m2 (em + 16)) (hb : m1 b = m2 b) :
    next_block m1 em b = next_block m2 em b := by
  unfold next_block
  dsimp only
  rw [next_block_unsafe_congr hb, is_block_in_active_part_congr h0 h16]

/-- `next_block` is NULL or the physical successor, which then is in the active part. -/
theorem next_block_cases (m : Mem) (em b : Nat) :
    next_block m em b = 0 ∨
      (next_block m em b = next_block_unsafe m b ∧
        is_block_in_active_part m em ( next_block_unsafe m b) = true) := by
  unfold next_block
  by_cases h : is_block_in_active_part m em ( next_block_unsafe m b) = true
  · right; simp only [h, Bool.not_true, Bool.false_eq_true, if_false, and_self]
  · left; simp only [h, Bool.not_false, if_true]

theorem BlockLayout.headers_apart {m : Mem} {em : Nat} {F Bs : List Nat}
    (hL : BlockLayout m em F Bs) : HeadersApart Bs := by
  intro a ha b hb hab
  rcases hL.blocks_apart a ha b hb hab with h | h
  · left; omega
  · right; omega

theorem BlockLayout.tree_apart {m : Mem} {em : Nat} {F Bs : List Nat}
    (hL : BlockLayout m em F Bs) : HeadersApart F := by
  intro a ha b hb hab
  exact hL.headers_apart a (hL.free_in_blocks a ha) b (hL.free_in_blocks b hb) hab

theorem BlockLayout.node {m : Mem} {em : Nat} {F Bs : List Nat}
    (hL : BlockLayout m em F Bs) {r : Nat} (hr : r = 0 ∨ r ∈ F) :
    r % 4 = 0 ∧ r < 18446744073709551616 ∧ (r ≠ 0 → em + 32 ≤ r) := by
  rcases hr with h | h
  · subst h; exact ⟨rfl, by omega, fun h => absurd rfl h⟩
  · have := hL.blocks_fit r (hL.free_in_blocks r h)
    have := hL.arena_fits
    exact ⟨by omega, by omega, fun _ => by omega⟩

/-- Tree operations leave the arena header, the size words and the free flags alone. -/
theorem treeFrame_words {F Bs : List Nat} {em : Nat} (hsub : ∀ h ∈ F, h ∈ Bs)
    (hA : HeadersApart Bs) (hge : ∀ b ∈ Bs, em + 32 ≤ b) {m m' : Mem}
    (h : TreeFrame F m m') :
    (∀ x, x < em + 32 → m' x = m x) ∧
      (∀ b ∈ Bs, m' b = m b ∧ get_is_free m' b = get_is_free m b) := by
  refine ⟨?_, ?_⟩
  · intro x hx
    apply h.1
    intro f hf
    have := hge f (hsub f hf)
    omega
  · intro b hb
    refine ⟨?_, ?_⟩
    · apply h.1
      intro f hf
      by_cases e : f = b
      · subst e; omega
      · have := hA f (hsub f hf) b hb e
        omega
    · by_cases hbF : b ∈ F
      · unfold get_is_free
        rw [sameButColor_free (h.2 b hbF)]
      · apply get_is_free_congr
        apply h.1
        intro f hf
        have e : f ≠ b := fun e => hbF (e ▸ hf)
        have := hA f (hsub f hf) b hb e
        omega

theorem BlockLayout.of_frame {m m' : Mem} {em : Nat} {F Bs : List Nat}
    (hL : BlockLayout m em F Bs) (h0 : m' em = m em) (h16 : m' (em + 16) = m (em + 16))
    (hsz : ∀ b ∈ Bs, m' b = m b) (hc : LinksClosed m' F)
    (hr : em_get_free_blocks m' em = 0 ∨ em_get_free_blocks m' em ∈ F) :
    BlockLayout m' em F Bs := by
  have hcap : em_get_capacity m' em = em_get_capacity m em := get_size_congr h0
  refine ⟨?_, ?_, hL.free_in_blocks, ?_, ?_, ?_, hc, hr⟩
  · rw [h0]; exact hL.header_word
  · rw [hcap]; exact hL.arena_fits
  · intro b hb
    rw [get_size_congr (hsz b hb), hcap]
    exact hL.blocks_fit b hb
  · intro a ha b hb hab
    rw [get_size_congr (hsz a ha), get_size_congr (hsz b hb)]
    exact hL.blocks_apart a ha b hb hab
  · intro b hb
    rw [next_block_unsafe_congr (hsz b hb), is_block_in_active_part_congr h0 h16]
    exact hL.chain b hb

theorem free_mark_spec (m : Mem) (R : Nat) :
    (∀ x, x ≠ R + 8 → x ≠ R + 16 → x ≠ R + 24 → free_mark m R x = m x) ∧
      free_mark m R (R + 16) = 0 ∧ free_mark m R (R + 24) = 0 ∧
      get_is_free (free_mark m R) R = true ∧
      get_prev (free_mark m R) R = get_prev m R := by
  unfold free_mark
  refine ⟨?_, ?_, ?_, ?_, ?_⟩
  · intro x h1 h2 h3
    simp (disch := omega) only [set_color_ne, set_right_tree_ne, set_left_tree_ne,
      set_is_free_ne]
  · simp (disch := omega) only [set_color_ne, set_right_tree_ne, set_left_tree_eq]
  · simp (disch := omega) only [set_color_ne, set_right_tree_eq]
  · simp (disch := omega) only [get_is_free, set_color_eq, set_right_tree_ne,
      set_left_tree_ne, set_is_free_eq, Bool.false_eq_true, if_false, if_true,
      is_free_color_clear]
    exact free_bit_or _
  · simp (disch := omega) only [get_prev, set_color_eq, set_right_tree_ne,
      set_left_tree_ne, set_is_free_eq, Bool.false_eq_true, if_false, if_true,
      prev_bits_color, prev_bits_or]


theorem em_get_free_blocks_set (m : Mem) (em r : Nat) (h4 : r % 4 = 0)
    (hlt : r < 18446744073709551616) :
    em_get_free_blocks (em_set_free_blocks m em r) em = r := by
  unfold em_get_free_blocks
  rw [em_set_free_blocks_eq]
  have : wnot FREE_BLOCKS_MASK = 3 := by decide
  rw [this]
  exact tagged_ptr _ _ h4 hlt

theorem linksClosed_of_eq {F : List Nat} {m m' : Mem} (hc : LinksClosed m F)
    (h : ∀ f ∈ F, m' (f + 16) = m (f + 16) ∧ m' (f + 24) = m (f + 24)) :
    LinksClosed m' F := by
  intro f hf
  rw [(h f hf).1, (h f hf).2]
  exact hc f hf

theorem blockFrame_refl (Bs : List Nat) (em R : Nat) (m : Mem) : BlockFrame Bs em R m m :=
  ⟨rfl, fun _ _ _ => ⟨rfl, rfl⟩⟩

theorem blockFrame_trans {Bs : List Nat} {em R : Nat} {m1 m2 m3 : Mem}
    (h12 : BlockFrame Bs em R m1 m2) (h23 : BlockFrame Bs em R m2 m3) :
    BlockFrame Bs em R m1 m3 :=
  ⟨h23.1.trans h12.1, fun b hb hne =>
    ⟨(h23.2 b hb hne).1.trans (h12.2 b hb hne).1,
      (h23.2 b hb hne).2.trans (h12.2 b hb hne).2⟩⟩

/-- Writes to the size word of `R` and to the tail word of the arena are harmless. -/
theorem frame_size_tail {m m' : Mem} {em R : Nat} {F Bs : List Nat}
    (hL : BlockLayout m em F Bs) (hRB : R ∈ Bs)
    (hfr : ∀ x, x ≠ R → x ≠ em + 16 → m' x = m x) :
    BlockFrame Bs em R m m' ∧ LinksClosed m' F ∧
      (em_get_free_blocks m' em = 0 ∨ em_get_free_blocks m' em ∈ F) ∧
      (∀ x, (∀ f ∈ F, x ≠ f + 8 ∧ x ≠ f + 16 ∧ x ≠ f + 24) →
        (∀ b ∈ Bs, x ≠ b ∧ x ≠ b + 8) → x ≠ em + 16 → x ≠ em + 24 → m' x = m x) ∧
      get_is_free m' R = get_is_free m R := by
  have hA := hL.headers_apart
  have hRf := hL.blocks_fit R hRB
  refine ⟨⟨hfr _ (by omega) (by omega), ?_⟩, ?_, ?_,
    fun x _ hb h16 _ => hfr x (hb R hRB).1 h16,
    get_is_free_congr (hfr _ (by omega) (by omega))⟩
  · intro b hb hne
    have hbf := hL.blocks_fit b hb
    have hap := hA b hb R hRB hne
    exact ⟨hfr _ hne (by omega), get_is_free_congr (hfr _ (by omega) (by omega))⟩
  · apply linksClosed_of_eq hL.closed
    intro f hf
    have hfB := hL.free_in_blocks f hf
    have hbf := hL.blocks_fit f hfB
    by_cases e : f = R
    · subst e
      exact ⟨hfr _ (by omega) (by omega), hfr _ (by omega) (by omega)⟩
    · have hap := hA f hfB R hRB e
      exact ⟨hfr _ (by omega) (by omega), hfr _ (by omega) (by omega)⟩
  · rw [em_get_free_blocks_congr (hfr (em + 24) (by omega) (by omega))]
    exact hL.root_in

theorem merge_blocks_logic_cases (m : Mem) (em t s : Nat) :
    merge_blocks_logic m em t s =
        set_size m t (wadd (wadd (get_size m t) SIZEOF_BLOCK) (get_size m s)) ∨
      (merge_blocks_logic m em t s =
          set_prev (set_size m t (wadd (wadd (get_size m t) SIZEOF_BLOCK) (get_size m s)))
            ( next_block_unsafe
              (set_size m t (wadd (wadd (get_size m t) SIZEOF_BLOCK) (get_size m s))) t) t ∧
        is_block_in_active_part
            (set_size m t (wadd (wadd (get_size m t) SIZEOF_BLOCK) (get_size m s))) em
            ( next_block_unsafe
              (set_size m t (wadd (wadd (get_size m t) SIZEOF_BLOCK) (get_size m s))) t)
          = true) := by
  unfold merge_blocks_logic
  dsimp only
  rcases next_block_cases
      (set_size m t (wadd (wadd (get_size m t) SIZEOF_BLOCK) (get_size m s))) em t with h | h
  · left; rw [h]; rfl
  · by_cases h0 : next_block
        (set_size m t (wadd (wadd (get_size m t) SIZEOF_BLOCK) (get_size m s))) em t = 0
    · left; rw [h0]; rfl
    · right
      refine ⟨?_, h.2⟩
      have hb : (next_block
          (set_size m t (wadd (wadd (get_size m t) SIZEOF_BLOCK) (get_size m s))) em t
            != 0) = true := by simpa using h0
      rw [if_pos hb, h.1]


/-- The look at the next block keeps the other blocks and the tree closed. -/
theorem free_look_next_spec {m : Mem} {em R : Nat} {F Bs : List Nat}
    (hL : BlockLayout m em F Bs) (hR : R ∈ F) :
    ∃ mS v, free_look_next m em R = (mS, v) ∧ (v = 0 ∨ v = R) ∧
      BlockFrame Bs em R m mS ∧ LinksClosed mS F ∧
      (em_get_free_blocks mS em = 0 ∨ em_get_free_blocks mS em ∈ F) ∧
      (∀ x, (∀ f ∈ F, x ≠ f + 8 ∧ x ≠ f + 16 ∧ x ≠ f + 24) →
        (∀ b ∈ Bs, x ≠ b ∧ x ≠ b + 8) → x ≠ em + 16 → x ≠ em + 24 → mS x = m x) ∧
      get_is_free mS R = get_is_free m R ∧
      (R ≠ em_get_tail m em →
        (next_block m em R = em_get_tail m em → em_get_tail mS em = R ∧ v = 0) ∧
        (next_block m em R ≠ em_get_tail m em →
          mS (em + 16) = m (em + 16) ∧ v = R ∧
          R + 32 + get_size mS R ≤ em + em_get_capacity m em ∧
          (is_block_in_active_part mS em ( next_block_unsafe mS R) = true →
            next_block_unsafe mS R ∈ Bs))) := by
  have hRB := hL.free_in_blocks R hR
  have hA := hL.headers_apart
  have hAF := hL.tree_apart
  have hRf := hL.blocks_fit R hRB
  have hfits := hL.arena_fits
  have hcap : em_get_capacity m em < 2305843009213693952 := by
    have := hL.header_word
    unfold em_get_capacity get_size
    rw [Nat.shiftRight_eq_div_pow]
    omega
  unfold free_look_next
  dsimp only
  by_cases h1 : R = em_get_tail m em
  · rw [if_pos h1]
    obtain ⟨f1, f2, f3, f4, f5⟩ := @frame_size_tail m (set_size m R 0) em R F Bs hL hRB
      (fun x hx _ => set_size_ne m _ _ hx)
    exact ⟨_, _, rfl, Or.inl rfl, f1, f2, f3, f4, f5, fun h => absurd h1 h⟩
  rw [if_neg h1]
  by_cases h2 : next_block m em R = em_get_tail m em
  · rw [if_pos h2]
    obtain ⟨f1, f2, f3, f4, f5⟩ := @frame_size_tail m (em_set_tail (set_size m R 0) em R)
      em R F Bs hL hRB
      (fun x hx hx2 => by rw [em_set_tail_ne _ _ _ hx2, set_size_ne m _ _ hx])
    refine ⟨_, _, rfl, Or.inl rfl, f1, f2, f3, f4, f5,
      fun _ => ⟨fun _ => ⟨?_, rfl⟩, fun h => absurd h2 h⟩⟩
    unfold em_get_tail
    rw [em_set_tail_eq]
    have e1 : wnot TAIL_MASK = 3 := by decide
    rw [e1]
    exact tagged_ptr _ _ hRf.2.1 (by omega)
  rw [if_neg h2]
  by_cases h3 : (next_block m em R != 0 && get_is_free m (next_block m em R)) = true
  swap
  · rw [if_neg h3]
    exact ⟨_, _, rfl, Or.inr rfl, blockFrame_refl _ _ _ _, hL.closed, hL.root_in,
      fun _ _ _ _ _ => rfl, rfl,
      fun _ => ⟨fun h => absurd h h2,
        fun _ => ⟨rfl, rfl, hRf.2.2, fun h => hL.chain R hRB h⟩⟩⟩
  rw [if_pos h3]
  refine ⟨_, _, rfl, Or.inr rfl, ?_⟩
  -- the next block `N` is a block of the list
  have hN0 : next_block m em R ≠ 0 := by
    simp only [Bool.and_eq_true, bne_iff_ne, ne_eq] at h3
    exact h3.1
  obtain ⟨N, hNd⟩ : ∃ N, N = next_block m em R := ⟨_, rfl⟩
  rw [← hNd] at hN0 ⊢
  have hNu : N = next_block_unsafe m R ∧
      is_block_in_active_part m em ( next_block_unsafe m R) = true := by
    rcases next_block_cases m em R with h | h
    · rw [← hNd] at h; exact absurd h hN0
    · rw [← hNd] at h; exact h
  have hNB : N ∈ Bs := by rw [hNu.1]; exact hL.chain R hRB hNu.2
  have hNf := hL.blocks_fit N hNB
  have hNval : N = R + 32 + get_size m R := by
    have hu : next_block_unsafe m R = (R + 32 + get_size m R) % 18446744073709551616 := by
      unfold next_block_unsafe block_data wadd
      simp only [WORD, SIZEOF_BLOCK]
      omega
    have hN1 := hNu.1
    rw [hu] at hN1
    omega
  -- the detachment of `N`
  have hdet := treeInv_detach_block_by_ptr hAF FUEL (em_get_free_blocks m em) N hN0
    hL.root_in (treeInv_refl hL.closed)
  obtain ⟨d, hdd⟩ : ∃ d, d = detach_block_by_ptr FUEL m (em_get_free_blocks m em) N :=
    ⟨_, rfl⟩
  rw [← hdd] at hdet ⊢
  have hw := treeFrame_words hL.free_in_blocks hA (fun b hb => (hL.blocks_fit b hb).1)
    hdet.1.1
  have hd2 := hL.node hdet.2
  obtain ⟨m1, hm1⟩ : ∃ x, x = em_set_free_blocks d.1 em d.2 := ⟨_, rfl⟩
  rw [← hm1]
  have hm1_ne : ∀ x, x ≠ em + 24 → m1 x = d.1 x := by
    intro x hx; rw [hm1]; exact em_set_free_blocks_ne _ _ _ hx
  have hm1R : m1 R = m R := by rw [hm1_ne _ (by omega), (hw.2 R hRB).1]
  have hm1N : m1 N = m N := by rw [hm1_ne _ (by omega), (hw.2 N hNB).1]
  have hm1root : em_get_free_blocks m1 em = d.2 := by
    rw [hm1]; exact em_get_free_blocks_set _ _ _ hd2.1 hd2.2.1
  obtain ⟨ns, hns⟩ : ∃ x, x = wadd (wadd (get_size m1 R) SIZEOF_BLOCK) (get_size m1 N) :=
    ⟨_, rfl⟩
  have hnsv : ns = get_size m R + 32 + get_size m N := by
    rw [hns, get_size_congr hm1R, get_size_congr hm1N]
    unfold wadd
    simp only [WORD, SIZEOF_BLOCK]
    omega
  obtain ⟨m2, hm2⟩ : ∃ x, x = set_size m1 R ns := ⟨_, rfl⟩
  have hm2_ne : ∀ x, x ≠ R → m2 x = m1 x := by
    intro x hx; rw [hm2]; exact set_size_ne _ _ _ hx
  have hm2size : get_size m2 R = ns := by
    rw [hm2]; unfold get_size; rw [set_size_eq]; exact size_word _ _ (by omega)
  have hXv0 : next_block_unsafe m2 R = next_block_unsafe m N := by
    unfold next_block_unsafe block_data
    rw [hm2size, hnsv]
    unfold wadd
    simp only [WORD, SIZEOF_BLOCK]
    omega
  -- facts about any memory that differs from `m2` at most in the `prev` word of a block
  have key : ∀ mS : Mem,
      (∀ x, (∀ b ∈ Bs, x ≠ b + 8) → mS x = m2 x) →
      (∀ b ∈ Bs, get_is_free mS b = get_is_free m2 b) →
      BlockFrame Bs em R m mS ∧ LinksClosed mS F ∧
        (em_get_free_blocks mS em = 0 ∨ em_get_free_blocks mS em ∈ F) ∧
        (∀ x, (∀ f ∈ F, x ≠ f + 8 ∧ x ≠ f + 16 ∧ x ≠ f + 24) →
          (∀ b ∈ Bs, x ≠ b ∧ x ≠ b + 8) → x ≠ em + 16 → x ≠ em + 24 → mS x = m x) ∧
        get_is_free mS R = get_is_free m R ∧
        (R ≠ em_get_tail m em →
          (N = em_get_tail m em → em_get_tail mS em = R ∧ R = 0) ∧
          (N ≠ em_get_tail m em →
            mS (em + 16) = m (em + 16) ∧ R = R ∧
            R + 32 + get_size mS R ≤ em + em_get_capacity m em ∧
            (is_block_in_active_part mS em ( next_block_unsafe mS R) = true →
              next_block_unsafe mS R ∈ Bs))) := by
    intro mS hfr hfl
    have notprev : ∀ x, x < em + 32 → ∀ b ∈ Bs, x ≠ b + 8 := by
      intro x hx b hb
      have := hL.blocks_fit b hb
      omega
    have hem0 : mS em = m em := by
      rw [hfr _ (notprev _ (by omega)), hm2_ne _ (by omega), hm1_ne _ (by omega)]
      exact hw.1 _ (by omega)
    have hem16 : mS (em + 16) = m (em + 16) := by
      rw [hfr _ (notprev _ (by omega)), hm2_ne _ (by omega), hm1_ne _ (by omega)]
      exact hw.1 _ (by omega)
    have hmSR : mS R = m2 R := by
      apply hfr
      intro c hc
      by_cases e : c = R
      · subst e; omega
      · have := hA c hc R hRB e
        omega
    refine ⟨⟨?_, ?_⟩, ?_, ?_, ?_, ?_, fun _ => ⟨fun h => absurd (hNd.symm.trans h) h2,
      fun _ => ⟨hem16, rfl, ?_, ?_⟩⟩⟩
    rotate_left 6
    · rw [get_size_congr hmSR, hm2size, hnsv]
      omega
    · intro hact
      rw [next_block_unsafe_congr hmSR, hXv0] at hact ⊢
      rw [is_block_in_active_part_congr hem0 hem16] at hact
      exact hL.chain N hNB hact
    · rw [hfr _ (notprev _ (by omega)), hm2_ne _ (by omega), hm1_ne _ (by omega)]
      exact hw.1 _ (by omega)
    · intro b hb hne
      have hbf := hL.blocks_fit b hb
      have hap := hA b hb R hRB hne
      refine ⟨?_, ?_⟩
      · rw [hfr _ ?_, hm2_ne _ hne, hm1_ne _ (by omega)]
        · exact (hw.2 b hb).1
        · intro c hc
          by_cases e : c = b
          · subst e; omega
          · have := hA c hc b hb e
            omega
      · rw [hfl b hb]
        have e1 : m2 (b + 8) = d.1 (b + 8) := by
          rw [hm2_ne _ (by omega), hm1_ne _ (by omega)]
        rw [get_is_free_congr e1]
        exact (hw.2 b hb).2
    · apply linksClosed_of_eq hdet.1.2
      intro f hf
      have hfB := hL.free_in_blocks f hf
      have hff := hL.blocks_fit f hfB
      have hne16 : ∀ b ∈ Bs, f + 16 ≠ b + 8 ∧ f + 24 ≠ b + 8 := by
        intro c hc
        by_cases e : c = f
        · subst e; omega
        · have := hA c hc f hfB e
          omega
      have hR16 : f + 16 ≠ R ∧ f + 24 ≠ R := by
        by_cases e : f = R
        · subst e; omega
        · have := hA f hfB R hRB e
          omega
      refine ⟨?_, ?_⟩
      · rw [hfr _ (fun c hc => (hne16 c hc).1), hm2_ne _ hR16.1, hm1_ne _ (by omega)]
      · rw [hfr _ (fun c hc => (hne16 c hc).2), hm2_ne _ hR16.2, hm1_ne _ (by omega)]
    · have e : mS (em + 24) = m1 (em + 24) := by
        rw [hfr _ (notprev _ (by omega)), hm2_ne _ (by omega)]
      rw [em_get_free_blocks_congr e, hm1root]
      exact hdet.2
    · intro x hxF hxB _ h24
      rw [hfr x (fun b hb => (hxB b hb).2), hm2_ne x (hxB R hRB).1, hm1_ne x h24]
      exact hdet.1.1.1 x hxF
    · rw [hfl R hRB]
      have e1 : m2 (R + 8) = d.1 (R + 8) := by
        rw [hm2_ne _ (by omega), hm1_ne _ (by omega)]
      rw [get_is_free_congr e1]
      exact (hw.2 R hRB).2
  rcases merge_blocks_logic_cases m1 em R N with h | h
  · rw [h, ← hns, ← hm2]
    exact key m2 (fun _ _ => rfl) (fun _ _ => rfl)
  · rw [← hns, ← hm2] at h
    rw [h.1]
    -- the block behind the merged block
    have hXv : next_block_unsafe m2 R = next_block_unsafe m N := by
      unfold next_block_unsafe block_data
      rw [hm2size, hnsv]
      unfold wadd
      simp only [WORD, SIZEOF_BLOCK]
      omega
    have hact : is_block_in_active_part m em ( next_block_unsafe m N) = true := by
      rw [← hXv, ← h.2]
      apply (is_block_in_active_part_congr _ _ _).symm
      · rw [hm2_ne _ (by omega), hm1_ne _ (by omega)]; exact hw.1 _ (by omega)
      · rw [hm2_ne _ (by omega), hm1_ne _ (by omega)]; exact hw.1 _ (by omega)
    have hXB : next_block_unsafe m2 R ∈ Bs := by
      rw [hXv]; exact hL.chain N hNB hact
    obtain ⟨X, hX⟩ : ∃ X, X = next_block_unsafe m2 R := ⟨_, rfl⟩
    rw [← hX] at hXB ⊢
    apply key
    · intro x hx
      exact set_prev_ne _ _ _ (hx X hXB)
    · intro b hb
      by_cases e : b = X
      · subst e
        unfold get_is_free
        rw [set_prev_eq]
        have e1 : wnot PREV_MASK = 3 := by decide
        rw [e1, tagged_flag1 _ _ hRf.2.1]
      · apply get_is_free_congr
        exact set_prev_ne _ _ _ (by omega)


/-- Insertion of the freed block keeps the arena header, the size words and the free
flags of all blocks. -/
theorem free_insert_spec {m mS : Mem} {em R v : Nat} {F Bs : List Nat}
    (hL : BlockLayout m em F Bs) (hR : R ∈ F) (hv : v = 0 ∨ v = R)
    (hc : LinksClosed mS F)
    (hr : em_get_free_blocks mS em = 0 ∨ em_get_free_blocks mS em ∈ F) :
    free_insert (mS, v) em em = mS em ∧
      (∀ b ∈ Bs, free_insert (mS, v) em b = mS b ∧
        get_is_free (free_insert (mS, v) em) b = get_is_free mS b) ∧
      (∀ x, (∀ f ∈ F, x ≠ f + 8 ∧ x ≠ f + 16 ∧ x ≠ f + 24) → x ≠ em + 24 →
        free_insert (mS, v) em x = mS x) := by
  unfold free_insert
  dsimp only
  by_cases h0 : (v != 0) = true
  swap
  · rw [if_neg h0]
    exact ⟨rfl, fun _ _ => ⟨rfl, rfl⟩, fun _ _ _ => rfl⟩
  rw [if_pos h0]
  have hvR : v = R := by
    rcases hv with h | h
    · subst h; simp at h0
    · exact h
  subst hvR
  have hins := treeInv_insert_block hL.tree_apart hR FUEL mS (em_get_free_blocks mS em) hr
    (treeInv_refl hc)
  obtain ⟨r, hrd⟩ : ∃ r, r = insert_block FUEL mS (em_get_free_blocks mS em) v := ⟨_, rfl⟩
  rw [← hrd] at hins ⊢
  have hw := treeFrame_words hL.free_in_blocks hL.headers_apart
    (fun b hb => (hL.blocks_fit b hb).1) hins.1.1
  refine ⟨?_, ?_, ?_⟩
  · rw [em_set_free_blocks_ne _ _ _ (by omega)]
    exact hw.1 _ (by omega)
  · intro b hb
    have hbf := hL.blocks_fit b hb
    refine ⟨?_, ?_⟩
    · rw [em_set_free_blocks_ne _ _ _ (by omega)]
      exact (hw.2 b hb).1
    · rw [get_is_free_congr (em_set_free_blocks_ne r.1 em r.2 (by omega))]
      exact (hw.2 b hb).2
  · intro x hxF h24
    rw [em_set_free_blocks_ne _ _ _ h24]
    exact hins.1.1.1 x hxF

/-- Freeing a block whose physical predecessor is occupied leaves every other block as
it was. -/
theorem em_free_block_full_frame {m : Mem} {em R : Nat} {F Bs : List Nat}
    (hL : BlockLayout m em F Bs) (hR : R ∈ F) (hfree : get_is_free m R = true)
    (hprev : get_prev m R = 0 ∨
      (get_prev m R ∈ Bs ∧ get_prev m R ≠ R ∧ get_is_free m (get_prev m R) = false)) :
    BlockFrame Bs em R m (em_free_block_full m em R) ∧
      (∀ x, (∀ f ∈ F, x ≠ f + 8 ∧ x ≠ f + 16 ∧ x ≠ f + 24) →
        (∀ b ∈ Bs, x ≠ b ∧ x ≠ b + 8) → x ≠ em + 16 → x ≠ em + 24 → em_free_block_full m em R x = m x) ∧
      get_is_free (em_free_block_full m em R) R = true := by
  have hRB := hL.free_in_blocks R hR
  have hA := hL.headers_apart
  have hRf := hL.blocks_fit R hRB
  have hscr : ¬ (get_is_in_scratch m R = true) := by
    unfold get_is_in_scratch
    rw [hfree]
    simp
  rw [em_free_block_full_eq, if_neg hscr]
  obtain ⟨hm1, hm2, hm3, hm4, hm5⟩ := free_mark_spec m R
  obtain ⟨ma, hma⟩ : ∃ x, x = free_mark m R := ⟨_, rfl⟩
  rw [← hma] at hm1 hm2 hm3 hm4 hm5 ⊢
  have hsame : ∀ b ∈ Bs, ma b = m b ∧ (b ≠ R → ma (b + 8) = m (b + 8)) := by
    intro b hb
    by_cases e : b = R
    · subst e
      exact ⟨hm1 _ (by omega) (by omega) (by omega), fun h => absurd rfl h⟩
    · have := hA b hb R hRB e
      exact ⟨hm1 _ (by omega) (by omega) (by omega),
        fun _ => hm1 _ (by omega) (by omega) (by omega)⟩
  have hLa : BlockLayout ma em F Bs := by
    apply hL.of_frame (hm1 _ (by omega) (by omega) (by omega))
      (hm1 _ (by omega) (by omega) (by omega)) (fun b hb => (hsame b hb).1)
    · intro f hf
      by_cases e : f = R
      · subst e
        rw [hm2, hm3]
        exact ⟨Or.inl rfl, Or.inl rfl⟩
      · have hfB := hL.free_in_blocks f hf
        have := hA f hfB R hRB e
        rw [hm1 (f + 16) (by omega) (by omega) (by omega),
          hm1 (f + 24) (by omega) (by omega) (by omega)]
        exact hL.closed f hf
    · rw [em_get_free_blocks_congr (hm1 (em + 24) (by omega) (by omega) (by omega))]
      exact hL.root_in
  have hfa : BlockFrame Bs em R m ma :=
    ⟨hm1 _ (by omega) (by omega) (by omega), fun b hb hne =>
      ⟨(hsame b hb).1, get_is_free_congr ((hsame b hb).2 hne)⟩⟩
  obtain ⟨mS, v, hs, hv, hbf, hcl, hrt, hwf, hRfree, _⟩ := free_look_next_spec hLa hR
  rw [hs, hm5]
  have hlp : free_look_prev (mS, v) em (get_prev m R) = (mS, v) := by
    unfold free_look_prev
    have hcnd : ¬ ((get_prev m R != 0 && get_is_free mS (get_prev m R)) = true) := by
      rcases hprev with h | h
      · rw [h]; simp
      · have e1 := (hbf.2 _ h.1 h.2.1).2
        have e2 := (hfa.2 _ h.1 h.2.1).2
        rw [e1, e2, h.2.2]
        simp
    rw [if_neg hcnd]
  rw [hlp]
  have hins := free_insert_spec hLa hR hv hcl hrt
  refine ⟨blockFrame_trans (blockFrame_trans hfa hbf)
    ⟨hins.1, fun b hb _ => hins.2.1 b hb⟩, ?_, ?_⟩
  · intro x hxF hxB h16 h24
    rw [hins.2.2 x hxF h24, hwf x hxF hxB h16 h24]
    have := hxF R hR
    exact hm1 x this.1 this.2.1 this.2.2
  · rw [(hins.2.1 R hRB).2, hRfree]
    exact hm4


/-- The layout after `split_block` has carved the remainder block `R` out of `B`. -/
theorem split_carve_spec {m : Mem} {em B needed : Nat} {F Bs : List Nat}
    (hL : BlockLayout m em F Bs) (hB : B ∈ Bs) (hBocc : get_is_free m B = false)
    (hn4 : needed % 4 = 0) (hlt : needed < get_size m B)
    (h48 : 48 ≤ get_size m B - needed) :
    ∃ mc, split_carve m em B needed = mc ∧
      next_block_unsafe (set_size m B needed) B = B + 32 + needed ∧
      BlockLayout mc em ((B + 32 + needed) :: F) ((B + 32 + needed) :: Bs) ∧
      get_is_free mc (B + 32 + needed) = true ∧ get_prev mc (B + 32 + needed) = B ∧
      get_is_free mc B = false ∧ get_size mc B = needed ∧ mc em = m em ∧
      (∀ x, x ≠ B → (x < B + 32 + needed ∨ B + 32 + needed + 32 ≤ x) →
        (∀ b ∈ Bs, x ≠ b + 8) → mc x = m x) ∧
      mc (em + 16) = m (em + 16) ∧ (∀ b ∈ Bs, get_is_free mc b = get_is_free m b) ∧
      get_size mc (B + 32 + needed) = get_size m B - needed - 32 ∧
      (is_block_in_active_part m em ( next_block_unsafe m B) = true →
        get_prev mc ( next_block_unsafe m B) = B + 32 + needed) := by
  have hA := hL.headers_apart
  have hBf := hL.blocks_fit B hB
  have hfits := hL.arena_fits
  have hcap : em_get_capacity m em < 2305843009213693952 := by
    have := hL.header_word
    unfold em_get_capacity get_size
    rw [Nat.shiftRight_eq_div_pow]
    omega
  obtain ⟨full, hfull⟩ : ∃ x, x = get_size m B := ⟨_, rfl⟩
  rw [← hfull] at hlt h48 hBf
  obtain ⟨R, hRd⟩ : ∃ x, x = B + 32 + needed := ⟨_, rfl⟩
  rw [← hRd]
  -- other blocks lie outside the extent of `B`
  have hout : ∀ b ∈ Bs, b ≠ B → b + 32 + get_size m b ≤ B ∨ B + 32 + full ≤ b := by
    intro b hb hne
    have := hL.blocks_apart b hb B hB hne
    rw [← hfull] at this
    exact this
  have hRnot : R ∉ Bs := by
    intro hRB
    have := hout R hRB (by omega)
    omega
  -- step 1: the size of `B`
  obtain ⟨ma, hma⟩ : ∃ x, x = set_size m B needed := ⟨_, rfl⟩
  have hma_ne : ∀ x, x ≠ B → ma x = m x := by
    intro x hx; rw [hma]; exact set_size_ne _ _ _ hx
  have hma_size : get_size ma B = needed := by
    rw [hma]; unfold get_size; rw [set_size_eq]; exact size_word _ _ (by omega)
  have hRu : next_block_unsafe ma B = R := by
    unfold next_block_unsafe block_data
    rw [hma_size]
    unfold wadd
    simp only [WORD, SIZEOF_BLOCK]
    omega
  -- step 2: the header of `R`
  have hcb := create_block_spec ma R
  obtain ⟨mb, hmb⟩ : ∃ x, x = create_block ma R := ⟨_, rfl⟩
  rw [← hmb] at hcb
  obtain ⟨mp, hmp⟩ : ∃ x, x = set_prev mb R B := ⟨_, rfl⟩
  have hsub : wsub (wsub full needed) SIZEOF_BLOCK = full - needed - 32 := by
    unfold wsub; simp only [WORD, SIZEOF_BLOCK]; omega
  obtain ⟨md, hmd⟩ : ∃ x, x = set_size mp R (full - needed - 32) := ⟨_, rfl⟩
  have hmd_ne : ∀ x, (x < R ∨ R + 32 ≤ x) → x ≠ B → md x = m x := by
    intro x hx hxB
    rw [hmd, set_size_ne _ _ _ (by omega), hmp, set_prev_ne _ _ _ (by omega),
      hcb.2.2.2.2.2.2 x (by omega) (by omega) (by omega) (by omega), hma_ne _ hxB]
  have hmd_B : md B = ma B := by
    rw [hmd, set_size_ne _ _ _ (by omega), hmp, set_prev_ne _ _ _ (by omega),
      hcb.2.2.2.2.2.2 B (by omega) (by omega) (by omega) (by omega)]
  have hmd_R8 : md (R + 8) = (B ||| (mb (R + 8) &&& 3)) := by
    rw [hmd, set_size_ne _ _ _ (by omega), hmp, set_prev_eq]
    rfl
  have hmd_R16 : md (R + 16) = 0 := by
    rw [hmd, set_size_ne _ _ _ (by omega), hmp, set_prev_ne _ _ _ (by omega)]
    exact hcb.2.2.2.2.1
  have hmd_R24 : md (R + 24) = 0 := by
    rw [hmd, set_size_ne _ _ _ (by omega), hmp, set_prev_ne _ _ _ (by omega)]
    exact hcb.2.2.2.2.2.1
  have hmd_sizeR : get_size md R = full - needed - 32 := by
    rw [hmd]; unfold get_size; rw [set_size_eq]; exact size_word _ _ (by omega)
  have hmd_freeR : get_is_free md R = true := by
    unfold get_is_free
    rw [hmd_R8, tagged_flag1 _ _ hBf.2.1]
    exact hcb.2.1
  have hmd_prevR : get_prev md R = B := by
    unfold get_prev
    rw [hmd_R8]
    exact tagged_ptr _ _ hBf.2.1 (by omega)
  -- step 3: the block behind `R`
  have hXu : next_block_unsafe md R = next_block_unsafe m B := by
    unfold next_block_unsafe block_data
    rw [hmd_sizeR, ← hfull]
    unfold wadd
    simp only [WORD, SIZEOF_BLOCK]
    omega
  have hact : ∀ x, is_block_in_active_part md em x = is_block_in_active_part m em x :=
    is_block_in_active_part_congr (hmd_ne _ (by omega) (by omega))
      (hmd_ne _ (by omega) (by omega))
  -- facts about any memory that differs from `md` at most in the `prev` word of a block
  have key : ∀ mc : Mem,
      (∀ x, (∀ b ∈ Bs, x ≠ b + 8) → mc x = md x) →
      (∀ b ∈ Bs, get_is_free mc b = get_is_free md b) →
      (is_block_in_active_part m em ( next_block_unsafe m B) = true →
        get_prev mc ( next_block_unsafe m B) = R) →
      BlockLayout mc em (R :: F) (R :: Bs) ∧
        get_is_free mc R = true ∧ get_prev mc R = B ∧
        get_is_free mc B = false ∧ get_size mc B = needed ∧ mc em = m em ∧
        (∀ x, x ≠ B → (x < R ∨ R + 32 ≤ x) → (∀ b ∈ Bs, x ≠ b + 8) → mc x = m x) ∧
        mc (em + 16) = m (em + 16) ∧ (∀ b ∈ Bs, get_is_free mc b = get_is_free m b) ∧
        get_size mc R = get_size m B - needed - 32 ∧
        (is_block_in_active_part m em ( next_block_unsafe m B) = true →
          get_prev mc ( next_block_unsafe m B) = R) := by
    intro mc hfr hfl hpx
    have notprev : ∀ x, x < em + 32 → ∀ b ∈ Bs, x ≠ b + 8 := by
      intro x hx b hb
      have := hL.blocks_fit b hb
      omega
    have notprevR : ∀ x, R ≤ x → x < R + 32 → ∀ b ∈ Bs, x ≠ b + 8 := by
      intro x hx1 hx2 b hb
      by_cases e : b = B
      · subst e; omega
      · have := hout b hb e
        omega
    have notprevB : ∀ b ∈ Bs, ∀ c ∈ Bs, b ≠ c + 8 := by
      intro b hb c hc
      by_cases e : c = b
      · subst e; omega
      · have := hA c hc b hb e
        omega
    have h_em : mc em = m em := by
      rw [hfr _ (notprev _ (by omega))]; exact hmd_ne _ (by omega) (by omega)
    have h_16 : mc (em + 16) = m (em + 16) := by
      rw [hfr _ (notprev _ (by omega))]; exact hmd_ne _ (by omega) (by omega)
    have h_24 : mc (em + 24) = m (em + 24) := by
      rw [hfr _ (notprev _ (by omega))]; exact hmd_ne _ (by omega) (by omega)
    have hcapc : em_get_capacity mc em = em_get_capacity m em := get_size_congr h_em
    have h_sizeB : get_size mc B = needed := by
      have : mc B = ma B := by rw [hfr _ (notprevB B hB), hmd_B]
      rw [get_size_congr this, hma_size]
    have h_sizeR : get_size mc R = full - needed - 32 := by
      have : mc R = md R := hfr _ (notprevR _ (by omega) (by omega))
      rw [get_size_congr this, hmd_sizeR]
    have h_size : ∀ b ∈ Bs, b ≠ B → get_size mc b = get_size m b := by
      intro b hb hne
      have := hout b hb hne
      have e : mc b = m b := by
        rw [hfr _ (notprevB b hb)]; exact hmd_ne _ (by omega) hne
      exact get_size_congr e
    have h_actc : ∀ x, is_block_in_active_part mc em x = is_block_in_active_part m em x :=
      is_block_in_active_part_congr h_em h_16
    have h_freeR : get_is_free mc R = true := by
      have : mc (R + 8) = md (R + 8) := hfr _ (notprevR _ (by omega) (by omega))
      rw [get_is_free_congr this, hmd_freeR]
    have h_prevR : get_prev mc R = B := by
      have : mc (R + 8) = md (R + 8) := hfr _ (notprevR _ (by omega) (by omega))
      rw [get_prev_congr this, hmd_prevR]
    have h_freeB : get_is_free mc B = false := by
      rw [hfl B hB]
      have : md (B + 8) = m (B + 8) := hmd_ne _ (by omega) (by omega)
      rw [get_is_free_congr this, hBocc]
    have h_flags : ∀ b ∈ Bs, get_is_free mc b = get_is_free m b := by
      intro b hb
      rw [hfl b hb]
      apply get_is_free_congr
      by_cases e : b = B
      · subst e
        exact hmd_ne _ (by omega) (by omega)
      · have := hout b hb e
        exact hmd_ne _ (by omega) (by omega)
    refine ⟨⟨?_, ?_, ?_, ?_, ?_, ?_, ?_, ?_⟩, h_freeR, h_prevR, h_freeB, h_sizeB, h_em,
      fun x hxB hxR hxp => (hfr x hxp).trans (hmd_ne x hxR hxB), h_16, h_flags,
      by rw [h_sizeR, hfull], hpx⟩
    · rw [h_em]; exact hL.header_word
    · rw [hcapc]; exact hfits
    · intro f hf
      rcases List.mem_cons.mp hf with e | e
      · rw [e]; exact List.mem_cons_self _ _
      · exact List.mem_cons_of_mem _ (hL.free_in_blocks f e)
    · intro b hb
      rw [hcapc]
      rcases List.mem_cons.mp hb with e | e
      · rw [e, h_sizeR]; omega
      · by_cases eB : b = B
        · rw [eB, h_sizeB]; omega
        · rw [h_size b e eB]; exact hL.blocks_fit b e
    · intro a ha b hb hab
      rcases List.mem_cons.mp ha with ea | ea <;> rcases List.mem_cons.mp hb with eb | eb
      · exact absurd (ea.trans eb.symm) hab
      · rw [ea, h_sizeR]
        by_cases eB : b = B
        · rw [eB, h_sizeB]; omega
        · rw [h_size b eb eB]
          have := hout b eb eB
          omega
      · rw [eb, h_sizeR]
        by_cases eB : a = B
        · rw [eB, h_sizeB]; omega
        · rw [h_size a ea eB]
          have := hout a ea eB
          omega
      · have hm := hL.blocks_apart a ea b eb hab
        by_cases eA : a = B
        · have eB : b ≠ B := fun e => hab (eA.trans e.symm)
          rw [h_size b eb eB, eA, h_sizeB]
          rw [eA, ← hfull] at hm
          omega
        · by_cases eB : b = B
          · rw [h_size a ea eA, eB, h_sizeB]
            rw [eB, ← hfull] at hm
            omega
          · rw [h_size a ea eA, h_size b eb eB]; exact hm
    · intro b hb hact2
      rw [h_actc] at hact2
      rcases List.mem_cons.mp hb with e | e
      · apply List.mem_cons_of_mem
        have hu : next_block_unsafe mc b = next_block_unsafe m B := by
          rw [e, ← hXu]
          exact next_block_unsafe_congr (hfr _ (notprevR _ (by omega) (by omega)))
        rw [hu] at hact2 ⊢
        exact hL.chain B hB hact2
      · by_cases eB : b = B
        · have hu : next_block_unsafe mc b = R := by
            rw [eB, ← hRu]
            apply next_block_unsafe_congr
            rw [hfr _ (notprevB B hB), hmd_B]
          rw [hu]; exact List.mem_cons_self _ _
        · apply List.mem_cons_of_mem
          have hu : next_block_unsafe mc b = next_block_unsafe m b := by
            have := hout b e eB
            apply next_block_unsafe_congr
            rw [hfr _ (notprevB b e)]; exact hmd_ne _ (by omega) eB
          rw [hu] at hact2 ⊢
          exact hL.chain b e hact2
    · intro f hf
      rcases List.mem_cons.mp hf with e | e
      · rw [e, hfr _ (notprevR _ (by omega) (by omega)),
          hfr _ (notprevR _ (by omega) (by omega)), hmd_R16, hmd_R24]
        exact ⟨Or.inl rfl, Or.inl rfl⟩
      · have hfB := hL.free_in_blocks f e
        have hff := hL.blocks_fit f hfB
        have hnp : ∀ b ∈ Bs, f + 16 ≠ b + 8 ∧ f + 24 ≠ b + 8 := by
          intro c hc
          by_cases e2 : c = f
          · subst e2; omega
          · have := hA c hc f hfB e2
            omega
        have hpos : (f + 16 < R ∨ R + 32 ≤ f + 16) ∧ (f + 24 < R ∨ R + 32 ≤ f + 24) ∧
            f + 16 ≠ B ∧ f + 24 ≠ B := by
          by_cases eB : f = B
          · subst eB; omega
          · have := hout f hfB eB
            have := hA f hfB B hB eB
            omega
        rw [hfr _ (fun c hc => (hnp c hc).1), hfr _ (fun c hc => (hnp c hc).2),
          hmd_ne _ hpos.1 hpos.2.2.1, hmd_ne _ hpos.2.1 hpos.2.2.2]
        have hcl := hL.closed f e
        exact ⟨hcl.1.imp id (List.mem_cons_of_mem _),
          hcl.2.imp id (List.mem_cons_of_mem _)⟩
    · rw [em_get_free_blocks_congr h_24]
      exact hL.root_in.imp id (List.mem_cons_of_mem _)
  -- assemble
  have hsc : split_carve m em B needed =
      if (next_block md em R != 0) = true then set_prev md (next_block md em R) R
      else md := by
    unfold split_carve
    dsimp only
    rw [← hfull, ← hma, hRu, ← hmb, ← hmp, hsub, ← hmd]
  rw [hsc, ← hma, hRu]
  have hnx : is_block_in_active_part m em ( next_block_unsafe m B) = true →
      next_block md em R ≠ 0 := by
    intro ha
    have hXB := hL.blocks_fit _ (hL.chain B hB ha)
    have e : next_block md em R = next_block_unsafe m B := by
      unfold next_block
      dsimp only
      rw [hXu, hact, ha]
      rfl
    rw [e]
    omega
  rcases next_block_cases md em R with h | h
  · rw [h]
    exact ⟨_, rfl, rfl, key md (fun _ _ => rfl) (fun _ _ => rfl)
      (fun ha => absurd h (hnx ha))⟩
  · by_cases h0 : next_block md em R = 0
    · rw [h0]
      exact ⟨_, rfl, rfl, key md (fun _ _ => rfl) (fun _ _ => rfl)
        (fun ha => absurd h0 (hnx ha))⟩
    · have hb : (next_block md em R != 0) = true := by simpa using h0
      rw [if_pos hb, h.1]
      have hXB : next_block_unsafe md R ∈ Bs := by
        rw [hXu]
        apply hL.chain B hB
        rw [← hXu, ← hact]
        exact h.2
      obtain ⟨X, hX⟩ : ∃ X, X = next_block_unsafe md R := ⟨_, rfl⟩
      rw [← hX] at hXB ⊢
      refine ⟨_, rfl, rfl, key _ ?_ ?_ ?_⟩
      · intro x hx
        exact set_prev_ne _ _ _ (hx X hXB)
      · intro b hb2
        by_cases e : b = X
        · subst e
          unfold get_is_free
          rw [set_prev_eq]
          have e1 : wnot PREV_MASK = 3 := by decide
          have hR4 : R % 4 = 0 := by omega
          rw [e1, tagged_flag1 _ _ hR4]
        · apply get_is_free_congr
          exact set_prev_ne _ _ _ (by omega)
      · intro _
        rw [← hXu, ← hX]
        unfold get_prev
        rw [set_prev_eq]
        have e1 : wnot PREV_MASK = 3 := by decide
        rw [e1]
        exact tagged_ptr _ _ (by omega) (by omega)


/-- `split_block` leaves the block occupied and large enough. -/
theorem split_block_keeps {m : Mem} {em B needed total : Nat} {F Bs : List Nat}
    (hL : BlockLayout m em F Bs) (hB : B ∈ Bs) (hBocc : get_is_free m B = false)
    (hn4 : needed % 4 = 0) (ht : total ≤ needed) (hn : total ≤ get_size m B) :
    ∃ mS, split_block m em B needed = mS ∧ get_is_free mS B = false ∧
      total ≤ get_size mS B ∧ mS em = m em := by
  have hBf := hL.blocks_fit B hB
  have hfits := hL.arena_fits
  rw [split_block_eq]
  by_cases hc : (decide (get_size m B > needed) &&
      decide (wsub (get_size m B) needed ≥ BLOCK_MIN_SIZE)) = true
  swap
  · rw [if_neg hc]
    exact ⟨m, rfl, hBocc, hn, rfl⟩
  rw [if_pos hc]
  simp only [Bool.and_eq_true, decide_eq_true_eq, gt_iff_lt, ge_iff_le] at hc
  have h48 : 48 ≤ get_size m B - needed := by
    have h2 := hc.2
    unfold wsub at h2
    simp only [WORD, BLOCK_MIN_SIZE, SIZEOF_BLOCK, EM_MIN_BUFFER_SIZE] at h2
    omega
  obtain ⟨mc, hmc, hRu, hLc, hfR, hpR, hfB, hsB, hcem, _⟩ :=
    split_carve_spec hL hB hBocc hn4 hc.1 h48
  rw [hmc, hRu]
  have hprev : get_prev mc (B + 32 + needed) = 0 ∨
      (get_prev mc (B + 32 + needed) ∈ (B + 32 + needed) :: Bs ∧
        get_prev mc (B + 32 + needed) ≠ B + 32 + needed ∧
        get_is_free mc (get_prev mc (B + 32 + needed)) = false) := by
    rw [hpR]
    exact Or.inr ⟨List.mem_cons_of_mem _ hB, by omega, hfB⟩
  have hfr := (em_free_block_full_frame hLc (List.mem_cons_self _ _) hfR hprev).1
  have hk := hfr.2 B (List.mem_cons_of_mem _ hB) (by omega)
  refine ⟨_, rfl, ?_, ?_, ?_⟩
  · rw [hk.2]; exact hfB
  · rw [get_size_congr hk.1, hsB]; exact ht
  · rw [hfr.1]; exact hcem

/-- The last writes of `alloc_in_free_blocks` on the block that was found. -/
theorem stamp_found_spec (mS : Mem) (B em p pad : Nat) (hp : p = B + 32 + pad)
    (hB4 : B % 4 = 0) (hplt : p < 18446744073709551616) :
    ∃ mF, set_color (set_magic (set_em
        (if pad > 0 then mS.write (wsub p WORD_SIZE) (B ^^^ p) else mS) B em) B p) B RED
        = mF ∧
      get_size mF B = get_size mS B ∧ get_is_free mF B = get_is_free mS B ∧
      get_em mF B = em ∧ is_valid_magic mF B p = true ∧ recovered_header mF p = B ∧
      (∀ x, x < B → mF x = mS x) := by
  have hspot : pad > 0 → wsub p WORD_SIZE = p - 8 := by
    intro h; unfold wsub; simp only [WORD, WORD_SIZE]; omega
  refine ⟨_, rfl, ?_, ?_, ?_, ?_, ?_, ?_⟩
  · by_cases hp0 : pad > 0
    · simp (disch := omega) only [get_size, if_pos hp0, hspot hp0, set_color_ne,
        set_magic_ne, set_em_ne, Mem.write_ne]
    · simp (disch := omega) only [get_size, if_neg hp0, set_color_ne, set_magic_ne,
        set_em_ne]
  · by_cases hp0 : pad > 0
    · simp (disch := omega) only [get_is_free, if_pos hp0, hspot hp0, set_color_eq,
        set_magic_ne, set_em_ne, Mem.write_ne, Bool.false_eq_true, if_false,
        is_free_color_clear]
    · simp (disch := omega) only [get_is_free, if_neg hp0, set_color_eq, set_magic_ne,
        set_em_ne, Bool.false_eq_true, if_false, is_free_color_clear]
  · simp (disch := omega) only [get_em, set_color_ne, set_magic_ne, set_em_eq]
  · simp (disch := omega) only [is_valid_magic, get_magic, set_color_ne, set_magic_eq]
    rw [Nat.xor_assoc, Nat.xor_self, Nat.xor_zero]
    exact beq_self_eq_true _
  · by_cases hp0 : pad > 0
    · apply recovered_header_padded _ _ _ _ hB4
      simp (disch := omega) only [if_pos hp0, hspot hp0, set_color_ne, set_magic_ne,
        set_em_ne, Mem.write_eq]
    · apply recovered_header_direct _ _ _ _ (by omega) hplt
      simp (disch := omega) only [is_valid_magic, get_magic, set_color_ne, set_magic_eq]
      rw [Nat.xor_assoc, Nat.xor_self, Nat.xor_zero]
      exact beq_self_eq_true _
  · intro x hx
    by_cases hp0 : pad > 0
    · simp (disch := omega) only [if_pos hp0, hspot hp0, set_color_ne, set_magic_ne,
        set_em_ne, Mem.write_ne]
    · simp (disch := omega) only [if_neg hp0, set_color_ne, set_magic_ne, set_em_ne]


/-- An allocation from the free tree either finds no block and leaves the memory as it
is, or stamps a block that holds the requested range. -/
theorem alloc_in_free_blocks_spec {m : Mem} {em size a : Nat} {F Bs : List Nat}
    (hL : BlockLayout m em F Bs) (hw : m (em + 24) < 18446744073709551616)
    (hsz : 0 < size) (hcap : size ≤ em_get_capacity m em) (ha : ValidAlignment a) :
    alloc_in_free_blocks m em size a = (m, 0) ∨
      ∃ mF p h, alloc_in_free_blocks m em size a = (mF, p) ∧ p ≠ 0 ∧ p % a = 0 ∧
        get_is_free mF h = false ∧ get_em mF h = em ∧ is_valid_magic mF h p = true ∧
        recovered_header mF p = h ∧ block_data h ≤ p ∧
        p + size ≤ block_data h + get_size mF h ∧
        mF em = m em ∧ h + 32 ≤ p ∧ h ∈ Bs ∧ p + size ≤ h + 32 + get_size m h := by
  by_cases hnone : (find_best_fit FUEL m (em_get_free_blocks m em) size a).1 = 0
  · left; exact alloc_in_free_blocks_none m em size a hw hnone
  right
  have hA := hL.headers_apart
  have hAF := hL.tree_apart
  have hfits := hL.arena_fits
  have hcapb : em_get_capacity m em < 2305843009213693952 := by
    have := hL.header_word
    unfold em_get_capacity get_size
    rw [Nat.shiftRight_eq_div_pow]
    omega
  have hspec := find_best_fit_spec hL.closed size a FUEL (em_get_free_blocks m em) hL.root_in
  obtain ⟨bf, hbfd⟩ : ∃ x, x = find_best_fit FUEL m (em_get_free_blocks m em) size a :=
    ⟨_, rfl⟩
  rw [← hbfd] at hspec hnone
  obtain ⟨B, hBd⟩ : ∃ x, x = bf.1 := ⟨_, rfl⟩
  rw [← hBd] at hspec hnone
  have hBF : B ∈ F := (hspec.1.resolve_left hnone).1
  have hFit : Fits m size a B := (hspec.1.resolve_left hnone).2
  have hBB := hL.free_in_blocks B hBF
  have hBf := hL.blocks_fit B hBB
  have hroot0 : em_get_free_blocks m em ≠ 0 := by
    intro h0
    apply hnone
    rw [hBd, hbfd, h0]
    rfl
  -- the detachment
  have hdet := treeInv_detach_block_fast hAF FUEL (em_get_free_blocks m em) bf.2 hBF
    hL.root_in hspec.2 (treeInv_refl hL.closed)
  obtain ⟨d, hdd⟩ : ∃ x, x = detach_block_fast FUEL m (em_get_free_blocks m em) B bf.2 :=
    ⟨_, rfl⟩
  rw [← hdd] at hdet
  have hfd : find_and_detach_block FUEL m (em_get_free_blocks m em) size a =
      (d.1, d.2, B) := by
    unfold find_and_detach_block
    rw [if_neg hroot0]
    dsimp only
    rw [← hbfd, ← hBd]
    have hb : (B != 0) = true := by simpa using hnone
    rw [if_pos hb, ← hdd]
  have hwd := treeFrame_words hL.free_in_blocks hA (fun b hb => (hL.blocks_fit b hb).1)
    hdet.1.1
  have hd2 := hL.node hdet.2
  obtain ⟨m1, hm1⟩ : ∃ x, x = set_is_free (em_set_free_blocks d.1 em d.2) B false :=
    ⟨_, rfl⟩
  have hm1_ne : ∀ x, x ≠ B + 8 → x ≠ em + 24 → m1 x = d.1 x := by
    intro x h1 h2
    rw [hm1, set_is_free_ne _ _ _ h1, em_set_free_blocks_ne _ _ _ h2]
  have hm1_free : get_is_free m1 B = false := by
    rw [hm1]
    unfold get_is_free
    rw [set_is_free_eq]
    simp only [Bool.false_eq_true, if_false, is_free_clear]
    rfl
  have hm1_sz : ∀ b ∈ Bs, m1 b = m b := by
    intro b hb
    have hbf := hL.blocks_fit b hb
    have hne : b ≠ B + 8 := by
      by_cases e : b = B
      · subst e; omega
      · have := hA b hb B hBB e
        omega
    rw [hm1_ne _ hne (by omega)]
    exact (hwd.2 b hb).1
  have hL1 : BlockLayout m1 em F Bs := by
    apply hL.of_frame
    · rw [hm1_ne _ (by omega) (by omega)]; exact hwd.1 _ (by omega)
    · rw [hm1_ne _ (by omega) (by omega)]; exact hwd.1 _ (by omega)
    · exact hm1_sz
    · apply linksClosed_of_eq hdet.1.2
      intro f hf
      have hfB := hL.free_in_blocks f hf
      have hff := hL.blocks_fit f hfB
      have hne : f + 16 ≠ B + 8 ∧ f + 24 ≠ B + 8 := by
        by_cases e : f = B
        · subst e; omega
        · have := hA f hfB B hBB e
          omega
      exact ⟨hm1_ne _ hne.1 (by omega), hm1_ne _ hne.2 (by omega)⟩
    · have e : m1 (em + 24) = em_set_free_blocks d.1 em d.2 (em + 24) := by
        rw [hm1, set_is_free_ne _ _ _ (by omega)]
      rw [em_get_free_blocks_congr e, em_get_free_blocks_set _ _ _ hd2.1 hd2.2.1]
      exact hdet.2
  -- the address arithmetic
  have hsz2 : size ≤ get_size m B := hFit.1
  have hbd : block_data B = B + 32 := by
    unfold block_data wadd; simp only [WORD, SIZEOF_BLOCK]; omega
  have hsp := align_up_spec (block_data B) a ha (by rw [hbd]; simp only [WORD]; omega)
  obtain ⟨pad, hpad⟩ : ∃ x, x = wsub (align_up (block_data B) a) (block_data B) :=
    ⟨_, rfl⟩
  unfold Fits at hFit
  rw [← hpad] at hsp hFit
  have ha8 : a ≤ 2048 := by
    simp only [ValidAlignment, List.mem_cons, List.mem_singleton, List.not_mem_nil,
      or_false] at ha
    omega
  have hpadlt : pad < a := hsp.2.2.1
  obtain ⟨full, hfull⟩ : ∃ x, x = get_size m B := ⟨_, rfl⟩
  rw [← hfull] at hFit hBf
  have hws : wadd size pad = size + pad := by
    unfold wadd; simp only [WORD]; omega
  have htot : wadd pad size = pad + size := by
    unfold wadd; simp only [WORD]; omega
  rw [hws] at hFit
  have hp : align_up (block_data B) a = B + 32 + pad := by
    rw [hsp.2.2.2.2 (by rw [hbd]; simp only [WORD]; omega), hbd]
  have hpa : (B + 32 + pad) % a = 0 := by
    have h1 := hsp.2.1
    rw [hp] at h1; exact h1
  have hv8 : ValidAlignment 8 := by decide
  have hsp8 := align_up_spec (pad + size) 8 hv8 (by simp only [WORD]; omega)
  obtain ⟨needed, hneeded⟩ : ∃ x, x = align_up (pad + size) WORD_SIZE := ⟨_, rfl⟩
  have hneeded2 : needed = align_up (pad + size) 8 := hneeded
  rw [← hneeded2] at hsp8
  have hn_ge : pad + size ≤ needed ∧ needed % 4 = 0 := by
    have h1 := hsp8.2.1
    have h2 := hsp8.2.2.1
    have h3 := hsp8.2.2.2.2
    have h4 := hsp8.1
    generalize wsub needed (pad + size) = w at *
    simp only [WORD] at h3
    omega
  have hfull1 : get_size m1 B = full := by
    rw [get_size_congr (hm1_sz B hBB), hfull]
  obtain ⟨mS, hmS, hSfree, hSsize, hSem⟩ :=
    split_block_keeps hL1 hBB hm1_free hn_ge.2 hn_ge.1 (by rw [hfull1]; omega)
  obtain ⟨mF, hmF, hF1, hF2, hF3, hF4, hF5, hF6⟩ :=
    stamp_found_spec mS B em (B + 32 + pad) pad rfl hBf.2.1 (by omega)
  have hFem : mF em = m em := by
    rw [hF6 em (by omega), hSem, hm1_ne _ (by omega) (by omega)]
    exact hwd.1 _ (by omega)
  have halloc : alloc_in_free_blocks m em size a = (mF, B + 32 + pad) := by
    unfold alloc_in_free_blocks
    dsimp only
    rw [hfd]
    dsimp only
    rw [if_neg hnone, ← hpad, ← hm1, htot, ← hneeded, hmS, hp, hmF]
  refine ⟨mF, B + 32 + pad, B, halloc, by omega, hpa, ?_, hF3, hF4, hF5, ?_, ?_, hFem,
    by omega, hBB, by omega⟩
  · rw [hF2]; exact hSfree
  · rw [hbd]; omega
  · rw [hbd, hF1]; omega


theorem validAlignment_of_checks (a : Nat) (h2 : a &&& wsub a 1 = 0) (h8 : 8 ≤ a)
    (hmax : a ≤ 2048) : ValidAlignment a := by
  have hw : wsub a 1 = a - 1 := wsub_one_of_pos (by omega) (by simp only [WORD]; omega)
  rw [hw] at h2
  obtain ⟨k, hk⟩ := isPow2_of_and_pred_eq_zero a (by omega) h2
  have hk12 : k < 12 := by
    by_contra hge
    have : 2 ^ 12 ≤ 2 ^ k := Nat.pow_le_pow_right (by decide) (by omega)
    omega
  subst hk
  unfold ValidAlignment
  interval_cases k <;> simp at h8 ⊢

/-- Every successful `em_alloc_aligned` either came from the free tree or from the tail,
and in both cases stamped a block that holds the requested range.  The arena header word
is kept (for an arena behind the first 2048 bytes of the address space), and the block is
a block of the list or lies in the free space of the tail. -/
theorem em_alloc_aligned_full_spec {m : Mem} {em size a : Nat} {F Bs : List Nat}
    (hB : BlockLayout m em F Bs) (hw : m (em + 24) < 18446744073709551616)
    (hT : free_size_in_tail m em ≠ 0 → TailLayout m em F)
    (hfs : free_size_in_tail m em + 1024 ≤ 2305843009213693952)
    (hnn : (em_alloc_aligned m em size a).2 ≠ 0) :
    ∃ mF p h, em_alloc_aligned m em size a = (mF, p) ∧ p ≠ 0 ∧ p % a = 0 ∧
      get_is_free mF h = false ∧ get_em mF h = em ∧ is_valid_magic mF h p = true ∧
      recovered_header mF p = h ∧ block_data h ≤ p ∧
      p + size ≤ block_data h + get_size mF h ∧
      ValidAlignment a ∧ 0 < size ∧ (2048 ≤ em → mF em = m em) ∧ h + 32 ≤ p ∧
      ((h ∈ Bs ∧ p + size ≤ h + 32 + get_size m h) ∨
        (free_size_in_tail m em ≠ 0 ∧ em_get_tail m em ≤ h ∧
          p + size ≤ em_get_tail m em + 32 + free_size_in_tail m em)) := by
  -- the argument checks passed
  have hchecks : (em ≠ 0 ∧ 0 < size ∧ size ≤ em_get_capacity m em) ∧ ValidAlignment a := by
    unfold em_alloc_aligned at hnn
    by_cases h1 : (em = 0 || size = 0 || decide (size > em_get_capacity m em)) = true
    · rw [if_pos h1] at hnn; exact absurd rfl hnn
    · rw [if_neg h1] at hnn
      by_cases h2 : ((a &&& wsub a 1) != 0) = true
      · rw [if_pos h2] at hnn; exact absurd rfl hnn
      · rw [if_neg h2] at hnn
        by_cases h3 : (decide (a < MIN_ALIGNMENT) || decide (a > MAX_ALIGNMENT)) = true
        · rw [if_pos h3] at hnn; exact absurd rfl hnn
        · simp only [Bool.or_eq_true, decide_eq_true_eq, not_or, not_lt, bne_iff_ne, ne_eq,
            not_not, gt_iff_lt] at h1 h2 h3
          have hmax : MAX_ALIGNMENT = 2048 := by decide
          have hmin : MIN_ALIGNMENT = 8 := rfl
          rw [hmax, hmin] at h3
          exact ⟨⟨h1.1.1, by omega, h1.2⟩, validAlignment_of_checks a h2 h3.1 h3.2⟩
  obtain ⟨⟨hem, hsz, hcap⟩, ha⟩ := hchecks
  have hE := em_alloc_aligned_valid m em size a hem hsz hcap ha
  rcases alloc_in_free_blocks_spec hB hw hsz hcap ha with h | h
  · -- nothing in the tree: the tail serves
    rw [h] at hE
    simp only [bne_self_eq_false, Bool.false_eq_true, if_false] at hE
    by_cases h0 : free_size_in_tail m em = 0
    · rw [if_pos h0] at hE
      rw [hE] at hnn
      exact absurd rfl hnn
    · rw [if_neg h0] at hE
      rcases tail_alloc_spec m em size a F (hT h0) hsz ha hfs with ht | ht
      · rw [ht] at hE
        rw [hE] at hnn
        exact absurd rfl hnn
      · obtain ⟨mF, p, hh, he, t1, t2, t3, t4, t5, t6, t7, t8, t9, t10, t11, t12⟩ := ht
        exact ⟨mF, p, hh, hE.trans he, t1, t2, t3, t4, t5, t6, t7, t8, ha, hsz, t9, t10,
          Or.inr ⟨h0, t11, t12⟩⟩
  · obtain ⟨mF, p, hh, he, hp0, t2, t3, t4, t5, t6, t7, t8, t9, t10, t11, t12⟩ := h
    rw [he] at hE
    have hb : (p != 0) = true := by simpa using hp0
    simp only [hb, if_true] at hE
    exact ⟨mF, p, hh, hE, hp0, t2, t3, t4, t5, t6, t7, t8, ha, hsz, fun _ => t9, t10,
      Or.inl ⟨t11, t12⟩⟩

theorem em_alloc_aligned_spec {m : Mem} {em size a : Nat} {F Bs : List Nat}
    (hB : BlockLayout m em F Bs) (hw : m (em + 24) < 18446744073709551616)
    (hT : free_size_in_tail m em ≠ 0 → TailLayout m em F)
    (hfs : free_size_in_tail m em + 1024 ≤ 2305843009213693952)
    (hnn : (em_alloc_aligned m em size a).2 ≠ 0) :
    ∃ mF p h, em_alloc_aligned m em size a = (mF, p) ∧ p ≠ 0 ∧ p % a = 0 ∧
      get_is_free mF h = false ∧ get_em mF h = em ∧ is_valid_magic mF h p = true ∧
      recovered_header mF p = h ∧ block_data h ≤ p ∧
      p + size ≤ block_data h + get_size mF h := by
  obtain ⟨mF, p, h, t0, t1, t2, t3, t4, t5, t6, t7, t8, _⟩ :=
    em_alloc_aligned_full_spec hB hw hT hfs hnn
  exact ⟨mF, p, h, t0, t1, t2, t3, t4, t5, t6, t7, t8⟩


/-! ### `em_calloc` -/

theorem byte_sum_extract (c0 c1 c2 c3 c4 c5 c6 c7 k : Nat)
    (h0 : c0 < 256) (h1 : c1 < 256) (h2 : c2 < 256) (h3 : c3 < 256) (h4 : c4 < 256)
    (h5 : c5 < 256) (h6 : c6 < 256) (h7 : c7 < 256) (hk : k < 8) :
    (c0 + c1 * 256 + c2 * 65536 + c3 * 16777216 + c4 * 4294967296 + c5 * 1099511627776 +
        c6 * 281474976710656 + c7 * 72057594037927936) / 256 ^ k % 256 =
      (if k = 0 then c0 else if k = 1 then c1 else if k = 2 then c2 else if k = 3 then c3
        else if k = 4 then c4 else if k = 5 then c5 else if k = 6 then c6 else c7) := by
  interval_cases k <;> simp <;> omega

theorem byte_at_memset_zero (mm : Mem) (p n x : Nat) :
    byte_at (memset_zero mm p n) x = if p ≤ x ∧ x < p + n then 0 else byte_at mm x := by
  obtain ⟨w, hwd⟩ : ∃ w, w = x - x % 8 := ⟨_, rfl⟩
  obtain ⟨k, hkd⟩ : ∃ k, k = x % 8 := ⟨_, rfl⟩
  have hk : k < 8 := by omega
  have hw : w % 8 = 0 := by omega
  have hx : x = w + k := by omega
  have hb : ∀ j, j < 8 → byte_at mm (w + j) = mm w / 256 ^ j % 256 := by
    intro j hj
    unfold byte_at
    have e1 : (w + j) % 8 = j := by omega
    have e2 : w + j - (w + j) % 8 = w := by omega
    rw [e2, e1]
  have hlt : ∀ (c : Prop) [Decidable c] (j : Nat), (if c then 0 else mm w / 256 ^ j % 256) < 256 := by
    intro c _ j
    split
    · omega
    · exact Nat.mod_lt _ (by decide)
  have hmul : ∀ (c : Prop) [Decidable c] (a b : Nat),
      (if c then 0 else a * b) = (if c then 0 else a) * b := by
    intro c _ a b
    split <;> simp
  have hnew : memset_zero mm p n w =
      (if p ≤ w ∧ w < p + n then 0 else mm w / 256 ^ 0 % 256) +
      (if p ≤ w + 1 ∧ w + 1 < p + n then 0 else mm w / 256 ^ 1 % 256) * 256 +
      (if p ≤ w + 2 ∧ w + 2 < p + n then 0 else mm w / 256 ^ 2 % 256) * 65536 +
      (if p ≤ w + 3 ∧ w + 3 < p + n then 0 else mm w / 256 ^ 3 % 256) * 16777216 +
      (if p ≤ w + 4 ∧ w + 4 < p + n then 0 else mm w / 256 ^ 4 % 256) * 4294967296 +
      (if p ≤ w + 5 ∧ w + 5 < p + n then 0 else mm w / 256 ^ 5 % 256) * 1099511627776 +
      (if p ≤ w + 6 ∧ w + 6 < p + n then 0 else mm w / 256 ^ 6 % 256) * 281474976710656 +
      (if p ≤ w + 7 ∧ w + 7 < p + n then 0 else mm w / 256 ^ 7 % 256) * 72057594037927936 := by
    unfold memset_zero
    rw [if_pos hw]
    have hr : List.range 8 = [0, 1, 2, 3, 4, 5, 6, 7] := by decide
    rw [hr]
    simp only [List.map_cons, List.map_nil, List.sum_cons, List.sum_nil, Nat.add_zero]
    have hb0 : byte_at mm w = mm w / 256 ^ 0 % 256 := by simpa using hb 0 (by omega)
    rw [hb0, hb 1 (by omega), hb 2 (by omega), hb 3 (by omega), hb 4 (by omega),
      hb 5 (by omega), hb 6 (by omega), hb 7 (by omega)]
    simp only [hmul]
    norm_num
    ring
  have hbx : byte_at mm x = mm w / 256 ^ k % 256 := by rw [hx]; exact hb k hk
  rw [hbx]
  unfold byte_at
  rw [← hwd, ← hkd, hnew]
  rw [byte_sum_extract _ _ _ _ _ _ _ _ k (hlt _ _) (hlt _ _) (hlt _ _) (hlt _ _) (hlt _ _)
    (hlt _ _) (hlt _ _) (hlt _ _) hk]
  rw [hx]
  interval_cases k <;> simp

theorem em_alloc_zero (m : Mem) (em : Nat) : em_alloc m em 0 = (m, 0) := by
  unfold em_alloc em_alloc_aligned
  by_cases h : em = 0
  · rw [if_pos h]
  · rw [if_neg h]
    simp only [beq_self_eq_true, Bool.or_true, Bool.true_or, if_true, decide_True,
      decide_eq_true_eq]

theorem em_calloc_overflow (m : Mem) (em nmemb size : Nat)
    (h : em = 0 ∨ SIZE_MAX < nmemb * size ∨ nmemb * size = 0) :
    em_calloc m em nmemb size = (m, 0) := by
  unfold em_calloc
  by_cases h0 : em = 0
  · rw [if_pos h0]
  rw [if_neg h0]
  by_cases h1 : (decide (nmemb > 0) && decide (SIZE_MAX / nmemb < size)) = true
  · rw [if_pos h1]
  rw [if_neg h1]
  simp only [Bool.and_eq_true, decide_eq_true_eq, not_and, not_lt, gt_iff_lt] at h1
  rcases h with h | h | h
  · exact absurd h h0
  · exfalso
    have hpos : 0 < nmemb := by
      rcases Nat.eq_zero_or_pos nmemb with e | e
      · rw [e] at h; simp at h
      · exact e
    have h2 := h1 hpos
    have h3 : SIZE_MAX / nmemb < size := by
      rw [Nat.div_lt_iff_lt_mul hpos, Nat.mul_comm]
      exact h
    omega
  · rw [h]
    have e0 : 0 % WORD = 0 := rfl
    simp only [e0, em_alloc_zero, bne_self_eq_false, Bool.false_eq_true, if_false]

theorem em_calloc_eq (m : Mem) (em nmemb size : Nat) (hem : em ≠ 0)
    (hle : nmemb * size ≤ SIZE_MAX) :
    em_calloc m em nmemb size =
      if ((em_alloc m em (nmemb * size)).2 != 0) = true then
        (memset_zero (em_alloc m em (nmemb * size)).1 (em_alloc m em (nmemb * size)).2
          (nmemb * size), (em_alloc m em (nmemb * size)).2)
      else em_alloc m em (nmemb * size) := by
  unfold em_calloc
  rw [if_neg hem]
  have h1 : ¬ ((decide (nmemb > 0) && decide (SIZE_MAX / nmemb < size)) = true) := by
    simp only [Bool.and_eq_true, decide_eq_true_eq, not_and, not_lt, gt_iff_lt]
    intro hpos
    by_contra hlt
    have h3 : SIZE_MAX / nmemb < size := by omega
    rw [Nat.div_lt_iff_lt_mul hpos, Nat.mul_comm] at h3
    omega
  rw [if_neg h1]
  have hmod : nmemb * size % WORD = nmemb * size := by
    apply Nat.mod_eq_of_lt
    simp only [WORD, SIZE_MAX] at *
    omega
  rw [hmod]


/-! ### Scratch allocation -/

/-- `align_down` in arithmetic form, for the accepted alignments. -/
theorem align_down_eq (x a : Nat) (ha : ValidAlignment a) (hx : x < WORD) :
    align_down x a = x - x % a := by
  obtain ⟨k, hk, hak⟩ := validAlignment_pow a ha
  have hpos : 0 < a := by rw [hak]; exact Nat.two_pow_pos k
  have hle : a ≤ 2048 := by
    simp only [ValidAlignment, List.mem_cons, List.mem_singleton, List.not_mem_nil,
      or_false] at ha
    omega
  unfold align_down
  have h1 : wsub a 1 = a - 1 := wsub_one_of_pos hpos (by simp only [WORD]; omega)
  have h2 : wnot (a - 1) = WORD - a := by
    unfold wnot
    have : (a - 1) % WORD = a - 1 := Nat.mod_eq_of_lt (by simp only [WORD]; omega)
    rw [this]; simp only [WORD]; omega
  rw [h1, h2, hak, and_high_mask _ k hx hk]

theorem free_size_in_tail_eq (m : Mem) (em : Nat) (h0 : em_get_tail m em ≠ 0)
    (hf : get_is_free m (em_get_tail m em) = true) :
    free_size_in_tail m em =
      wsub (effective_capacity m em)
        (wsub (wadd (wadd (em_get_tail m em) SIZEOF_BLOCK) (get_size m (em_get_tail m em)))
          em) := by
  unfold free_size_in_tail effective_capacity scratch_size_spot
  simp only [hf, Bool.not_true, Bool.or_false, decide_eq_true_eq]
  rw [if_neg h0]

theorem free_size_in_tail_pos (m : Mem) (em : Nat) (h : free_size_in_tail m em ≠ 0) :
    em_get_tail m em ≠ 0 ∧ get_is_free m (em_get_tail m em) = true := by
  unfold free_size_in_tail at h
  by_cases h0 : em_get_tail m em = 0
  · simp [h0] at h
  · by_cases hf : get_is_free m (em_get_tail m em) = true
    · exact ⟨h0, hf⟩
    · simp [hf] at h

theorem flag_or_two_and_one (x : Nat) : (x ||| 2) &&& 1 = x &&& 1 := by
  rw [Nat.and_distrib_right]
  have : 2 &&& 1 = 0 := by decide
  rw [this, Nat.or_zero]

theorem flag_or_two_ne (x : Nat) : ((x ||| 2) &&& 2 != 0) = true := by
  rw [Nat.and_distrib_right]
  have : 2 &&& 2 = 2 := by decide
  rw [this]
  have h2 : ∀ y : Nat, (y ||| 2) ≠ 0 := by
    intro y h
    have h3 : (y ||| 2).testBit 1 = true := by
      rw [Nat.testBit_or]
      have : Nat.testBit 2 1 = true := by decide
      rw [this, Bool.or_true]
    rw [h] at h3
    simp at h3
  simpa using h2 _

theorem scratch_stamp_spec (m : Mem) (em meta p ssize spot stored : Nat)
    (h1 : em + 32 ≤ meta) (h2 : meta + 32 ≤ spot) (hss : ssize < 2305843009213693952) :
    (∀ x, (x < meta ∨ meta + 32 ≤ x) → x ≠ spot → x ≠ em + 24 →
        scratch_stamp m em meta p ssize spot stored x = m x) ∧
      scratch_stamp m em meta p ssize spot stored (em + 24) = (m (em + 24) ||| 2) ∧
      scratch_stamp m em meta p ssize spot stored spot = stored ∧
      get_is_free (scratch_stamp m em meta p ssize spot stored) meta = false ∧
      get_color (scratch_stamp m em meta p ssize spot stored) meta = BLACK ∧
      get_em (scratch_stamp m em meta p ssize spot stored) meta = em ∧
      scratch_stamp m em meta p ssize spot stored (meta + 24) = (MAGIC ^^^ p) ∧
      get_size (scratch_stamp m em meta p ssize spot stored) meta = ssize := by
  have hcb := create_block_spec m meta
  obtain ⟨mb, hmb⟩ : ∃ x, x = create_block m meta := ⟨_, rfl⟩
  rw [← hmb] at hcb
  have hst : scratch_stamp m em meta p ssize spot stored =
      em_set_has_scratch ((set_color (set_is_free (set_em (set_magic (set_is_free
        (set_size mb meta ssize) meta false) meta p) meta em) meta false) meta BLACK).write
          spot stored) em true := by
    unfold scratch_stamp set_is_in_scratch
    rw [← hmb]
    rfl
  rw [hst]
  refine ⟨?_, ?_, ?_, ?_, ?_, ?_, ?_, ?_⟩
  · intro x hx hx2 hx3
    simp (disch := omega) only [em_set_has_scratch, Mem.write_ne, set_color_ne, set_is_free_ne,
      set_em_ne, set_magic_ne, set_size_ne]
    exact hcb.2.2.2.2.2.2 x (by omega) (by omega) (by omega) (by omega)
  · simp (disch := omega) only [em_set_has_scratch, Mem.write_eq, Mem.write_ne, set_color_ne,
      set_is_free_ne, set_em_ne, set_magic_ne, set_size_ne, if_true]
    rw [hcb.2.2.2.2.2.2 (em + 24) (by omega) (by omega) (by omega) (by omega)]
  · simp (disch := omega) only [em_set_has_scratch, Mem.write_eq, Mem.write_ne]
  · simp (disch := omega) only [get_is_free, em_set_has_scratch, Mem.write_ne, set_color_eq,
      set_is_free_eq, if_true, Bool.false_eq_true, if_false]
    have e : COLOR_FLAG = 2 := rfl
    have e1 : IS_FREE_FLAG = 1 := rfl
    rw [e, e1, flag_or_two_and_one]
    have := is_free_clear (set_em (set_magic (set_is_free (set_size mb meta ssize) meta false)
      meta p) meta em (meta + 8))
    rw [e1] at this
    rw [this]
    rfl
  · simp (disch := omega) only [get_color, em_set_has_scratch, Mem.write_ne, set_color_eq,
      if_true]
    exact flag_or_two_ne _
  · simp (disch := omega) only [get_em, em_set_has_scratch, Mem.write_ne, set_color_ne,
      set_is_free_ne, set_em_eq]
  · simp (disch := omega) only [em_set_has_scratch, Mem.write_ne, set_color_ne,
      set_is_free_ne, set_em_ne, set_magic_eq]
  · simp (disch := omega) only [get_size, em_set_has_scratch, Mem.write_ne, set_color_ne,
      set_is_free_ne, set_em_ne, set_magic_ne, set_size_eq]
    exact size_word _ _ hss


/-- A scratch allocation either fails without a write or stamps the scratch block right
below the last word of the arena. -/
theorem em_alloc_scratch_aligned_spec (m : Mem) (em size a : Nat) (hL : ScratchLayout m em) :
    em_alloc_scratch_aligned m em size a = (m, 0) ∨
      ∃ p, em_alloc_scratch_aligned m em size a =
          (scratch_stamp m em (p - 32) p (scratch_size_spot m em - p) (scratch_size_spot m em)
            (em + em_get_capacity m em - (p - 32)), p) ∧
        ValidAlignment a ∧ 0 < size ∧ em_get_has_scratch m em = false ∧
        size ≤ free_size_in_tail m em ∧
        free_size_in_tail m em = em + em_get_capacity m em -
          (em_get_tail m em + 32 + get_size m (em_get_tail m em)) ∧
        get_is_free m (em_get_tail m em) = true ∧
        p % a = 0 ∧ p + size ≤ scratch_size_spot m em ∧
        em_get_tail m em + 32 + get_size m (em_get_tail m em) + 32 ≤ p ∧
        scratch_size_spot m em + 8 ≤ em + em_get_capacity m em := by
  have hlow := hL.low
  have hfits := hL.arena_fits
  have hgeo := hL.tail_after
  have hin := hL.tail_inside
  have hcapb : em_get_capacity m em < 2305843009213693952 := by
    have := hL.header_word
    unfold em_get_capacity get_size
    rw [Nat.shiftRight_eq_div_pow]
    omega
  obtain ⟨cap, hcapd⟩ : ∃ x, x = em_get_capacity m em := ⟨_, rfl⟩
  obtain ⟨t, htd⟩ : ∃ x, x = em_get_tail m em := ⟨_, rfl⟩
  obtain ⟨st, hstd⟩ : ∃ x, x = get_size m t := ⟨_, rfl⟩
  rw [← htd] at hgeo hin
  rw [← hstd] at hin
  rw [← hcapd] at hfits hin hcapb
  unfold em_alloc_scratch_aligned
  by_cases g1 : (em = 0 || size = 0 || em_get_has_scratch m em ||
      decide (size > em_get_capacity m em)) = true
  · left; rw [if_pos g1]
  rw [if_neg g1]
  by_cases g2 : ((a &&& wsub a 1) != 0) = true
  · left; rw [if_pos g2]
  rw [if_neg g2]
  by_cases g3 : (decide (a < MIN_ALIGNMENT) || decide (a > MAX_ALIGNMENT)) = true
  · left; rw [if_pos g3]
  rw [if_neg g3]
  by_cases g4 : size > free_size_in_tail m em
  · left; rw [if_pos g4]
  rw [if_neg g4]
  simp only [Bool.or_eq_true, decide_eq_true_eq, not_or, not_lt, bne_iff_ne, ne_eq,
    not_not, gt_iff_lt, beq_iff_eq, Bool.not_eq_true] at g1 g2 g3 g4
  have hmax : MAX_ALIGNMENT = 2048 := by decide
  have hmin : MIN_ALIGNMENT = 8 := rfl
  rw [hmax, hmin] at g3
  have ha : ValidAlignment a := validAlignment_of_checks a g2 g3.1 g3.2
  have hsz : 0 < size := by omega
  have hscr : em_get_has_scratch m em = false := g1.1.2
  have hfs0 : free_size_in_tail m em ≠ 0 := by omega
  have htl := free_size_in_tail_pos m em hfs0
  have heff : effective_capacity m em = cap := by
    unfold effective_capacity
    rw [hscr, hcapd]
    rfl
  have hfs : free_size_in_tail m em = em + cap - (t + 32 + st) := by
    rw [free_size_in_tail_eq m em htl.1 htl.2, heff, ← htd, ← hstd]
    unfold wsub wadd
    simp only [WORD, SIZEOF_BLOCK]
    omega
  rw [hfs] at g4
  -- the addresses
  have hv8 : ValidAlignment 8 := by decide
  have hraw : wadd em cap = em + cap := by
    unfold wadd; simp only [WORD]; omega
  have he0 : align_down (em + cap) 8 = em + cap - (em + cap) % 8 :=
    align_down_eq _ 8 hv8 (by simp only [WORD]; omega)
  obtain ⟨spot, hspotd⟩ : ∃ x, x = scratch_size_spot m em := ⟨_, rfl⟩
  have hspot : spot = em + cap - (em + cap) % 8 - 8 := by
    rw [hspotd]
    unfold scratch_size_spot
    rw [← hcapd, hraw, hmin, he0]
    unfold wsub
    simp only [WORD, WORD_SIZE]
    omega
  have hspot2 : wsub (align_down (wadd em cap) 8) WORD_SIZE = spot := by
    rw [hspotd]; unfold scratch_size_spot; rw [← hcapd]
  have hd0 : wsub spot size = spot - size := by
    unfold wsub; simp only [WORD]; omega
  have hp : align_down (spot - size) a = spot - size - (spot - size) % a :=
    align_down_eq _ a ha (by simp only [WORD]; omega)
  obtain ⟨p, hpd⟩ : ∃ x, x = spot - size - (spot - size) % a := ⟨_, rfl⟩
  have hale : a ≤ 2048 := g3.2
  have hapos : 0 < a := by omega
  have hmodlt : (spot - size) % a < a := Nat.mod_lt _ hapos
  have hpa : p % a = 0 := by
    rw [hpd]
    exact Nat.sub_mod_eq_zero_of_mod_eq (Nat.mod_mod _ _).symm ▸ rfl
  have hmeta : wsub p SIZEOF_BLOCK = p - 32 := by
    unfold wsub; simp only [WORD, SIZEOF_BLOCK]; omega
  have hend : wadd (wadd t SIZEOF_BLOCK) st = t + 32 + st := by
    unfold wadd; simp only [WORD, SIZEOF_BLOCK]; omega
  dsimp only
  rw [← hcapd, ← htd, ← hstd, ← hspotd, hspot2, hd0, hp, ← hpd, hmeta, hend]
  by_cases g5 : p - 32 < t + 32 + st
  · left; rw [if_pos g5]
  rw [if_neg g5]
  right
  have hss : wsub spot p = spot - p := by
    unfold wsub; simp only [WORD]; omega
  have hstored : wsub (wadd em cap) (p - 32) = em + cap - (p - 32) := by
    rw [hraw]; unfold wsub; simp only [WORD]; omega
  rw [hss, hstored]
  refine ⟨p, rfl, ha, hsz, hscr, by omega, hfs, htd ▸ htl.2, hpa, by omega, by omega, by omega⟩


/-- The state right after a successful scratch allocation, as far as later reads go.  `mS`
may differ from the stamped memory inside the returned range `[p, p + size)`. -/
theorem scratch_state_spec (m mS : Mem) (em size a p : Nat) (hL : ScratchLayout m em)
    (hr : em_alloc_scratch_aligned m em size a = (mS, p)) (hp : p ≠ 0) :
    ValidAlignment a ∧ 0 < size ∧ p % a = 0 ∧
      p + size ≤ scratch_size_spot m em ∧
      em_get_tail m em + 32 + get_size m (em_get_tail m em) + 32 ≤ p ∧
      scratch_size_spot m em + 8 ≤ em + em_get_capacity m em ∧
      em_get_has_scratch m em = false ∧
      get_is_free m (em_get_tail m em) = true ∧
      free_size_in_tail m em = em + em_get_capacity m em -
        (em_get_tail m em + 32 + get_size m (em_get_tail m em)) ∧
      (∀ x, (x < p - 32 ∨ p ≤ x) → x ≠ scratch_size_spot m em → x ≠ em + 24 →
        mS x = m x) ∧
      mS (em + 24) = (m (em + 24) ||| 2) ∧
      mS (scratch_size_spot m em) = em + em_get_capacity m em - (p - 32) ∧
      get_is_free mS (p - 32) = false ∧ get_color mS (p - 32) = BLACK ∧
      get_em mS (p - 32) = em ∧ mS (p - 32 + 24) = (MAGIC ^^^ p) ∧
      get_size mS (p - 32) = scratch_size_spot m em - p := by
  have hcapb : em_get_capacity m em < 2305843009213693952 := by
    have := hL.header_word
    unfold em_get_capacity get_size
    rw [Nat.shiftRight_eq_div_pow]
    omega
  have hgeo := hL.tail_after
  rcases em_alloc_scratch_aligned_spec m em size a hL with h | h
  · rw [h] at hr
    have : (0 : Nat) = p := congrArg Prod.snd hr
    exact absurd this.symm hp
  · obtain ⟨q, hq, ha, hsz, hscr, _, hfs, hfree, hqa, hq1, hq2, hq3⟩ := h
    rw [hq] at hr
    have hqp : q = p := congrArg Prod.snd hr
    have hm : scratch_stamp m em (q - 32) q (scratch_size_spot m em - q)
        (scratch_size_spot m em) (em + em_get_capacity m em - (q - 32)) = mS :=
      congrArg Prod.fst hr
    subst hqp
    have hst := scratch_stamp_spec m em (q - 32) q (scratch_size_spot m em - q)
      (scratch_size_spot m em) (em + em_get_capacity m em - (q - 32)) (by omega) (by omega)
      (by omega)
    rw [hm] at hst
    obtain ⟨s1, s2, s3, s4, s5, s6, s7, s8⟩ := hst
    refine ⟨ha, hsz, hqa, hq1, hq2, hq3, hscr, hfree, hfs, ?_, s2, s3, s4, s5, s6, s7, s8⟩
    intro x hx hx2 hx3
    exact s1 x (by omega) hx2 hx3

/-- The free tail space while a scratch region is active. -/
theorem free_size_in_tail_scratch (m m1 : Mem) (em p : Nat) (hL : ScratchLayout m em)
    (hfree : get_is_free m (em_get_tail m em) = true)
    (hp1 : em_get_tail m em + 32 + get_size m (em_get_tail m em) + 32 ≤ p)
    (hp2 : p ≤ scratch_size_spot m em)
    (hp3 : scratch_size_spot m em + 8 ≤ em + em_get_capacity m em)
    (h0 : m1 em = m em) (h16 : m1 (em + 16) = m (em + 16))
    (ht0 : m1 (em_get_tail m em) = m (em_get_tail m em))
    (ht8 : m1 (em_get_tail m em + 8) = m (em_get_tail m em + 8))
    (hflag : em_get_has_scratch m1 em = true)
    (hstored : m1 (scratch_size_spot m em) = em + em_get_capacity m em - (p - 32)) :
    free_size_in_tail m1 em =
      p - 32 - (em_get_tail m em + 32 + get_size m (em_get_tail m em)) := by
  have hgeo := hL.tail_after
  have hfits := hL.arena_fits
  have htl : em_get_tail m1 em = em_get_tail m em := em_get_tail_congr h16
  have hcap : em_get_capacity m1 em = em_get_capacity m em := get_size_congr h0
  have hspot : scratch_size_spot m1 em = scratch_size_spot m em := by
    unfold scratch_size_spot; rw [hcap]
  have hf1 : get_is_free m1 (em_get_tail m1 em) = true := by
    rw [htl, get_is_free_congr ht8]; exact hfree
  have hsz : get_size m1 (em_get_tail m1 em) = get_size m (em_get_tail m em) := by
    rw [htl]; exact get_size_congr ht0
  have e1 : em_get_tail m1 em ≠ 0 := by rw [htl]; omega
  rw [free_size_in_tail_eq m1 em e1 hf1]
  rw [hsz, htl]
  have heff : effective_capacity m1 em =
      wsub (em_get_capacity m em) (em + em_get_capacity m em - (p - 32)) := by
    unfold effective_capacity
    simp only [hflag, if_true]
    rw [hspot, hstored, hcap]
  rw [heff]
  have hin := hL.tail_inside
  have a1 : wadd (wadd (em_get_tail m em) SIZEOF_BLOCK) (get_size m (em_get_tail m em)) =
      em_get_tail m em + 32 + get_size m (em_get_tail m em) := by
    unfold wadd; simp only [WORD, SIZEOF_BLOCK]; omega
  have a2 : wsub (em_get_tail m em + 32 + get_size m (em_get_tail m em)) em =
      em_get_tail m em + 32 + get_size m (em_get_tail m em) - em := by
    unfold wsub; simp only [WORD]; omega
  have a3 : wsub (em_get_capacity m em) (em + em_get_capacity m em - (p - 32)) =
      p - 32 - em := by
    unfold wsub; simp only [WORD]; omega
  rw [a1, a2, a3]
  unfold wsub
  simp only [WORD]
  omega


theorem scratch_flag_round_trip (w : Nat) (hw : w < 18446744073709551616)
    (hclear : w &&& HAS_SCRATCH_FLAG = 0) :
    (w ||| HAS_SCRATCH_FLAG) &&& wnot HAS_SCRATCH_FLAG = w := by
  have e1 : HAS_SCRATCH_FLAG &&& wnot HAS_SCRATCH_FLAG = 0 := by decide
  have e2 : (wnot HAS_SCRATCH_FLAG ||| HAS_SCRATCH_FLAG) = 2 ^ 64 - 1 := by decide
  rw [Nat.and_distrib_right, e1, Nat.or_zero]
  have h3 : w &&& (wnot HAS_SCRATCH_FLAG ||| HAS_SCRATCH_FLAG) = w := by
    rw [e2, Nat.and_pow_two_sub_one_eq_mod]
    exact Nat.mod_eq_of_lt hw
  rw [Nat.and_or_distrib_left, hclear, Nat.or_zero] at h3
  exact h3

theorem has_scratch_cleared (m : Mem) (em : Nat) :
    em_get_has_scratch (em_set_has_scratch m em false) em = false := by
  unfold em_get_has_scratch em_set_has_scratch
  simp only [Mem.write_eq, Bool.false_eq_true, if_false]
  have e1 : wnot HAS_SCRATCH_FLAG &&& HAS_SCRATCH_FLAG = 0 := by decide
  rw [Nat.and_assoc, e1, Nat.and_zero]
  rfl

/-- `em_free` on the pointer of the active scratch region clears the scratch flag and
does nothing else. -/
theorem em_free_scratch_pointer (m mS m1 : Mem) (em size a p : Nat) (hL : ScratchLayout m em)
    (hfirst : em_get_first_block m em ≤ em_get_tail m em)
    (hr : em_alloc_scratch_aligned m em size a = (mS, p)) (hp : p ≠ 0)
    (hm1 : ∀ x, (x < p ∨ p + size ≤ x) → m1 x = mS x) :
    em_free m1 p = em_set_has_scratch m1 em false := by
  obtain ⟨ha, hsz, hpa, h1, h2, h3, hscr, hfree, hfs, hfr, h24, hsp, s4, s5, s6, s7, s8⟩ :=
    scratch_state_spec m mS em size a p hL hr hp
  have hlow := hL.low
  have hgeo := hL.tail_after
  have hfits := hL.arena_fits
  have ha8 : a % 8 = 0 := by
    simp only [ValidAlignment, List.mem_cons, List.mem_singleton, List.not_mem_nil,
      or_false] at ha
    omega
  have hp8 : p % 8 = 0 := by
    have := Nat.mod_mod_of_dvd p (Nat.dvd_of_mod_eq_zero ha8)
    omega
  have e8 : wsub p WORD_SIZE = p - 32 + 24 := by
    unfold wsub; simp only [WORD, WORD_SIZE]; omega
  have e32 : wsub p SIZEOF_BLOCK = p - 32 := by
    unfold wsub; simp only [WORD, SIZEOF_BLOCK]; omega
  have r0 : m1 (p - 32) = mS (p - 32) := hm1 _ (Or.inl (by omega))
  have r8 : m1 (p - 32 + 8) = mS (p - 32 + 8) := hm1 _ (Or.inl (by omega))
  have r16 : m1 (p - 32 + 16) = mS (p - 32 + 16) := hm1 _ (Or.inl (by omega))
  have r24 : m1 (p - 32 + 24) = mS (p - 32 + 24) := hm1 _ (Or.inl (by omega))
  have rem : m1 em = m em := by
    rw [hm1 _ (Or.inl (by omega))]
    exact hfr _ (Or.inl (by omega)) (by omega) (by omega)
  have rflag : m1 (em + 24) = (m (em + 24) ||| 2) := by
    rw [hm1 _ (Or.inl (by omega))]; exact h24
  -- the checks of `em_free`
  have c1 : m1 (p - 32 + 24) ^^^ p = MAGIC := by
    rw [r24, s7, Nat.xor_assoc, Nat.xor_self, Nat.xor_zero]
  have c2 : ¬ (get_size m1 (p - 32) > SIZE_MASK) := by
    rw [get_size_congr r0, s8]
    simp only [SIZE_MASK]
    omega
  have c3 : get_is_free m1 (p - 32) = false := by
    rw [get_is_free_congr r8]; exact s4
  have c4 : is_valid_magic m1 (p - 32) p = true := by
    unfold is_valid_magic get_magic
    rw [c1]
    exact beq_self_eq_true _
  have c5 : get_em m1 (p - 32) = em := by
    unfold get_em at s6 ⊢
    rw [r16]; exact s6
  have c6 : is_block_within_em m1 em (p - 32) = true := by
    rw [is_block_within_em_congr rem]
    unfold is_block_within_em
    have hw : wadd em (em_get_capacity m em) = em + em_get_capacity m em := by
      unfold wadd; simp only [WORD]; omega
    rw [hw]
    simp only [Bool.and_eq_true, decide_eq_true_eq]
    omega
  have c7 : get_is_in_scratch m1 (p - 32) = true := by
    unfold get_is_in_scratch
    have hc : get_color m1 (p - 32) = BLACK := by
      unfold get_color at s5 ⊢
      rw [r8]; exact s5
    rw [c3, hc]
    rfl
  have c8 : em_get_has_scratch m1 em = true := by
    unfold em_get_has_scratch
    rw [rflag]
    exact flag_or_two_ne _
  have hem : em ≠ 0 := by omega
  have hfs_scr : em_free_scratch m1 em = em_set_has_scratch m1 em false := by
    unfold em_free_scratch
    simp only [c8, Bool.not_true, Bool.or_false, beq_iff_eq, hem, decide_False,
      Bool.false_eq_true, if_false, decide_eq_true_eq]
  have hfull : em_free_block_full m1 em (p - 32) = em_set_has_scratch m1 em false := by
    rw [em_free_block_full_eq, if_pos c7, hfs_scr]
  unfold em_free
  rw [if_neg hp]
  have hmod : ¬ ((p % WORD_SIZE != 0) = true) := by
    simp only [WORD_SIZE, bne_iff_ne, ne_eq, not_not]
    exact hp8
  rw [if_neg hmod]
  simp only [e8, c1, if_true, e32, c2, if_false, c3, Bool.false_eq_true, c4, Bool.not_true,
    c5, c6, hfull]


/-! ### Best fit over an ordered tree -/

theorem FreeTree.blocks_ne_zero {m : Mem} : ∀ (t : FreeTree) (root : Nat),
    t.InMem m root → ∀ x ∈ t.blocks, x ≠ 0 := by
  intro t
  induction t with
  | nil =>
    intro root _ x hx
    simp [FreeTree.blocks] at hx
  | node l b r ihl ihr =>
    intro root h x hx
    obtain ⟨_, hb, hl, hr⟩ := h
    simp only [FreeTree.blocks, List.mem_append, List.mem_cons] at hx
    rcases hx with hx | hx | hx
    · exact ihl _ hl x hx
    · rw [hx]; exact hb
    · exact ihr _ hr x hx

theorem key_before_size {m : Mem} {x y : Nat} (h : key_before m x y) :
    get_size m x ≤ get_size m y := by
  unfold key_before at h
  omega

/-- The search of `find_best_fit` below a node of an ordered tree.  The result is the old
candidate or a fitting block of the subtree that is smaller than the old candidate; when no
block of the subtree is large enough for `size` alone and too small with its padding, the
result is at most as large as every fitting block of the subtree. -/
theorem find_best_fit_loop_tree {m : Mem} {size a : Nat} : ∀ (t : FreeTree)
    (fuel best bp cur cp : Nat), t.InMem m cur → t.Ordered m → t.height ≤ fuel →
    ((find_best_fit_loop m size a fuel best bp cur cp).1 = best ∨
      ((find_best_fit_loop m size a fuel best bp cur cp).1 ∈ t.blocks ∧
        Fits m size a (find_best_fit_loop m size a fuel best bp cur cp).1 ∧
        (best ≠ 0 → get_size m (find_best_fit_loop m size a fuel best bp cur cp).1 <
          get_size m best))) ∧
    ((∀ b ∈ t.blocks, size ≤ get_size m b → Fits m size a b) →
      ∀ x ∈ t.blocks, Fits m size a x →
        (find_best_fit_loop m size a fuel best bp cur cp).1 ≠ 0 ∧
        get_size m (find_best_fit_loop m size a fuel best bp cur cp).1 ≤ get_size m x) := by
  intro t
  induction t with
  | nil =>
    intro fuel best bp cur cp hin _ _
    have h0 : cur = 0 := hin
    have hres : (find_best_fit_loop m size a fuel best bp cur cp).1 = best := by
      cases fuel with
      | zero => unfold find_best_fit_loop; rfl
      | succ n => unfold find_best_fit_loop; rw [if_pos h0]
    refine ⟨Or.inl hres, ?_⟩
    intro _ x hx
    simp [FreeTree.blocks] at hx
  | node l b r ihl ihr =>
    intro fuel best bp cur cp hin hord hh
    obtain ⟨hcur, hb0, hl, hr⟩ := hin
    obtain ⟨hlo, hro, hlord, hrord⟩ := hord
    have hnzl := FreeTree.blocks_ne_zero l _ hl
    cases fuel with
    | zero => simp [FreeTree.height] at hh
    | succ n =>
      have hhl : l.height ≤ n := by
        simp only [FreeTree.height] at hh
        omega
      have hhr : r.height ≤ n := by
        simp only [FreeTree.height] at hh
        omega
      subst hcur
      unfold find_best_fit_loop
      rw [if_neg hb0]
      dsimp only
      by_cases h1 : get_size m cur < size
      · -- too small: everything on the left is too small as well
        rw [if_pos h1]
        obtain ⟨i1, i2⟩ := ihr n best bp (get_right_tree m cur) cur hr hrord hhr
        refine ⟨?_, ?_⟩
        · rcases i1 with i1 | ⟨i1, i1b, i1c⟩
          · exact Or.inl i1
          · refine Or.inr ⟨?_, i1b, i1c⟩
            simp only [FreeTree.blocks, List.mem_append, List.mem_cons]
            exact Or.inr (Or.inr i1)
        · intro hno x hx hfx
          simp only [FreeTree.blocks, List.mem_append, List.mem_cons] at hx
          rcases hx with hx | hx | hx
          · have := key_before_size (hlo x hx)
            have := hfx.1
            omega
          · rw [hx] at hfx
            have := hfx.1
            omega
          · refine i2 (fun y hy => hno y ?_) x hx hfx
            simp only [FreeTree.blocks, List.mem_append, List.mem_cons]
            exact Or.inr (Or.inr hy)
      · rw [if_neg h1]
        by_cases h2 : get_size m cur ≥
            wadd size (wsub (align_up (block_data cur) a) (block_data cur))
        · rw [if_pos h2]
          have hfit : Fits m size a cur := ⟨by omega, h2⟩
          have hmem : cur ∈ (FreeTree.node l cur r).blocks := by
            simp [FreeTree.blocks]
          by_cases h3 : (best = 0 || decide (get_size m cur < get_size m best)) = true
          · -- the node becomes the candidate
            rw [if_pos h3]
            have h3p : best = 0 ∨ get_size m cur < get_size m best := by
              simpa using h3
            obtain ⟨i1, i2⟩ := ihl n cur cp (get_left_tree m cur) cur hl hlord hhl
            have key : (find_best_fit_loop m size a n cur cp (get_left_tree m cur) cur).1
                ≠ 0 ∧ get_size m
                  (find_best_fit_loop m size a n cur cp (get_left_tree m cur) cur).1 ≤
                  get_size m cur := by
              rcases i1 with i1 | ⟨i1, _, i1c⟩
              · rw [i1]; exact ⟨hb0, Nat.le_refl _⟩
              · exact ⟨hnzl _ i1, Nat.le_of_lt (i1c hb0)⟩
            refine ⟨Or.inr ?_, ?_⟩
            · rcases i1 with i1 | ⟨i1, i1b, i1c⟩
              · rw [i1]
                refine ⟨hmem, hfit, ?_⟩
                intro hbest
                rcases h3p with h | h
                · exact absurd h hbest
                · exact h
              · refine ⟨?_, i1b, ?_⟩
                · simp only [FreeTree.blocks, List.mem_append, List.mem_cons]
                  exact Or.inl i1
                · intro hbest
                  have := i1c hb0
                  rcases h3p with h | h
                  · exact absurd h hbest
                  · omega
            · intro hno x hx hfx
              simp only [FreeTree.blocks, List.mem_append, List.mem_cons] at hx
              rcases hx with hx | hx | hx
              · refine i2 (fun y hy => hno y ?_) x hx hfx
                simp only [FreeTree.blocks, List.mem_append, List.mem_cons]
                exact Or.inl hy
              · rw [hx]; exact key
              · have := key_before_size (hro x hx)
                exact ⟨key.1, by omega⟩
          · -- the old candidate stays
            rw [if_neg h3]
            have h3n : best ≠ 0 ∧ get_size m best ≤ get_size m cur := by
              simp only [Bool.or_eq_true, beq_iff_eq, decide_eq_true_eq, not_or, not_lt]
                at h3
              exact h3
            obtain ⟨i1, i2⟩ := ihl n best bp (get_left_tree m cur) cur hl hlord hhl
            have key : (find_best_fit_loop m size a n best bp (get_left_tree m cur) cur).1
                ≠ 0 ∧ get_size m
                  (find_best_fit_loop m size a n best bp (get_left_tree m cur) cur).1 ≤
                  get_size m cur := by
              rcases i1 with i1 | ⟨i1, _, i1c⟩
              · rw [i1]; exact h3n
              · exact ⟨hnzl _ i1, by have := i1c h3n.1; omega⟩
            refine ⟨?_, ?_⟩
            · rcases i1 with i1 | ⟨i1, i1b, i1c⟩
              · exact Or.inl i1
              · refine Or.inr ⟨?_, i1b, i1c⟩
                simp only [FreeTree.blocks, List.mem_append, List.mem_cons]
                exact Or.inl i1
            · intro hno x hx hfx
              simp only [FreeTree.blocks, List.mem_append, List.mem_cons] at hx
              rcases hx with hx | hx | hx
              · refine i2 (fun y hy => hno y ?_) x hx hfx
                simp only [FreeTree.blocks, List.mem_append, List.mem_cons]
                exact Or.inl hy
              · rw [hx]; exact key
              · have := key_before_size (hro x hx)
                exact ⟨key.1, by omega⟩
        · -- large enough alone, too small with the padding: the search goes right
          rw [if_neg h2]
          obtain ⟨i1, i2⟩ := ihr n best bp (get_right_tree m cur) cur hr hrord hhr
          refine ⟨?_, ?_⟩
          · rcases i1 with i1 | ⟨i1, i1b, i1c⟩
            · exact Or.inl i1
            · refine Or.inr ⟨?_, i1b, i1c⟩
              simp only [FreeTree.blocks, List.mem_append, List.mem_cons]
              exact Or.inr (Or.inr i1)
          · intro hno
            have hmem : cur ∈ (FreeTree.node l cur r).blocks := by
              simp [FreeTree.blocks]
            exact absurd (hno cur hmem (by omega)).2 h2

/-- The test of `find_best_fit` is the inequality of the request in unbounded arithmetic. -/
theorem fits_iff_fitsRequest (m : Mem) (size a b : Nat) (ha : ValidAlignment a)
    (hw : m b < WORD) (hb : b + SIZEOF_BLOCK + a ≤ WORD) :
    Fits m size a b ↔ FitsRequest m size a b := by
  have hle : 8 ≤ a ∧ a ≤ 2048 := by
    simp only [ValidAlignment, List.mem_cons, List.mem_singleton, List.not_mem_nil,
      or_false] at ha
    omega
  simp only [WORD, SIZEOF_BLOCK] at hb
  have hsz : get_size m b < 2305843009213693952 := by
    unfold get_size
    rw [Nat.shiftRight_eq_div_pow]
    simp only [WORD] at hw
    omega
  have hbd : block_data b = b + 32 := by
    unfold block_data wadd
    simp only [WORD, SIZEOF_BLOCK]
    omega
  have hx : block_data b < WORD := by
    rw [hbd]
    simp only [WORD]
    omega
  obtain ⟨s1, _, s3, _, s5⟩ := align_up_spec (block_data b) a ha hx
  simp only [WORD] at s1 s5
  have s6 := s5 (by omega)
  have hpad : wsub (align_up (block_data b) a) (block_data b) =
      align_up (block_data b) a - block_data b := by omega
  have hadd : size ≤ get_size m b →
      wadd size (align_up (block_data b) a - block_data b) =
        size + (align_up (block_data b) a - block_data b) := by
    intro h
    unfold wadd
    simp only [WORD]
    omega
  unfold Fits FitsRequest
  rw [hpad]
  constructor
  · intro h
    rw [hadd h.1] at h
    exact h.2
  · intro h
    have h1 : size ≤ get_size m b := by omega
    rw [hadd h1]
    exact ⟨h1, h⟩


theorem find_best_fit_fst (fuel : Nat) (m : Mem) (root size a : Nat) :
    (find_best_fit fuel m root size a).1 = (find_best_fit_loop m size a fuel 0 0 root 0).1 := by
  unfold find_best_fit
  by_cases h0 : root = 0
  · rw [if_pos h0, h0]
    cases fuel with
    | zero => unfold find_best_fit_loop; rfl
    | succ n => unfold find_best_fit_loop; rw [if_pos rfl]
  · rw [if_neg h0]


/-! ### Header recovery after an allocation -/

/-- The free tail space of a well-formed tail ends inside the arena. -/
theorem tail_space_inside {m : Mem} {em : Nat} {F : List Nat} (hL : TailLayout m em F)
    (h0 : free_size_in_tail m em ≠ 0) (hword : m em < 18446744073709551616)
    (harena : em + em_get_capacity m em < 18446744073709551616) :
    em_get_first_block m em ≤ em_get_tail m em ∧
      em_get_tail m em + 32 + free_size_in_tail m em ≤ em + em_get_capacity m em := by
  have hcapb : em_get_capacity m em < 2305843009213693952 := by
    unfold em_get_capacity get_size
    rw [Nat.shiftRight_eq_div_pow]
    omega
  have hwin := hL.tail_within
  have hgeo := hL.tail_after
  have hsmall := hL.space_small
  have hfits := hL.space_fits
  unfold is_block_within_em at hwin
  have hwa : wadd em (em_get_capacity m em) = em + em_get_capacity m em := by
    unfold wadd; simp only [WORD]; omega
  rw [hwa] at hwin
  simp only [Bool.and_eq_true, decide_eq_true_eq] at hwin
  refine ⟨hwin.1, ?_⟩
  by_cases hs : em_get_has_scratch m em = true
  · have h1 := (hL.scratch hs).1
    have hspot : scratch_size_spot m em + 8 ≤ em + em_get_capacity m em := by
      unfold scratch_size_spot
      rw [hwa, align_down_eq _ _ (by decide) (by simp only [WORD]; omega)]
      unfold wsub
      simp only [WORD, WORD_SIZE, MIN_ALIGNMENT]
      omega
    omega
  · have hfs := free_size_in_tail_eq m em (by omega) hL.tail_free
    have heff : effective_capacity m em = em_get_capacity m em := by
      unfold effective_capacity
      rw [if_neg hs]
    rw [heff, hL.tail_size] at hfs
    have a1 : wadd (wadd (em_get_tail m em) SIZEOF_BLOCK) 0 = em_get_tail m em + 32 := by
      unfold wadd; simp only [WORD, SIZEOF_BLOCK]; omega
    have a2 : wsub (em_get_tail m em + 32) em = em_get_tail m em + 32 - em := by
      unfold wsub; simp only [WORD]; omega
    rw [a1, a2] at hfs
    rw [hfs] at hsmall ⊢
    unfold wsub at hsmall ⊢
    simp only [WORD] at hsmall ⊢
    omega

/-- When the recovered header is not right in front of the pointer, the word before the
pointer is the header XOR the pointer. -/
theorem breadcrumb_of_recovered_header (m : Mem) (p h : Nat)
    (hr : recovered_header m p = h) (hge : 32 ≤ p) (hlt : p < 18446744073709551616)
    (hne : p ≠ h + 32) : m (p - 8) = h ^^^ p := by
  have h8 : wsub p WORD_SIZE = p - 8 := by
    unfold wsub; simp only [WORD, WORD_SIZE]; omega
  have h32 : wsub p SIZEOF_BLOCK = p - 32 := by
    unfold wsub; simp only [WORD, SIZEOF_BLOCK]; omega
  unfold recovered_header at hr
  dsimp only at hr
  rw [h8, h32] at hr
  by_cases hc : m (p - 8) ^^^ p = MAGIC
  · rw [if_pos hc] at hr
    omega
  · rw [if_neg hc] at hr
    rw [← hr, Nat.xor_assoc, Nat.xor_self, Nat.xor_zero]


/-! ### Bump allocator -/

theorem bump_set_offset_eq (m : Mem) (b v : Nat) :
    bump_get_offset (bump_set_offset m b v) b = v := Mem.write_eq m _ _

theorem bump_set_offset_cap (m : Mem) (b v : Nat) :
    bump_get_capacity (bump_set_offset m b v) b = bump_get_capacity m b := by
  unfold bump_get_capacity
  apply get_size_congr
  exact Mem.write_ne m _ (by omega)

theorem bump_remaining (m : Mem) (bump : Nat)
    (hoff : 32 ≤ bump_get_offset m bump)
    (hcap : bump_get_offset m bump - 32 ≤ bump_get_capacity m bump)
    (hw : m bump < 18446744073709551616) :
    wadd (wsub (bump_get_capacity m bump) (bump_get_offset m bump)) SIZEOF_BUMP =
      bump_get_capacity m bump - (bump_get_offset m bump - 32) := by
  have hc : bump_get_capacity m bump < 2305843009213693952 := by
    unfold bump_get_capacity get_size
    rw [Nat.shiftRight_eq_div_pow]
    omega
  unfold wadd wsub
  simp only [WORD, SIZEOF_BUMP]
  omega

/-- The two outcomes of `em_bump_alloc` on a well-formed bump allocator. -/
theorem em_bump_alloc_cases (m : Mem) (bump size : Nat) (hb : bump ≠ 0)
    (hoff : 32 ≤ bump_get_offset m bump)
    (hcap : bump_get_offset m bump - 32 ≤ bump_get_capacity m bump)
    (hw : m bump < 18446744073709551616)
    (hfit : bump + 32 + bump_get_capacity m bump ≤ 18446744073709551616) :
    ((size = 0 ∨ bump_get_capacity m bump - (bump_get_offset m bump - 32) ≤ size) →
        em_bump_alloc m bump size = (m, 0)) ∧
      (size ≠ 0 → size < bump_get_capacity m bump - (bump_get_offset m bump - 32) →
        em_bump_alloc m bump size =
          (bump_set_offset m bump (bump_get_offset m bump + size),
            bump + bump_get_offset m bump)) := by
  have hrem := bump_remaining m bump hoff hcap hw
  unfold em_bump_alloc
  rw [if_neg hb]
  dsimp only
  rw [hrem]
  refine ⟨?_, ?_⟩
  · intro h
    have hc : (size = 0 || decide (size ≥
        bump_get_capacity m bump - (bump_get_offset m bump - 32))) = true := by
      simp only [Bool.or_eq_true, decide_eq_true_eq, ge_iff_le]
      exact h
    rw [if_pos hc]
  · intro h0 hlt
    have hc : ¬ ((size = 0 || decide (size ≥
        bump_get_capacity m bump - (bump_get_offset m bump - 32))) = true) := by
      simp only [Bool.or_eq_true, decide_eq_true_eq, ge_iff_le, not_or, not_le]
      exact ⟨h0, hlt⟩
    rw [if_neg hc]
    have a1 : wadd (bump_get_offset m bump) size = bump_get_offset m bump + size := by
      unfold wadd; simp only [WORD]; omega
    have a2 : wadd bump (bump_get_offset m bump) = bump + bump_get_offset m bump := by
      unfold wadd; simp only [WORD]; omega
    rw [a1, a2]


/-- The outcomes of `em_bump_alloc_aligned` on a well-formed bump allocator, for an
accepted alignment and a nonzero size. -/
theorem em_bump_alloc_aligned_cases (m : Mem) (bump size a : Nat) (hb : bump ≠ 0)
    (ha : ValidAlignment a) (hsz : size ≠ 0)
    (hoff : 32 ≤ bump_get_offset m bump)
    (hcap : bump_get_offset m bump - 32 ≤ bump_get_capacity m bump)
    (hw : m bump < 18446744073709551616)
    (hfit : bump + 32 + bump_get_capacity m bump ≤ 18446744073709551616) :
    (bump_get_capacity m bump - (bump_get_offset m bump - 32) ≤
        wsub (align_up (bump + bump_get_offset m bump) a) (bump + bump_get_offset m bump) + size →
      em_bump_alloc_aligned m bump size a = (m, 0)) ∧
    (wsub (align_up (bump + bump_get_offset m bump) a) (bump + bump_get_offset m bump) + size <
        bump_get_capacity m bump - (bump_get_offset m bump - 32) →
      em_bump_alloc_aligned m bump size a =
        (bump_set_offset m bump (bump_get_offset m bump +
            (wsub (align_up (bump + bump_get_offset m bump) a)
              (bump + bump_get_offset m bump) + size)),
          bump + bump_get_offset m bump +
            wsub (align_up (bump + bump_get_offset m bump) a)
              (bump + bump_get_offset m bump)) ∧
      (bump + bump_get_offset m bump +
        wsub (align_up (bump + bump_get_offset m bump) a)
          (bump + bump_get_offset m bump)) % a = 0) := by
  have hrem := bump_remaining m bump hoff hcap hw
  have hc : bump_get_capacity m bump < 2305843009213693952 := by
    unfold bump_get_capacity get_size
    rw [Nat.shiftRight_eq_div_pow]
    omega
  have hle : 8 ≤ a ∧ a ≤ 2048 := by
    simp only [ValidAlignment, List.mem_cons, List.mem_singleton, List.not_mem_nil,
      or_false] at ha
    omega
  obtain ⟨k, hk, hak⟩ := validAlignment_pow a ha
  have h2 : ¬ (((a &&& wsub a 1) != 0) = true) := by
    have hw1 : wsub a 1 = a - 1 := wsub_one_of_pos (by omega) (by simp only [WORD]; omega)
    rw [hw1, hak]
    simp only [bne_iff_ne, ne_eq, not_not]
    interval_cases k <;> decide
  have h3 : ¬ ((decide (a < MIN_ALIGNMENT) || decide (a > MAX_ALIGNMENT)) = true) := by
    have hmax : MAX_ALIGNMENT = 2048 := by decide
    have hmin : MIN_ALIGNMENT = 8 := rfl
    rw [hmax, hmin]
    simp only [Bool.or_eq_true, decide_eq_true_eq, not_or, not_lt, gt_iff_lt]
    omega
  have hcur : wadd bump (bump_get_offset m bump) = (bump + bump_get_offset m bump) %
      18446744073709551616 := by
    unfold wadd; simp only [WORD]
  obtain ⟨cur, hcurd⟩ : ∃ x, x = bump + bump_get_offset m bump := ⟨_, rfl⟩
  have hcur_le : cur ≤ 18446744073709551616 := by omega
  rw [← hcurd]
  rw [← hcurd] at hcur
  by_cases htop : cur = 18446744073709551616
  · -- the bump allocator ends at the top of the address space and is full
    have hfull : bump_get_capacity m bump - (bump_get_offset m bump - 32) = 0 := by omega
    rw [hfull]
    refine ⟨?_, fun h => absurd h (by omega)⟩
    intro _
    unfold em_bump_alloc_aligned
    rw [if_neg hb, if_neg h2, if_neg h3, if_neg hsz]
    dsimp only
    rw [hrem, hfull]
    by_cases hc1 : size > wsub SIZE_MAX
        (wsub (align_up (wadd bump (bump_get_offset m bump)) a)
          (wadd bump (bump_get_offset m bump)))
    · rw [if_pos hc1]
    · rw [if_neg hc1, if_pos (Nat.zero_le _)]
  · have hlt : cur < 18446744073709551616 := by omega
    have hcur2 : wadd bump (bump_get_offset m bump) = cur := by
      rw [hcur]; exact Nat.mod_eq_of_lt hlt
    obtain ⟨s1, s2, s3, _, s5⟩ := align_up_spec cur a ha (by simp only [WORD]; exact hlt)
    obtain ⟨pad, hpad⟩ : ∃ x, x = wsub (align_up cur a) cur := ⟨_, rfl⟩
    rw [← hpad] at s3 s5 ⊢
    have hmax : wsub SIZE_MAX pad = 18446744073709551615 - pad := by
      unfold wsub; simp only [WORD, SIZE_MAX]; omega
    have hunf : em_bump_alloc_aligned m bump size a =
        if size > 18446744073709551615 - pad then (m, 0)
        else if wadd pad size ≥
            bump_get_capacity m bump - (bump_get_offset m bump - 32) then (m, 0)
        else (bump_set_offset m bump (wadd (bump_get_offset m bump) (wadd pad size)),
          align_up cur a) := by
      unfold em_bump_alloc_aligned
      rw [if_neg hb, if_neg h2, if_neg h3, if_neg hsz]
      dsimp only
      rw [hrem, hcur2, ← hpad, hmax]
    rw [hunf]
    refine ⟨?_, ?_⟩
    · intro h
      by_cases hc1 : size > 18446744073709551615 - pad
      · rw [if_pos hc1]
      · rw [if_neg hc1]
        have : wadd pad size = pad + size := by
          unfold wadd; simp only [WORD]; omega
        rw [this, if_pos h]
    · intro h
      have hc1 : ¬ (size > 18446744073709551615 - pad) := by omega
      have hws : wadd pad size = pad + size := by
        unfold wadd; simp only [WORD]; omega
      have hc2 : ¬ (pad + size ≥
          bump_get_capacity m bump - (bump_get_offset m bump - 32)) := by omega
      have hwo : wadd (bump_get_offset m bump) (pad + size) =
          bump_get_offset m bump + (pad + size) := by
        unfold wadd; simp only [WORD]; omega
      have hal : align_up cur a = cur + pad := s5 (by simp only [WORD]; omega)
      rw [if_neg hc1, hws, if_neg hc2, hwo, hal]
      refine ⟨rfl, ?_⟩
      rw [← hal]; exact s2


theorem em_bump_alloc_aligned_invalid (m : Mem) (bump size a : Nat)
    (h : bump = 0 ∨ ¬ ValidAlignment a ∨ size = 0) :
    em_bump_alloc_aligned m bump size a = (m, 0) := by
  unfold em_bump_alloc_aligned
  by_cases hb : bump = 0
  · rw [if_pos hb]
  · rw [if_neg hb]
    by_cases h2 : ((a &&& wsub a 1) != 0) = true
    · rw [if_pos h2]
    · rw [if_neg h2]
      by_cases h3 : (decide (a < MIN_ALIGNMENT) || decide (a > MAX_ALIGNMENT)) = true
      · rw [if_pos h3]
      · rw [if_neg h3]
        by_cases h4 : size = 0
        · rw [if_pos h4]
        · exfalso
          simp only [Bool.or_eq_true, decide_eq_true_eq, not_or, not_lt, bne_iff_ne, ne_eq,
            not_not, gt_iff_lt] at h2 h3
          have hmax : MAX_ALIGNMENT = 2048 := by decide
          have hmin : MIN_ALIGNMENT = 8 := rfl
          rw [hmax, hmin] at h3
          rcases h with h | h | h
          · exact hb h
          · exact h (validAlignment_of_checks a h2 h3.1 h3.2)
          · exact h4 h

theorem validAlignment_of_isPow2 (a : Nat) (hp : IsPow2 a) (h8 : 8 ≤ a) (hmax : a ≤ 2048) :
    ValidAlignment a := by
  obtain ⟨k, hk⟩ := hp
  have hk12 : k < 12 := by
    by_contra hge
    have : 2 ^ 12 ≤ 2 ^ k := Nat.pow_le_pow_right (by decide) (by omega)
    omega
  subst hk
  unfold ValidAlignment
  interval_cases k <;> simp at h8 ⊢

/-! ### Trimming a bump allocator -/

/-- What `split_block` leaves of the occupied block `B` that it shortens. -/
theorem split_block_spec {m : Mem} {em B needed : Nat} {F Bs : List Nat}
    (hL : BlockLayout m em F Bs) (hB : B ∈ Bs) (hBocc : get_is_free m B = false)
    (hBF : B ∉ F) (hn4 : needed % 4 = 0) :
    (¬ (needed < get_size m B ∧ 48 ≤ get_size m B - needed) →
        split_block m em B needed = m) ∧
      (needed < get_size m B → 48 ≤ get_size m B - needed →
        get_size (split_block m em B needed) B = needed ∧
        get_is_free (split_block m em B needed) (B + 32 + needed) = true ∧
        split_block m em B needed (B + 16) = m (B + 16) ∧
        split_block m em B needed (B + 24) = m (B + 24)) := by
  have hBf := hL.blocks_fit B hB
  have hfits := hL.arena_fits
  have hA := hL.headers_apart
  have hws : needed < get_size m B →
      wsub (get_size m B) needed = get_size m B - needed := by
    intro h
    unfold wsub
    simp only [WORD]
    omega
  rw [split_block_eq]
  constructor
  · intro hno
    have hc : ¬ ((decide (get_size m B > needed) &&
        decide (wsub (get_size m B) needed ≥ BLOCK_MIN_SIZE)) = true) := by
      simp only [Bool.and_eq_true, decide_eq_true_eq, gt_iff_lt, ge_iff_le]
      rintro ⟨h1, h2⟩
      rw [hws h1] at h2
      exact hno ⟨h1, h2⟩
    rw [if_neg hc]
  · intro hlt h48
    have hc : (decide (get_size m B > needed) &&
        decide (wsub (get_size m B) needed ≥ BLOCK_MIN_SIZE)) = true := by
      simp only [Bool.and_eq_true, decide_eq_true_eq, gt_iff_lt, ge_iff_le]
      rw [hws hlt]
      exact ⟨hlt, h48⟩
    rw [if_pos hc]
    obtain ⟨mc, hmc, hRu, hLc, hfR, hpR, hfB, hsB, hcem, hcf, _⟩ :=
      split_carve_spec hL hB hBocc hn4 hlt h48
    rw [hmc, hRu]
    have hprev : get_prev mc (B + 32 + needed) = 0 ∨
        (get_prev mc (B + 32 + needed) ∈ (B + 32 + needed) :: Bs ∧
          get_prev mc (B + 32 + needed) ≠ B + 32 + needed ∧
          get_is_free mc (get_prev mc (B + 32 + needed)) = false) := by
      rw [hpR]
      exact Or.inr ⟨List.mem_cons_of_mem _ hB, by omega, hfB⟩
    obtain ⟨hfr, hwf, hfreeR⟩ :=
      em_free_block_full_frame hLc (List.mem_cons_self _ _) hfR hprev
    have hk := hfr.2 B (List.mem_cons_of_mem _ hB) (by omega)
    -- the words `B + 16` and `B + 24` belong to no other header
    have hown : ∀ x, (x = B + 16 ∨ x = B + 24) →
        em_free_block_full mc em (B + 32 + needed) x = m x := by
      intro x hx
      have hxF : ∀ f ∈ (B + 32 + needed) :: F, x ≠ f + 8 ∧ x ≠ f + 16 ∧ x ≠ f + 24 := by
        intro f hf
        rcases List.mem_cons.1 hf with e | hfF
        · omega
        · have hne : f ≠ B := fun e => hBF (e ▸ hfF)
          have := hA f (hL.free_in_blocks f hfF) B hB hne
          omega
      have hxB : ∀ b ∈ Bs, x ≠ b + 8 := by
        intro b hb
        by_cases e : b = B
        · omega
        · have := hA b hb B hB e
          omega
      have hxB2 : ∀ b ∈ (B + 32 + needed) :: Bs, x ≠ b ∧ x ≠ b + 8 := by
        intro b hb
        rcases List.mem_cons.1 hb with e | hbB
        · omega
        · by_cases e : b = B
          · omega
          · have := hA b hbB B hB e
            omega
      rw [hwf x hxF hxB2 (by omega) (by omega)]
      exact hcf x (by omega) (by omega) hxB
    refine ⟨?_, hfreeR, hown _ (Or.inl rfl), hown _ (Or.inr rfl)⟩
    rw [get_size_congr hk.1, hsB]

/-- The payload size computed by `em_bump_trim` is the one of `trim_payload`. -/
theorem trim_payload_eq (m : Mem) (bump : Nat)
    (hoff : 32 ≤ bump_get_offset m bump)
    (htop : bump + bump_get_offset m bump + 32 + em_get_alignment m (bump_get_em m bump)
      ≤ 18446744073709551616) :
    wsub (wsub (align_up (wadd (wadd bump (bump_get_offset m bump)) SIZEOF_BLOCK)
        (em_get_alignment m (bump_get_em m bump))) SIZEOF_BLOCK) (wadd bump SIZEOF_BLOCK)
      = trim_payload m bump ∧
    bump_get_offset m bump - 32 ≤ trim_payload m bump ∧
    (bump + 32 + trim_payload m bump + 32) % em_get_alignment m (bump_get_em m bump) = 0 ∧
    (bump % 4 = 0 → trim_payload m bump % 4 = 0) := by
  obtain ⟨off, hoffd⟩ : ∃ x, x = bump_get_offset m bump := ⟨_, rfl⟩
  obtain ⟨pa, hpad⟩ : ∃ x, x = em_get_alignment m (bump_get_em m bump) := ⟨_, rfl⟩
  have hva : ValidAlignment pa := by rw [hpad]; exact get_alignment_valid _ _
  unfold trim_payload
  rw [← hoffd, ← hpad] at htop ⊢
  rw [← hoffd] at hoff
  have hpa8 : 8 ≤ pa ∧ pa % 8 = 0 ∧ pa ≤ 2048 := by
    simp only [ValidAlignment, List.mem_cons, List.mem_singleton, List.not_mem_nil,
      or_false] at hva
    omega
  have h1 : wadd bump off = bump + off := by
    unfold wadd; simp only [WORD]; omega
  have h2 : wadd (bump + off) SIZEOF_BLOCK = bump + off + 32 := by
    unfold wadd; simp only [WORD, SIZEOF_BLOCK]; omega
  have h3 : wadd bump SIZEOF_BLOCK = bump + 32 := by
    unfold wadd; simp only [WORD, SIZEOF_BLOCK]; omega
  rw [h1, h2, h3]
  obtain ⟨hX1, hX2, hX3, _, hX5⟩ :=
    align_up_spec (bump + off + 32) pa hva (by simp only [WORD]; omega)
  obtain ⟨X, hXd⟩ : ∃ x, x = align_up (bump + off + 32) pa := ⟨_, rfl⟩
  obtain ⟨d, hdd⟩ : ∃ x, x = wsub X (bump + off + 32) := ⟨_, rfl⟩
  simp only [SIZEOF_BLOCK]
  rw [← hXd] at hX1 hX2 hX3 hX5 ⊢
  rw [← hdd] at hX3 hX5
  have hX : X = bump + off + 32 + d := hX5 (by simp only [WORD]; omega)
  have h4 : wsub X 32 = X - 32 := by
    unfold wsub; simp only [WORD]; omega
  have h5 : wsub (X - 32) (bump + 32) = X - 2 * 32 - bump := by
    unfold wsub; simp only [WORD]; omega
  rw [h4, h5]
  refine ⟨rfl, by omega, ?_, ?_⟩
  · have : bump + 32 + (X - 2 * 32 - bump) + 32 = X := by omega
    rw [this]
    exact hX2
  · intro hb4
    have hX8 : X % 8 = 0 := by
      have := Nat.mod_mod_of_dvd X (show 8 ∣ pa from Nat.dvd_of_mod_eq_zero hpa8.2.1)
      omega
    omega

/-! ### Trees: the order of the nodes -/

theorem ColorTree.blocks_shape (t : ColorTree) : t.shape.blocks = t.blocks := by
  induction t with
  | nil => rfl
  | node l b c r ihl ihr => simp only [ColorTree.shape, FreeTree.blocks, ColorTree.blocks, ihl, ihr]

theorem FreeTree.shape_paint (m : Mem) (t : FreeTree) : (t.paint m).shape = t := by
  induction t with
  | nil => rfl
  | node l b r ihl ihr => simp only [FreeTree.paint, ColorTree.shape, ihl, ihr]

theorem ColorTree.blocks_rotateLeft (t : ColorTree) : t.rotateLeft.blocks = t.blocks := by
  rcases t with _ | ⟨l, b, c, _ | ⟨rl, x, cx, rr⟩⟩ <;>
    simp [ColorTree.rotateLeft, ColorTree.blocks]

theorem ColorTree.blocks_rotateRight (t : ColorTree) : t.rotateRight.blocks = t.blocks := by
  rcases t with _ | ⟨_ | ⟨ll, x, cx, lr⟩, b, c, r⟩ <;>
    simp [ColorTree.rotateRight, ColorTree.blocks]

theorem ColorTree.blocks_flipColors (t : ColorTree) : t.flipColors.blocks = t.blocks := by
  rcases t with _ | ⟨_ | ⟨ll, x, cx, lr⟩, b, c, _ | ⟨rl, y, cy, rr⟩⟩ <;>
    simp [ColorTree.flipColors, ColorTree.blocks]

theorem ColorTree.blocks_balance (t : ColorTree) : t.balance.blocks = t.blocks := by
  unfold ColorTree.balance
  dsimp only
  split <;> split <;> split <;>
    simp only [ColorTree.blocks_flipColors, ColorTree.blocks_rotateRight,
      ColorTree.blocks_rotateLeft]

theorem goes_left_iff (m : Mem) (x h : Nat) : goes_left m x h = true ↔ key_before m x h := by
  unfold goes_left key_before
  split
  · simp; omega
  · split
    · simp; omega
    · split
      · simp; omega
      · split
        · simp; omega
        · simp; omega

theorem key_before_of_not_goes_left (m : Mem) (x h : Nat) (h1 : goes_left m x h = false)
    (hne : x ≠ h) : key_before m h x := by
  have := (goes_left_iff m x h).not.1 (by simp [h1])
  unfold key_before at *
  omega

theorem key_before_trans {m : Mem} {x y z : Nat} (h1 : key_before m x y)
    (h2 : key_before m y z) : key_before m x z := by
  unfold key_before at *
  omega

theorem key_before_asymm {m : Mem} {x y : Nat} (h1 : key_before m x y) :
    ¬ key_before m y x := by
  unfold key_before at *
  omega

theorem FreeTree.ordered_iff (m : Mem) (t : FreeTree) :
    t.Ordered m ↔ t.blocks.Pairwise (key_before m) := by
  induction t with
  | nil => simp [FreeTree.Ordered, FreeTree.blocks]
  | node l b r ihl ihr =>
    simp only [FreeTree.Ordered, FreeTree.blocks, List.pairwise_append, List.pairwise_cons,
      List.mem_cons, ihl, ihr]
    constructor
    · rintro ⟨h1, h2, h3, h4⟩
      refine ⟨h3, ⟨h2, h4⟩, ?_⟩
      intro a ha c hc
      rcases hc with rfl | hc
      · exact h1 a ha
      · exact key_before_trans (h1 a ha) (h2 c hc)
    · rintro ⟨h1, ⟨h2, h3⟩, h4⟩
      exact ⟨fun x hx => h4 x hx b (Or.inl rfl), h2, h1, h3⟩

theorem ColorTree.insert_perm (m : Mem) (x : Nat) (t : ColorTree) :
    (t.insert m x).blocks.Perm (x :: t.blocks) := by
  induction t with
  | nil => simp [ColorTree.insert, ColorTree.blocks]
  | node l h c r ihl ihr =>
    unfold ColorTree.insert
    split
    · rw [ColorTree.blocks_balance]
      simp only [ColorTree.blocks]
      exact (ihl.append_right _).trans (by simp)
    · rw [ColorTree.blocks_balance]
      simp only [ColorTree.blocks]
      have h1 : (l.blocks ++ h :: (r.insert m x).blocks).Perm
          (l.blocks ++ h :: x :: r.blocks) :=
        List.Perm.append_left _ (List.Perm.cons _ ihr)
      refine h1.trans ?_
      have h2 : (l.blocks ++ h :: x :: r.blocks).Perm (x :: (l.blocks ++ h :: r.blocks)) := by
        have := (@List.perm_middle _ x (l.blocks ++ [h]) r.blocks)
        simpa using this
      exact h2

/-- The new block enters the sorted sequence of the blocks at its place. -/
theorem ColorTree.insert_blocks (m : Mem) (x : Nat) (t : ColorTree)
    (hs : t.blocks.Pairwise (key_before m)) (hx : x ∉ t.blocks) :
    ∃ l1 l2, t.blocks = l1 ++ l2 ∧ (t.insert m x).blocks = l1 ++ x :: l2 ∧
      (∀ y ∈ l1, key_before m y x) ∧ (∀ y ∈ l2, key_before m x y) := by
  induction t with
  | nil =>
    exact ⟨[], [], rfl, by simp [ColorTree.insert, ColorTree.blocks], by simp, by simp⟩
  | node l h c r ihl ihr =>
    simp only [ColorTree.blocks, List.pairwise_append, List.pairwise_cons, List.mem_cons,
      List.mem_append, not_or] at hs hx
    obtain ⟨hsl, ⟨hhr, hsr⟩, hlr⟩ := hs
    unfold ColorTree.insert
    by_cases hg : goes_left m x h = true
    · rw [if_pos hg, ColorTree.blocks_balance]
      obtain ⟨l1, l2, e1, e2, h1, h2⟩ := ihl hsl hx.1
      have hxh : key_before m x h := (goes_left_iff m x h).1 hg
      refine ⟨l1, l2 ++ h :: r.blocks, ?_, ?_, h1, ?_⟩
      · simp only [ColorTree.blocks, e1, List.append_assoc]
      · simp only [ColorTree.blocks, e2, List.append_assoc, List.cons_append]
      · intro y hy
        rcases List.mem_append.1 hy with hy | hy
        · exact h2 y hy
        · rcases List.mem_cons.1 hy with rfl | hy
          · exact hxh
          · exact key_before_trans hxh (hhr y hy)
    · rw [if_neg hg, ColorTree.blocks_balance]
      obtain ⟨l1, l2, e1, e2, h1, h2⟩ := ihr hsr hx.2.2
      have hhx : key_before m h x :=
        key_before_of_not_goes_left m x h (by simpa using hg) hx.2.1
      refine ⟨l.blocks ++ h :: l1, l2, ?_, ?_, ?_, h2⟩
      · simp only [ColorTree.blocks, e1, List.append_assoc, List.cons_append]
      · simp only [ColorTree.blocks, e2, List.append_assoc, List.cons_append]
      · intro y hy
        rcases List.mem_append.1 hy with hy | hy
        · exact key_before_trans (hlr y hy h (Or.inl rfl)) hhx
        · rcases List.mem_cons.1 hy with rfl | hy
          · exact hhx
          · exact h1 y hy

theorem ColorTree.minNode_dropMin (t : ColorTree) (h : t ≠ .nil) :
    t.blocks = t.minNode.1 :: t.dropMin.blocks := by
  induction t with
  | nil => exact absurd rfl h
  | node l b c r ihl _ =>
    rcases l with _ | ⟨ll, x, cx, lr⟩
    · simp [ColorTree.minNode, ColorTree.dropMin, ColorTree.blocks]
    · have := ihl (by simp)
      simp only [ColorTree.minNode, ColorTree.dropMin]
      rw [ColorTree.blocks, this]
      simp [ColorTree.blocks]

theorem ColorTree.blocks_splice (l r : ColorTree) :
    (ColorTree.splice l r).blocks = l.blocks ++ r.blocks := by
  rcases r with _ | ⟨rl, x, cx, rr⟩
  · simp [ColorTree.splice, ColorTree.blocks]
  · rcases l with _ | ⟨ll, y, cy, lr⟩
    · simp [ColorTree.splice, ColorTree.blocks]
    · have := ColorTree.minNode_dropMin (.node rl x cx rr) (by simp)
      simp only [ColorTree.splice]
      rw [ColorTree.blocks, ← this]

/-- The walk to `target` finds it in a sorted tree; the other blocks keep their order. -/
theorem ColorTree.remove_blocks (m : Mem) (target : Nat) (t : ColorTree)
    (hs : t.blocks.Pairwise (key_before m)) (ht : target ∈ t.blocks) :
    ∃ l1 l2, t.blocks = l1 ++ target :: l2 ∧ (t.remove m target).blocks = l1 ++ l2 := by
  induction t with
  | nil => simp [ColorTree.blocks] at ht
  | node l b c r ihl ihr =>
    simp only [ColorTree.blocks, List.pairwise_append, List.pairwise_cons, List.mem_cons,
      List.mem_append] at hs ht
    obtain ⟨hsl, ⟨hhr, hsr⟩, hlr⟩ := hs
    unfold ColorTree.remove
    by_cases hb : b = target
    · rw [if_pos hb, ColorTree.blocks_splice]
      exact ⟨l.blocks, r.blocks, by simp [ColorTree.blocks, hb], rfl⟩
    · rw [if_neg hb]
      by_cases hg : goes_left m target b = true
      · rw [if_pos hg]
        have hxh : key_before m target b := (goes_left_iff m target b).1 hg
        have htl : target ∈ l.blocks := by
          rcases ht with ht | ht | ht
          · exact ht
          · exact absurd ht.symm hb
          · exact absurd (hhr target ht) (key_before_asymm hxh)
        obtain ⟨l1, l2, e1, e2⟩ := ihl hsl htl
        refine ⟨l1, l2 ++ b :: r.blocks, ?_, ?_⟩
        · simp only [ColorTree.blocks, e1, List.append_assoc, List.cons_append]
        · simp only [ColorTree.blocks, e2, List.append_assoc]
      · rw [if_neg hg]
        have hhx : key_before m b target :=
          key_before_of_not_goes_left m target b (by simpa using hg) (Ne.symm hb)
        have htr : target ∈ r.blocks := by
          rcases ht with ht | ht | ht
          · exact absurd (hlr target ht b (Or.inl rfl)) (key_before_asymm hhx)
          · exact absurd ht.symm hb
          · exact ht
        obtain ⟨l1, l2, e1, e2⟩ := ihr hsr htr
        refine ⟨l.blocks ++ b :: l1, l2, ?_, ?_⟩
        · simp only [ColorTree.blocks, e1, List.append_assoc, List.cons_append]
        · simp only [ColorTree.blocks, e2, List.append_assoc, List.cons_append]

/-! ### Trees in memory -/

theorem get_color_set_color (m : Mem) (b : Nat) (c : Bool) :
    get_color (set_color m b c) b = c := by
  unfold get_color
  rw [set_color_eq]
  cases c
  · have : wnot COLOR_FLAG &&& COLOR_FLAG = 0 := by decide
    simp only [Bool.false_eq_true, if_false, Nat.and_assoc, this, Nat.and_zero]
    rfl
  · simp only [if_true, Nat.and_distrib_right]
    have e : COLOR_FLAG &&& COLOR_FLAG = 2 := by decide
    rw [e]
    have h3 : (m (b + 8) &&& COLOR_FLAG ||| 2) ≠ 0 := by
      intro h
      have t : (m (b + 8) &&& COLOR_FLAG ||| 2).testBit 1 = true := by
        rw [Nat.testBit_or]
        have : (2 : Nat).testBit 1 = true := by decide
        rw [this, Bool.or_true]
      rw [h] at t
      simp at t
    simpa using h3

theorem is_red_congr {m m' : Mem} {b : Nat} (h : m' (b + 8) = m (b + 8)) :
    is_red m' b = is_red m b := by
  unfold is_red get_color
  rw [h]

theorem is_red_set_color (m : Mem) {b : Nat} (c : Bool) (hb : b ≠ 0) :
    is_red (set_color m b c) b = !c := by
  unfold is_red
  rw [if_neg hb, get_color_set_color]
  cases c <;> rfl

theorem is_red_eq_get_color (m : Mem) {b : Nat} (hb : b ≠ 0) :
    is_red m b = !get_color m b := by
  unfold is_red
  rw [if_neg hb]
  cases get_color m b <;> rfl

theorem ColorTree.isRed_of_inMem {m : Mem} {t : ColorTree} {h : Nat} (hi : t.InMem m h) :
    is_red m h = t.isRed := by
  cases t with
  | nil =>
    have : h = 0 := hi
    subst this
    rfl
  | node l b c r =>
    obtain ⟨rfl, _, hc, _⟩ := hi
    exact hc

theorem ColorTree.root_mem {m : Mem} {t : ColorTree} {h : Nat} (hi : t.InMem m h)
    (hn : t ≠ .nil) : h ≠ 0 ∧ h ∈ t.blocks := by
  cases t with
  | nil => exact absurd rfl hn
  | node l b c r =>
    obtain ⟨rfl, hb, _⟩ := hi
    exact ⟨hb, by simp [ColorTree.blocks]⟩

theorem ColorTree.root_zero_or_mem {m : Mem} {t : ColorTree} {h : Nat} (hi : t.InMem m h) :
    h = 0 ∨ h ∈ t.blocks := by
  cases t with
  | nil => exact Or.inl hi
  | node l b c r =>
    obtain ⟨rfl, hb, _⟩ := hi
    exact Or.inr (by simp [ColorTree.blocks])

theorem ColorTree.eq_nil_of_inMem_zero {m : Mem} {t : ColorTree} (hi : t.InMem m 0) :
    t = .nil := by
  cases t with
  | nil => rfl
  | node l b c r =>
    obtain ⟨rfl, hb, _⟩ := hi
    exact absurd rfl hb

theorem ColorTree.zero_not_mem {m : Mem} : ∀ {t : ColorTree} {h : Nat}, t.InMem m h →
    0 ∉ t.blocks := by
  intro t
  induction t with
  | nil => intro h _; simp [ColorTree.blocks]
  | node l b c r ihl ihr =>
    intro h hi
    obtain ⟨rfl, hb, _, hl, hr⟩ := hi
    simp only [ColorTree.blocks, List.mem_append, List.mem_cons, not_or]
    exact ⟨ihl hl, fun e => hb e.symm, ihr hr⟩

/-- A tree stays in memory when the three tree words of its nodes stay. -/
theorem ColorTree.inMem_congr {m m' : Mem} : ∀ (t : ColorTree) (h : Nat),
    (∀ y ∈ t.blocks, m' (y + 8) = m (y + 8) ∧ m' (y + 16) = m (y + 16) ∧
      m' (y + 24) = m (y + 24)) → t.InMem m h → t.InMem m' h := by
  intro t
  induction t with
  | nil => intro h _ hi; exact hi
  | node l b c r ihl ihr =>
    intro h hw hi
    obtain ⟨rfl, hb, hc, hl, hr⟩ := hi
    have hwb := hw h (by simp [ColorTree.blocks])
    refine ⟨rfl, hb, ?_, ?_, ?_⟩
    · rw [is_red_congr hwb.1]; exact hc
    · have : get_left_tree m' h = get_left_tree m h := hwb.2.1
      rw [this]
      exact ihl _ (fun y hy => hw y (by simp [ColorTree.blocks, hy])) hl
    · have : get_right_tree m' h = get_right_tree m h := hwb.2.2
      rw [this]
      exact ihr _ (fun y hy => hw y (by simp [ColorTree.blocks, hy])) hr

theorem ColorTree.inMem_set_left {m : Mem} {t : ColorTree} {h : Nat} (a v : Nat)
    (hfar : ∀ y ∈ t.blocks, HeaderGap y a) (hi : t.InMem m h) :
    t.InMem (set_left_tree m a v) h := by
  refine ColorTree.inMem_congr t h (fun y hy => ?_) hi
  have := hfar y hy
  unfold HeaderGap at this
  exact ⟨set_left_tree_ne _ _ _ (by omega), set_left_tree_ne _ _ _ (by omega),
    set_left_tree_ne _ _ _ (by omega)⟩

theorem ColorTree.inMem_set_right {m : Mem} {t : ColorTree} {h : Nat} (a v : Nat)
    (hfar : ∀ y ∈ t.blocks, HeaderGap y a) (hi : t.InMem m h) :
    t.InMem (set_right_tree m a v) h := by
  refine ColorTree.inMem_congr t h (fun y hy => ?_) hi
  have := hfar y hy
  unfold HeaderGap at this
  exact ⟨set_right_tree_ne _ _ _ (by omega), set_right_tree_ne _ _ _ (by omega),
    set_right_tree_ne _ _ _ (by omega)⟩

theorem ColorTree.inMem_set_color {m : Mem} {t : ColorTree} {h : Nat} (a : Nat) (c : Bool)
    (hfar : ∀ y ∈ t.blocks, HeaderGap y a) (hi : t.InMem m h) :
    t.InMem (set_color m a c) h := by
  refine ColorTree.inMem_congr t h (fun y hy => ?_) hi
  have := hfar y hy
  unfold HeaderGap at this
  exact ⟨set_color_ne _ _ _ (by omega), set_color_ne _ _ _ (by omega),
    set_color_ne _ _ _ (by omega)⟩

theorem ColorTree.shape_inMem {m : Mem} : ∀ {t : ColorTree} {h : Nat}, t.InMem m h →
    t.shape.InMem m h := by
  intro t
  induction t with
  | nil => intro h hi; exact hi
  | node l b c r ihl ihr =>
    intro h hi
    obtain ⟨rfl, hb, _, hl, hr⟩ := hi
    exact ⟨rfl, hb, ihl hl, ihr hr⟩

theorem FreeTree.paint_inMem {m : Mem} : ∀ {t : FreeTree} {h : Nat}, t.InMem m h →
    (t.paint m).InMem m h := by
  intro t
  induction t with
  | nil => intro h hi; exact hi
  | node l b r ihl ihr =>
    intro h hi
    obtain ⟨rfl, hb, hl, hr⟩ := hi
    exact ⟨rfl, hb, rfl, ihl hl, ihr hr⟩

theorem ColorTree.height_shape (t : ColorTree) : t.shape.height = t.height := by
  induction t with
  | nil => rfl
  | node l b c r ihl ihr => simp only [ColorTree.shape, FreeTree.height, ColorTree.height, ihl, ihr]

/-- `rotateLeft` in memory is `rotateLeft` on the tree. -/
theorem rotateLeft_refines {m : Mem} {l rl rr : ColorTree} {b x : Nat} {c cx : Bool}
    (hi : (ColorTree.node l b c (.node rl x cx rr)).InMem m b)
    (hs : (ColorTree.node l b c (.node rl x cx rr)).blocks.Pairwise HeaderGap) :
    (ColorTree.node l b c (.node rl x cx rr)).rotateLeft.InMem
      (rotateLeft m b).1 (rotateLeft m b).2 := by
  obtain ⟨_, hb, hc, hl, hxe, hx, hcx, hrl, hrr⟩ := hi
  simp only [ColorTree.blocks, List.pairwise_append, List.pairwise_cons, List.mem_cons,
    List.mem_append] at hs
  obtain ⟨hsl, ⟨hbr, hsrl, ⟨hxrr, hsrr⟩, hrlrr⟩, hlr⟩ := hs
  have hbx : HeaderGap b x := hbr x (Or.inr (Or.inl rfl))
  have hbx2 := hbx
  unfold HeaderGap at hbx2
  have hxR : get_right_tree m b = x := hxe
  have hxw : m (b + 24) = x := hxR
  -- every subtree is far from both nodes
  have fl : ∀ y ∈ l.blocks, HeaderGap y b ∧ HeaderGap y x :=
    fun y hy => ⟨hlr y hy b (Or.inl rfl), hlr y hy x (Or.inr (Or.inr (Or.inl rfl)))⟩
  have frl : ∀ y ∈ rl.blocks, HeaderGap y b ∧ HeaderGap y x := by
    intro y hy
    have h1 := hbr y (Or.inl hy)
    have h2 := hrlrr y hy x (Or.inl rfl)
    unfold HeaderGap at *
    exact ⟨by omega, h2⟩
  have frr : ∀ y ∈ rr.blocks, HeaderGap y b ∧ HeaderGap y x := by
    intro y hy
    have h1 := hbr y (Or.inr (Or.inr hy))
    have h2 := hxrr y hy
    unfold HeaderGap at *
    exact ⟨by omega, by omega⟩
  have keep : ∀ (t : ColorTree) (h : Nat),
      (∀ y ∈ t.blocks, HeaderGap y b ∧ HeaderGap y x) → t.InMem m h →
      t.InMem (rotateLeft m b).1 h := by
    intro t h hf hi
    unfold rotateLeft
    dsimp only
    rw [hxR]
    exact ColorTree.inMem_set_color _ _ (fun y hy => (hf y hy).1)
      (ColorTree.inMem_set_color _ _ (fun y hy => (hf y hy).2)
        (ColorTree.inMem_set_left _ _ (fun y hy => (hf y hy).2)
          (ColorTree.inMem_set_right _ _ (fun y hy => (hf y hy).1) hi)))
  have w : (rotateLeft m b).2 = x ∧
      (rotateLeft m b).1 (x + 16) = b ∧ (rotateLeft m b).1 (x + 24) = m (x + 24) ∧
      (rotateLeft m b).1 (b + 16) = m (b + 16) ∧ (rotateLeft m b).1 (b + 24) = m (x + 16) ∧
      is_red (rotateLeft m b).1 x = is_red m b ∧ is_red (rotateLeft m b).1 b = true := by
    unfold rotateLeft
    dsimp only
    rw [hxR]
    refine ⟨rfl, ?_, ?_, ?_, ?_, ?_, ?_⟩
    · simp (disch := omega) only [set_color_ne, set_left_tree_eq]
    · simp (disch := omega) only [set_color_ne, set_left_tree_ne, set_right_tree_ne]
    · simp (disch := omega) only [set_color_ne, set_left_tree_ne, set_right_tree_ne]
    · simp (disch := omega) only [set_color_ne, set_left_tree_ne, set_right_tree_eq,
        get_left_tree]
    · rw [is_red_congr (set_color_ne _ _ _ (by omega)), is_red_set_color _ _ hx,
        is_red_eq_get_color m hb]
      unfold get_color
      simp (disch := omega) only [set_left_tree_ne, set_right_tree_ne]
    · rw [is_red_set_color _ _ hb]
      rfl
  obtain ⟨w1, w2, w3, w4, w5, w6, w7⟩ := w
  simp only [ColorTree.rotateLeft]
  rw [w1]
  refine ⟨rfl, hx, by rw [w6]; exact hc, ?_, ?_⟩
  · have e : get_left_tree (rotateLeft m b).1 x = b := w2
    rw [e]
    refine ⟨rfl, hb, w7, ?_, ?_⟩
    · have e2 : get_left_tree (rotateLeft m b).1 b = get_left_tree m b := w4
      rw [e2]
      exact keep _ _ fl hl
    · have e2 : get_right_tree (rotateLeft m b).1 b = get_left_tree m x := w5
      rw [e2]
      exact keep _ _ frl hrl
  · have e : get_right_tree (rotateLeft m b).1 x = get_right_tree m x := w3
    rw [e]
    exact keep _ _ frr hrr

/-- `rotateRight` in memory is `rotateRight` on the tree. -/
theorem rotateRight_refines {m : Mem} {ll lr r : ColorTree} {b x : Nat} {c cx : Bool}
    (hi : (ColorTree.node (.node ll x cx lr) b c r).InMem m b)
    (hs : (ColorTree.node (.node ll x cx lr) b c r).blocks.Pairwise HeaderGap) :
    (ColorTree.node (.node ll x cx lr) b c r).rotateRight.InMem
      (rotateRight m b).1 (rotateRight m b).2 := by
  obtain ⟨_, hb, hc, ⟨hxe, hx, hcx, hll, hlr⟩, hr⟩ := hi
  simp only [ColorTree.blocks, List.pairwise_append, List.pairwise_cons, List.mem_cons,
    List.mem_append] at hs
  obtain ⟨⟨hsll, ⟨hxlr, hslr⟩, hlllr⟩, ⟨hbr, hsr⟩, hlb⟩ := hs
  have hxb : HeaderGap x b := hlb x (Or.inr (Or.inl rfl)) b (Or.inl rfl)
  have hxb2 := hxb
  unfold HeaderGap at hxb2
  have hxL : get_left_tree m b = x := hxe
  have fll : ∀ y ∈ ll.blocks, HeaderGap y b ∧ HeaderGap y x :=
    fun y hy => ⟨hlb y (Or.inl hy) b (Or.inl rfl), hlllr y hy x (Or.inl rfl)⟩
  have flr : ∀ y ∈ lr.blocks, HeaderGap y b ∧ HeaderGap y x := by
    intro y hy
    have h1 := hlb y (Or.inr (Or.inr hy)) b (Or.inl rfl)
    have h2 := hxlr y hy
    unfold HeaderGap at *
    exact ⟨h1, by omega⟩
  have fr : ∀ y ∈ r.blocks, HeaderGap y b ∧ HeaderGap y x := by
    intro y hy
    have h1 := hbr y hy
    have h2 := hlb x (Or.inr (Or.inl rfl)) y (Or.inr hy)
    unfold HeaderGap at *
    exact ⟨by omega, by omega⟩
  have keep : ∀ (t : ColorTree) (h : Nat),
      (∀ y ∈ t.blocks, HeaderGap y b ∧ HeaderGap y x) → t.InMem m h →
      t.InMem (rotateRight m b).1 h := by
    intro t h hf hi
    unfold rotateRight
    dsimp only
    rw [hxL]
    exact ColorTree.inMem_set_color _ _ (fun y hy => (hf y hy).1)
      (ColorTree.inMem_set_color _ _ (fun y hy => (hf y hy).2)
        (ColorTree.inMem_set_right _ _ (fun y hy => (hf y hy).2)
          (ColorTree.inMem_set_left _ _ (fun y hy => (hf y hy).1) hi)))
  have w : (rotateRight m b).2 = x ∧
      (rotateRight m b).1 (x + 24) = b ∧ (rotateRight m b).1 (x + 16) = m (x + 16) ∧
      (rotateRight m b).1 (b + 24) = m (b + 24) ∧ (rotateRight m b).1 (b + 16) = m (x + 24) ∧
      is_red (rotateRight m b).1 x = is_red m b ∧ is_red (rotateRight m b).1 b = true := by
    unfold rotateRight
    dsimp only
    rw [hxL]
    refine ⟨rfl, ?_, ?_, ?_, ?_, ?_, ?_⟩
    · simp (disch := omega) only [set_color_ne, set_right_tree_eq]
    · simp (disch := omega) only [set_color_ne, set_left_tree_ne, set_right_tree_ne]
    · simp (disch := omega) only [set_color_ne, set_left_tree_ne, set_right_tree_ne]
    · simp (disch := omega) only [set_color_ne, set_right_tree_ne, set_left_tree_eq,
        get_right_tree]
    · rw [is_red_congr (set_color_ne _ _ _ (by omega)), is_red_set_color _ _ hx,
        is_red_eq_get_color m hb]
      unfold get_color
      simp (disch := omega) only [set_left_tree_ne, set_right_tree_ne]
    · rw [is_red_set_color _ _ hb]
      rfl
  obtain ⟨w1, w2, w3, w4, w5, w6, w7⟩ := w
  simp only [ColorTree.rotateRight]
  rw [w1]
  refine ⟨rfl, hx, by rw [w6]; exact hc, ?_, ?_⟩
  · have e : get_left_tree (rotateRight m b).1 x = get_left_tree m x := w3
    rw [e]
    exact keep _ _ fll hll
  · have e : get_right_tree (rotateRight m b).1 x = b := w2
    rw [e]
    refine ⟨rfl, hb, w7, ?_, ?_⟩
    · have e2 : get_left_tree (rotateRight m b).1 b = get_right_tree m x := w5
      rw [e2]
      exact keep _ _ flr hlr
    · have e2 : get_right_tree (rotateRight m b).1 b = get_right_tree m b := w4
      rw [e2]
      exact keep _ _ fr hr

/-- `flipColors` in memory is `flipColors` on the tree. -/
theorem flipColors_refines {m : Mem} {ll lr rl rr : ColorTree} {b x y : Nat}
    {c cx cy : Bool}
    (hi : (ColorTree.node (.node ll x cx lr) b c (.node rl y cy rr)).InMem m b)
    (hs : (ColorTree.node (.node ll x cx lr) b c (.node rl y cy rr)).blocks.Pairwise
      HeaderGap) :
    (ColorTree.node (.node ll x cx lr) b c (.node rl y cy rr)).flipColors.InMem
      (flipColors m b) b := by
  obtain ⟨_, hb, hc, ⟨hxe, hx, hcx, hll, hlr⟩, ⟨hye, hy, hcy, hrl, hrr⟩⟩ := hi
  simp only [ColorTree.blocks, List.pairwise_append, List.pairwise_cons, List.mem_cons,
    List.mem_append] at hs
  obtain ⟨⟨hsll, ⟨hxlr, hslr⟩, hlllr⟩, ⟨hbr, hsrl, ⟨hyrr, hsrr⟩, hrlrr⟩, hlb⟩ := hs
  have hxb : HeaderGap x b := hlb x (Or.inr (Or.inl rfl)) b (Or.inl rfl)
  have hby : HeaderGap b y := hbr y (Or.inr (Or.inl rfl))
  have hxy : HeaderGap x y :=
    hlb x (Or.inr (Or.inl rfl)) y (Or.inr (Or.inr (Or.inl rfl)))
  have hxb2 := hxb
  have hby2 := hby
  have hxy2 := hxy
  unfold HeaderGap at hxb2 hby2 hxy2
  have hxL : get_left_tree m b = x := hxe
  have hyR : get_right_tree m b = y := hye
  have hE : flipColors m b = set_color (set_color (set_color m b RED) x BLACK) y BLACK := by
    unfold flipColors
    dsimp only
    have e1 : get_left_tree (set_color m b RED) b = x := by
      unfold get_left_tree
      rw [set_color_ne _ _ _ (by omega)]
      exact hxL
    rw [e1]
    have e2 : get_right_tree (set_color (set_color m b RED) x BLACK) b = y := by
      unfold get_right_tree
      rw [set_color_ne _ _ _ (by omega), set_color_ne _ _ _ (by omega)]
      exact hyR
    rw [e2]
  have fll : ∀ z ∈ ll.blocks, HeaderGap z b ∧ HeaderGap z x ∧ HeaderGap z y :=
    fun z hz => ⟨hlb z (Or.inl hz) b (Or.inl rfl), hlllr z hz x (Or.inl rfl),
      hlb z (Or.inl hz) y (Or.inr (Or.inr (Or.inl rfl)))⟩
  have flr : ∀ z ∈ lr.blocks, HeaderGap z b ∧ HeaderGap z x ∧ HeaderGap z y := by
    intro z hz
    have h1 := hlb z (Or.inr (Or.inr hz)) b (Or.inl rfl)
    have h2 := hxlr z hz
    have h3 := hlb z (Or.inr (Or.inr hz)) y (Or.inr (Or.inr (Or.inl rfl)))
    unfold HeaderGap at *
    exact ⟨h1, by omega, h3⟩
  have frl : ∀ z ∈ rl.blocks, HeaderGap z b ∧ HeaderGap z x ∧ HeaderGap z y := by
    intro z hz
    have h1 := hbr z (Or.inl hz)
    have h2 := hlb x (Or.inr (Or.inl rfl)) z (Or.inr (Or.inl hz))
    have h3 := hrlrr z hz y (Or.inl rfl)
    unfold HeaderGap at *
    exact ⟨by omega, by omega, h3⟩
  have frr : ∀ z ∈ rr.blocks, HeaderGap z b ∧ HeaderGap z x ∧ HeaderGap z y := by
    intro z hz
    have h1 := hbr z (Or.inr (Or.inr hz))
    have h2 := hlb x (Or.inr (Or.inl rfl)) z (Or.inr (Or.inr (Or.inr hz)))
    have h3 := hyrr z hz
    unfold HeaderGap at *
    exact ⟨by omega, by omega, by omega⟩
  have keep : ∀ (t : ColorTree) (h : Nat),
      (∀ z ∈ t.blocks, HeaderGap z b ∧ HeaderGap z x ∧ HeaderGap z y) → t.InMem m h →
      t.InMem (flipColors m b) h := by
    intro t h hf hi
    rw [hE]
    exact ColorTree.inMem_set_color _ _ (fun z hz => (hf z hz).2.2)
      (ColorTree.inMem_set_color _ _ (fun z hz => (hf z hz).2.1)
        (ColorTree.inMem_set_color _ _ (fun z hz => (hf z hz).1) hi))
  have wl : ∀ z k, (k = 16 ∨ k = 24) → (z = b ∨ z = x ∨ z = y) →
      flipColors m b (z + k) = m (z + k) := by
    intro z k hk hz
    rw [hE]
    simp (disch := omega) only [set_color_ne]
  have wb : is_red (flipColors m b) b = true := by
    rw [hE, is_red_congr (set_color_ne _ _ _ (by omega)),
      is_red_congr (set_color_ne _ _ _ (by omega)), is_red_set_color _ _ hb]
    rfl
  have wx : is_red (flipColors m b) x = false := by
    rw [hE, is_red_congr (set_color_ne _ _ _ (by omega)), is_red_set_color _ _ hx]
    rfl
  have wy : is_red (flipColors m b) y = false := by
    rw [hE, is_red_set_color _ _ hy]
    rfl
  simp only [ColorTree.flipColors]
  refine ⟨rfl, hb, wb, ?_, ?_⟩
  · have e : get_left_tree (flipColors m b) b = x := (wl b 16 (Or.inl rfl) (Or.inl rfl)).trans hxL
    rw [e]
    refine ⟨rfl, hx, wx, ?_, ?_⟩
    · have e2 : get_left_tree (flipColors m b) x = get_left_tree m x :=
        wl x 16 (Or.inl rfl) (Or.inr (Or.inl rfl))
      rw [e2]
      exact keep _ _ fll hll
    · have e2 : get_right_tree (flipColors m b) x = get_right_tree m x :=
        wl x 24 (Or.inr rfl) (Or.inr (Or.inl rfl))
      rw [e2]
      exact keep _ _ flr hlr
  · have e : get_right_tree (flipColors m b) b = y :=
      (wl b 24 (Or.inr rfl) (Or.inl rfl)).trans hyR
    rw [e]
    refine ⟨rfl, hy, wy, ?_, ?_⟩
    · have e2 : get_left_tree (flipColors m b) y = get_left_tree m y :=
        wl y 16 (Or.inl rfl) (Or.inr (Or.inr rfl))
      rw [e2]
      exact keep _ _ frl hrl
    · have e2 : get_right_tree (flipColors m b) y = get_right_tree m y :=
        wl y 24 (Or.inr rfl) (Or.inr (Or.inr rfl))
      rw [e2]
      exact keep _ _ frr hrr

/-! ### `balance` and `insert_block` on trees in memory -/

theorem headerGap_symm {a b : Nat} (h : HeaderGap a b) : HeaderGap b a := by
  unfold HeaderGap at *
  omega

theorem pairwise_gap_perm {l1 l2 : List Nat} (hp : l1.Perm l2)
    (h : l1.Pairwise HeaderGap) : l2.Pairwise HeaderGap :=
  (hp.pairwise_iff (fun {_ _} h => headerGap_symm h)).1 h

theorem headersApart_of_pairwise {H : List Nat} (h : H.Pairwise HeaderGap) :
    HeadersApart H := by
  induction H with
  | nil => intro a ha; simp at ha
  | cons x xs ih =>
    intro a ha b hb hne
    rw [List.pairwise_cons] at h
    rcases List.mem_cons.1 ha with rfl | ha' <;> rcases List.mem_cons.1 hb with rfl | hb'
    · exact absurd rfl hne
    · exact h.1 b hb'
    · exact headerGap_symm (h.1 a ha')
    · exact ih h.2 a ha' b hb' hne

theorem treeFrame_gap {H : List Nat} {m m' : Mem} (hf : TreeFrame H m m') {z : Nat}
    (hz : ∀ y ∈ H, HeaderGap z y) :
    m' z = m z ∧ m' (z + 8) = m (z + 8) ∧ m' (z + 16) = m (z + 16) ∧
      m' (z + 24) = m (z + 24) := by
  have g : ∀ k, k < 32 → m' (z + k) = m (z + k) := by
    intro k hk
    apply hf.1
    intro y hy
    have := hz y hy
    unfold HeaderGap at this
    omega
  exact ⟨g 0 (by omega), g 8 (by omega), g 16 (by omega), g 24 (by omega)⟩

theorem ColorTree.linksClosed {m : Mem} : ∀ {t : ColorTree} {h : Nat}, t.InMem m h →
    LinksClosed m t.blocks := by
  intro t
  induction t with
  | nil => intro h _ x hx; simp [ColorTree.blocks] at hx
  | node l b c r ihl ihr =>
    intro h hi
    obtain ⟨rfl, hb, _, hl, hr⟩ := hi
    intro x hx
    simp only [ColorTree.blocks, List.mem_append, List.mem_cons] at hx ⊢
    rcases hx with hx | rfl | hx
    · have := ihl hl x hx
      exact ⟨this.1.imp id Or.inl, this.2.imp id Or.inl⟩
    · constructor
      · exact (ColorTree.root_zero_or_mem hl).imp id Or.inl
      · exact (ColorTree.root_zero_or_mem hr).imp id (fun h => Or.inr (Or.inr h))
    · have := ihr hr x hx
      exact ⟨this.1.imp id (fun h => Or.inr (Or.inr h)),
        this.2.imp id (fun h => Or.inr (Or.inr h))⟩

theorem linksClosed_cons {m : Mem} {H : List Nat} {nb : Nat} (hc : LinksClosed m H)
    (hl : get_left_tree m nb = 0) (hr : get_right_tree m nb = 0) :
    LinksClosed m (nb :: H) := by
  intro x hx
  rcases List.mem_cons.1 hx with rfl | hx
  · exact ⟨Or.inl hl, Or.inl hr⟩
  · have := hc x hx
    exact ⟨this.1.imp id (List.mem_cons_of_mem _), this.2.imp id (List.mem_cons_of_mem _)⟩

theorem balance_step1 {m : Mem} {t : ColorTree} {h : Nat} (hn : t ≠ .nil)
    (hi : t.InMem m h) (hs : t.blocks.Pairwise HeaderGap) :
    (if t.right.isRed = true then t.rotateLeft else t).InMem
        (if is_red m (get_right_tree m h) = true then rotateLeft m h else (m, h)).1
        (if is_red m (get_right_tree m h) = true then rotateLeft m h else (m, h)).2 ∧
      (if t.right.isRed = true then t.rotateLeft else t) ≠ .nil ∧
      (if t.right.isRed = true then t.rotateLeft else t).blocks.Pairwise HeaderGap := by
  rcases t with _ | ⟨l, b, c, r⟩
  · exact absurd rfl hn
  obtain ⟨rfl, hb, hc, hl, hr⟩ := hi
  have e : is_red m (get_right_tree m h) = r.isRed := ColorTree.isRed_of_inMem hr
  rw [e, show (ColorTree.node l h c r).right = r from rfl]
  by_cases c1 : r.isRed = true
  · rw [if_pos c1, if_pos c1]
    rcases r with _ | ⟨rl, x, cx, rr⟩
    · simp [ColorTree.isRed] at c1
    · exact ⟨rotateLeft_refines ⟨rfl, hb, hc, hl, hr⟩ hs, by simp [ColorTree.rotateLeft],
        by rw [ColorTree.blocks_rotateLeft]; exact hs⟩
  · rw [if_neg c1, if_neg c1]
    exact ⟨⟨rfl, hb, hc, hl, hr⟩, by simp, hs⟩

theorem balance_step2 {p : Mem × Nat} {t : ColorTree} (hn : t ≠ .nil)
    (hi : t.InMem p.1 p.2) (hs : t.blocks.Pairwise HeaderGap) :
    (if (t.left.isRed && t.left.left.isRed) = true then t.rotateRight else t).InMem
        (if (is_red p.1 (get_left_tree p.1 p.2) &&
            is_red p.1 (get_left_tree p.1 (get_left_tree p.1 p.2))) = true then
          rotateRight p.1 p.2 else p).1
        (if (is_red p.1 (get_left_tree p.1 p.2) &&
            is_red p.1 (get_left_tree p.1 (get_left_tree p.1 p.2))) = true then
          rotateRight p.1 p.2 else p).2 ∧
      (if (t.left.isRed && t.left.left.isRed) = true then t.rotateRight else t) ≠ .nil ∧
      (if (t.left.isRed && t.left.left.isRed) = true then t.rotateRight
        else t).blocks.Pairwise HeaderGap := by
  obtain ⟨m, h⟩ := p
  dsimp only at hi ⊢
  rcases t with _ | ⟨l, b, c, r⟩
  · exact absurd rfl hn
  obtain ⟨rfl, hb, hc, hl, hr⟩ := hi
  have e : (is_red m (get_left_tree m h) &&
      is_red m (get_left_tree m (get_left_tree m h))) = (l.isRed && l.left.isRed) := by
    rw [ColorTree.isRed_of_inMem hl]
    rcases l with _ | ⟨ll, x, cx, lr⟩
    · simp [ColorTree.isRed]
    · obtain ⟨hxe, _, _, hll, _⟩ := hl
      rw [hxe, ColorTree.isRed_of_inMem hll]
      rfl
  rw [e, show (ColorTree.node l h c r).left = l from rfl]
  by_cases c1 : (l.isRed && l.left.isRed) = true
  · rw [if_pos c1, if_pos c1]
    rcases l with _ | ⟨ll, x, cx, lr⟩
    · simp [ColorTree.isRed] at c1
    · exact ⟨rotateRight_refines ⟨rfl, hb, hc, hl, hr⟩ hs, by simp [ColorTree.rotateRight],
        by rw [ColorTree.blocks_rotateRight]; exact hs⟩
  · rw [if_neg c1, if_neg c1]
    exact ⟨⟨rfl, hb, hc, hl, hr⟩, by simp, hs⟩

theorem balance_step3 {p : Mem × Nat} {t : ColorTree} (hn : t ≠ .nil)
    (hi : t.InMem p.1 p.2) (hs : t.blocks.Pairwise HeaderGap) :
    (if (t.left.isRed && t.right.isRed) = true then t.flipColors else t).InMem
      (if (is_red p.1 (get_left_tree p.1 p.2) && is_red p.1 (get_right_tree p.1 p.2)) = true
        then flipColors p.1 p.2 else p.1) p.2 := by
  obtain ⟨m, h⟩ := p
  dsimp only at hi ⊢
  rcases t with _ | ⟨l, b, c, r⟩
  · exact absurd rfl hn
  obtain ⟨rfl, hb, hc, hl, hr⟩ := hi
  rw [ColorTree.isRed_of_inMem hl, ColorTree.isRed_of_inMem hr,
    show (ColorTree.node l h c r).left = l from rfl,
    show (ColorTree.node l h c r).right = r from rfl]
  by_cases c1 : (l.isRed && r.isRed) = true
  · rw [if_pos c1, if_pos c1]
    rcases l with _ | ⟨ll, x, cx, lr⟩
    · simp [ColorTree.isRed] at c1
    · rcases r with _ | ⟨rl, y, cy, rr⟩
      · simp [ColorTree.isRed] at c1
      · exact flipColors_refines ⟨rfl, hb, hc, hl, hr⟩ hs
  · rw [if_neg c1, if_neg c1]
    exact ⟨rfl, hb, hc, hl, hr⟩

/-- `balance` in memory is `balance` on the tree. -/
theorem balance_refines {m : Mem} {t : ColorTree} {h : Nat} (hn : t ≠ .nil)
    (hi : t.InMem m h) (hs : t.blocks.Pairwise HeaderGap) :
    t.balance.InMem (balance m h).1 (balance m h).2 := by
  unfold balance ColorTree.balance
  have s1 := balance_step1 hn hi hs
  generalize (if is_red m (get_right_tree m h) = true then rotateLeft m h else (m, h)) = p1
    at s1 ⊢
  generalize (if t.right.isRed = true then t.rotateLeft else t) = t1 at s1 ⊢
  have s2 := balance_step2 s1.2.1 s1.1 s1.2.2
  simp only []
  generalize (if (is_red p1.1 (get_left_tree p1.1 p1.2) &&
        is_red p1.1 (get_left_tree p1.1 (get_left_tree p1.1 p1.2))) = true then
        rotateRight p1.1 p1.2 else p1) = p2 at s2 ⊢
  generalize (if (t1.left.isRed && t1.left.left.isRed) = true then t1.rotateRight
    else t1) = t2 at s2 ⊢
  exact balance_step3 s2.2.1 s2.1 s2.2.2

theorem insert_block_succ (fuel : Nat) (m : Mem) (h nb : Nat) :
    insert_block (fuel + 1) m h nb =
      if h = 0 then (m, nb)
      else if goes_left m nb h = true then
        balance (set_left_tree (insert_block fuel m (get_left_tree m h) nb).1 h
          (insert_block fuel m (get_left_tree m h) nb).2) h
      else
        balance (set_right_tree (insert_block fuel m (get_right_tree m h) nb).1 h
          (insert_block fuel m (get_right_tree m h) nb).2) h := by
  rfl

theorem insert_block_frame {m : Mem} {nb : Nat} (hl : get_left_tree m nb = 0)
    (hr : get_right_tree m nb = 0) (fuel : Nat) {t : ColorTree} {h : Nat}
    (hi : t.InMem m h) (hs : (nb :: t.blocks).Pairwise HeaderGap) :
    TreeFrame (nb :: t.blocks) m (insert_block fuel m h nb).1 :=
  (treeInv_insert_block (headersApart_of_pairwise hs) (List.mem_cons_self _ _) fuel m h
    ((ColorTree.root_zero_or_mem hi).imp id (List.mem_cons_of_mem _))
    (treeInv_refl (linksClosed_cons (ColorTree.linksClosed hi) hl hr))).1.1

/-- `insert_block` in memory is `insert` on the tree. -/
theorem insert_block_refines {m : Mem} {nb : Nat} (hnb : nb ≠ 0)
    (hl : get_left_tree m nb = 0) (hr : get_right_tree m nb = 0) :
    ∀ (fuel : Nat) (t : ColorTree) (h : Nat), t.InMem m h → t.height < fuel →
      (nb :: t.blocks).Pairwise HeaderGap →
      (t.insert m nb).InMem (insert_block fuel m h nb).1 (insert_block fuel m h nb).2 := by
  intro fuel
  induction fuel with
  | zero => intro t h _ hlt; exact absurd hlt (Nat.not_lt_zero _)
  | succ fuel ih =>
    intro t h hi hlt hs
    rw [insert_block_succ]
    rcases t with _ | ⟨l, b, c, r⟩
    · have : h = 0 := hi
      rw [if_pos this]
      exact ⟨rfl, hnb, rfl, hl, hr⟩
    obtain ⟨rfl, hb, hc, hil, hir⟩ := hi
    rw [if_neg hb]
    have hs0 := hs
    simp only [ColorTree.blocks, List.pairwise_append, List.pairwise_cons, List.mem_cons,
      List.mem_append] at hs
    obtain ⟨hnbg, hsl, ⟨hbr, hsr⟩, hlr⟩ := hs
    simp only [ColorTree.height] at hlt
    unfold ColorTree.insert
    by_cases hg : goes_left m nb h = true
    · rw [if_pos hg, if_pos hg]
      have hsl' : (nb :: l.blocks).Pairwise HeaderGap :=
        List.pairwise_cons.2 ⟨fun y hy => hnbg y (Or.inl hy), hsl⟩
      have hrec := ih l _ hil (by omega) hsl'
      have hfr := insert_block_frame hl hr fuel hil hsl'
      obtain ⟨r0, hr0⟩ : ∃ x, x = insert_block fuel m (get_left_tree m h) nb := ⟨_, rfl⟩
      rw [← hr0] at hrec hfr ⊢
      have hperm := ColorTree.insert_perm m nb l
      -- the node `h` and the right subtree are away from the words that were written
      have hgh : ∀ y ∈ nb :: l.blocks, HeaderGap h y := by
        intro y hy
        rcases List.mem_cons.1 hy with rfl | hy
        · exact headerGap_symm (hnbg h (Or.inr (Or.inl rfl)))
        · exact headerGap_symm (hlr y hy h (Or.inl rfl))
      have hwh := treeFrame_gap hfr hgh
      have hgap : HeaderGap h h → False := by
        intro hh; unfold HeaderGap at hh; omega
      apply balance_refines (by simp)
      · refine ⟨rfl, hb, ?_, ?_, ?_⟩
        · rw [is_red_congr (set_left_tree_ne _ _ _ (by omega)), is_red_congr hwh.2.1]
          exact hc
        · have e : get_left_tree (set_left_tree r0.1 h r0.2) h = r0.2 :=
            set_left_tree_eq _ _ _
          rw [e]
          exact ColorTree.inMem_set_left _ _
            (fun y hy => headerGap_symm (hgh y (hperm.subset hy))) hrec
        · have e : get_right_tree (set_left_tree r0.1 h r0.2) h = get_right_tree m h := by
            unfold get_right_tree
            rw [set_left_tree_ne _ _ _ (by omega)]
            exact hwh.2.2.2
          rw [e]
          apply ColorTree.inMem_set_left _ _ (fun y hy => headerGap_symm (hbr y hy))
          refine ColorTree.inMem_congr r _ (fun y hy => ?_) hir
          have hgy : ∀ z ∈ nb :: l.blocks, HeaderGap y z := by
            intro z hz
            rcases List.mem_cons.1 hz with rfl | hz
            · exact headerGap_symm (hnbg y (Or.inr (Or.inr hy)))
            · exact headerGap_symm (hlr z hz y (Or.inr hy))
          exact (treeFrame_gap hfr hgy).2
      · refine pairwise_gap_perm ?_ hs0
        simp only [ColorTree.blocks]
        exact (List.Perm.append_right _ hperm.symm)
    · rw [if_neg hg, if_neg hg]
      have hsr' : (nb :: r.blocks).Pairwise HeaderGap :=
        List.pairwise_cons.2 ⟨fun y hy => hnbg y (Or.inr (Or.inr hy)), hsr⟩
      have hrec := ih r _ hir (by omega) hsr'
      have hfr := insert_block_frame hl hr fuel hir hsr'
      obtain ⟨r0, hr0⟩ : ∃ x, x = insert_block fuel m (get_right_tree m h) nb := ⟨_, rfl⟩
      rw [← hr0] at hrec hfr ⊢
      have hperm := ColorTree.insert_perm m nb r
      have hgh : ∀ y ∈ nb :: r.blocks, HeaderGap h y := by
        intro y hy
        rcases List.mem_cons.1 hy with rfl | hy
        · exact headerGap_symm (hnbg h (Or.inr (Or.inl rfl)))
        · exact hbr y hy
      have hwh := treeFrame_gap hfr hgh
      apply balance_refines (by simp)
      · refine ⟨rfl, hb, ?_, ?_, ?_⟩
        · rw [is_red_congr (set_right_tree_ne _ _ _ (by omega)), is_red_congr hwh.2.1]
          exact hc
        · have e : get_left_tree (set_right_tree r0.1 h r0.2) h = get_left_tree m h := by
            unfold get_left_tree
            rw [set_right_tree_ne _ _ _ (by omega)]
            exact hwh.2.2.1
          rw [e]
          apply ColorTree.inMem_set_right _ _ (fun y hy => hlr y hy h (Or.inl rfl))
          refine ColorTree.inMem_congr l _ (fun y hy => ?_) hil
          have hgy : ∀ z ∈ nb :: r.blocks, HeaderGap y z := by
            intro z hz
            rcases List.mem_cons.1 hz with rfl | hz
            · exact headerGap_symm (hnbg y (Or.inl hy))
            · exact hlr y hy z (Or.inr hz)
          exact (treeFrame_gap hfr hgy).2
        · have e : get_right_tree (set_right_tree r0.1 h r0.2) h = r0.2 :=
            set_right_tree_eq _ _ _
          rw [e]
          exact ColorTree.inMem_set_right _ _
            (fun y hy => headerGap_symm (hgh y (hperm.subset hy))) hrec
      · refine pairwise_gap_perm ?_ hs0
        simp only [ColorTree.blocks]
        have h1 : (nb :: (l.blocks ++ h :: r.blocks)).Perm
            (l.blocks ++ h :: nb :: r.blocks) := by
          have := (@List.perm_middle _ nb (l.blocks ++ [h]) r.blocks)
          simpa using this.symm
        exact h1.trans (List.Perm.append_left _ (List.Perm.cons _ hperm.symm))

/-! ### `detach_block_by_ptr` on trees in memory -/

theorem ColorTree.ne_nil_of_inMem {m : Mem} {t : ColorTree} {h : Nat} (hi : t.InMem m h)
    (h0 : h ≠ 0) : t ≠ .nil := by
  rintro rfl
  exact h0 hi

theorem ColorTree.minNode_mem (t : ColorTree) (h : t ≠ .nil) : t.minNode.1 ∈ t.blocks := by
  rw [ColorTree.minNode_dropMin t h]
  exact List.mem_cons_self _ _

theorem ColorTree.dropMin_subset (t : ColorTree) : ∀ y ∈ t.dropMin.blocks, y ∈ t.blocks := by
  intro y hy
  by_cases h : t = .nil
  · subst h
    exact hy
  · rw [ColorTree.minNode_dropMin t h]
    exact List.mem_cons_of_mem _ hy

/-- The walk to the leftmost node of a non-empty tree `r`, and the link write that takes this
node out of `r`. -/
theorem min_node_loop_refines {m : Mem} :
    ∀ (r : ColorTree) (fuel x p : Nat), r ≠ .nil → r.InMem m x → r.height ≤ fuel →
      r.blocks.Pairwise HeaderGap →
      ∃ mp, min_node_loop m fuel p x = (mp, r.minNode.1) ∧
        is_red m r.minNode.1 = r.minNode.2 ∧ r.minNode.1 ≠ 0 ∧
        get_left_tree m r.minNode.1 = 0 ∧
        (r.left = .nil → mp = p ∧ r.minNode.1 = x ∧
          r.dropMin.InMem m (get_right_tree m x)) ∧
        (r.left ≠ .nil → mp ∈ r.blocks ∧ mp ≠ r.minNode.1 ∧
          r.dropMin.InMem (set_left_tree m mp (get_right_tree m r.minNode.1)) x) := by
  intro r
  induction r with
  | nil => intro fuel x p hn; exact absurd rfl hn
  | node rl b c rr ihl _ =>
    intro fuel x p _ hi hf hs
    obtain ⟨rfl, hx, hc, hrl, hrr⟩ := hi
    simp only [ColorTree.height] at hf
    obtain ⟨f, rfl⟩ : ∃ f, fuel = f + 1 := ⟨fuel - 1, by omega⟩
    simp only [ColorTree.blocks, List.pairwise_append, List.pairwise_cons, List.mem_cons] at hs
    obtain ⟨hsl, ⟨hxr, hsr⟩, hlr⟩ := hs
    rcases rl with _ | ⟨rll, y, cy, rlr⟩
    · -- the root is the leftmost node
      have h0 : get_left_tree m x = 0 := hrl
      refine ⟨p, ?_, hc, hx, h0, fun _ => ⟨rfl, rfl, hrr⟩, fun h => absurd rfl h⟩
      unfold min_node_loop
      rw [h0]
      rfl
    · have hy : get_left_tree m x = y := hrl.1
      have hy0 : y ≠ 0 := hrl.2.1
      obtain ⟨mp, hloop, hred, hmn0, hmnl, hA, hB⟩ :=
        ihl f y x (by simp) (by rw [hy] at hrl; exact hrl) (by omega) hsl
      have hmin : (ColorTree.node (.node rll y cy rlr) x c rr).minNode =
          (ColorTree.node rll y cy rlr).minNode := rfl
      have hdrop : (ColorTree.node (.node rll y cy rlr) x c rr).dropMin =
          .node (ColorTree.node rll y cy rlr).dropMin x c rr := rfl
      rw [hmin, hdrop]
      have hgx : ∀ z ∈ (ColorTree.node rll y cy rlr).blocks, HeaderGap z x :=
        fun z hz => hlr z hz x (Or.inl rfl)
      have hgd : ∀ z ∈ (ColorTree.node rll y cy rlr).dropMin.blocks, HeaderGap z x :=
        fun z hz => hgx z (ColorTree.dropMin_subset _ z hz)
      have hmem := ColorTree.minNode_mem (.node rll y cy rlr) (by simp)
      refine ⟨mp, ?_, hred, hmn0, hmnl, fun h => absurd h (by simp [ColorTree.left]), fun _ => ?_⟩
      · unfold min_node_loop
        have : (get_left_tree m x != 0) = true := by rw [hy]; simpa using hy0
        rw [if_pos this, hy]
        exact hloop
      · by_cases hl : (ColorTree.node rll y cy rlr).left = .nil
        · obtain ⟨e1, e2, hd⟩ := hA hl
          have hxy : HeaderGap y x := hgx y (by simp [ColorTree.blocks])
          have hxy2 := hxy
          unfold HeaderGap at hxy2
          subst e1
          refine ⟨by simp [ColorTree.blocks], by rw [e2]; omega, ?_⟩
          rw [e2]
          refine ⟨rfl, hx, ?_, ?_, ?_⟩
          · rw [is_red_congr (set_left_tree_ne _ _ _ (by omega))]; exact hc
          · have e : get_left_tree (set_left_tree m mp (get_right_tree m y)) mp =
                get_right_tree m y := set_left_tree_eq _ _ _
            rw [e]
            exact ColorTree.inMem_set_left _ _ hgd hd
          · have e : get_right_tree (set_left_tree m mp (get_right_tree m y)) mp =
                get_right_tree m mp := set_left_tree_ne _ _ _ (by omega)
            rw [e]
            exact ColorTree.inMem_set_left _ _ (fun z hz => headerGap_symm (hxr z hz)) hrr
        · obtain ⟨hmpm, hmpn, hd⟩ := hB hl
          have hmx : HeaderGap mp x := hgx mp hmpm
          have hmx2 := hmx
          unfold HeaderGap at hmx2
          refine ⟨List.mem_append_left _ hmpm, hmpn, ?_⟩
          refine ⟨rfl, hx, ?_, ?_, ?_⟩
          · rw [is_red_congr (set_left_tree_ne _ _ _ (by omega))]; exact hc
          · have e : get_left_tree (set_left_tree m mp
                (get_right_tree m (ColorTree.node rll y cy rlr).minNode.1)) x = y := by
              unfold get_left_tree
              rw [set_left_tree_ne _ _ _ (by omega)]
              exact hy
            rw [e]
            exact hd
          · have e : get_right_tree (set_left_tree m mp
                (get_right_tree m (ColorTree.node rll y cy rlr).minNode.1)) x =
                get_right_tree m x := set_left_tree_ne _ _ _ (by omega)
            rw [e]
            exact ColorTree.inMem_set_left _ _ (fun z hz => headerGap_symm (hlr mp hmpm z
              (Or.inr hz))) hrr

/-- The replacement that `detach_block_fast` builds for `target` is the spliced tree; only
links of nodes in the right subtree are written. -/
theorem detach_replace_refines {m : Mem} {l r : ColorTree} {target : Nat} {c : Bool}
    (fuel : Nat) (hi : (ColorTree.node l target c r).InMem m target)
    (hf : r.height ≤ fuel)
    (hs : (ColorTree.node l target c r).blocks.Pairwise HeaderGap) :
    (ColorTree.splice l r).InMem (detach_replace fuel m target).1
        (detach_replace fuel m target).2 ∧
      (∀ w, (∀ y ∈ r.blocks, w ≠ y + 16 ∧ w ≠ y + 24) →
        (detach_replace fuel m target).1 w = m w) := by
  obtain ⟨_, ht, hc, hl, hr⟩ := hi
  simp only [ColorTree.blocks, List.pairwise_append, List.pairwise_cons, List.mem_cons] at hs
  obtain ⟨hsl, ⟨htr, hsr⟩, hlr⟩ := hs
  unfold detach_replace
  dsimp only
  by_cases h0 : get_right_tree m target = 0
  · rw [if_pos h0]
    have : r = .nil := by rw [h0] at hr; exact ColorTree.eq_nil_of_inMem_zero hr
    subst this
    refine ⟨?_, fun _ _ => rfl⟩
    have : ColorTree.splice l .nil = l := by
      cases l <;> rfl
    rw [this]
    exact hl
  rw [if_neg h0]
  have hrn : r ≠ .nil := ColorTree.ne_nil_of_inMem hr h0
  by_cases h1 : get_left_tree m target = 0
  · rw [if_pos h1]
    have : l = .nil := by rw [h1] at hl; exact ColorTree.eq_nil_of_inMem_zero hl
    subst this
    refine ⟨?_, fun _ _ => rfl⟩
    have : ColorTree.splice .nil r = r := by
      rcases r with _ | ⟨rl, x, cx, rr⟩
      · exact absurd rfl hrn
      · rfl
    rw [this]
    exact hr
  rw [if_neg h1]
  have hln : l ≠ .nil := ColorTree.ne_nil_of_inMem hl h1
  have hsp : ColorTree.splice l r = .node l r.minNode.1 r.minNode.2 r.dropMin := by
    rcases r with _ | ⟨rl, x, cx, rr⟩
    · exact absurd rfl hrn
    · rcases l with _ | ⟨ll, y, cy, lr⟩
      · exact absurd rfl hln
      · rfl
  rw [hsp]
  obtain ⟨mp, hloop, hred, hmn0, hmnl, hA, hB⟩ :=
    min_node_loop_refines r fuel (get_right_tree m target) target hrn hr hf hsr
  rw [hloop]
  dsimp only
  obtain ⟨mn, hmnd⟩ : ∃ x, x = r.minNode.1 := ⟨_, rfl⟩
  rw [← hmnd] at hloop hred hmn0 hmnl hA hB ⊢
  have hmnm : mn ∈ r.blocks := by rw [hmnd]; exact ColorTree.minNode_mem r hrn
  have hblocks : r.blocks = mn :: r.dropMin.blocks := by
    rw [hmnd]; exact ColorTree.minNode_dropMin r hrn
  have hgd : ∀ z ∈ r.dropMin.blocks, HeaderGap z mn := by
    intro z hz
    rw [hblocks, List.pairwise_cons] at hsr
    exact headerGap_symm (hsr.1 z hz)
  have hgl : ∀ z ∈ l.blocks, ∀ y ∈ r.blocks, HeaderGap z y :=
    fun z hz y hy => hlr z hz y (Or.inr hy)
  by_cases hleft : r.left = .nil
  · obtain ⟨e1, e2, hd⟩ := hA hleft
    have hc2 : ¬ ((mp != target) = true) := by simp [e1]
    rw [if_neg hc2]
    refine ⟨⟨rfl, hmn0, ?_, ?_, ?_⟩, ?_⟩
    · rw [is_red_congr (set_left_tree_ne _ _ _ (by omega))]; exact hred
    · have e : get_left_tree (set_left_tree m mn (get_left_tree m target)) mn =
          get_left_tree m target := set_left_tree_eq _ _ _
      rw [e]
      exact ColorTree.inMem_set_left _ _ (fun z hz => hgl z hz mn hmnm) hl
    · have e : get_right_tree (set_left_tree m mn (get_left_tree m target)) mn =
          get_right_tree m mn := set_left_tree_ne _ _ _ (by omega)
      rw [e]
      rw [← e2] at hd
      exact ColorTree.inMem_set_left _ _ hgd hd
    · intro w hw
      rw [set_left_tree_ne _ _ _ (hw mn hmnm).1]
  · obtain ⟨hmpm, hmpn, hd⟩ := hB hleft
    have hmpt : HeaderGap target mp := htr mp hmpm
    have hmpt2 := hmpt
    unfold HeaderGap at hmpt2
    have hc2 : (mp != target) = true := by
      simp only [bne_iff_ne, ne_eq]
      omega
    rw [if_pos hc2]
    have hmpmn : HeaderGap mp mn := by
      rw [hblocks] at hmpm hsr
      rw [List.pairwise_cons] at hsr
      rcases List.mem_cons.1 hmpm with e | e
      · exact absurd e hmpn
      · exact headerGap_symm (hsr.1 mp e)
    have hmpmn2 := hmpmn
    unfold HeaderGap at hmpmn2
    refine ⟨⟨rfl, hmn0, ?_, ?_, ?_⟩, ?_⟩
    · rw [is_red_congr (set_left_tree_ne _ _ _ (by omega)),
        is_red_congr (set_right_tree_ne _ _ _ (by omega)),
        is_red_congr (set_left_tree_ne _ _ _ (by omega))]
      exact hred
    · have e : get_left_tree (set_left_tree (set_right_tree (set_left_tree m mp
          (get_right_tree m mn)) mn (get_right_tree m target)) mn (get_left_tree m target)) mn
          = get_left_tree m target := set_left_tree_eq _ _ _
      rw [e]
      exact ColorTree.inMem_set_left _ _ (fun z hz => hgl z hz mn hmnm)
        (ColorTree.inMem_set_right _ _ (fun z hz => hgl z hz mn hmnm)
          (ColorTree.inMem_set_left _ _ (fun z hz => hgl z hz mp hmpm) hl))
    · have e : get_right_tree (set_left_tree (set_right_tree (set_left_tree m mp
          (get_right_tree m mn)) mn (get_right_tree m target)) mn (get_left_tree m target)) mn
          = get_right_tree m target := by
        unfold get_right_tree
        rw [set_left_tree_ne _ _ _ (by omega)]
        exact set_right_tree_eq _ _ _
      rw [e]
      exact ColorTree.inMem_set_left _ _ hgd (ColorTree.inMem_set_right _ _ hgd hd)
    · intro w hw
      rw [set_left_tree_ne _ _ _ (hw mn hmnm).1, set_right_tree_ne _ _ _ (hw mn hmnm).2,
        set_left_tree_ne _ _ _ (hw mp hmpm).1]

theorem find_by_ptr_loop_succ (m : Mem) (target fuel cur par : Nat) :
    find_by_ptr_loop m target (get_size m target) (min_exponent_of (block_data target))
        (fuel + 1) cur par =
      if (cur != 0 && cur != target) = true then
        find_by_ptr_loop m target (get_size m target) (min_exponent_of (block_data target)) fuel
          (if goes_left m target cur = true then get_left_tree m cur
            else get_right_tree m cur) cur
      else (cur, par) := by
  rw [find_by_ptr_loop]
  by_cases h : (cur != 0 && cur != target) = true
  · rw [if_pos h, if_pos h]
    unfold goes_left
    dsimp only
    split_ifs <;> (try simp only [decide_eq_true_eq] at *) <;>
      first | rfl | (exfalso; omega) | (exfalso; simp_all)
  · rw [if_neg h, if_neg h]

/-- In a sorted tree the walk of `detach_block_by_ptr` ends at `target` and reports the
parent of `parentOf`. -/
theorem find_by_ptr_loop_refines {m : Mem} {target : Nat} :
    ∀ (t : ColorTree) (fuel h par : Nat), t.InMem m h → target ∈ t.blocks →
      t.blocks.Pairwise (key_before m) → t.height ≤ fuel →
      find_by_ptr_loop m target (get_size m target) (min_exponent_of (block_data target))
        fuel h par = (target, t.parentOf m target par) := by
  intro t
  induction t with
  | nil => intro fuel h par _ ht; simp [ColorTree.blocks] at ht
  | node l b c r ihl ihr =>
    intro fuel h par hi ht hs hf
    obtain ⟨rfl, hb, _, hl, hr⟩ := hi
    simp only [ColorTree.height] at hf
    obtain ⟨f, rfl⟩ : ∃ f, fuel = f + 1 := ⟨fuel - 1, by omega⟩
    simp only [ColorTree.blocks, List.pairwise_append, List.pairwise_cons, List.mem_cons,
      List.mem_append] at hs ht
    obtain ⟨hsl, ⟨hhr, hsr⟩, hlr⟩ := hs
    rw [find_by_ptr_loop_succ]
    unfold ColorTree.parentOf
    by_cases hbt : h = target
    · have : ¬ ((h != 0 && h != target) = true) := by simp [hbt]
      rw [if_neg this, if_pos hbt, hbt]
    · have : (h != 0 && h != target) = true := by simp [hb, hbt]
      rw [if_pos this, if_neg hbt]
      by_cases hg : goes_left m target h = true
      · rw [if_pos hg, if_pos hg]
        have hxh : key_before m target h := (goes_left_iff m target h).1 hg
        have htl : target ∈ l.blocks := by
          rcases ht with ht | ht | ht
          · exact ht
          · exact absurd ht.symm hbt
          · exact absurd (hhr target ht) (key_before_asymm hxh)
        exact ihl f _ h hl htl hsl (by omega)
      · rw [if_neg hg, if_neg hg]
        have hhx : key_before m h target :=
          key_before_of_not_goes_left m target h (by simpa using hg) (Ne.symm hbt)
        have htr : target ∈ r.blocks := by
          rcases ht with ht | ht | ht
          · exact absurd (hlr target ht h (Or.inl rfl)) (key_before_asymm hhx)
          · exact absurd ht.symm hbt
          · exact ht
        exact ihr f _ h hr htr hsr (by omega)

theorem detach_relink_words (s1 : Mem × Nat) (root target : Nat) {p : Nat} (hp : p ≠ 0) :
    (detach_relink s1 root target p).2 = root ∧
      ∀ w, w ≠ p + 16 → w ≠ p + 24 → (detach_relink s1 root target p).1 w = s1.1 w := by
  unfold detach_relink
  rw [if_neg hp]
  by_cases h : get_left_tree s1.1 p = target
  · rw [if_pos h]
    exact ⟨rfl, fun w h1 _ => set_left_tree_ne _ _ _ h1⟩
  · rw [if_neg h]
    exact ⟨rfl, fun w _ h2 => set_right_tree_ne _ _ _ h2⟩

theorem ColorTree.remove_subset {m : Mem} {target : Nat} {t : ColorTree}
    (hs : t.blocks.Pairwise (key_before m)) (ht : target ∈ t.blocks) :
    ∀ y ∈ (t.remove m target).blocks, y ∈ t.blocks := by
  obtain ⟨l1, l2, e1, e2⟩ := ColorTree.remove_blocks m target t hs ht
  intro y hy
  rw [e2] at hy
  rw [e1]
  rcases List.mem_append.1 hy with h | h
  · exact List.mem_append_left _ h
  · exact List.mem_append_right _ (List.mem_cons_of_mem _ h)

/-- The tree that the replacement and the relinking leave is `remove` on the tree. -/
theorem remove_refines {m : Mem} {target : Nat} (fuel root : Nat) {s1 : Mem × Nat}
    (hs1 : s1 = detach_replace fuel m target) :
    ∀ (t : ColorTree) (h par : Nat), t.InMem m h → target ∈ t.blocks →
      t.blocks.Pairwise (key_before m) → t.blocks.Pairwise HeaderGap → t.height ≤ fuel →
      (∀ w, (∀ y ∈ t.blocks, w ≠ y + 16 ∧ w ≠ y + 24) → s1.1 w = m w) ∧
      (h = target → (t.remove m target).InMem s1.1 s1.2) ∧
      (h ≠ target → t.parentOf m target par ∈ t.blocks ∧
        (t.remove m target).InMem
          (detach_relink s1 root target (t.parentOf m target par)).1 h) := by
  intro t
  induction t with
  | nil => intro h par _ ht; simp [ColorTree.blocks] at ht
  | node l b c r ihl ihr =>
    intro h par hi ht hk hs hf
    have hi0 := hi
    have hs0 := hs
    obtain ⟨rfl, hb, hc, hl, hr⟩ := hi
    simp only [ColorTree.height] at hf
    simp only [ColorTree.blocks, List.pairwise_append, List.pairwise_cons, List.mem_cons,
      List.mem_append] at hk hs ht
    obtain ⟨hkl, ⟨hkhr, hkr⟩, hklr⟩ := hk
    obtain ⟨hsl, ⟨hhr, hsr⟩, hlr⟩ := hs
    by_cases hbt : h = target
    · -- the node to remove is the root
      subst hbt
      have hrep := detach_replace_refines fuel hi0 (by omega) hs0
      rw [← hs1] at hrep
      refine ⟨?_, fun _ => ?_, fun hne => absurd rfl hne⟩
      · intro w hw
        exact hrep.2 w (fun y hy => hw y (by simp [ColorTree.blocks, hy]))
      · rw [ColorTree.remove, if_pos rfl]
        exact hrep.1
    · by_cases hg : goes_left m target h = true
      · -- the walk goes left
        have hxh : key_before m target h := (goes_left_iff m target h).1 hg
        have htl : target ∈ l.blocks := by
          rcases ht with ht | ht | ht
          · exact ht
          · exact absurd ht.symm hbt
          · exact absurd (hkhr target ht) (key_before_asymm hxh)
        obtain ⟨hfr, hA, hB⟩ := ihl (get_left_tree m h) h hl htl hkl hsl (by omega)
        have hgl : ∀ y ∈ l.blocks, HeaderGap h y :=
          fun y hy => headerGap_symm (hlr y hy h (Or.inl rfl))
        have words : ∀ z, (∀ y ∈ l.blocks, HeaderGap z y) →
            s1.1 (z + 8) = m (z + 8) ∧ s1.1 (z + 16) = m (z + 16) ∧
              s1.1 (z + 24) = m (z + 24) := by
          intro z hz
          have g : ∀ k, k < 32 → s1.1 (z + k) = m (z + k) := by
            intro k hk
            apply hfr
            intro y hy
            have := hz y hy
            unfold HeaderGap at this
            omega
          exact ⟨g 8 (by omega), g 16 (by omega), g 24 (by omega)⟩
        have wh := words h hgl
        have wr : ∀ y ∈ r.blocks, s1.1 (y + 8) = m (y + 8) ∧ s1.1 (y + 16) = m (y + 16) ∧
            s1.1 (y + 24) = m (y + 24) :=
          fun y hy => words y (fun z hz => headerGap_symm (hlr z hz y (Or.inr hy)))
        have hrem : (ColorTree.node l h c r).remove m target =
            .node (l.remove m target) h c r := by
          rw [ColorTree.remove, if_neg hbt, if_pos hg]
        have hpar : (ColorTree.node l h c r).parentOf m target par =
            l.parentOf m target h := by
          rw [ColorTree.parentOf, if_neg hbt, if_pos hg]
        rw [hrem, hpar]
        refine ⟨?_, fun e => absurd e hbt, fun _ => ?_⟩
        · intro w hw
          exact hfr w (fun y hy => hw y (by simp [ColorTree.blocks, hy]))
        by_cases hroot : get_left_tree m h = target
        · -- the left child is the node to remove
          have hp : l.parentOf m target h = h := by
            rcases l with _ | ⟨ll, x, cx, lr⟩
            · simp [ColorTree.blocks] at htl
            · have : get_left_tree m h = x := hl.1
              unfold ColorTree.parentOf
              rw [if_pos (this.symm.trans hroot)]
          rw [hp]
          refine ⟨by simp [ColorTree.blocks], ?_⟩
          have hcond : get_left_tree s1.1 h = target := wh.2.1.trans hroot
          have hE : (detach_relink s1 root target h).1 = set_left_tree s1.1 h s1.2 := by
            unfold detach_relink
            rw [if_neg hb, if_pos hcond]
          rw [hE]
          refine ⟨rfl, hb, ?_, ?_, ?_⟩
          · rw [is_red_congr (set_left_tree_ne _ _ _ (by omega)), is_red_congr wh.1]
            exact hc
          · have e : get_left_tree (set_left_tree s1.1 h s1.2) h = s1.2 :=
              set_left_tree_eq _ _ _
            rw [e]
            exact ColorTree.inMem_set_left _ _
              (fun y hy => headerGap_symm (hgl y (ColorTree.remove_subset hkl htl y hy)))
              (hA hroot)
          · have e : get_right_tree (set_left_tree s1.1 h s1.2) h = get_right_tree m h := by
              unfold get_right_tree
              rw [set_left_tree_ne _ _ _ (by omega)]
              exact wh.2.2
            rw [e]
            exact ColorTree.inMem_set_left _ _ (fun y hy => headerGap_symm (hhr y hy))
              (ColorTree.inMem_congr r _ wr hr)
        · obtain ⟨hpm, hin⟩ := hB hroot
          obtain ⟨p, hpd⟩ : ∃ x, x = l.parentOf m target h := ⟨_, rfl⟩
          rw [← hpd] at hpm hin ⊢
          have hp0 : p ≠ 0 := fun e => ColorTree.zero_not_mem hl (e ▸ hpm)
          have hrl := detach_relink_words s1 root target hp0
          have hph : HeaderGap h p := hgl p hpm
          have hph2 := hph
          unfold HeaderGap at hph2
          refine ⟨List.mem_append_left _ hpm, rfl, hb, ?_, ?_, ?_⟩
          · rw [is_red_congr (hrl.2 _ (by omega) (by omega)), is_red_congr wh.1]
            exact hc
          · have e : get_left_tree (detach_relink s1 root target p).1 h =
                get_left_tree m h := (hrl.2 _ (by omega) (by omega)).trans wh.2.1
            rw [e]
            exact hin
          · have e : get_right_tree (detach_relink s1 root target p).1 h =
                get_right_tree m h := (hrl.2 _ (by omega) (by omega)).trans wh.2.2
            rw [e]
            refine ColorTree.inMem_congr r _ (fun y hy => ?_) hr
            have hyp := hlr p hpm y (Or.inr hy)
            unfold HeaderGap at hyp
            have := wr y hy
            exact ⟨(hrl.2 _ (by omega) (by omega)).trans this.1,
              (hrl.2 _ (by omega) (by omega)).trans this.2.1,
              (hrl.2 _ (by omega) (by omega)).trans this.2.2⟩
      · -- the walk goes right
        have hhx : key_before m h target :=
          key_before_of_not_goes_left m target h (by simpa using hg) (Ne.symm hbt)
        have htr : target ∈ r.blocks := by
          rcases ht with ht | ht | ht
          · exact absurd (hklr target ht h (Or.inl rfl)) (key_before_asymm hhx)
          · exact absurd ht.symm hbt
          · exact ht
        obtain ⟨hfr, hA, hB⟩ := ihr (get_right_tree m h) h hr htr hkr hsr (by omega)
        have hgr : ∀ y ∈ r.blocks, HeaderGap h y := hhr
        have words : ∀ z, (∀ y ∈ r.blocks, HeaderGap z y) →
            s1.1 (z + 8) = m (z + 8) ∧ s1.1 (z + 16) = m (z + 16) ∧
              s1.1 (z + 24) = m (z + 24) := by
          intro z hz
          have g : ∀ k, k < 32 → s1.1 (z + k) = m (z + k) := by
            intro k hk
            apply hfr
            intro y hy
            have := hz y hy
            unfold HeaderGap at this
            omega
          exact ⟨g 8 (by omega), g 16 (by omega), g 24 (by omega)⟩
        have wh := words h hgr
        have wl : ∀ y ∈ l.blocks, s1.1 (y + 8) = m (y + 8) ∧ s1.1 (y + 16) = m (y + 16) ∧
            s1.1 (y + 24) = m (y + 24) :=
          fun y hy => words y (fun z hz => hlr y hy z (Or.inr hz))
        have hrem : (ColorTree.node l h c r).remove m target =
            .node l h c (r.remove m target) := by
          rw [ColorTree.remove, if_neg hbt, if_neg hg]
        have hpar : (ColorTree.node l h c r).parentOf m target par =
            r.parentOf m target h := by
          rw [ColorTree.parentOf, if_neg hbt, if_neg hg]
        rw [hrem, hpar]
        refine ⟨?_, fun e => absurd e hbt, fun _ => ?_⟩
        · intro w hw
          exact hfr w (fun y hy => hw y (by simp [ColorTree.blocks, hy]))
        have ht0 : target ≠ 0 := fun e => ColorTree.zero_not_mem hr (e ▸ htr)
        have hleftne : get_left_tree m h ≠ target := by
          intro e
          rcases ColorTree.root_zero_or_mem hl with h0 | hm
          · exact ht0 (e.symm.trans h0)
          · have := hlr _ hm target (Or.inr htr)
            rw [e] at this
            unfold HeaderGap at this
            omega
        by_cases hroot : get_right_tree m h = target
        · have hp : r.parentOf m target h = h := by
            rcases r with _ | ⟨rl, x, cx, rr⟩
            · simp [ColorTree.blocks] at htr
            · have : get_right_tree m h = x := hr.1
              unfold ColorTree.parentOf
              rw [if_pos (this.symm.trans hroot)]
          rw [hp]
          refine ⟨by simp [ColorTree.blocks], ?_⟩
          have hcond : ¬ get_left_tree s1.1 h = target := by
            intro e
            exact hleftne (wh.2.1.symm.trans e)
          have hE : (detach_relink s1 root target h).1 = set_right_tree s1.1 h s1.2 := by
            unfold detach_relink
            rw [if_neg hb, if_neg hcond]
          rw [hE]
          refine ⟨rfl, hb, ?_, ?_, ?_⟩
          · rw [is_red_congr (set_right_tree_ne _ _ _ (by omega)), is_red_congr wh.1]
            exact hc
          · have e : get_left_tree (set_right_tree s1.1 h s1.2) h = get_left_tree m h := by
              unfold get_left_tree
              rw [set_right_tree_ne _ _ _ (by omega)]
              exact wh.2.1
            rw [e]
            exact ColorTree.inMem_set_right _ _ (fun y hy => hlr y hy h (Or.inl rfl))
              (ColorTree.inMem_congr l _ wl hl)
          · have e : get_right_tree (set_right_tree s1.1 h s1.2) h = s1.2 :=
              set_right_tree_eq _ _ _
            rw [e]
            exact ColorTree.inMem_set_right _ _
              (fun y hy => headerGap_symm (hgr y (ColorTree.remove_subset hkr htr y hy)))
              (hA hroot)
        · obtain ⟨hpm, hin⟩ := hB hroot
          obtain ⟨p, hpd⟩ : ∃ x, x = r.parentOf m target h := ⟨_, rfl⟩
          rw [← hpd] at hpm hin ⊢
          have hp0 : p ≠ 0 := fun e => ColorTree.zero_not_mem hr (e ▸ hpm)
          have hrl := detach_relink_words s1 root target hp0
          have hph : HeaderGap h p := hgr p hpm
          have hph2 := hph
          unfold HeaderGap at hph2
          refine ⟨List.mem_append_right _ (List.mem_cons_of_mem _ hpm), rfl, hb, ?_, ?_, ?_⟩
          · rw [is_red_congr (hrl.2 _ (by omega) (by omega)), is_red_congr wh.1]
            exact hc
          · have e : get_left_tree (detach_relink s1 root target p).1 h =
                get_left_tree m h := (hrl.2 _ (by omega) (by omega)).trans wh.2.1
            rw [e]
            refine ColorTree.inMem_congr l _ (fun y hy => ?_) hl
            have hyp := hlr y hy p (Or.inr hpm)
            unfold HeaderGap at hyp
            have := wl y hy
            exact ⟨(hrl.2 _ (by omega) (by omega)).trans this.1,
              (hrl.2 _ (by omega) (by omega)).trans this.2.1,
              (hrl.2 _ (by omega) (by omega)).trans this.2.2⟩
          · have e : get_right_tree (detach_relink s1 root target p).1 h =
                get_right_tree m h := (hrl.2 _ (by omega) (by omega)).trans wh.2.2
            rw [e]
            exact hin

/-- `detach_block_by_ptr` in memory is `detach` on the tree: the walk finds the node of a
sorted tree, and the tree that is left is the one that `detach` computes. -/
theorem detach_block_by_ptr_refines {m : Mem} {target : Nat} (fuel root : Nat)
    (t : ColorTree) (hi : t.InMem m root) (ht : target ∈ t.blocks)
    (hk : t.blocks.Pairwise (key_before m)) (hs : t.blocks.Pairwise HeaderGap)
    (hf : t.height ≤ fuel) :
    (find_by_ptr_loop m target (get_size m target) (min_exponent_of (block_data target))
        fuel root 0).1 = target ∧
      (t.detach m target).InMem (detach_block_by_ptr fuel m root target).1
        (detach_block_by_ptr fuel m root target).2 := by
  have hfind := find_by_ptr_loop_refines t fuel root 0 hi ht hk hf
  refine ⟨by rw [hfind], ?_⟩
  unfold detach_block_by_ptr
  dsimp only
  rw [hfind]
  dsimp only
  rw [if_pos rfl, detach_block_fast_eq]
  obtain ⟨s1, hs1⟩ : ∃ s, s = detach_replace fuel m target := ⟨_, rfl⟩
  rw [← hs1]
  obtain ⟨_, hA, hB⟩ := remove_refines fuel root hs1 t root 0 hi ht hk hs hf
  obtain ⟨l1, l2, e1, e2⟩ := ColorTree.remove_blocks m target t hk ht
  -- the tree after the relinking
  have h2 : (t.remove m target).InMem
      (detach_relink s1 root target (t.parentOf m target 0)).1
      (detach_relink s1 root target (t.parentOf m target 0)).2 := by
    by_cases hr : root = target
    · have hp : t.parentOf m target 0 = 0 := by
        rcases t with _ | ⟨l, b, c, r⟩
        · simp [ColorTree.blocks] at ht
        · have : root = b := hi.1
          unfold ColorTree.parentOf
          rw [if_pos (this.symm.trans hr)]
      rw [hp]
      unfold detach_relink
      rw [if_pos rfl]
      exact hA hr
    · obtain ⟨hpm, hin⟩ := hB hr
      have hp0 : t.parentOf m target 0 ≠ 0 := fun e => ColorTree.zero_not_mem hi (e ▸ hpm)
      rw [(detach_relink_words s1 root target hp0).1]
      exact hin
  obtain ⟨s2, hs2⟩ : ∃ s, s = detach_relink s1 root target (t.parentOf m target 0) :=
    ⟨_, rfl⟩
  rw [← hs2] at h2 ⊢
  have hsub : (t.remove m target).blocks.Pairwise HeaderGap := by
    rw [e2]
    rw [e1] at hs
    exact hs.sublist (List.Sublist.append_left (List.sublist_cons_self _ _) _)
  have hgt : ∀ y ∈ (t.remove m target).blocks, HeaderGap y target := by
    intro y hy
    rw [e2] at hy
    rw [e1, List.pairwise_append, List.pairwise_cons] at hs
    rcases List.mem_append.1 hy with h | h
    · exact hs.2.2 y h target (List.mem_cons_self _ _)
    · exact headerGap_symm (hs.2.1.1 y h)
  have h3 : (t.remove m target).InMem
      (set_color (set_right_tree (set_left_tree s2.1 target 0) target 0) target RED) s2.2 :=
    ColorTree.inMem_set_color _ _ hgt
      (ColorTree.inMem_set_right _ _ hgt (ColorTree.inMem_set_left _ _ hgt h2))
  unfold detach_finish ColorTree.detach
  dsimp only
  by_cases h0 : (s2.2 != 0) = true
  · rw [if_pos h0]
    have hne : s2.2 ≠ 0 := by simpa using h0
    exact balance_refines (ColorTree.ne_nil_of_inMem h2 hne) h3 hsub
  · rw [if_neg h0]
    have he : s2.2 = 0 := by simpa using h0
    have hnil : t.remove m target = .nil := by
      rw [he] at h2
      exact ColorTree.eq_nil_of_inMem_zero h2
    rw [hnil] at h3 ⊢
    exact h3

/-! ### Colours after an insertion -/

theorem ColorTree.isRed_nil : ColorTree.nil.isRed = false := rfl
theorem ColorTree.isRed_node (l r : ColorTree) (b : Nat) (c : Bool) :
    (ColorTree.node l b c r).isRed = c := rfl
theorem ColorTree.left_nil : ColorTree.nil.left = .nil := rfl
theorem ColorTree.left_node (l r : ColorTree) (b : Nat) (c : Bool) :
    (ColorTree.node l b c r).left = l := rfl
theorem ColorTree.right_nil : ColorTree.nil.right = .nil := rfl
theorem ColorTree.right_node (l r : ColorTree) (b : Nat) (c : Bool) :
    (ColorTree.node l b c r).right = r := rfl
theorem ColorTree.rotateLeft_node (l rl rr : ColorTree) (b x : Nat) (c cx : Bool) :
    (ColorTree.node l b c (.node rl x cx rr)).rotateLeft = .node (.node l b true rl) x c rr :=
  rfl
theorem ColorTree.rotateRight_node (ll lr r : ColorTree) (b x : Nat) (c cx : Bool) :
    (ColorTree.node (.node ll x cx lr) b c r).rotateRight = .node ll x c (.node lr b true r) :=
  rfl
theorem ColorTree.flipColors_node (ll lr rl rr : ColorTree) (b x y : Nat) (c cx cy : Bool) :
    (ColorTree.node (.node ll x cx lr) b c (.node rl y cy rr)).flipColors =
      .node (.node ll x false lr) b true (.node rl y false rr) := rfl
theorem ColorTree.blacken_node (l r : ColorTree) (b : Nat) (c : Bool) :
    (ColorTree.node l b c r).blacken = .node l b false r := rfl

theorem ColorTree.valid_blacken {t : ColorTree} (h : t.Valid) : t.blacken.Valid := by
  cases t with
  | nil => trivial
  | node l b c r => exact ⟨h.1, h.2.1, h.2.2.1, h.2.2.2.1, fun e => absurd e (by simp)⟩

theorem ColorTree.balance_noop (l r : ColorTree) (b : Nat) (c : Bool)
    (hr : r.isRed = false) (hl : (l.isRed && l.left.isRed) = false) :
    (ColorTree.node l b c r).balance = .node l b c r := by
  simp [ColorTree.balance, ColorTree.right_node, ColorTree.left_node, hr, hl]

theorem ColorTree.balance_left_two_red (a d lr r : ColorTree) (z x b : Nat) (c : Bool)
    (hr : r.isRed = false) :
    (ColorTree.node (.node (.node a z true d) x true lr) b c r).balance =
      .node (.node a z false d) x true (.node lr b false r) := by
  simp [ColorTree.balance, ColorTree.right_node, ColorTree.left_node, ColorTree.isRed_node,
    hr, ColorTree.rotateRight_node, ColorTree.flipColors_node]

theorem ColorTree.balance_right_red (l rl rr : ColorTree) (b y : Nat) (c : Bool)
    (hl : l.isRed = false) (hrr : rr.isRed = false) :
    (ColorTree.node l b c (.node rl y true rr)).balance = .node (.node l b true rl) y c rr := by
  simp [ColorTree.balance, ColorTree.right_node, ColorTree.left_node, ColorTree.isRed_node,
    hl, hrr, ColorTree.rotateLeft_node]

theorem ColorTree.balance_both_red (ll lr rl rr : ColorTree) (x b y : Nat) (c : Bool) :
    (ColorTree.node (.node ll x true lr) b c (.node rl y true rr)).balance =
      .node (.node ll x false lr) b true (.node rl y false rr) := by
  simp [ColorTree.balance, ColorTree.right_node, ColorTree.left_node, ColorTree.isRed_node,
    ColorTree.rotateLeft_node, ColorTree.rotateRight_node, ColorTree.flipColors_node]

/-- The colour of the root has no influence on what `balance` does below the root. -/
theorem ColorTree.balance_blacken (l r : ColorTree) (b : Nat) (c c' : Bool) :
    (ColorTree.node l b c r).balance.blacken = (ColorTree.node l b c' r).balance.blacken := by
  rcases r with _ | ⟨rl, y, cy, _ | ⟨rrl, w, cw, rrr⟩⟩ <;>
    rcases l with _ | ⟨_ | ⟨lll, z, cz, llr⟩, x, cx, lr⟩ <;>
    (try cases cy) <;> (try cases cx) <;> (try cases cz) <;> (try cases cw) <;>
    simp [ColorTree.balance, ColorTree.right_node, ColorTree.left_node, ColorTree.isRed_node,
      ColorTree.isRed_nil, ColorTree.left_nil, ColorTree.right_nil,
      ColorTree.rotateLeft_node, ColorTree.rotateRight_node, ColorTree.flipColors_node,
      ColorTree.blacken_node]

theorem ColorTree.insert_ne_nil (m : Mem) (x : Nat) (t : ColorTree) : t.insert m x ≠ .nil := by
  intro h
  have := (ColorTree.insert_perm m x t).length_eq
  rw [h] at this
  simp [ColorTree.blocks] at this

theorem ColorTree.bh_nil : ColorTree.nil.blackHeight = 0 := rfl
theorem ColorTree.bh_red (l r : ColorTree) (b : Nat) :
    (ColorTree.node l b true r).blackHeight = l.blackHeight := rfl
theorem ColorTree.bh_black (l r : ColorTree) (b : Nat) :
    (ColorTree.node l b false r).blackHeight = l.blackHeight + 1 := rfl

theorem ColorTree.valid_of_blacken {t : ColorTree} (h : t.blacken.Valid)
    (h2 : (t.isRed && t.left.isRed) = false) : t.Valid := by
  rcases t with _ | ⟨a, y, cy, d⟩
  · trivial
  · refine ⟨h.1, h.2.1, h.2.2.1, h.2.2.2.1, fun hc => ?_⟩
    subst hc
    simpa [ColorTree.isRed_node, ColorTree.left_node] using h2

theorem ColorTree.valid_not_two_red {t : ColorTree} (h : t.Valid) :
    (t.isRed && t.left.isRed) = false := by
  rcases t with _ | ⟨a, y, cy, d⟩
  · rfl
  · cases cy
    · rfl
    · have := h.2.2.2.2 rfl
      simp [ColorTree.isRed_node, ColorTree.left_node, this]

theorem ColorTree.two_red_shape {t : ColorTree} (h : (t.isRed && t.left.isRed) = true) :
    ∃ a1 z a2 y d, t = .node (.node a1 z true a2) y true d := by
  rcases t with _ | ⟨_ | ⟨a1, z, cz, a2⟩, y, cy, d⟩
  · simp [ColorTree.isRed_nil] at h
  · simp [ColorTree.isRed_node, ColorTree.left_node, ColorTree.isRed_nil] at h
  · simp only [ColorTree.isRed_node, ColorTree.left_node, Bool.and_eq_true] at h
    obtain ⟨rfl, rfl⟩ := h
    exact ⟨a1, z, a2, y, d, rfl⟩

theorem ColorTree.red_shape {t : ColorTree} (h : t.isRed = true) :
    ∃ l y r, t = .node l y true r := by
  rcases t with _ | ⟨l, y, cy, r⟩
  · simp [ColorTree.isRed_nil] at h
  · rw [ColorTree.isRed_node] at h
    subst h
    exact ⟨l, y, r, rfl⟩

/-- Inserting a red node into a subtree that satisfies the colour invariants keeps the number
of black nodes and the invariants below the root; it keeps them at the root as well when the
root was black. -/
theorem ColorTree.insert_valid (m : Mem) (x : Nat) (hx : is_red m x = true) :
    ∀ t : ColorTree, t.Valid →
      (t.insert m x).blackHeight = t.blackHeight ∧ (t.insert m x).blacken.Valid ∧
        (t.isRed = false → (t.insert m x).Valid) := by
  intro t
  induction t with
  | nil =>
    intro _
    rw [ColorTree.insert, hx]
    exact ⟨rfl, ⟨trivial, trivial, rfl, rfl, fun _ => rfl⟩,
      fun _ => ⟨trivial, trivial, rfl, rfl, fun _ => rfl⟩⟩
  | node l b c r ihl ihr =>
    intro hv
    obtain ⟨hvl, hvr, hbh, hrb, hcl⟩ := hv
    rw [ColorTree.insert]
    by_cases hg : goes_left m x b = true
    · rw [if_pos hg]
      obtain ⟨e1, e2, e3⟩ := ihl hvl
      generalize l.insert m x = L at e1 e2 e3 ⊢
      by_cases h2 : (L.isRed && L.left.isRed) = true
      · -- two red nodes in a row on the left: rotate right and flip
        obtain ⟨a1, z, a2, y, d, rfl⟩ := ColorTree.two_red_shape h2
        rw [ColorTree.balance_left_two_red _ _ _ _ _ _ _ _ hrb]
        have hlr : l.isRed = true := by
          by_contra hn
          have := (e3 (by simpa using hn)).2.2.2.2 rfl
          simp [ColorTree.isRed_node] at this
        have hcf : c = false := by
          cases c
          · rfl
          · have := hcl rfl
            rw [hlr] at this
            exact absurd this (by simp)
        subst hcf
        obtain ⟨hva, hvd, hbad, hdr, _⟩ := e2
        obtain ⟨hva1, hva2, hb12, ha2r, _⟩ := hva
        simp only [ColorTree.bh_red, ColorTree.bh_black] at e1 hbad ⊢
        have hvres : (ColorTree.node (.node a1 z false a2) y true
            (.node d b false r)).Valid :=
          ⟨⟨hva1, hva2, hb12, ha2r, fun h => absurd h (by simp)⟩,
            ⟨hvd, hvr, by omega, hrb, fun h => absurd h (by simp)⟩,
            by simp only [ColorTree.bh_black]; omega, rfl, fun _ => rfl⟩
        exact ⟨by omega, ColorTree.valid_blacken hvres, fun _ => hvres⟩
      · have h2f : (L.isRed && L.left.isRed) = false := by simpa using h2
        rw [ColorTree.balance_noop _ _ _ _ hrb h2f]
        have hvL := ColorTree.valid_of_blacken e2 h2f
        have hb : (ColorTree.node L b c r).blackHeight = (ColorTree.node l b c r).blackHeight := by
          show L.blackHeight + _ = l.blackHeight + _
          rw [e1]
        refine ⟨hb, ⟨hvL, hvr, by omega, hrb, fun h => absurd h (by simp)⟩, fun hc => ?_⟩
        rw [ColorTree.isRed_node] at hc
        subst hc
        exact ⟨hvL, hvr, by omega, hrb, fun h => absurd h (by simp)⟩
    · rw [if_neg hg]
      obtain ⟨e1, e2, e3⟩ := ihr hvr
      have e3 := e3 hrb
      generalize r.insert m x = R at e1 e2 e3 ⊢
      have hl2 := ColorTree.valid_not_two_red hvl
      by_cases hR : R.isRed = true
      · -- the new right subtree has a red root
        obtain ⟨rl, y, rr, rfl⟩ := ColorTree.red_shape hR
        obtain ⟨hvrl, hvrr, hbrr, hrrb, hrlb⟩ := e3
        have hrlb := hrlb rfl
        simp only [ColorTree.bh_red] at e1
        by_cases hl : l.isRed = true
        · -- both children red: rotate left, rotate right, flip
          obtain ⟨ll, w, lr, rfl⟩ := ColorTree.red_shape hl
          rw [ColorTree.balance_both_red]
          have hcf : c = false := by
            cases c
            · rfl
            · have := hcl rfl
              simp [ColorTree.isRed_node] at this
          subst hcf
          obtain ⟨hvll, hvlr, hbl, hlrb, hllb⟩ := hvl
          simp only [ColorTree.bh_red, ColorTree.bh_black] at hbh ⊢
          have hvres : (ColorTree.node (.node ll w false lr) b true
              (.node rl y false rr)).Valid :=
            ⟨⟨hvll, hvlr, hbl, hlrb, fun h => absurd h (by simp)⟩,
              ⟨hvrl, hvrr, hbrr, hrrb, fun h => absurd h (by simp)⟩,
              by simp only [ColorTree.bh_black]; omega, rfl, fun _ => rfl⟩
          exact ⟨trivial, ColorTree.valid_blacken hvres, fun _ => hvres⟩
        · have hlf : l.isRed = false := by simpa using hl
          rw [ColorTree.balance_right_red _ _ _ _ _ _ hlf hrrb]
          have hvleft : (ColorTree.node l b true rl).Valid :=
            ⟨hvl, hvrl, by omega, hrlb, fun _ => hlf⟩
          have hbb : (ColorTree.node l b true rl).blackHeight = rr.blackHeight := by
            rw [ColorTree.bh_red]; omega
          refine ⟨rfl, ⟨hvleft, hvrr, hbb, hrrb, fun h => absurd h (by simp)⟩, fun hc => ?_⟩
          rw [ColorTree.isRed_node] at hc
          subst hc
          exact ⟨hvleft, hvrr, hbb, hrrb, fun h => absurd h (by simp)⟩
      · have hRf : R.isRed = false := by simpa using hR
        rw [ColorTree.balance_noop _ _ _ _ hRf hl2]
        exact ⟨rfl, ⟨hvl, e3, by omega, hRf, fun h => absurd h (by simp)⟩,
          fun _ => ⟨hvl, e3, by omega, hRf, hcl⟩⟩

/-- An insertion keeps the colour invariants of a tree whose root is taken as black. -/
theorem ColorTree.insert_blacken_valid (m : Mem) (x : Nat) (hx : is_red m x = true)
    (t : ColorTree) (hv : t.blacken.Valid) : (t.insert m x).blacken.Valid := by
  rcases t with _ | ⟨l, b, c, r⟩
  · exact (ColorTree.insert_valid m x hx .nil trivial).2.1
  · have h := (ColorTree.insert_valid m x hx (.node l b false r) hv).2.1
    rw [ColorTree.insert] at h ⊢
    by_cases hg : goes_left m x b = true
    · rw [if_pos hg] at h ⊢
      rw [ColorTree.balance_blacken _ _ _ c false]
      exact h
    · rw [if_neg hg] at h ⊢
      rw [ColorTree.balance_blacken _ _ _ c false]
      exact h

/-! ### The order of the tree after `insert_block` and `detach_block_by_ptr` -/

theorem treeFrame_size {H : List Nat} {m m' : Mem} (hf : TreeFrame H m m')
    (hA : HeadersApart H) {z : Nat} (hz : z ∈ H) : get_size m' z = get_size m z := by
  apply get_size_congr
  apply hf.1
  intro h hh
  by_cases e : z = h
  · omega
  · have := hA z hz h hh e
    omega

theorem key_before_congr {m m' : Mem} {x y : Nat} (hx : get_size m' x = get_size m x)
    (hy : get_size m' y = get_size m y) (h : key_before m x y) : key_before m' x y := by
  unfold key_before at *
  rw [hx, hy]
  exact h

theorem pairwise_key_congr {m m' : Mem} {l : List Nat}
    (hs : ∀ y ∈ l, get_size m' y = get_size m y) (h : l.Pairwise (key_before m)) :
    l.Pairwise (key_before m') :=
  List.Pairwise.imp_of_mem (fun {a b} ha hb hab => key_before_congr (hs a ha) (hs b hb) hab) h

theorem not_headerGap_self (x : Nat) : ¬ HeaderGap x x := by
  unfold HeaderGap
  omega

/-- `insert_block` on a sorted tree: a sorted tree with the new block added. -/
theorem insert_block_ordered {m : Mem} {t : ColorTree} {root x fuel : Nat}
    (hi : t.InMem m root) (ho : t.blocks.Pairwise (key_before m)) (hf : t.height < fuel)
    (hx : x ≠ 0) (hl : get_left_tree m x = 0) (hr : get_right_tree m x = 0)
    (hs : (x :: t.blocks).Pairwise HeaderGap) :
    (t.insert m x).InMem (insert_block fuel m root x).1 (insert_block fuel m root x).2 ∧
      (t.insert m x).blocks.Pairwise (key_before (insert_block fuel m root x).1) ∧
      (t.insert m x).blocks.Perm (x :: t.blocks) := by
  have hin := insert_block_refines hx hl hr fuel t root hi hf hs
  have hfr := insert_block_frame hl hr fuel hi hs
  have hperm := ColorTree.insert_perm m x t
  have hxn : x ∉ t.blocks := by
    intro h
    rw [List.pairwise_cons] at hs
    exact not_headerGap_self x (hs.1 x h)
  obtain ⟨l1, l2, e1, e2, h1, h2⟩ := ColorTree.insert_blocks m x t ho hxn
  refine ⟨hin, ?_, hperm⟩
  have hsorted : (t.insert m x).blocks.Pairwise (key_before m) := by
    rw [e2]
    rw [e1, List.pairwise_append] at ho
    rw [List.pairwise_append, List.pairwise_cons]
    refine ⟨ho.1, ⟨h2, ho.2.1⟩, ?_⟩
    intro a ha b hb
    rcases List.mem_cons.1 hb with rfl | hb
    · exact h1 a ha
    · exact ho.2.2 a ha b hb
  refine pairwise_key_congr (fun y hy => ?_) hsorted
  exact treeFrame_size hfr (headersApart_of_pairwise hs) (hperm.subset hy)

/-- `detach_block_by_ptr` on a sorted tree: the node is found, and a sorted tree without it
is left. -/
theorem detach_block_by_ptr_ordered {m : Mem} {t : ColorTree} {root x fuel : Nat}
    (hi : t.InMem m root) (ho : t.blocks.Pairwise (key_before m)) (hf : t.height ≤ fuel)
    (hx : x ∈ t.blocks) (hs : t.blocks.Pairwise HeaderGap) :
    (find_by_ptr_loop m x (get_size m x) (min_exponent_of (block_data x)) fuel root 0).1 = x ∧
      (t.detach m x).InMem (detach_block_by_ptr fuel m root x).1
        (detach_block_by_ptr fuel m root x).2 ∧
      (t.detach m x).blocks.Pairwise (key_before (detach_block_by_ptr fuel m root x).1) ∧
      (x :: (t.detach m x).blocks).Perm t.blocks := by
  obtain ⟨hfind, hin⟩ := detach_block_by_ptr_refines fuel root t hi hx ho hs hf
  have hx0 : x ≠ 0 := fun e => ColorTree.zero_not_mem hi (e ▸ hx)
  have hA := headersApart_of_pairwise hs
  have hfr := (treeInv_detach_block_by_ptr hA fuel root x hx0 (ColorTree.root_zero_or_mem hi)
    (treeInv_refl (ColorTree.linksClosed hi))).1.1
  obtain ⟨l1, l2, e1, e2⟩ := ColorTree.remove_blocks m x t ho hx
  have hb : (t.detach m x).blocks = l1 ++ l2 := by
    unfold ColorTree.detach
    rw [ColorTree.blocks_balance, e2]
  refine ⟨hfind, hin, ?_, ?_⟩
  · have hsorted : (t.detach m x).blocks.Pairwise (key_before m) := by
      rw [hb]
      rw [e1] at ho
      exact ho.sublist (List.Sublist.append_left (List.sublist_cons_self _ _) _)
    refine pairwise_key_congr (fun y hy => ?_) hsorted
    apply treeFrame_size hfr hA
    rw [hb] at hy
    rw [e1]
    rcases List.mem_append.1 hy with h | h
    · exact List.mem_append_left _ h
    · exact List.mem_append_right _ (List.mem_cons_of_mem _ h)
  · rw [hb, e1]
    exact List.perm_middle.symm

/-! ### Sequences of insertions -/

theorem ColorTree.height_le_length (t : ColorTree) : t.height ≤ t.blocks.length := by
  induction t with
  | nil => exact Nat.le_refl _
  | node l b c r ihl ihr =>
    simp only [ColorTree.height, ColorTree.blocks, List.length_append, List.length_cons]
    omega

theorem insert_blocks_refines (fuel : Nat) :
    ∀ (bs : List Nat) (s : Mem × Nat) (t : ColorTree), t.InMem s.1 s.2 → t.blacken.Valid →
      (∀ b ∈ bs, b ≠ 0 ∧ get_left_tree s.1 b = 0 ∧ get_right_tree s.1 b = 0 ∧
        is_red s.1 b = true) →
      (bs ++ t.blocks).Pairwise HeaderGap → t.blocks.length + bs.length < fuel →
      ∃ t' : ColorTree, t'.InMem (insert_blocks fuel s bs).1 (insert_blocks fuel s bs).2 ∧
        t'.blocks.Perm (bs ++ t.blocks) ∧ t'.blacken.Valid := by
  intro bs
  induction bs with
  | nil =>
    intro s t hi hv _ _ _
    exact ⟨t, hi, List.Perm.refl _, hv⟩
  | cons b bs ih =>
    intro s t hi hv hb hs hf
    obtain ⟨hb0, hbl, hbr, hbred⟩ := hb b (List.mem_cons_self _ _)
    rw [List.cons_append, List.pairwise_cons] at hs
    have hs1 : (b :: t.blocks).Pairwise HeaderGap :=
      List.pairwise_cons.2 ⟨fun y hy => hs.1 y (List.mem_append_right _ hy),
        (List.pairwise_append.1 hs.2).2.1⟩
    have hht := ColorTree.height_le_length t
    simp only [List.length_cons] at hf
    have hin := insert_block_refines hb0 hbl hbr fuel t s.2 hi (by omega) hs1
    have hfr := insert_block_frame hbl hbr fuel hi hs1
    have hperm := ColorTree.insert_perm s.1 b t
    have hv1 := ColorTree.insert_blacken_valid s.1 b hbred t hv
    obtain ⟨s1, hs1d⟩ : ∃ x, x = insert_block fuel s.1 s.2 b := ⟨_, rfl⟩
    rw [← hs1d] at hin hfr
    have hfresh : ∀ b' ∈ bs, b' ≠ 0 ∧ get_left_tree s1.1 b' = 0 ∧
        get_right_tree s1.1 b' = 0 ∧ is_red s1.1 b' = true := by
      intro b' hb'
      obtain ⟨h0, h1, h2, h3⟩ := hb b' (List.mem_cons_of_mem _ hb')
      have hg : ∀ y ∈ b :: t.blocks, HeaderGap b' y := by
        intro y hy
        rcases List.mem_cons.1 hy with rfl | hy
        · exact headerGap_symm (hs.1 b' (List.mem_append_left _ hb'))
        · exact (List.pairwise_append.1 hs.2).2.2 b' hb' y hy
      have w := treeFrame_gap hfr hg
      refine ⟨h0, w.2.2.1.trans h1, w.2.2.2.trans h2, ?_⟩
      rw [is_red_congr w.2.1]
      exact h3
    have hsp : (bs ++ (t.insert s.1 b).blocks).Pairwise HeaderGap := by
      have hp : (b :: (bs ++ t.blocks)).Perm (bs ++ (t.insert s.1 b).blocks) :=
        (List.perm_middle.symm).trans (List.Perm.append_left _ hperm.symm)
      exact pairwise_gap_perm hp (List.pairwise_cons.2 hs)
    have hlen : (t.insert s.1 b).blocks.length + bs.length < fuel := by
      rw [hperm.length_eq, List.length_cons]
      omega
    obtain ⟨t', h1, h2, h3⟩ := ih s1 (t.insert s.1 b) hin hv1 hfresh hsp hlen
    refine ⟨t', ?_, ?_, h3⟩
    · show t'.InMem (insert_blocks fuel (insert_block fuel s.1 s.2 b) bs).1
        (insert_blocks fuel (insert_block fuel s.1 s.2 b) bs).2
      rw [← hs1d]
      exact h1
    · exact h2.trans ((List.Perm.append_left _ hperm).trans List.perm_middle)

/-! ### The tail pointer through the free engine -/

theorem em_get_tail_set (m : Mem) (em b : Nat) (h4 : b % 4 = 0)
    (hlt : b < 18446744073709551616) : em_get_tail (em_set_tail m em b) em = b := by
  unfold em_get_tail
  rw [em_set_tail_eq]
  have e1 : wnot TAIL_MASK = 3 := by decide
  rw [e1]
  exact tagged_ptr _ _ h4 hlt

/-- A block whose links are NULL may be added to the list of tree headers. -/
theorem BlockLayout.cons_free {m : Mem} {em B : Nat} {F Bs : List Nat}
    (hL : BlockLayout m em F Bs) (hB : B ∈ Bs) (h16 : m (B + 16) = 0)
    (h24 : m (B + 24) = 0) : BlockLayout m em (B :: F) Bs where
  header_word := hL.header_word
  arena_fits := hL.arena_fits
  free_in_blocks := by
    intro h hh
    rcases List.mem_cons.1 hh with e | e
    · rw [e]; exact hB
    · exact hL.free_in_blocks h e
  blocks_fit := hL.blocks_fit
  blocks_apart := hL.blocks_apart
  chain := hL.chain
  closed := by
    intro h hh
    rcases List.mem_cons.1 hh with e | e
    · rw [e, h16, h24]
      exact ⟨Or.inl rfl, Or.inl rfl⟩
    · have := hL.closed h e
      exact ⟨this.1.imp id (List.mem_cons_of_mem _), this.2.imp id (List.mem_cons_of_mem _)⟩
  root_in := hL.root_in.imp id (List.mem_cons_of_mem _)

/-- Marking a block free keeps the layout; the block joins the list of tree headers. -/
theorem free_mark_layout {m : Mem} {em B : Nat} {F Bs : List Nat}
    (hL : BlockLayout m em F Bs) (hB : B ∈ Bs) :
    BlockLayout (free_mark m B) em (B :: F) Bs ∧
      free_mark m B (em + 16) = m (em + 16) ∧
      (∀ b ∈ Bs, free_mark m B b = m b) ∧
      (∀ b ∈ Bs, b ≠ B → get_is_free (free_mark m B) b = get_is_free m b) := by
  have hA := hL.headers_apart
  have hBf := hL.blocks_fit B hB
  obtain ⟨hm1, hm2, hm3, hm4, hm5⟩ := free_mark_spec m B
  have hsame : ∀ b ∈ Bs, free_mark m B b = m b ∧
      (b ≠ B → free_mark m B (b + 8) = m (b + 8)) := by
    intro b hb
    by_cases e : b = B
    · subst e
      exact ⟨hm1 _ (by omega) (by omega) (by omega), fun h => absurd rfl h⟩
    · have := hA b hb B hB e
      exact ⟨hm1 _ (by omega) (by omega) (by omega),
        fun _ => hm1 _ (by omega) (by omega) (by omega)⟩
  have h16 : free_mark m B (em + 16) = m (em + 16) := hm1 _ (by omega) (by omega) (by omega)
  have hLa : BlockLayout (free_mark m B) em F Bs := by
    apply hL.of_frame (hm1 _ (by omega) (by omega) (by omega)) h16
      (fun b hb => (hsame b hb).1)
    · intro f hf
      by_cases e : f = B
      · subst e
        rw [hm2, hm3]
        exact ⟨Or.inl rfl, Or.inl rfl⟩
      · have hfB := hL.free_in_blocks f hf
        have := hA f hfB B hB e
        rw [hm1 (f + 16) (by omega) (by omega) (by omega),
          hm1 (f + 24) (by omega) (by omega) (by omega)]
        exact hL.closed f hf
    · rw [em_get_free_blocks_congr (hm1 (em + 24) (by omega) (by omega) (by omega))]
      exact hL.root_in
  exact ⟨hLa.cons_free hB hm2 hm3, h16, fun b hb => (hsame b hb).1,
    fun b hb hne => get_is_free_congr ((hsame b hb).2 hne)⟩

/-- The block size chosen by a tail allocation is the whole free space, or it ends at an
8-aligned address. -/
theorem tail_final_aligned (m : Mem) (em size tail pad p : Nat) (hp : p = tail + 32 + pad)
    (hfit : pad + size ≤ free_size_in_tail m em)
    (hw : tail + 32 + free_size_in_tail m em + 1056 ≤ 18446744073709551616) :
    tail_final m em size pad p = free_size_in_tail m em ∨
      (tail + 32 + tail_final m em size pad p) % 8 = 0 := by
  have hmin : wadd pad size = pad + size := by
    unfold wadd; simp only [WORD]; omega
  have hv := get_alignment_valid m em
  have hal : em_get_alignment m em ≤ 1024 := by
    have : em_get_alignment m em = get_alignment m em := rfl
    rw [this]
    unfold get_alignment wshl
    have h : m em &&& ALIGNMENT_MASK ≤ 7 := Nat.and_le_right
    generalize m em &&& ALIGNMENT_MASK = e at h
    dsimp only
    interval_cases e <;> decide
  have hal8 : em_get_alignment m em % 8 = 0 := by
    have : em_get_alignment m em = get_alignment m em := rfl
    rw [this]
    simp only [ValidAlignment, List.mem_cons, List.mem_singleton, List.not_mem_nil,
      or_false] at hv
    omega
  have he : wadd p size = p + size := by
    unfold wadd; simp only [WORD]; omega
  have he2 : wadd (p + size) SIZEOF_BLOCK = p + size + 32 := by
    unfold wadd; simp only [WORD, SIZEOF_BLOCK]; omega
  have hsp := align_up_spec (p + size + 32) (em_get_alignment m em) hv
    (by simp only [WORD]; omega)
  unfold tail_final
  dsimp only
  rw [hmin, he, he2]
  obtain ⟨au, hau⟩ : ∃ x, x = align_up (p + size + 32) (em_get_alignment m em) := ⟨_, rfl⟩
  rw [← hau] at hsp ⊢
  obtain ⟨d, hd⟩ : ∃ x, x = wsub au (p + size + 32) := ⟨_, rfl⟩
  rw [← hd] at hsp
  have hdlt : d < 1024 := by
    have := hsp.2.2.1
    omega
  have haueq : au = p + size + 32 + d := hsp.2.2.2.2 (by simp only [WORD]; omega)
  have e1 : wsub au SIZEOF_BLOCK = p + size + d := by
    unfold wsub; simp only [WORD, SIZEOF_BLOCK]; omega
  have e2 : wsub (p + size + d) (p + size) = d := by
    unfold wsub; simp only [WORD]; omega
  rw [e1, e2]
  have e3 : wadd (pad + size) d = pad + size + d := by
    unfold wadd; simp only [WORD]; omega
  rw [e3]
  have hau8 : au % 8 = 0 := by
    have h1 := hsp.2.1
    have h2 := Nat.mod_mod_of_dvd au (Nat.dvd_of_mod_eq_zero hal8)
    omega
  split
  · split
    · right; omega
    · left; rfl
  · left; rfl

/-- The links below an address spell out at most one tree. -/
theorem FreeTree.inMem_unique {m : Mem} : ∀ (t1 t2 : FreeTree) (root : Nat),
    t1.InMem m root → t2.InMem m root → t1 = t2 := by
  intro t1
  induction t1 with
  | nil =>
    intro t2 root h1 h2
    cases t2 with
    | nil => rfl
    | node l b r =>
      have e1 : root = 0 := h1
      obtain ⟨e2, e3, _, _⟩ := h2
      exact absurd (e2.symm.trans e1) e3
  | node l b r ihl ihr =>
    intro t2 root h1 h2
    obtain ⟨e1, e0, hl, hr⟩ := h1
    cases t2 with
    | nil =>
      have e2 : root = 0 := h2
      exact absurd (e1.symm.trans e2) e0
    | node l2 b2 r2 =>
      obtain ⟨e2, _, hl2, hr2⟩ := h2
      have eb : b2 = b := e2.symm.trans e1
      subst eb
      rw [ihl l2 _ hl hl2, ihr r2 _ hr hr2]

/-- Below both links of a tree node hangs a tree with fewer nodes than the whole tree. -/
theorem FreeTree.child_subtree {m : Mem} : ∀ (t : FreeTree) (root : Nat), t.InMem m root →
    ∀ p ∈ t.blocks,
      (∃ s : FreeTree, s.InMem m (get_left_tree m p) ∧ s.blocks.length < t.blocks.length) ∧
      (∃ s : FreeTree, s.InMem m (get_right_tree m p) ∧ s.blocks.length < t.blocks.length) := by
  intro t
  induction t with
  | nil =>
    intro root _ p hp
    simp [FreeTree.blocks] at hp
  | node l b r ihl ihr =>
    intro root hin p hp
    obtain ⟨_, _, hl, hr⟩ := hin
    have hlen : (FreeTree.node l b r).blocks.length = l.blocks.length + r.blocks.length + 1 := by
      simp only [FreeTree.blocks, List.length_append, List.length_cons]
      omega
    rw [hlen]
    simp only [FreeTree.blocks, List.mem_append, List.mem_cons] at hp
    rcases hp with hp | hp | hp
    · obtain ⟨⟨s1, a1, b1⟩, ⟨s2, a2, b2⟩⟩ := ihl _ hl p hp
      exact ⟨⟨s1, a1, by omega⟩, ⟨s2, a2, by omega⟩⟩
    · rw [hp]
      exact ⟨⟨l, hl, by omega⟩, ⟨r, hr, by omega⟩⟩
    · obtain ⟨⟨s1, a1, b1⟩, ⟨s2, a2, b2⟩⟩ := ihr _ hr p hp
      exact ⟨⟨s1, a1, by omega⟩, ⟨s2, a2, by omega⟩⟩

/-- The root of a tree is the child of none of its nodes. -/
theorem FreeTree.root_not_child {m : Mem} {t : FreeTree} {root p : Nat}
    (hin : t.InMem m root) (hp : p ∈ t.blocks) :
    get_left_tree m p ≠ root ∧ get_right_tree m p ≠ root := by
  obtain ⟨⟨s1, a1, b1⟩, ⟨s2, a2, b2⟩⟩ := FreeTree.child_subtree t root hin p hp
  constructor
  · intro e
    rw [e] at a1
    rw [FreeTree.inMem_unique s1 t root a1 hin] at b1
    omega
  · intro e
    rw [e] at a2
    rw [FreeTree.inMem_unique s2 t root a2 hin] at b2
    omega

/-- The search of `find_best_fit` below a tree node with parent `cp`: the candidate and its
parent stay, or the new candidate is a fitting block of the subtree whose recorded parent is
`cp` when it is the subtree root and otherwise a node of the subtree that links to it. -/
theorem find_best_fit_loop_parent {m : Mem} {size a : Nat} : ∀ (t : FreeTree)
    (fuel best bp cur cp : Nat), t.InMem m cur → t.height ≤ fuel →
    find_best_fit_loop m size a fuel best bp cur cp = (best, bp) ∨
      ((find_best_fit_loop m size a fuel best bp cur cp).1 ∈ t.blocks ∧
        Fits m size a (find_best_fit_loop m size a fuel best bp cur cp).1 ∧
        (((find_best_fit_loop m size a fuel best bp cur cp).1 = cur ∧
            (find_best_fit_loop m size a fuel best bp cur cp).2 = cp) ∨
          ((find_best_fit_loop m size a fuel best bp cur cp).2 ∈ t.blocks ∧
            (get_left_tree m (find_best_fit_loop m size a fuel best bp cur cp).2 =
                (find_best_fit_loop m size a fuel best bp cur cp).1 ∨
              get_right_tree m (find_best_fit_loop m size a fuel best bp cur cp).2 =
                (find_best_fit_loop m size a fuel best bp cur cp).1)))) := by
  intro t
  induction t with
  | nil =>
    intro fuel best bp cur cp hin _
    have h0 : cur = 0 := hin
    left
    cases fuel with
    | zero => unfold find_best_fit_loop; rfl
    | succ n => unfold find_best_fit_loop; rw [if_pos h0]
  | node l b r ihl ihr =>
    intro fuel best bp cur cp hin hh
    obtain ⟨hcur, hb0, hl, hr⟩ := hin
    cases fuel with
    | zero => simp [FreeTree.height] at hh
    | succ n =>
      have hhl : l.height ≤ n := by
        simp only [FreeTree.height] at hh
        omega
      have hhr : r.height ≤ n := by
        simp only [FreeTree.height] at hh
        omega
      subst hcur
      have hmem : cur ∈ (FreeTree.node l cur r).blocks := by
        simp [FreeTree.blocks]
      have hml : ∀ x ∈ l.blocks, x ∈ (FreeTree.node l cur r).blocks := by
        intro x hx
        simp only [FreeTree.blocks, List.mem_append, List.mem_cons]
        exact Or.inl hx
      have hmr : ∀ x ∈ r.blocks, x ∈ (FreeTree.node l cur r).blocks := by
        intro x hx
        simp only [FreeTree.blocks, List.mem_append, List.mem_cons]
        exact Or.inr (Or.inr hx)
      -- the search goes right and keeps the candidate
      have goR : find_best_fit_loop m size a n best bp (get_right_tree m cur) cur = (best, bp) ∨
          ((find_best_fit_loop m size a n best bp (get_right_tree m cur) cur).1 ∈
              (FreeTree.node l cur r).blocks ∧
            Fits m size a (find_best_fit_loop m size a n best bp (get_right_tree m cur) cur).1 ∧
            (((find_best_fit_loop m size a n best bp (get_right_tree m cur) cur).1 = cur ∧
                (find_best_fit_loop m size a n best bp (get_right_tree m cur) cur).2 = cp) ∨
              ((find_best_fit_loop m size a n best bp (get_right_tree m cur) cur).2 ∈
                  (FreeTree.node l cur r).blocks ∧
                (get_left_tree m
                    (find_best_fit_loop m size a n best bp (get_right_tree m cur) cur).2 =
                    (find_best_fit_loop m size a n best bp (get_right_tree m cur) cur).1 ∨
                  get_right_tree m
                    (find_best_fit_loop m size a n best bp (get_right_tree m cur) cur).2 =
                    (find_best_fit_loop m size a n best bp (get_right_tree m cur) cur).1)))) := by
        have ih := ihr n best bp (get_right_tree m cur) cur hr hhr
        generalize find_best_fit_loop m size a n best bp (get_right_tree m cur) cur = res
          at ih ⊢
        rcases ih with ih | ⟨i1, i2, i3⟩
        · exact Or.inl ih
        · refine Or.inr ⟨hmr _ i1, i2, Or.inr ?_⟩
          rcases i3 with ⟨e1, e2⟩ | ⟨e1, e2⟩
          · rw [e2]
            exact ⟨hmem, Or.inr e1.symm⟩
          · exact ⟨hmr _ e1, e2⟩
      unfold find_best_fit_loop
      rw [if_neg hb0]
      dsimp only
      by_cases h1 : get_size m cur < size
      · rw [if_pos h1]
        exact goR
      · rw [if_neg h1]
        by_cases h2 : get_size m cur ≥
            wadd size (wsub (align_up (block_data cur) a) (block_data cur))
        · rw [if_pos h2]
          have hfit : Fits m size a cur := ⟨by omega, h2⟩
          by_cases h3 : (best = 0 || decide (get_size m cur < get_size m best)) = true
          · rw [if_pos h3]
            have ih := ihl n cur cp (get_left_tree m cur) cur hl hhl
            generalize find_best_fit_loop m size a n cur cp (get_left_tree m cur) cur = res
              at ih ⊢
            right
            rcases ih with ih | ⟨i1, i2, i3⟩
            · rw [ih]
              exact ⟨hmem, hfit, Or.inl ⟨rfl, rfl⟩⟩
            · refine ⟨hml _ i1, i2, Or.inr ?_⟩
              rcases i3 with ⟨e1, e2⟩ | ⟨e1, e2⟩
              · rw [e2]
                exact ⟨hmem, Or.inl e1.symm⟩
              · exact ⟨hml _ e1, e2⟩
          · rw [if_neg h3]
            have ih := ihl n best bp (get_left_tree m cur) cur hl hhl
            generalize find_best_fit_loop m size a n best bp (get_left_tree m cur) cur = res
              at ih ⊢
            rcases ih with ih | ⟨i1, i2, i3⟩
            · exact Or.inl ih
            · refine Or.inr ⟨hml _ i1, i2, Or.inr ?_⟩
              rcases i3 with ⟨e1, e2⟩ | ⟨e1, e2⟩
              · rw [e2]
                exact ⟨hmem, Or.inl e1.symm⟩
              · exact ⟨hml _ e1, e2⟩
        · rw [if_neg h2]
          exact goR

/-- Without alignment padding the test of `find_best_fit` is the comparison of the sizes. -/
theorem fits_of_no_padding (m : Mem) (size a b : Nat)
    (hpad : align_up (block_data b) a = block_data b) :
    Fits m size a b ↔ size ≤ get_size m b := by
  have hlt : block_data b < WORD := by
    unfold block_data wadd
    exact Nat.mod_lt _ (by decide)
  have h0 : wsub (block_data b) (block_data b) = 0 := by
    unfold wsub
    simp only [WORD] at hlt ⊢
    omega
  unfold Fits
  rw [hpad, h0]
  constructor
  · intro h; exact h.1
  · intro h
    refine ⟨h, ?_⟩
    unfold wadd
    have : (size + 0) % WORD ≤ size := Nat.mod_le _ _
    omega

/-! ### The alignment bits of a header word -/

/-- Clearing the three alignment bits of a word. -/
theorem xor_low_bits (w : Nat) : w ^^^ (w &&& ALIGNMENT_MASK) = (w >>> 3) <<< 3 := by
  apply Nat.eq_of_testBit_eq
  intro i
  have h7 : (ALIGNMENT_MASK : Nat) = 2 ^ 3 - 1 := rfl
  rw [Nat.testBit_xor, Nat.testBit_and, h7, Nat.testBit_two_pow_sub_one,
    Nat.testBit_shiftLeft, Nat.testBit_shiftRight]
  by_cases h : i < 3
  · have h2 : ¬ (i ≥ 3) := by omega
    simp [h, h2]
  · have h2 : i ≥ 3 := by omega
    have h3 : 3 + (i - 3) = i := by omega
    simp [h, h2, h3]

/-- A word made of a size field `x` and alignment bits `e < 8`. -/
theorem alignment_word (x e : Nat) (he : e < 8) :
    ((x <<< 3) ||| e) >>> 3 = x ∧ ((x <<< 3) ||| e) &&& ALIGNMENT_MASK = e := by
  have h7 : (ALIGNMENT_MASK : Nat) = 2 ^ 3 - 1 := rfl
  have hhigh : ∀ i, 3 ≤ i → e.testBit i = false := by
    intro i hi
    apply Nat.testBit_lt_two_pow
    have : 2 ^ 3 ≤ 2 ^ i := Nat.pow_le_pow_right (by omega) hi
    omega
  constructor
  · apply Nat.eq_of_testBit_eq
    intro i
    rw [Nat.testBit_shiftRight, Nat.testBit_or, Nat.testBit_shiftLeft, hhigh _ (by omega)]
    have h3 : 3 + i - 3 = i := by omega
    have h4 : 3 + i ≥ 3 := by omega
    simp [h3, h4]
  · apply Nat.eq_of_testBit_eq
    intro i
    rw [h7, Nat.testBit_and, Nat.testBit_two_pow_sub_one, Nat.testBit_or,
      Nat.testBit_shiftLeft]
    by_cases h : i < 3
    · have h2 : ¬ (i ≥ 3) := by omega
      simp [h, h2]
    · rw [hhigh i (by omega)]
      simp [h]

/-- `set_alignment` on the eight alignments that the three bits encode. -/
theorem set_alignment_spec (m : Mem) (b e : Nat) (he : e < 8) :
    set_alignment m b (8 <<< e) b &&& ALIGNMENT_MASK = e ∧
      get_alignment (set_alignment m b (8 <<< e)) b = 8 <<< e ∧
      get_size (set_alignment m b (8 <<< e)) b = get_size m b ∧
      ∀ x, x ≠ b → set_alignment m b (8 <<< e) x = m x := by
  have hexp : min_exponent_of ((8 <<< e) >>> MIN_EXPONENT) = e := by
    interval_cases e <;> decide
  have hw : set_alignment m b (8 <<< e) b = (((m b >>> 3) <<< 3) ||| e) := by
    unfold set_alignment
    rw [hexp]
    simp only [Mem.write_eq]
    rw [xor_low_bits]
  obtain ⟨a1, a2⟩ := alignment_word (m b >>> 3) e he
  refine ⟨by rw [hw]; exact a2, ?_, ?_, ?_⟩
  · unfold get_alignment
    dsimp only
    rw [hw, a2]
    interval_cases e <;> decide
  · unfold get_size
    rw [hw]
    exact a1
  · intro x hx
    unfold set_alignment
    simp only [Mem.write_ne _ _ hx]

/-- `set_size` for every size: the size read back is the size modulo `2^61`, and the
alignment bits and the second header word are kept. -/
theorem set_size_spec (m : Mem) (b s : Nat) :
    get_size (set_size m b s) b = s % 2305843009213693952 ∧
      get_alignment (set_size m b s) b = get_alignment m b ∧
      ∀ x, x ≠ b → set_size m b s x = m x := by
  have h1 : wshl s 3 = (s % 2305843009213693952) <<< 3 := by
    unfold wshl
    rw [Nat.shiftLeft_eq, Nat.shiftLeft_eq]
    simp only [WORD]
    omega
  have h2 : m b &&& ALIGNMENT_MASK < 8 := by
    have : m b &&& ALIGNMENT_MASK ≤ 7 := Nat.and_le_right
    omega
  obtain ⟨a1, a2⟩ := alignment_word (s % 2305843009213693952) (m b &&& ALIGNMENT_MASK) h2
  refine ⟨?_, ?_, fun x hx => set_size_ne m b s hx⟩
  · unfold get_size
    rw [set_size_eq, h1]
    exact a1
  · unfold get_alignment
    dsimp only
    rw [set_size_eq, h1, a2]


/-! ### `split_block` in front of an occupied block -/

theorem sameButColor_prev {w w' : Nat} (h : SameButColor w w') :
    w &&& PREV_MASK = w' &&& PREV_MASK := by
  unfold SameButColor at h
  have e : (18446744073709551613 : Nat) &&& PREV_MASK = PREV_MASK := by decide
  have h1 : (w &&& 18446744073709551613) &&& PREV_MASK =
      (w' &&& 18446744073709551613) &&& PREV_MASK := by rw [h]
  rw [Nat.and_assoc, Nat.and_assoc, e] at h1
  exact h1

/-- Tree operations leave the `prev` pointers of all blocks alone. -/
theorem treeFrame_prev {F Bs : List Nat} (hsub : ∀ h ∈ F, h ∈ Bs)
    (hA : HeadersApart Bs) {m m' : Mem} (h : TreeFrame F m m') :
    ∀ b ∈ Bs, get_prev m' b = get_prev m b := by
  intro b hb
  by_cases hbF : b ∈ F
  · unfold get_prev
    exact (sameButColor_prev (h.2 b hbF)).symm
  · apply get_prev_congr
    apply h.1
    intro f hf
    have e : f ≠ b := fun e => hbF (e ▸ hf)
    have := hA f (hsub f hf) b hb e
    omega

/-- Freeing a block that has occupied neighbours on both sides, and that neither is the
tail nor lies right in front of it, only inserts the block into the free tree: every block
keeps its size word, its free flag and its `prev` pointer. -/
theorem em_free_block_full_plain {m : Mem} {em R : Nat} {F Bs : List Nat}
    (hL : BlockLayout m em F Bs) (hR : R ∈ F) (hfree : get_is_free m R = true)
    (hT : em_get_tail m em ∈ Bs) (hRT : R ≠ em_get_tail m em)
    (hnext : next_block m em R = 0 ∨
      (next_block m em R ≠ em_get_tail m em ∧ get_is_free m (next_block m em R) = false))
    (hprev : get_prev m R = 0 ∨
      (get_prev m R ∈ Bs ∧ get_prev m R ≠ R ∧ get_is_free m (get_prev m R) = false)) :
    ∀ b ∈ Bs, em_free_block_full m em R b = m b ∧
      get_is_free (em_free_block_full m em R) b = get_is_free m b ∧
      get_prev (em_free_block_full m em R) b = get_prev m b := by
  have hRB := hL.free_in_blocks R hR
  have hA := hL.headers_apart
  have hRf := hL.blocks_fit R hRB
  have hTf := hL.blocks_fit _ hT
  have hscr : ¬ (get_is_in_scratch m R = true) := by
    unfold get_is_in_scratch
    rw [hfree]
    simp
  rw [em_free_block_full_eq, if_neg hscr]
  obtain ⟨hLa, ha16, hasz, hafl⟩ := free_mark_layout hL hRB
  obtain ⟨hm1, hm2, hm3, hm4, hm5⟩ := free_mark_spec m R
  obtain ⟨ma, hma⟩ : ∃ x, x = free_mark m R := ⟨_, rfl⟩
  rw [← hma] at hLa ha16 hasz hafl hm1 hm2 hm3 hm4 hm5 ⊢
  have haem : ma em = m em := hm1 _ (by omega) (by omega) (by omega)
  have htail : em_get_tail ma em = em_get_tail m em := em_get_tail_congr ha16
  have hnb : next_block ma em R = next_block m em R :=
    next_block_congr haem ha16 (hasz R hRB)
  have hln : free_look_next ma em R = (ma, R) := by
    unfold free_look_next
    dsimp only
    rw [htail, hnb, if_neg hRT]
    by_cases hz : next_block m em R = 0
    · rw [hz]
      have h1 : ¬ (0 = em_get_tail m em) := by omega
      rw [if_neg h1]
      simp
    · rcases hnext with h | h
      · exact absurd h hz
      · rw [if_neg h.1]
        have hXB : next_block m em R ∈ Bs := by
          rcases next_block_cases m em R with h0 | ⟨h1, h2⟩
          · exact absurd h0 hz
          · rw [h1]; exact hL.chain R hRB h2
        have hXR : next_block m em R ≠ R := by
          intro e
          rw [e, hfree] at h
          exact absurd h.2 (by simp)
        have hX : get_is_free ma (next_block m em R) = false := by
          rw [hafl _ hXB hXR]; exact h.2
        rw [hX]
        simp
  have hlp : free_look_prev (ma, R) em (get_prev m R) = (ma, R) := by
    unfold free_look_prev
    have hcnd : ¬ ((get_prev m R != 0 && get_is_free ma (get_prev m R)) = true) := by
      rcases hprev with h | h
      · rw [h]; simp
      · rw [hafl _ h.1 h.2.1, h.2.2]
        simp
    rw [if_neg hcnd]
  rw [hln, hm5, hlp]
  have hR0 : (R != 0) = true := by
    have : R ≠ 0 := by omega
    simpa using this
  unfold free_insert
  dsimp only
  rw [if_pos hR0]
  have hins := treeInv_insert_block hLa.tree_apart (List.mem_cons_self R F) FUEL ma
    (em_get_free_blocks ma em) hLa.root_in (treeInv_refl hLa.closed)
  obtain ⟨r, hrd⟩ : ∃ r, r = insert_block FUEL ma (em_get_free_blocks ma em) R := ⟨_, rfl⟩
  rw [← hrd] at hins ⊢
  have hw := treeFrame_words hLa.free_in_blocks hA (fun b hb => (hL.blocks_fit b hb).1)
    hins.1.1
  have hp := treeFrame_prev hLa.free_in_blocks hA hins.1.1
  intro b hb
  have hbf := hL.blocks_fit b hb
  refine ⟨?_, ?_, ?_⟩
  · rw [em_set_free_blocks_ne _ _ _ (by omega), (hw.2 b hb).1, hasz b hb]
  · rw [get_is_free_congr (em_set_free_blocks_ne r.1 em r.2 (by omega)), (hw.2 b hb).2]
    by_cases e : b = R
    · rw [e, hm4, hfree]
    · exact hafl b hb e
  · rw [get_prev_congr (em_set_free_blocks_ne r.1 em r.2 (by omega)), hp b hb]
    by_cases e : b = R
    · rw [e, hm5]
    · apply get_prev_congr
      have := hA b hb R hRB e
      exact hm1 _ (by omega) (by omega) (by omega)

/-- What `split_block` leaves when the block behind `B` is occupied and is not the tail. -/
theorem split_block_plain {m : Mem} {em B needed : Nat} {F Bs : List Nat}
    (hL : BlockLayout m em F Bs) (hB : B ∈ Bs) (hBocc : get_is_free m B = false)
    (hn4 : needed % 4 = 0) (hT : em_get_tail m em ∈ Bs)
    (hnext : next_block m em B = 0 ∨
      (next_block m em B ≠ em_get_tail m em ∧ get_is_free m (next_block m em B) = false))
    (hlt : needed < get_size m B) (h48 : 48 ≤ get_size m B - needed) :
    get_size (split_block m em B needed) B = needed ∧
      get_is_free (split_block m em B needed) (B + 32 + needed) = true ∧
      get_size (split_block m em B needed) (B + 32 + needed) = get_size m B - needed - 32 ∧
      get_prev (split_block m em B needed) (B + 32 + needed) = B ∧
      (next_block m em B ≠ 0 →
        get_prev (split_block m em B needed) (next_block m em B) = B + 32 + needed) := by
  have hBf := hL.blocks_fit B hB
  have hfits := hL.arena_fits
  have hA := hL.headers_apart
  have hTf := hL.blocks_fit _ hT
  have hc : (decide (get_size m B > needed) &&
      decide (wsub (get_size m B) needed ≥ BLOCK_MIN_SIZE)) = true := by
    have : wsub (get_size m B) needed = get_size m B - needed := by
      unfold wsub; simp only [WORD]; omega
    rw [this]
    simp only [Bool.and_eq_true, decide_eq_true_eq, BLOCK_MIN_SIZE, SIZEOF_BLOCK,
      EM_MIN_BUFFER_SIZE]
    exact ⟨hlt, h48⟩
  rw [split_block_eq, if_pos hc]
  obtain ⟨mc, hmc, hRu, hLc, hfR, hpR, hfB, hsB, hcem, hcf, hc16, hcfl, hsR, hpX⟩ :=
    split_carve_spec hL hB hBocc hn4 hlt h48
  rw [hmc, hRu]
  obtain ⟨R, hRd⟩ : ∃ R, R = B + 32 + needed := ⟨_, rfl⟩
  rw [← hRd] at hLc hfR hpR hcf hsR hpX ⊢
  have htl : em_get_tail mc em = em_get_tail m em := em_get_tail_congr hc16
  have hRT : R ≠ em_get_tail m em := by
    by_cases e : em_get_tail m em = B
    · omega
    · have := hL.blocks_apart _ hT B hB e
      omega
  have hnx : next_block mc em R = next_block m em B := by
    have hu : next_block_unsafe mc R = next_block_unsafe m B := by
      unfold next_block_unsafe block_data wadd
      rw [hsR]
      simp only [WORD, SIZEOF_BLOCK]
      omega
    unfold next_block
    dsimp only
    rw [hu, is_block_in_active_part_congr hcem hc16]
  have hXB : next_block m em B ≠ 0 → next_block m em B ∈ Bs ∧
      is_block_in_active_part m em ( next_block_unsafe m B) = true ∧
      next_block m em B = next_block_unsafe m B := by
    intro hz
    rcases next_block_cases m em B with h0 | ⟨h1, h2⟩
    · exact absurd h0 hz
    · exact ⟨by rw [h1]; exact hL.chain B hB h2, h2, h1⟩
  have hpl := em_free_block_full_plain hLc (List.mem_cons_self R F) hfR
    (by rw [htl]; exact List.mem_cons_of_mem _ hT) (by rw [htl]; exact hRT)
    (by
      rw [hnx, htl]
      rcases hnext with h | h
      · exact Or.inl h
      · by_cases hz : next_block m em B = 0
        · exact Or.inl hz
        · exact Or.inr ⟨h.1, by rw [hcfl _ (hXB hz).1]; exact h.2⟩)
    (by
      right
      rw [hpR]
      exact ⟨List.mem_cons_of_mem _ hB, by omega, hfB⟩)
  have hRm : R ∈ R :: Bs := List.mem_cons_self R Bs
  have hBm : B ∈ R :: Bs := List.mem_cons_of_mem _ hB
  refine ⟨?_, ?_, ?_, ?_, ?_⟩
  · rw [get_size_congr (hpl B hBm).1]; exact hsB
  · rw [(hpl R hRm).2.1]; exact hfR
  · rw [get_size_congr (hpl R hRm).1]; exact hsR
  · rw [(hpl R hRm).2.2]; exact hpR
  · intro hz
    obtain ⟨x1, x2, x3⟩ := hXB hz
    rw [(hpl _ (List.mem_cons_of_mem _ x1)).2.2, x3]
    exact hpX x2


/-! ### The owner of the first block after `em_create_static_aligned` -/

theorem em_create_static_aligned_cases (m : Mem) (memory size a : Nat) :
    em_create_static_aligned m memory size a = (m, 0) ∨
      em_create_static_aligned m memory size a =
        (create_static_writes m (align_up memory MIN_ALIGNMENT)
          (wsub (align_up (wadd (wadd (align_up memory MIN_ALIGNMENT) SIZEOF_BLOCK) SIZEOF_EM)
            a) SIZEOF_BLOCK) a
          (wsub size (wsub (align_up memory MIN_ALIGNMENT) memory)),
          align_up memory MIN_ALIGNMENT) := by
  unfold em_create_static_aligned
  split
  · left; rfl
  · split
    · left; rfl
    · split
      · left; rfl
      · dsimp only
        split
        · left; rfl
        · right; rfl

theorem parent_walk_first (m : Mem) (fuel b : Nat) (h : get_prev m b = 0) :
    parent_walk m (fuel + 1) b = Sum.inr b := by
  rw [parent_walk]
  simp [h]

/-- The header words that `create_static_writes` leaves. -/
theorem create_static_writes_spec (m : Mem) (em first a cap : Nat)
    (hem : em % 8 = 0) (hf8 : first % 8 = 0) (hge : em + 32 ≤ first)
    (hlt : first + 32 ≤ 18446744073709551616) :
    em_get_tail (create_static_writes m em first a cap) em = first ∧
      create_static_writes m em first a cap (em + 24) &&& 1 = 0 ∧
      get_is_free (create_static_writes m em first a cap) first = true ∧
      get_prev (create_static_writes m em first a cap) first = 0 ∧
      (em + 32 < first →
        create_static_writes m em first a cap (first - 8) =
          (wshl (first - em) 1 ||| 1)) ∧
      get_alignment (create_static_writes m em first a cap) em =
        get_alignment (set_alignment m em a) em := by
  have hcb := create_block_spec m first
  obtain ⟨m1, hm1⟩ : ∃ x, x = create_block m first := ⟨_, rfl⟩
  rw [← hm1] at hcb
  have hw32 : wadd em SIZEOF_EM = em + 32 := by
    unfold wadd; simp only [WORD, SIZEOF_EM]; omega
  have hw8 : wsub first WORD_SIZE = first - 8 := by
    unfold wsub; simp only [WORD, WORD_SIZE]; omega
  have hwo : wsub first em = first - em := by
    unfold wsub; simp only [WORD]; omega
  obtain ⟨m2, hm2⟩ : ∃ x, x =
      (if first > wadd em SIZEOF_EM then
        m1.write (wsub first WORD_SIZE) (wshl (wsub first em) 1 ||| 1) else m1) := ⟨_, rfl⟩
  have hm2_blk : m2 (first + 8) = m1 (first + 8) := by
    rw [hm2]
    by_cases hg : first > wadd em SIZEOF_EM
    · rw [if_pos hg, hw8]
      exact Mem.write_ne _ _ (by omega)
    · rw [if_neg hg]
  have hm2_em : m2 em = m em := by
    rw [hm2]
    by_cases hg : first > wadd em SIZEOF_EM
    · rw [if_pos hg, hw8, Mem.write_ne _ _ (by rw [hw32] at hg; omega)]
      exact hcb.2.2.2.2.2.2 em (by omega) (by omega) (by omega) (by omega)
    · rw [if_neg hg]
      exact hcb.2.2.2.2.2.2 em (by omega) (by omega) (by omega) (by omega)
  have hm2_det : em + 32 < first → m2 (first - 8) = (wshl (first - em) 1 ||| 1) := by
    intro hg
    have hg2 : first > wadd em SIZEOF_EM := by rw [hw32]; exact hg
    rw [hm2, if_pos hg2, hw8, hwo]
    exact Mem.write_eq _ _ _
  have hF : create_static_writes m em first a cap =
      em_set_is_nested (em_set_is_dynamic (em_set_tail (em_set_padding_bit
        (em_set_has_scratch (em_set_free_blocks (em_set_capacity
          (em_set_alignment m2 em a) em cap) em 0) em false) em false) em first) em false)
        em false := by
    unfold create_static_writes
    dsimp only
    rw [← hm1, ← hm2]
  rw [hF]
  have hfr : ∀ x, x ≠ em → x ≠ em + 16 → x ≠ em + 24 →
      em_set_is_nested (em_set_is_dynamic (em_set_tail (em_set_padding_bit
        (em_set_has_scratch (em_set_free_blocks (em_set_capacity
          (em_set_alignment m2 em a) em cap) em 0) em false) em false) em first) em false)
        em false x = m2 x := by
    intro x h0 h16 h24
    unfold em_set_is_nested em_set_is_dynamic em_set_tail em_set_padding_bit
      em_set_has_scratch em_set_free_blocks em_set_capacity set_size em_set_alignment
      set_alignment
    simp (disch := omega) only [Mem.write_ne]
  refine ⟨?_, ?_, ?_, ?_, ?_, ?_⟩
  · unfold em_get_tail em_set_is_nested em_set_is_dynamic
    simp only [Mem.write_eq, Bool.false_eq_true, if_false]
    rw [em_set_tail_eq, Nat.and_assoc, Nat.and_assoc]
    have e1 : (wnot IS_DYNAMIC_FLAG &&& (wnot IS_NESTED_FLAG &&& TAIL_MASK)) =
        18446744073709551612 := by decide
    have e2 : wnot TAIL_MASK = 3 := by decide
    rw [e1, e2]
    exact tagged_ptr _ _ (by omega) (by omega)
  · unfold em_set_is_nested em_set_is_dynamic em_set_tail
    rw [Mem.write_ne _ _ (by omega), Mem.write_ne _ _ (by omega),
      Mem.write_ne _ _ (by omega)]
    unfold em_set_padding_bit
    simp only [Mem.write_eq, Bool.false_eq_true, if_false]
    rw [Nat.and_assoc]
    have e1 : wnot IS_PADDING &&& 1 = 0 := by decide
    rw [e1, Nat.and_zero]
  · rw [get_is_free_congr (hfr (first + 8) (by omega) (by omega) (by omega)),
      get_is_free_congr hm2_blk]
    exact hcb.2.1
  · rw [get_prev_congr (hfr (first + 8) (by omega) (by omega) (by omega)),
      get_prev_congr hm2_blk]
    exact hcb.2.2.2.1
  · intro hg
    rw [hfr (first - 8) (by omega) (by omega) (by omega)]
    exact hm2_det hg
  · have h1 : em_set_is_nested (em_set_is_dynamic (em_set_tail (em_set_padding_bit
        (em_set_has_scratch (em_set_free_blocks (em_set_capacity
          (em_set_alignment m2 em a) em cap) em 0) em false) em false) em first) em false)
        em false em = set_size (set_alignment m2 em a) em cap em := by
      unfold em_set_is_nested em_set_is_dynamic em_set_tail em_set_padding_bit
        em_set_has_scratch em_set_free_blocks em_set_capacity em_set_alignment
      simp (disch := omega) only [Mem.write_ne]
    rw [get_alignment_congr h1, (set_size_spec _ em cap).2.1]
    apply get_alignment_congr
    unfold set_alignment
    simp only [Mem.write_eq, hm2_em]

/-- After a successful `em_create_static_aligned`, `get_parent_em` of the block that the
call lays out (the tail) is the arena; for alignments up to 1024 that block is
`em_get_first_block(em)`. -/
theorem em_create_static_aligned_parent (m : Mem) (memory size a : Nat)
    (ha : ValidAlignment a) (hmem : memory + 4096 ≤ 18446744073709551616)
    (hres : (em_create_static_aligned m memory size a).2 ≠ 0) :
    ∃ mF em first, em_create_static_aligned m memory size a = (mF, em) ∧
      em_get_tail mF em = first ∧ em + 32 ≤ first ∧
      get_parent_em mF first = em ∧
      (em + 32 < first → mF (first - 8) = (wshl (first - em) 1 ||| 1) ∧
        mF (first - 8) &&& 1 = 1 ∧ first - (mF (first - 8) >>> 1) = em) ∧
      (first = em + 32 → mF (first - 8) &&& 1 = 0 ∧ first - SIZEOF_EM = em) ∧
      (a ≤ 1024 → em_get_first_block mF em = first) := by
  rcases em_create_static_aligned_cases m memory size a with h | h
  · rw [h] at hres
    exact absurd rfl hres
  have ha8 : ValidAlignment MIN_ALIGNMENT := by decide
  obtain ⟨e1, e2, e3, _, e5⟩ := align_up_spec memory MIN_ALIGNMENT ha8
    (by simp only [WORD]; omega)
  obtain ⟨em, hem⟩ : ∃ x, x = align_up memory MIN_ALIGNMENT := ⟨_, rfl⟩
  rw [← hem] at h e1 e2 e3 e5
  have hemb : memory ≤ em ∧ em < memory + 8 ∧ em % 8 = 0 := by
    have hlt : wsub em memory < 8 := e3
    have := e5 (by simp only [WORD]; omega)
    simp only [MIN_ALIGNMENT] at e2
    omega
  have hw64 : wadd (wadd em SIZEOF_BLOCK) SIZEOF_EM = em + 64 := by
    unfold wadd; simp only [WORD, SIZEOF_EM, SIZEOF_BLOCK]; omega
  rw [hw64] at h
  have hle : a ≤ 2048 ∧ a % 8 = 0 ∧ 0 < a := by
    simp only [ValidAlignment, List.mem_cons, List.mem_singleton, List.not_mem_nil,
      or_false] at ha
    omega
  obtain ⟨f1, f2, f3, _, f5⟩ := align_up_spec (em + 64) a ha (by simp only [WORD]; omega)
  obtain ⟨A, hA⟩ : ∃ x, x = align_up (em + 64) a := ⟨_, rfl⟩
  rw [← hA] at h f1 f2 f3 f5
  have hAb : em + 64 ≤ A ∧ A < em + 64 + a ∧ A % 8 = 0 := by
    have := f5 (by simp only [WORD]; omega)
    have h8 : A % 8 = 0 := by
      have : 8 ∣ a := Nat.dvd_of_mod_eq_zero hle.2.1
      have : a ∣ A := Nat.dvd_of_mod_eq_zero f2
      exact Nat.mod_eq_zero_of_dvd (Nat.dvd_trans ‹8 ∣ a› this)
    omega
  have hfirst : wsub A SIZEOF_BLOCK = A - 32 := by
    unfold wsub; simp only [WORD, SIZEOF_BLOCK]; omega
  rw [hfirst] at h
  obtain ⟨first, hfd⟩ : ∃ x, x = A - 32 := ⟨_, rfl⟩
  rw [← hfd] at h
  obtain ⟨s1, s2, s3, s4, s5, s6⟩ := create_static_writes_spec m em first a
    (wsub size (wsub em memory)) hemb.2.2 (by omega) (by omega) (by omega)
  obtain ⟨mF, hmF⟩ : ∃ x, x = create_static_writes m em first a
    (wsub size (wsub em memory)) := ⟨_, rfl⟩
  rw [← hmF] at h s1 s2 s3 s4 s5 s6
  have hoff : em + 32 < first →
      (wshl (first - em) 1 ||| 1) &&& 1 = 1 ∧ (wshl (first - em) 1 ||| 1) >>> 1 = first - em := by
    intro _
    have hw : wshl (first - em) 1 = 2 * (first - em) := by
      unfold wshl
      rw [Nat.shiftLeft_eq, Nat.mod_eq_of_lt (by simp only [WORD]; omega)]
      omega
    rw [hw]
    refine ⟨?_, ?_⟩
    · rw [Nat.and_one_is_mod]
      exact Nat.or_mod_two_eq_one.mpr (Or.inr rfl)
    · apply Nat.eq_of_testBit_eq
      intro i
      rw [Nat.testBit_shiftRight, Nat.testBit_or, Nat.add_comm 1 i, Nat.testBit_succ,
        Nat.testBit_succ]
      have h1 : 2 * (first - em) / 2 = first - em := by omega
      have h2 : (1 : Nat) / 2 = 0 := by decide
      rw [h1, h2, Nat.zero_testBit, Bool.or_false]
  have hpar : get_parent_em mF first = em := by
    unfold get_parent_em
    have hscr : get_is_in_scratch mF first = false := by
      unfold get_is_in_scratch
      rw [s3]
      rfl
    rw [hscr]
    simp only [Bool.false_eq_true, if_false]
    have hwalk : parent_walk mF FUEL first = Sum.inr first :=
      parent_walk_first mF 18446744073709551615 first s4
    rw [hwalk]
    dsimp only
    have hw8 : wsub first WORD_SIZE = first - 8 := by
      unfold wsub; simp only [WORD, WORD_SIZE]; omega
    rw [hw8]
    by_cases hg : em + 32 < first
    · rw [s5 hg]
      obtain ⟨o1, o2⟩ := hoff hg
      have hb : ((wshl (first - em) 1 ||| 1) &&& 1 != 0) = true := by
        rw [o1]; rfl
      rw [if_pos hb, o2]
      unfold wsub; simp only [WORD]; omega
    · have hfe : first = em + 32 := by omega
      have h24 : first - 8 = em + 24 := by omega
      rw [h24, s2]
      simp only [bne_self_eq_false, Bool.false_eq_true, if_false]
      unfold wsub; simp only [WORD, SIZEOF_EM]; omega
  refine ⟨mF, em, first, h, s1, by omega, hpar, ?_, ?_, ?_⟩
  · intro hg
    obtain ⟨o1, o2⟩ := hoff hg
    refine ⟨s5 hg, ?_, ?_⟩
    · rw [s5 hg]; exact o1
    · rw [s5 hg, o2]; omega
  · intro hfe
    have h24 : first - 8 = em + 24 := by omega
    rw [h24]
    exact ⟨s2, by simp only [SIZEOF_EM]; omega⟩
  · intro h1024
    have hal : em_get_alignment mF em = a := by
      have : em_get_alignment mF em = get_alignment mF em := rfl
      rw [this, s6]
      simp only [ValidAlignment, List.mem_cons, List.mem_singleton, List.not_mem_nil,
        or_false] at ha
      rcases ha with h | h | h | h | h | h | h | h | h
      · rw [h]; exact (set_alignment_spec m em 0 (by omega)).2.1
      · rw [h]; exact (set_alignment_spec m em 1 (by omega)).2.1
      · rw [h]; exact (set_alignment_spec m em 2 (by omega)).2.1
      · rw [h]; exact (set_alignment_spec m em 3 (by omega)).2.1
      · rw [h]; exact (set_alignment_spec m em 4 (by omega)).2.1
      · rw [h]; exact (set_alignment_spec m em 5 (by omega)).2.1
      · rw [h]; exact (set_alignment_spec m em 6 (by omega)).2.1
      · rw [h]; exact (set_alignment_spec m em 7 (by omega)).2.1
      · omega
    unfold em_get_first_block
    dsimp only
    rw [hal]
    have hw64b : wadd (wadd em SIZEOF_EM) SIZEOF_BLOCK = em + 64 := by
      unfold wadd; simp only [WORD, SIZEOF_EM, SIZEOF_BLOCK]; omega
    rw [hw64b, ← hA, hfirst, hfd]


/-! ### The blocks that a tail allocation lays out -/

theorem not_active_behind_tail (m : Mem) (em x : Nat) (h : em_get_tail m em < x) :
    is_block_in_active_part m em x = false := by
  unfold is_block_in_active_part
  split
  · rfl
  · simp only [decide_eq_false_iff_not, not_le]
    exact h

theorem next_block_of_last (m : Mem) (em b : Nat)
    (h : em_get_tail m em < next_block_unsafe m b) : next_block m em b = 0 := by
  unfold next_block
  dsimp only
  rw [not_active_behind_tail m em _ h]
  rfl

/-- What `tail_commit` leaves: the stamped block at the old tail, untouched memory in front
of it, and at most one further block, the new tail, behind it. -/
theorem tail_commit_full (m : Mem) (em size tail pad p : Nat)
    (hgeo : em + 32 ≤ tail) (ht4 : tail % 4 = 0) (hp : p = tail + 32 + pad)
    (hfit : pad + size ≤ free_size_in_tail m em)
    (hfs : free_size_in_tail m em + 1024 ≤ 2305843009213693952) (hsz : 0 < size)
    (hw : tail + 32 + free_size_in_tail m em + 1056 ≤ 18446744073709551616)
    (htl : tail = em_get_tail m em) (hin : is_block_within_em m em tail = true) :
    ∃ mF, tail_commit m em size tail pad p = (mF, p) ∧
      pad + size ≤ get_size mF tail ∧
      get_is_free mF tail = false ∧ recovered_header mF p = tail ∧
      (0 < pad → mF (p - 8) = tail ^^^ p) ∧
      (pad = 0 → mF (p - 8) ^^^ p = MAGIC) ∧
      (∀ x, x < tail → x ≠ em + 16 → mF x = m x) ∧
      tail ≤ em_get_tail mF em ∧
      (next_block mF em tail = 0 ∨
        (next_block mF em tail ≠ 0 ∧ next_block mF em (next_block mF em tail) = 0)) := by
  obtain ⟨mF, hc1, hc2, _, hc4, hc5, hc6, _⟩ :=
    tail_commit_spec m em size tail pad p hgeo ht4 hp hfit hfs hsz (by omega)
  refine ⟨mF, hc1, hc6, hc2, hc5, ?_⟩
  have hmFd : mF = (tail_commit m em size tail pad p).1 := by rw [hc1]
  have hb := tail_final_bounds m em size pad p hfit hfs
  have hal := tail_final_aligned m em size tail pad p hp hfit hw
  obtain ⟨final, hfinal⟩ : ∃ f, f = tail_final m em size pad p := ⟨_, rfl⟩
  rw [← hfinal] at hb hal
  have hs := tail_stamp_spec m em tail final pad p hp hb.2.1 (by omega)
  obtain ⟨m1, hm1⟩ : ∃ x, x = tail_stamp m em tail final pad p := ⟨_, rfl⟩
  rw [← hm1] at hs
  obtain ⟨s1, s2, _, s4, s5, s6, _, s8⟩ := hs
  have h0 : m1 em = m em := s6 em (Or.inl (by omega)) (by omega)
  have h16 : m1 (em + 16) = m (em + 16) := s6 _ (Or.inl (by omega)) (by omega)
  have ht1 : em_get_tail m1 em = tail := by rw [em_get_tail_congr h16, ← htl]
  have hmagic : m1 (tail + 24) ^^^ p = MAGIC := by
    unfold is_valid_magic get_magic at s5
    simpa using s5
  have hmin : wadd pad size = pad + size := by
    unfold wadd; simp only [WORD]; omega
  have hnot : ¬ (wadd pad size > free_size_in_tail m em) := by rw [hmin]; omega
  have hnb : next_block_unsafe m1 tail = tail + 32 + final := by
    unfold next_block_unsafe block_data
    rw [s1]
    unfold wadd; simp only [WORD, SIZEOF_BLOCK]; omega
  have hF : mF =
      if (free_size_in_tail m em != final) = true then
        em_set_tail (create_next_block m1 em tail).1 em (create_next_block m1 em tail).2
      else m1 := by
    rw [hmFd]
    unfold tail_commit
    rw [if_neg hnot]
    dsimp only
    rw [← hfinal, ← hm1]
  by_cases hd : (free_size_in_tail m em != final) = true
  · rw [if_pos hd] at hF
    have hne : final ≠ free_size_in_tail m em := by
      intro e
      rw [e] at hd
      simp at hd
    have hin1 : is_block_within_em m1 em tail = true := by
      rw [is_block_within_em_congr h0]; exact hin
    have hact : is_block_in_active_part m1 em (tail + 32 + final) = false :=
      not_active_behind_tail m1 em _ (by rw [ht1]; omega)
    have hc : create_next_block m1 em tail =
        (set_prev (create_block m1 (tail + 32 + final)) (tail + 32 + final) tail,
          tail + 32 + final) := by
      unfold create_next_block
      rw [if_pos hin1]
      dsimp only
      rw [hnb, hact]
      simp only [Bool.false_and, Bool.false_eq_true, if_false]
    rw [hc] at hF
    dsimp only at hF
    have hcb := create_block_spec m1 (tail + 32 + final)
    have hn4 : (tail + 32 + final) % 4 = 0 := by
      rcases hal with h | h
      · exact absurd h hne
      · omega
    have htF : em_get_tail mF em = tail + 32 + final := by
      rw [hF]
      exact em_get_tail_set _ em (tail + 32 + final) hn4 (by omega)
    have hfr : ∀ x, (x < tail + 32 + final ∨ tail + 32 + final + 32 ≤ x) → x ≠ em + 16 →
        mF x = m1 x := by
      intro x hx h16
      rw [hF, em_set_tail_ne _ _ _ h16, set_prev_ne _ _ _ (by omega)]
      exact hcb.2.2.2.2.2.2 _ (by omega) (by omega) (by omega) (by omega)
    have hsz2 : get_size mF (tail + 32 + final) = 0 := by
      have e : mF (tail + 32 + final) = create_block m1 (tail + 32 + final) (tail + 32 + final) := by
        rw [hF, em_set_tail_ne _ _ _ (by omega), set_prev_ne _ _ _ (by omega)]
      rw [get_size_congr e]; exact hcb.1
    refine ⟨?_, ?_, ?_, by omega, ?_⟩
    · intro hpad
      rw [hfr _ (Or.inl (by omega)) (by omega)]
      exact s8 hpad
    · intro hpad
      have e : p - 8 = tail + 24 := by omega
      rw [e, hfr _ (Or.inl (by omega)) (by omega)]
      exact hmagic
    · intro x hx h16
      rw [hfr _ (Or.inl (by omega)) h16]
      exact s6 x (Or.inl hx) (by omega)
    · by_cases hz : next_block mF em tail = 0
      · exact Or.inl hz
      · right
        refine ⟨hz, ?_⟩
        have hnbF : next_block_unsafe mF tail = tail + 32 + final := by
          rw [next_block_unsafe_congr (hfr tail (Or.inl (by omega)) (by omega))]
          exact hnb
        have e : next_block mF em tail = tail + 32 + final := by
          rcases next_block_cases mF em tail with h | h
          · exact absurd h hz
          · rw [h.1, hnbF]
        rw [e]
        apply next_block_of_last
        rw [htF]
        unfold next_block_unsafe block_data
        rw [hsz2]
        unfold wadd; simp only [WORD, SIZEOF_BLOCK]; omega
  · rw [if_neg hd] at hF
    rw [hF]
    refine ⟨s8, ?_, ?_, by omega, ?_⟩
    · intro hpad
      have e : p - 8 = tail + 24 := by omega
      rw [e]
      exact hmagic
    · intro x hx _
      exact s6 x (Or.inl hx) (by omega)
    · left
      apply next_block_of_last
      rw [ht1, hnb]
      omega


theorem count_blocks_loop_zero (m : Mem) (em : Nat) : ∀ fuel, count_blocks_loop m em fuel 0 = 0
  | 0 => rfl
  | fuel + 1 => by
    rw [count_blocks_loop]
    simp

theorem count_blocks_loop_succ (m : Mem) (em fuel b : Nat) (hb : b ≠ 0) :
    count_blocks_loop m em (fuel + 1) b =
      1 + count_blocks_loop m em fuel (next_block m em b) := by
  rw [count_blocks_loop]
  have : (b != 0) = true := by simpa using hb
  rw [if_pos this]

/-- The count along a chain: the blocks of the chain, then the count from its end. -/
theorem count_blocks_loop_chain {m m' : Mem} {em T : Nat} :
    ∀ (P : List Nat) (b fuel : Nat), ChainTo m em b P T →
      (∀ x ∈ P, next_block m' em x = next_block m em x) →
      count_blocks_loop m' em (P.length + fuel) b =
        P.length + count_blocks_loop m' em fuel T := by
  intro P
  induction P with
  | nil =>
    intro b fuel hc _
    have : b = T := hc
    rw [this]
    simp
  | cons x P ih =>
    intro b fuel hc hn
    obtain ⟨rfl, hx, hc2⟩ := hc
    have e : (b :: P).length + fuel = (P.length + fuel) + 1 := by
      simp only [List.length_cons]; omega
    rw [e, count_blocks_loop_succ _ _ _ _ hx, hn b (List.mem_cons_self _ _),
      ih _ fuel hc2 (fun y hy => hn y (List.mem_cons_of_mem _ hy))]
    simp only [List.length_cons]
    omega

/-- A block that ends at or before the old tail has the same successor when the tail has
only moved up. -/
theorem next_block_prefix {m m' : Mem} {em x : Nat} (h0 : m' em = m em) (hx : m' x = m x)
    (hle : next_block_unsafe m x ≤ em_get_tail m em)
    (htl : em_get_tail m em ≤ em_get_tail m' em) :
    next_block m' em x = next_block m em x := by
  unfold next_block is_block_in_active_part
  dsimp only
  rw [next_block_unsafe_congr hx, is_block_within_em_congr h0]
  by_cases hw : is_block_within_em m em ( next_block_unsafe m x) = true
  · have h1 : decide ( next_block_unsafe m x ≤ em_get_tail m em) = true := by
      simpa using hle
    have h2 : decide ( next_block_unsafe m x ≤ em_get_tail m' em) = true := by
      simpa using Nat.le_trans hle htl
    simp only [hw, h1, h2, Bool.not_true, Bool.false_eq_true, if_false]
  · simp only [hw, Bool.not_false, if_true]

/-- The number of blocks when the chain `P` leads from the first block to a block `T`
that has no successor. -/
theorem count_blocks_to_last {m : Mem} {em T : Nat} {P : List Nat}
    (hc : ChainTo m em (em_get_first_block m em) P T) (hT : T ≠ 0)
    (hlast : next_block m em T = 0) (hlen : P.length + 3 ≤ FUEL) :
    count_blocks_in_em m em = P.length + 1 := by
  unfold count_blocks_in_em
  obtain ⟨k, hk⟩ : ∃ k, FUEL = P.length + (k + 1) := ⟨FUEL - P.length - 1, by omega⟩
  rw [hk, count_blocks_loop_chain P _ _ hc (fun _ _ => rfl),
    count_blocks_loop_succ _ _ _ _ hT, hlast, count_blocks_loop_zero]


/-- The free tree after the front split of a tail allocation, and the untouched headers
in front of the old tail. -/
theorem front_split_tree {m mF : Mem} {em T pad : Nat} {t : ColorTree} {P : List Nat}
    (hT : T = em_get_tail m em) (hL : TailLayout m em t.blocks)
    (hin : t.InMem m (em_get_free_blocks m em)) (hgap : t.blocks.Pairwise HeaderGap)
    (hheight : t.height < FUEL) (hbefore : ∀ h ∈ t.blocks, h + 32 ≤ T)
    (hP : ∀ x ∈ P, em + 32 ≤ x ∧ x + 32 + get_size m x ≤ T)
    (hPA : HeadersApart (P ++ t.blocks)) (h48 : 48 ≤ pad)
    (hlow : ∀ x, x < T + pad → x ≠ em + 16 → x ≠ em + 24 →
      mF x = (insert_block FUEL (set_size m T (pad - 32)) (em_get_free_blocks m em) T).1 x)
    (hroot : em_get_free_blocks mF em =
      (insert_block FUEL (set_size m T (pad - 32)) (em_get_free_blocks m em) T).2) :
    (t.insert (set_size m T (pad - 32)) T).InMem mF (em_get_free_blocks mF em) ∧
      ∀ x ∈ P, mF x = m x := by
  have hgeo := hL.tail_after
  have htl_ := hL.tail_left
  have htr_ := hL.tail_right
  rw [← hT] at hgeo htl_ htr_
  obtain ⟨ma, hma⟩ : ∃ x, x = set_size m T (pad - 32) := ⟨_, rfl⟩
  rw [← hma] at hlow hroot ⊢
  have hnodes := hL.nodes
  have hin_ma : t.InMem ma (em_get_free_blocks m em) := by
    apply ColorTree.inMem_congr t _ _ hin
    intro y hy
    have := hbefore y hy
    rw [hma]
    exact ⟨set_size_ne _ _ _ (by omega), set_size_ne _ _ _ (by omega),
      set_size_ne _ _ _ (by omega)⟩
  have hl : get_left_tree ma T = 0 := by
    have e : ma (T + 16) = m (T + 16) := by rw [hma]; exact set_size_ne _ _ _ (by omega)
    unfold get_left_tree at htl_ ⊢
    rw [e]; exact htl_
  have hr : get_right_tree ma T = 0 := by
    have e : ma (T + 24) = m (T + 24) := by rw [hma]; exact set_size_ne _ _ _ (by omega)
    unfold get_right_tree at htr_ ⊢
    rw [e]; exact htr_
  have hpw : (T :: t.blocks).Pairwise HeaderGap := by
    rw [List.pairwise_cons]
    refine ⟨?_, hgap⟩
    intro y hy
    have := hbefore y hy
    unfold HeaderGap
    omega
  have href := insert_block_refines (by omega : T ≠ 0) hl hr FUEL t
    (em_get_free_blocks m em) hin_ma hheight hpw
  have hfrm := insert_block_frame hl hr FUEL hin_ma hpw
  obtain ⟨r, hrd⟩ : ∃ r, r = insert_block FUEL ma (em_get_free_blocks m em) T := ⟨_, rfl⟩
  rw [← hrd] at hlow hroot href hfrm
  have hmem : ∀ y ∈ (t.insert ma T).blocks, em + 32 ≤ y ∧ y ≤ T := by
    intro y hy
    have hy2 := (ColorTree.insert_perm ma T t).subset hy
    rcases List.mem_cons.1 hy2 with e | e
    · rw [e]; omega
    · have h1 := hbefore y e
      have h2 := (hnodes y e).1
      omega
  refine ⟨?_, ?_⟩
  · rw [hroot]
    apply ColorTree.inMem_congr _ _ _ href
    intro y hy
    have := hmem y hy
    exact ⟨hlow _ (by omega) (by omega) (by omega), hlow _ (by omega) (by omega) (by omega),
      hlow _ (by omega) (by omega) (by omega)⟩
  · intro x hx
    have hx1 := hP x hx
    rw [hlow x (by omega) (by omega) (by omega)]
    rw [hfrm.1 x ?_, hma]
    · exact set_size_ne _ _ _ (by omega)
    · intro h hh
      rcases List.mem_cons.1 hh with e | e
      · rw [e]; omega
      · by_cases hxe : h = x
        · rw [hxe]; omega
        · have := hPA h (List.mem_append_right _ e) x (List.mem_append_left _ hx) hxe
          omega

/-- The block counts before and after the front split of a tail allocation. -/
theorem front_split_count {m mF : Mem} {em T pad : Nat} {P : List Nat}
    (hT : T = em_get_tail m em) (hchain : ChainTo m em (em_get_first_block m em) P T)
    (hP : ∀ x ∈ P, em + 32 ≤ x ∧ x + 32 + get_size m x ≤ T) (hlen : P.length + 3 ≤ FUEL)
    (hgeo : em + 32 ≤ T) (htsz : get_size m T = 0) (hTw : T + 32 < 18446744073709551616)
    (hmFem : mF em = m em) (hxmP : ∀ x ∈ P, mF x = m x)
    (hnbT : next_block mF em T = T + pad) (c8 : T + pad ≤ em_get_tail mF em)
    (c9 : next_block mF em (T + pad) = 0 ∨
      (next_block mF em (T + pad) ≠ 0 ∧
        next_block mF em (next_block mF em (T + pad)) = 0)) :
    count_blocks_in_em m em = P.length + 1 ∧
      count_blocks_in_em mF em =
        P.length + 2 + (if next_block mF em (T + pad) = 0 then 0 else 1) := by
  have hcount0 : count_blocks_in_em m em = P.length + 1 := by
    apply count_blocks_to_last hchain (by omega) _ hlen
    apply next_block_of_last
    rw [← hT]
    unfold next_block_unsafe block_data
    rw [htsz]
    unfold wadd; simp only [WORD, SIZEOF_BLOCK]; omega
  have hnext : ∀ x ∈ P, next_block mF em x = next_block m em x := by
    intro x hx
    have hx1 := hP x hx
    have hxm : mF x = m x := hxmP x hx
    apply next_block_prefix hmFem hxm
    · unfold next_block_unsafe block_data
      rw [← hT]
      unfold wadd; simp only [WORD, SIZEOF_BLOCK]; omega
    · rw [← hT]; omega
  have hcount1 : count_blocks_in_em mF em =
      P.length + 2 + (if next_block mF em (T + pad) = 0 then 0 else 1) := by
    unfold count_blocks_in_em
    rw [em_get_first_block_congr hmFem]
    obtain ⟨k, hk⟩ : ∃ k, FUEL = P.length + (k + 3) := ⟨FUEL - P.length - 3, by omega⟩
    rw [hk, count_blocks_loop_chain P _ _ hchain hnext,
      count_blocks_loop_succ _ _ _ _ (by omega : T ≠ 0), hnbT,
      count_blocks_loop_succ _ _ _ _ (by omega : T + pad ≠ 0)]
    rcases c9 with h | h
    · rw [h, count_blocks_loop_zero]
      simp
    · rw [count_blocks_loop_succ _ _ _ _ h.1, h.2, count_blocks_loop_zero, if_neg h.1]
  exact ⟨hcount0, hcount1⟩

theorem next_block_inside {m : Mem} {em b x : Nat} (hu : next_block_unsafe m b = x)
    (hin : is_block_within_em m em x = true) (hle : x ≤ em_get_tail m em) :
    next_block m em b = x := by
  unfold next_block is_block_in_active_part
  dsimp only
  rw [hu, hin]
  have : decide (x ≤ em_get_tail m em) = true := by simpa using hle
  simp only [this, Bool.not_true, Bool.false_eq_true, if_false]

/-- A tail allocation with a front split: the old tail `T` becomes a free block of the
tree, the allocated block starts `pad` bytes behind it, and the block count grows by two,
or by one when the allocated block has no successor. -/
theorem tail_alloc_front_split (m : Mem) (em size a T pad : Nat) (t : ColorTree)
    (P : List Nat) (hT : T = em_get_tail m em) (hpad : pad = tail_padding m em a)
    (hL : TailLayout m em t.blocks) (hin : t.InMem m (em_get_free_blocks m em))
    (hgap : t.blocks.Pairwise HeaderGap) (hheight : t.height < FUEL)
    (hbefore : ∀ h ∈ t.blocks, h + 32 ≤ T)
    (hchain : ChainTo m em (em_get_first_block m em) P T)
    (hP : ∀ x ∈ P, em + 32 ≤ x ∧ x + 32 + get_size m x ≤ T)
    (hPA : HeadersApart (P ++ t.blocks)) (hlen : P.length + 3 ≤ FUEL)
    (hsz : 0 < size) (ha : ValidAlignment a)
    (hfs : free_size_in_tail m em + 1024 ≤ 2305843009213693952)
    (hw : T + 32 + free_size_in_tail m em + 1056 ≤ 18446744073709551616)
    (hword : m em < 18446744073709551616)
    (harena : em + em_get_capacity m em < 18446744073709551616)
    (hfit : pad + size ≤ free_size_in_tail m em)
    (hal : a > em_get_alignment m em) (h48 : 48 ≤ pad) :
    ∃ mF, alloc_in_tail_full m em size a = (mF, T + 32 + pad) ∧
      get_is_free mF T = true ∧ get_size mF T = pad - 32 ∧
      (t.insert (set_size m T (pad - 32)) T).InMem mF (em_get_free_blocks mF em) ∧
      get_is_free mF (T + pad) = false ∧ size ≤ get_size mF (T + pad) ∧
      recovered_header mF (T + 32 + pad) = T + pad ∧
      mF (T + 32 + pad - 8) ^^^ (T + 32 + pad) = MAGIC ∧
      next_block mF em T = T + pad ∧
      count_blocks_in_em m em = P.length + 1 ∧
      count_blocks_in_em mF em =
        P.length + 2 + (if next_block mF em (T + pad) = 0 then 0 else 1) := by
  have hfits := hL.space_fits
  have hgeo := hL.tail_after
  have ht4 := em_get_tail_mod4 m em
  have htsz := hL.tail_size
  have htl_ := hL.tail_left
  have htr_ := hL.tail_right
  rw [← hT] at hfits hgeo ht4 htsz htl_ htr_
  obtain ⟨fs, hfsd⟩ : ∃ x, x = free_size_in_tail m em := ⟨_, rfl⟩
  rw [← hfsd] at hfits hfs hw hfit
  have hTw : T + 32 < 18446744073709551616 := by omega
  have hbd : block_data T = T + 32 := by
    unfold block_data wadd; simp only [WORD, SIZEOF_BLOCK]; omega
  have hspec := align_up_spec (block_data T) a ha (by rw [hbd]; simp only [WORD]; omega)
  have hpad2 : wsub (align_up (block_data T) a) (block_data T) = pad := by
    rw [hpad, hT]; rfl
  rw [hpad2] at hspec
  have ha8 : a % 8 = 0 ∧ a ≤ 2048 := by
    simp only [ValidAlignment, List.mem_cons, List.mem_singleton, List.not_mem_nil,
      or_false] at ha
    omega
  have hp : align_up (block_data T) a = T + 32 + pad := by
    rw [hspec.2.2.2.2 (by rw [hbd]; simp only [WORD]; omega), hbd]
  have hp8 : (T + 32 + pad) % 8 = 0 := by
    have h1 := hspec.2.1
    rw [hp] at h1
    have := Nat.mod_mod_of_dvd (T + 32 + pad) (Nat.dvd_of_mod_eq_zero ha8.1)
    omega
  have hpad4 : pad % 4 = 0 := by omega
  have h0 : free_size_in_tail m em ≠ 0 := by rw [← hfsd]; omega
  have hins := tail_space_inside hL h0 hword harena
  rw [← hT, ← hfsd] at hins
  have hcond : (decide (a > em_get_alignment m em) && decide (pad > 0)) = true := by
    simp only [Bool.and_eq_true, decide_eq_true_eq]
    exact ⟨hal, by omega⟩
  have hs := tail_front_split_spec m em a pad t.blocks hL h48 hpad4
    (by rw [← hfsd]; omega) hcond
  rw [← hT, ← hfsd] at hs
  obtain ⟨s, hsd⟩ : ∃ s, s = tail_front_split m em a T pad := ⟨_, rfl⟩
  rw [← hsd] at hs
  obtain ⟨hs1, hs2, hs3, hs4, _, hs6, hs7, hs8, hsA, hsB⟩ := hs
  have hinS : is_block_within_em s.1 em (T + pad) = true := by
    rw [is_block_within_em_congr hs8]
    unfold is_block_within_em
    have e : wadd em (em_get_capacity m em) = em + em_get_capacity m em := by
      unfold wadd; simp only [WORD]; omega
    rw [e]
    simp only [Bool.and_eq_true, decide_eq_true_eq]
    omega
  obtain ⟨mF, c1, c2, c3, c4, _, c6, c7, c8, c9⟩ :=
    tail_commit_full s.1 em size (T + pad) 0 (T + 32 + pad)
      (by omega) (by omega) (by omega) (by rw [hs4]; omega) (by rw [hs4]; omega) hsz
      (by rw [hs4]; omega) hs3.symm hinS
  have halloc : alloc_in_tail_full m em size a = (mF, T + 32 + pad) := by
    have hwadd : wadd pad size = pad + size := by
      unfold wadd; simp only [WORD]; omega
    rw [alloc_in_tail_full_eq_pad, ← hT, ← hpad, ← hfsd, if_neg (by omega),
      if_neg (by rw [hwadd]; omega), hp, ← hsd, hs1, hs2]
    exact c1
  -- words in front of the new tail
  have hlow : ∀ x, x < T + pad → x ≠ em + 16 → x ≠ em + 24 →
      mF x = (insert_block FUEL (set_size m T (pad - 32)) (em_get_free_blocks m em) T).1 x := by
    intro x hx h16 h24
    rw [c7 x hx h16]
    exact hsA x (Or.inl hx) h16 h24
  have hmFs : mF em = s.1 em := c7 em (by omega) (by omega)
  have hmFem : mF em = m em := by rw [hmFs]; exact hs8
  -- the tree
  have hrootF : em_get_free_blocks mF em =
      (insert_block FUEL (set_size m T (pad - 32)) (em_get_free_blocks m em) T).2 := by
    rw [em_get_free_blocks_congr (c7 (em + 24) (by omega) (by omega))]
    exact hsB
  obtain ⟨htree, hxmP⟩ := front_split_tree hT hL hin hgap hheight hbefore hP hPA h48 hlow hrootF
  -- the old tail
  have hTsz : get_size mF T = pad - 32 := by
    rw [get_size_congr (c7 T (by omega) (by omega))]; exact hs6
  have hTfree : get_is_free mF T = true := by
    rw [get_is_free_congr (c7 (T + 8) (by omega) (by omega))]; exact hs7
  have hnbT : next_block mF em T = T + pad := by
    have hu : next_block_unsafe mF T = T + pad := by
      have hv : next_block_unsafe mF T = (T + 32 + get_size mF T) % 18446744073709551616 := by
        unfold next_block_unsafe block_data wadd
        simp only [WORD, SIZEOF_BLOCK]
        omega
      rw [hv, hTsz]
      clear hv hsA hsB hlow hxmP htree halloc c1 c7 c9 hs1 hs2 hchain hP hPA hin hgap
      omega
    exact next_block_inside hu
      (by rw [is_block_within_em_congr hmFs]; exact hinS) c8
  -- the count
  have hcnt := front_split_count hT hchain hP hlen hgeo htsz hTw hmFem hxmP hnbT c8 c9
  refine ⟨mF, halloc, hTfree, hTsz, htree, c3, Nat.le_trans (Nat.le_add_left size 0) c2, c4, ?_,
    hnbT, hcnt.1, hcnt.2⟩
  have := c6 rfl
  exact this

/-- A tail allocation without a front split: the old tail itself is the allocated block,
the padding lies inside it, and the block count grows by one, or not at all when the
allocated block has no successor. -/
theorem tail_alloc_no_front_split (m : Mem) (em size a T pad : Nat) (H P : List Nat)
    (hT : T = em_get_tail m em) (hpad : pad = tail_padding m em a)
    (hL : TailLayout m em H)
    (hchain : ChainTo m em (em_get_first_block m em) P T)
    (hP : ∀ x ∈ P, em + 32 ≤ x ∧ x + 32 + get_size m x ≤ T) (hlen : P.length + 3 ≤ FUEL)
    (hsz : 0 < size) (ha : ValidAlignment a)
    (hfs : free_size_in_tail m em + 1024 ≤ 2305843009213693952)
    (hw : T + 32 + free_size_in_tail m em + 1056 ≤ 18446744073709551616)
    (hfit : pad + size ≤ free_size_in_tail m em)
    (hno : ¬ (a > em_get_alignment m em ∧ 48 ≤ pad)) :
    ∃ mF, alloc_in_tail_full m em size a = (mF, T + 32 + pad) ∧
      get_is_free mF T = false ∧ pad + size ≤ get_size mF T ∧
      recovered_header mF (T + 32 + pad) = T ∧
      (0 < pad → mF (T + 32 + pad - 8) = T ^^^ (T + 32 + pad)) ∧
      count_blocks_in_em m em = P.length + 1 ∧
      count_blocks_in_em mF em =
        P.length + 1 + (if next_block mF em T = 0 then 0 else 1) := by
  have hfits := hL.space_fits
  have hgeo := hL.tail_after
  have ht4 := em_get_tail_mod4 m em
  have htsz := hL.tail_size
  have hwithin := hL.tail_within
  rw [← hT] at hfits hgeo ht4 htsz hwithin
  obtain ⟨fs, hfsd⟩ : ∃ x, x = free_size_in_tail m em := ⟨_, rfl⟩
  rw [← hfsd] at hfits hfs hw hfit
  have hbd : block_data T = T + 32 := by
    unfold block_data wadd; simp only [WORD, SIZEOF_BLOCK]; omega
  have hspec := align_up_spec (block_data T) a ha (by rw [hbd]; simp only [WORD]; omega)
  have hpad2 : wsub (align_up (block_data T) a) (block_data T) = pad := by
    rw [hpad, hT]; rfl
  rw [hpad2] at hspec
  have hp : align_up (block_data T) a = T + 32 + pad := by
    rw [hspec.2.2.2.2 (by rw [hbd]; simp only [WORD]; omega), hbd]
  have hsplit : tail_front_split m em a T pad = (m, T, pad) := by
    unfold tail_front_split
    by_cases h1 : (decide (a > em_get_alignment m em) && decide (pad > 0)) = true
    · have h2 : ¬ pad ≥ BLOCK_MIN_SIZE := by
        intro h
        simp only [Bool.and_eq_true, decide_eq_true_eq] at h1
        exact hno ⟨h1.1, h⟩
      rw [if_pos h1, if_neg h2]
    · rw [if_neg h1]
  obtain ⟨mF, c1, c2, c3, c4, c5, _, c7, c8, c9⟩ :=
    tail_commit_full m em size T pad (T + 32 + pad)
      (by omega) (by omega) rfl (by rw [← hfsd]; omega) (by rw [← hfsd]; omega) hsz
      (by rw [← hfsd]; omega) hT hwithin
  have halloc : alloc_in_tail_full m em size a = (mF, T + 32 + pad) := by
    have hwadd : wadd pad size = pad + size := by
      unfold wadd; simp only [WORD]; omega
    rw [alloc_in_tail_full_eq_pad, ← hT, ← hpad, ← hfsd, if_neg (by omega),
      if_neg (by rw [hwadd]; omega), hp, hsplit]
    exact c1
  have hmFem : mF em = m em := c7 em (by omega) (by omega)
  have hcount0 : count_blocks_in_em m em = P.length + 1 := by
    apply count_blocks_to_last hchain (by omega) _ hlen
    apply next_block_of_last
    rw [← hT]
    unfold next_block_unsafe block_data
    rw [htsz]
    unfold wadd; simp only [WORD, SIZEOF_BLOCK]; omega
  have hnext : ∀ x ∈ P, next_block mF em x = next_block m em x := by
    intro x hx
    have hx1 := hP x hx
    apply next_block_prefix hmFem (c7 x (by omega) (by omega))
    · unfold next_block_unsafe block_data
      rw [← hT]
      unfold wadd; simp only [WORD, SIZEOF_BLOCK]; omega
    · rw [← hT]; exact c8
  have hcount1 : count_blocks_in_em mF em =
      P.length + 1 + (if next_block mF em T = 0 then 0 else 1) := by
    unfold count_blocks_in_em
    rw [em_get_first_block_congr hmFem]
    obtain ⟨k, hk⟩ : ∃ k, FUEL = P.length + (k + 2) := ⟨FUEL - P.length - 2, by omega⟩
    rw [hk, count_blocks_loop_chain P _ _ hchain hnext,
      count_blocks_loop_succ _ _ _ _ (by omega : T ≠ 0)]
    rcases c9 with h | h
    · rw [h, count_blocks_loop_zero]
      simp
    · rw [count_blocks_loop_succ _ _ _ _ h.1, h.2, count_blocks_loop_zero, if_neg h.1]
  exact ⟨mF, halloc, c3, c2, c4, c5, hcount0, hcount1⟩

/-! ### The arena through the calls of a bump allocator; nested arenas and the tail -/

/-! ### The exact free tree and block list of an arena -/

/-- Headers that are 32 bytes apart in a 64-bit address space are fewer than `2^64`. -/
theorem headerGap_length {l : List Nat} (hp : l.Pairwise HeaderGap)
    (hlt : ∀ x ∈ l, x < 18446744073709551616) : l.length < 18446744073709551616 := by
  have hnd : (l.map (fun x => x / 32)).Nodup := by
    unfold List.Nodup
    rw [List.pairwise_map]
    refine hp.imp (fun h => ?_)
    unfold HeaderGap at h
    omega
  have hsub : (l.map (fun x => x / 32)).toFinset ⊆ Finset.range 576460752303423488 := by
    intro y hy
    rw [List.mem_toFinset, List.mem_map] at hy
    obtain ⟨x, hx, rfl⟩ := hy
    have := hlt x hx
    rw [Finset.mem_range]
    omega
  have hc := Finset.card_le_card hsub
  rw [List.toFinset_card_of_nodup hnd, List.length_map, Finset.card_range] at hc
  omega

theorem tagged_flags (b w : Nat) (hb : b % 4 = 0) : (b ||| (w &&& 3)) &&& 3 = w &&& 3 := by
  rw [Nat.and_distrib_right, Nat.and_assoc]
  have : 3 &&& 3 = 3 := by decide
  rw [this, and_three b, hb, Nat.zero_or]

/-- The two flag bits of the `prev` word decide `get_is_free` and `is_red`. -/
theorem flags_congr {m m' : Mem} {b : Nat} (h : m' (b + 8) &&& 3 = m (b + 8) &&& 3) :
    get_is_free m' b = get_is_free m b ∧ is_red m' b = is_red m b := by
  have e1 : ∀ w : Nat, w &&& 1 = w &&& 3 &&& 1 := fun w => (Nat.and_assoc w 3 1).symm
  have e2 : ∀ w : Nat, w &&& 2 = w &&& 3 &&& 2 := fun w => (Nat.and_assoc w 3 2).symm
  constructor
  · unfold get_is_free
    simp only [IS_FREE_FLAG]
    rw [e1 (m' (b + 8)), e1 (m (b + 8)), h]
  · unfold is_red get_color
    simp only [COLOR_FLAG]
    rw [e2 (m' (b + 8)), e2 (m (b + 8)), h]

theorem ColorTree.inMem_congr_red {m m' : Mem} : ∀ (t : ColorTree) (h : Nat),
    (∀ y ∈ t.blocks, is_red m' y = is_red m y ∧ m' (y + 16) = m (y + 16) ∧
      m' (y + 24) = m (y + 24)) → t.InMem m h → t.InMem m' h := by
  intro t
  induction t with
  | nil => intro h _ hi; exact hi
  | node l b c r ihl ihr =>
    intro h hw hi
    obtain ⟨rfl, hb, hc, hl, hr⟩ := hi
    have hwb := hw h (by simp [ColorTree.blocks])
    refine ⟨rfl, hb, ?_, ?_, ?_⟩
    · rw [hwb.1]; exact hc
    · have : get_left_tree m' h = get_left_tree m h := hwb.2.1
      rw [this]
      exact ihl _ (fun y hy => hw y (by simp [ColorTree.blocks, hy])) hl
    · have : get_right_tree m' h = get_right_tree m h := hwb.2.2
      rw [this]
      exact ihr _ (fun y hy => hw y (by simp [ColorTree.blocks, hy])) hr

theorem active_iff (m : Mem) (em x : Nat) :
    is_block_in_active_part m em x = true ↔
      (is_block_within_em m em x = true ∧ x ≤ em_get_tail m em) := by
  unfold is_block_in_active_part
  cases is_block_within_em m em x <;> simp

theorem next_block_unsafe_val (m : Mem) (b : Nat) :
    next_block_unsafe m b = (b + 32 + get_size m b) % 18446744073709551616 := by
  unfold next_block_unsafe block_data wadd
  simp only [WORD, SIZEOF_BLOCK]
  omega

/-- The layout carries over to another memory with the same size words and another tree. -/
theorem BlockLayout.retree {m m' : Mem} {em : Nat} {F F' Bs : List Nat}
    (hL : BlockLayout m em F Bs) (h0 : m' em = m em) (h16 : m' (em + 16) = m (em + 16))
    (hsz : ∀ b ∈ Bs, m' b = m b) (hsub : ∀ h ∈ F', h ∈ Bs) (hc : LinksClosed m' F')
    (hr : em_get_free_blocks m' em = 0 ∨ em_get_free_blocks m' em ∈ F') :
    BlockLayout m' em F' Bs := by
  have hcap : em_get_capacity m' em = em_get_capacity m em := by
    unfold em_get_capacity; exact get_size_congr h0
  refine ⟨by rw [h0]; exact hL.header_word, by rw [hcap]; exact hL.arena_fits, hsub,
    ?_, ?_, ?_, hc, hr⟩
  · intro b hb
    rw [get_size_congr (hsz b hb), hcap]
    exact hL.blocks_fit b hb
  · intro a ha b hb hne
    rw [get_size_congr (hsz a ha), get_size_congr (hsz b hb)]
    exact hL.blocks_apart a ha b hb hne
  · intro b hb hact
    rw [next_block_unsafe_congr (hsz b hb)] at hact ⊢
    rw [is_block_in_active_part_congr h0 h16] at hact
    exact hL.chain b hb hact

theorem HeapAt.height_lt {m : Mem} {em R : Nat} {t : ColorTree} {Bs : List Nat}
    (h : HeapAt m em t Bs R) : t.height < 18446744073709551616 := by
  have h1 := t.height_le_length
  have h2 := headerGap_length h.gaps (fun x hx => by
    have := h.layout.blocks_fit x (h.layout.free_in_blocks x hx)
    have := h.layout.arena_fits
    omega)
  omega

/-- The state carries over to a memory that agrees on the arena header, the size words, the
flag bits of the blocks other than `R` and the links of the tree nodes. -/
theorem HeapAt.congr {m m' : Mem} {em R : Nat} {t : ColorTree} {Bs : List Nat}
    (h : HeapAt m em t Bs R) (h0 : m' em = m em) (h16 : m' (em + 16) = m (em + 16))
    (h24 : m' (em + 24) = m (em + 24)) (hsz : ∀ b ∈ Bs, m' b = m b)
    (hfl : ∀ b ∈ Bs, b ≠ R → m' (b + 8) &&& 3 = m (b + 8) &&& 3)
    (hln : ∀ b ∈ t.blocks, m' (b + 16) = m (b + 16) ∧ m' (b + 24) = m (b + 24)) :
    HeapAt m' em t Bs R := by
  have hsub := h.layout.free_in_blocks
  have hne : ∀ b ∈ t.blocks, b ≠ R := fun b hb e => h.fresh (e ▸ hb)
  have hroot : em_get_free_blocks m' em = em_get_free_blocks m em :=
    em_get_free_blocks_congr h24
  have htail : em_get_tail m' em = em_get_tail m em := em_get_tail_congr h16
  have htree : t.InMem m' (em_get_free_blocks m' em) := by
    rw [hroot]
    exact ColorTree.inMem_congr_red t _ (fun y hy =>
      ⟨(flags_congr (hfl y (hsub y hy) (hne y hy))).2, hln y hy⟩) h.tree
  refine ⟨h.layout.retree h0 h16 hsz hsub (ColorTree.linksClosed htree)
    (ColorTree.root_zero_or_mem htree), htree, ?_, h.gaps, ?_, ?_, ?_, ?_, h.block, h.fresh⟩
  · exact pairwise_key_congr (fun x hx => get_size_congr (hsz x (hsub x hx))) h.ordered
  · rw [htail]; exact h.tail_mem
  · rw [htail]; exact h.tail_out
  · intro b hb
    rw [(flags_congr (hfl b (hsub b hb) (hne b hb))).1]
    exact h.tree_free b hb
  · intro b hb hbR hf
    rw [(flags_congr (hfl b hb hbR)).1] at hf
    rw [htail]
    exact h.free_tree b hb hbR hf

/-- An occupied block may be exempted. -/
theorem Heap.exempt {m : Mem} {em : Nat} {t : ColorTree} {Bs : List Nat}
    (h : Heap m em t Bs) {R : Nat} (hR : R ∈ Bs) (hocc : get_is_free m R = false) :
    HeapAt m em t Bs R := by
  have h' : HeapAt m em t Bs (em_get_tail m em) := h
  refine ⟨h'.layout, h'.tree, h'.ordered, h'.gaps, h'.tail_mem, h'.tail_out, h'.tree_free,
    ?_, hR, ?_⟩
  · intro b hb _ hf
    by_cases e : b = em_get_tail m em
    · exact Or.inl e
    · exact h'.free_tree b hb e hf
  · intro hin
    have := h'.tree_free R hin
    rw [hocc] at this
    exact Bool.noConfusion this

/-- The first step of `em_free_block_full`: the block is marked free and unlinked. -/
theorem heap_free_mark {m : Mem} {em R : Nat} {t : ColorTree} {Bs : List Nat}
    (h : HeapAt m em t Bs R) : HeapPending (free_mark m R) em t Bs R := by
  obtain ⟨hfr, h16z, h24z, hfree, _⟩ := free_mark_spec m R
  have hA := h.layout.headers_apart
  have hRf := h.layout.blocks_fit R h.block
  refine ⟨h.congr (hfr _ (by omega) (by omega) (by omega))
    (hfr _ (by omega) (by omega) (by omega)) (hfr _ (by omega) (by omega) (by omega))
    ?_ ?_ ?_, hfree, h16z, h24z⟩
  · intro b hb
    by_cases e : b = R
    · rw [e]; exact hfr _ (by omega) (by omega) (by omega)
    · have := hA b hb R h.block e
      exact hfr _ (by omega) (by omega) (by omega)
  · intro b hb e
    have := hA b hb R h.block e
    rw [hfr _ (by omega) (by omega) (by omega)]
  · intro b hb
    have hbB := h.layout.free_in_blocks b hb
    have e : b ≠ R := fun e => h.fresh (e ▸ hb)
    have := hA b hbB R h.block e
    exact ⟨hfr _ (by omega) (by omega) (by omega), hfr _ (by omega) (by omega) (by omega)⟩

/-- The last step of `em_free_block_full`: the pending block becomes a tree node. -/
theorem heap_insert {m : Mem} {em R : Nat} {t : ColorTree} {Bs : List Nat}
    (h : HeapPending m em t Bs R) (hRT : R ≠ em_get_tail m em) :
    Heap (free_insert (m, R) em) em (t.insert m R) Bs ∧
      (∀ b ∈ Bs, free_insert (m, R) em b = m b ∧
        get_is_free (free_insert (m, R) em) b = get_is_free m b) ∧
      free_insert (m, R) em em = m em ∧
      free_insert (m, R) em (em + 16) = m (em + 16) ∧
      (∀ x, (∀ f ∈ R :: t.blocks, x ≠ f + 8 ∧ x ≠ f + 16 ∧ x ≠ f + 24) → x ≠ em + 24 →
        free_insert (m, R) em x = m x) := by
  obtain ⟨ha, hRfree, hl, hr⟩ := h
  have hL := ha.layout
  have hA := hL.headers_apart
  have hRf := hL.blocks_fit R ha.block
  have hfits := hL.arena_fits
  have hR0 : R ≠ 0 := by omega
  have hsub : ∀ f ∈ R :: t.blocks, f ∈ Bs := by
    intro f hf
    rcases List.mem_cons.1 hf with e | e
    · rw [e]; exact ha.block
    · exact hL.free_in_blocks f e
  have hpw : (R :: t.blocks).Pairwise HeaderGap := by
    refine List.pairwise_cons.2 ⟨fun y hy => ?_, ha.gaps⟩
    exact hA R ha.block y (hL.free_in_blocks y hy) (fun e => ha.fresh (e ▸ hy))
  have hlen : t.height < FUEL := ha.height_lt
  have ho := insert_block_ordered ha.tree ha.ordered hlen hR0 hl hr hpw
  have hfrm := insert_block_frame hl hr FUEL ha.tree hpw
  obtain ⟨r, hrd⟩ : ∃ r, r = insert_block FUEL m (em_get_free_blocks m em) R := ⟨_, rfl⟩
  rw [← hrd] at ho hfrm
  have hw := treeFrame_words hsub hA (fun b hb => (hL.blocks_fit b hb).1) hfrm
  have hE : free_insert (m, R) em = em_set_free_blocks r.1 em r.2 := by
    unfold free_insert
    have : ((m, R).2 != 0) = true := by simpa using hR0
    rw [if_pos this, hrd]
  rw [hE]
  have hne : ∀ x, x ≠ em + 24 → em_set_free_blocks r.1 em r.2 x = r.1 x :=
    fun x hx => em_set_free_blocks_ne _ _ _ hx
  have hperm := ho.2.2
  have hsub' : ∀ f ∈ (t.insert m R).blocks, f ∈ Bs := fun f hf => hsub f (hperm.subset hf)
  have hr2 : r.2 = 0 ∨ r.2 ∈ (t.insert m R).blocks := ColorTree.root_zero_or_mem ho.1
  have hr2n : r.2 % 4 = 0 ∧ r.2 < 18446744073709551616 := by
    rcases hr2 with e | e
    · rw [e]; decide
    · have := hL.blocks_fit r.2 (hsub' r.2 e)
      omega
  have hroot : em_get_free_blocks (em_set_free_blocks r.1 em r.2) em = r.2 :=
    em_get_free_blocks_set _ _ _ hr2n.1 hr2n.2
  have htree : (t.insert m R).InMem (em_set_free_blocks r.1 em r.2)
      (em_get_free_blocks (em_set_free_blocks r.1 em r.2) em) := by
    rw [hroot]
    refine ColorTree.inMem_congr _ _ (fun y hy => ?_) ho.1
    have := hL.blocks_fit y (hsub' y hy)
    exact ⟨hne _ (by omega), hne _ (by omega), hne _ (by omega)⟩
  have hwords : ∀ b ∈ Bs, em_set_free_blocks r.1 em r.2 b = m b := by
    intro b hb
    have := hL.blocks_fit b hb
    rw [hne _ (by omega)]
    exact (hw.2 b hb).1
  have hflags : ∀ b ∈ Bs,
      get_is_free (em_set_free_blocks r.1 em r.2) b = get_is_free m b := by
    intro b hb
    have := hL.blocks_fit b hb
    rw [get_is_free_congr (hne (b + 8) (by omega))]
    exact (hw.2 b hb).2
  have h0 : em_set_free_blocks r.1 em r.2 em = m em := by
    rw [hne _ (by omega)]; exact hw.1 _ (by omega)
  have h16 : em_set_free_blocks r.1 em r.2 (em + 16) = m (em + 16) := by
    rw [hne _ (by omega)]; exact hw.1 _ (by omega)
  have htail := em_get_tail_congr h16
  have htout : em_get_tail m em ∉ (t.insert m R).blocks := by
    intro hin
    rcases List.mem_cons.1 (hperm.subset hin) with e | e
    · exact hRT e.symm
    · exact ha.tail_out e
  refine ⟨⟨hL.retree h0 h16 hwords hsub' (ColorTree.linksClosed htree)
    (ColorTree.root_zero_or_mem htree), htree, ?_, ?_, ?_, ?_, ?_, ?_, ?_, ?_⟩,
    fun b hb => ⟨hwords b hb, hflags b hb⟩, h0, h16, ?_⟩
  · exact pairwise_key_congr (fun x hx => by
      have := hL.blocks_fit x (hsub' x hx)
      exact get_size_congr (hne _ (by omega))) ho.2.1
  · exact pairwise_gap_perm hperm.symm hpw
  · rw [htail]; exact ha.tail_mem
  · rw [htail]; exact htout
  · intro b hb
    rw [hflags b (hsub' b hb)]
    rcases List.mem_cons.1 (hperm.subset hb) with e | e
    · rw [e]; exact hRfree
    · exact ha.tree_free b e
  · intro b hb _ hf
    rw [hflags b hb] at hf
    by_cases e : b = R
    · right
      exact hperm.symm.subset (by rw [e]; exact List.mem_cons_self _ _)
    · rcases ha.free_tree b hb e hf with h1 | h1
      · left; rw [htail]; exact h1
      · right; exact hperm.symm.subset (List.mem_cons_of_mem _ h1)
  · rw [htail]; exact ha.tail_mem
  · rw [htail]; exact htout
  · intro x hx h24
    rw [hne x h24]
    exact hfrm.1 x hx

/-- The look at the next block when it is the tail: the pending block becomes the tail. -/
theorem heap_tail_merge {m : Mem} {em R : Nat} {t : ColorTree} {Bs : List Nat}
    (h : HeapPending m em t Bs R) (hRT : R ≠ em_get_tail m em)
    (hN : next_block m em R = em_get_tail m em) :
    ∃ Bs', (∀ b, b ∈ Bs' ↔ b ∈ Bs ∧ b ≠ em_get_tail m em) ∧
      Heap (em_set_tail (set_size m R 0) em R) em t Bs' ∧
      em_get_tail (em_set_tail (set_size m R 0) em R) em = R ∧
      (∀ x, x ≠ R → x ≠ em + 16 → em_set_tail (set_size m R 0) em R x = m x) := by
  obtain ⟨ha, hRfree, _, _⟩ := h
  have hL := ha.layout
  have hA := hL.headers_apart
  have hRf := hL.blocks_fit R ha.block
  have hfits := hL.arena_fits
  obtain ⟨T, hTd⟩ : ∃ T, T = em_get_tail m em := ⟨_, rfl⟩
  rw [← hTd] at hN hRT ⊢
  have hTB : T ∈ Bs := by rw [hTd]; exact ha.tail_mem
  have hTout : T ∉ t.blocks := by rw [hTd]; exact ha.tail_out
  have hTf := hL.blocks_fit T hTB
  have hNu : next_block_unsafe m R = T := by
    rcases next_block_cases m em R with e | e
    · rw [hN] at e; omega
    · rw [hN] at e; exact e.1.symm
  have hTval : T = R + 32 + get_size m R := by
    have hu := next_block_unsafe_val m R
    rw [hNu] at hu
    omega
  obtain ⟨mF, hmF⟩ : ∃ x, x = em_set_tail (set_size m R 0) em R := ⟨_, rfl⟩
  rw [← hmF]
  have hfr : ∀ x, x ≠ R → x ≠ em + 16 → mF x = m x := by
    intro x h1 h2
    rw [hmF, em_set_tail_ne _ _ _ h2, set_size_ne _ _ _ h1]
  have hsR : get_size mF R = 0 := by
    rw [hmF]
    unfold get_size
    rw [em_set_tail_ne _ _ _ (by omega), set_size_eq]
    exact size_word 0 _ (by decide)
  have htl : em_get_tail mF em = R := by
    rw [hmF]; exact em_get_tail_set _ _ _ hRf.2.1 (by omega)
  have h0 : mF em = m em := hfr _ (by omega) (by omega)
  have hcap : em_get_capacity mF em = em_get_capacity m em := by
    unfold em_get_capacity; exact get_size_congr h0
  have h24 : mF (em + 24) = m (em + 24) := hfr _ (by omega) (by omega)
  have hsz : ∀ b ∈ Bs, b ≠ R → mF b = m b := by
    intro b hb e
    have := hL.blocks_fit b hb
    exact hfr _ e (by omega)
  have hw8 : ∀ b ∈ Bs, mF (b + 8) = m (b + 8) := by
    intro b hb
    have := hL.blocks_fit b hb
    by_cases e : b = R
    · rw [e]; exact hfr _ (by omega) (by omega)
    · have := hA b hb R ha.block e
      exact hfr _ (by omega) (by omega)
  have hlinks : ∀ b ∈ t.blocks, mF (b + 16) = m (b + 16) ∧ mF (b + 24) = m (b + 24) := by
    intro b hb
    have hbB := hL.free_in_blocks b hb
    have := hL.blocks_fit b hbB
    have := hA b hbB R ha.block (fun e => ha.fresh (e ▸ hb))
    exact ⟨hfr _ (by omega) (by omega), hfr _ (by omega) (by omega)⟩
  have htree : t.InMem mF (em_get_free_blocks mF em) := by
    rw [em_get_free_blocks_congr h24]
    exact ColorTree.inMem_congr t _
      (fun y hy => ⟨hw8 y (hL.free_in_blocks y hy), hlinks y hy⟩) ha.tree
  have hsle : ∀ b ∈ Bs, get_size mF b ≤ get_size m b := by
    intro b hb
    by_cases e : b = R
    · rw [e, hsR]; exact Nat.zero_le _
    · rw [get_size_congr (hsz b hb e)]
  have hmem : ∀ b, b ∈ Bs.filter (fun b => decide (b ≠ T)) ↔ b ∈ Bs ∧ b ≠ T :=
    fun b => by simp [List.mem_filter]
  have hRm : R ∈ Bs.filter (fun b => decide (b ≠ T)) := (hmem R).2 ⟨ha.block, hRT⟩
  refine ⟨Bs.filter (fun b => decide (b ≠ T)), hmem, ⟨⟨?_, ?_, ?_, ?_, ?_, ?_,
    ColorTree.linksClosed htree, ColorTree.root_zero_or_mem htree⟩, htree, ?_, ha.gaps,
    ?_, ?_, ?_, ?_, ?_, ?_⟩, htl, hfr⟩
  · rw [h0]; exact hL.header_word
  · rw [hcap]; exact hfits
  · exact fun f hf => (hmem f).2 ⟨hL.free_in_blocks f hf, fun e => hTout (e ▸ hf)⟩
  · intro b hb
    have hb' := ((hmem b).1 hb).1
    have := hL.blocks_fit b hb'
    have := hsle b hb'
    rw [hcap]
    omega
  · intro a ha' b hb hne
    have ha2 := ((hmem a).1 ha').1
    have hb2 := ((hmem b).1 hb).1
    have := hL.blocks_apart a ha2 b hb2 hne
    have := hsle a ha2
    have := hsle b hb2
    omega
  · intro b hb hact
    have hb' := (hmem b).1 hb
    rw [active_iff, htl] at hact
    by_cases e : b = R
    · exfalso
      rw [e, next_block_unsafe_val, hsR] at hact
      omega
    · have hbw := hsz b hb'.1 e
      rw [next_block_unsafe_congr hbw] at hact ⊢
      rw [is_block_within_em_congr h0] at hact
      have hin := hL.chain b hb'.1 ((active_iff m em _).2 ⟨hact.1, by rw [← hTd]; omega⟩)
      exact (hmem _).2 ⟨hin, by omega⟩
  · exact pairwise_key_congr (fun x hx => get_size_congr
      (hsz x (hL.free_in_blocks x hx) (fun e => ha.fresh (e ▸ hx)))) ha.ordered
  · rw [htl]; exact hRm
  · rw [htl]; exact ha.fresh
  · intro b hb
    rw [get_is_free_congr (hw8 b (hL.free_in_blocks b hb))]
    exact ha.tree_free b hb
  · intro b hb hbR hf
    rw [htl] at hbR
    have hb' := (hmem b).1 hb
    rw [get_is_free_congr (hw8 b hb'.1)] at hf
    rcases ha.free_tree b hb'.1 hbR hf with e | e
    · exact absurd (e.trans hTd.symm) hb'.2
    · exact Or.inr e
  · rw [htl]; exact hRm
  · rw [htl]; exact ha.fresh

/-- The state after the next block `N` left the tree and the pending block `R` took over
its extent, in any memory `mS` that differs from the merged memory `m2` at most in the
`prev` bits of a block. -/
theorem heap_next_merge_final {m d1 m2 mS : Mem} {em R N ns d2 : Nat} {t t1 : ColorTree}
    {Bs : List Nat} (ha : HeapAt m em t Bs R) (hRfree : get_is_free m R = true)
    (hRl : m (R + 16) = 0) (hRr : m (R + 24) = 0) (hNB : N ∈ Bs)
    (hN : N ≠ em_get_tail m em) (hNval : N = R + 32 + get_size m R)
    (hnsv : ns = get_size m R + 32 + get_size m N) (hfr1 : TreeFrame t.blocks m d1)
    (hdi : t1.InMem d1 d2) (hdord : t1.blocks.Pairwise (key_before d1))
    (hperm : (N :: t1.blocks).Perm t.blocks)
    (hm2_ne : ∀ x, x ≠ R → x ≠ em + 24 → m2 x = d1 x)
    (hm2root : em_get_free_blocks m2 em = d2) (hm2size : get_size m2 R = ns)
    (hfr : ∀ x, (∀ b ∈ Bs, b ≠ R → b ≠ N → x ≠ b + 8) → mS x = m2 x)
    (hfl : ∀ b ∈ Bs, mS (b + 8) &&& 3 = m2 (b + 8) &&& 3) :
    HeapPending mS em t1 (Bs.filter (fun b => decide (b ≠ N))) R ∧
      em_get_tail mS em = em_get_tail m em ∧
      (∀ b ∈ Bs.filter (fun b => decide (b ≠ N)), b ≠ R →
        mS b = m b ∧ get_is_free mS b = get_is_free m b) := by
  have hL := ha.layout
  have hA := hL.headers_apart
  have hRB := ha.block
  have hRf := hL.blocks_fit R hRB
  have hfits := hL.arena_fits
  have hNf' := hL.blocks_fit N hNB
  have hNR : N ≠ R := by omega
  have hw := treeFrame_words hL.free_in_blocks hA (fun b hb => (hL.blocks_fit b hb).1) hfr1
  have hRgap : ∀ y ∈ t.blocks, HeaderGap R y := fun y hy =>
    hA R hRB y (hL.free_in_blocks y hy) (fun e => ha.fresh (e ▸ hy))
  have hRw := treeFrame_gap hfr1 hRgap
  have hsub1 : ∀ y ∈ t1.blocks, y ∈ t.blocks :=
    fun y hy => hperm.subset (List.mem_cons_of_mem _ hy)
  have hgN := pairwise_gap_perm hperm.symm ha.gaps
  obtain ⟨hNgap, hgaps1⟩ := List.pairwise_cons.1 hgN
  have hNt1 : N ∉ t1.blocks := fun hin => not_headerGap_self N (hNgap N hin)
  have hback : ∀ y ∈ t.blocks, y ≠ N → y ∈ t1.blocks := by
    intro y hy hne
    rcases List.mem_cons.1 (hperm.symm.subset hy) with e | e
    · exact absurd e hne
    · exact e
  have hXv0 : next_block_unsafe m2 R = next_block_unsafe m N := by
    rw [next_block_unsafe_val, next_block_unsafe_val, hm2size, hnsv]
    omega
  have hm20 : m2 em = m em := by
    rw [hm2_ne _ (by omega) (by omega)]; exact hw.1 _ (by omega)
  have hm216 : m2 (em + 16) = m (em + 16) := by
    rw [hm2_ne _ (by omega) (by omega)]; exact hw.1 _ (by omega)
  have hmem : ∀ b, b ∈ Bs.filter (fun b => decide (b ≠ N)) ↔ b ∈ Bs ∧ b ≠ N :=
    fun b => by simp [List.mem_filter]
  have hXB : is_block_in_active_part m em ( next_block_unsafe m N) = true →
      next_block_unsafe m N ∈ Bs ∧ next_block_unsafe m N ≠ N ∧
        next_block_unsafe m N ≠ R := by
    intro hact
    have hin := hL.chain N hNB hact
    have hXf := hL.blocks_fit _ hin
    have hv := next_block_unsafe_val m N
    refine ⟨hin, ?_, ?_⟩ <;> omega
  have notprev : ∀ x, x < em + 32 → ∀ b ∈ Bs, b ≠ R → b ≠ N → x ≠ b + 8 := by
    intro x hx b hb _ _
    have := hL.blocks_fit b hb
    omega
  have headnot : ∀ c ∈ Bs, ∀ b ∈ Bs, b ≠ R → b ≠ N → c ≠ b + 8 := by
    intro c hc b hb _ _
    by_cases e : c = b
    · omega
    · have := hA c hc b hb e
      omega
  have hem0 : mS em = m em := by rw [hfr _ (notprev _ (by omega)), hm20]
  have hem16 : mS (em + 16) = m (em + 16) := by rw [hfr _ (notprev _ (by omega)), hm216]
  have hcapS : em_get_capacity mS em = em_get_capacity m em := by
    unfold em_get_capacity; exact get_size_congr hem0
  have htailS : em_get_tail mS em = em_get_tail m em := em_get_tail_congr hem16
  have hrootS : em_get_free_blocks mS em = d2 := by
    rw [em_get_free_blocks_congr (hfr _ (notprev _ (by omega))), hm2root]
  have hmSR : mS R = m2 R := hfr _ (headnot R hRB)
  have hsizeR : get_size mS R = ns := by rw [get_size_congr hmSR, hm2size]
  have hszS : ∀ b ∈ Bs, b ≠ R → mS b = m b := by
    intro b hb hne
    have := hL.blocks_fit b hb
    rw [hfr _ (headnot b hb), hm2_ne _ hne (by omega)]
    exact (hw.2 b hb).1
  have hflS : ∀ b ∈ Bs, get_is_free mS b = get_is_free m b := by
    intro b hb
    have hbf := hL.blocks_fit b hb
    have e1 : m2 (b + 8) = d1 (b + 8) := by
      by_cases e : b = R
      · rw [e]; exact hm2_ne _ (by omega) (by omega)
      · have := hA b hb R hRB e
        exact hm2_ne _ (by omega) (by omega)
    rw [(flags_congr (hfl b hb)).1, get_is_free_congr e1]
    exact (hw.2 b hb).2
  have hnode : ∀ y ∈ t1.blocks, mS y = d1 y ∧ is_red mS y = is_red d1 y ∧
      mS (y + 16) = d1 (y + 16) ∧ mS (y + 24) = d1 (y + 24) := by
    intro y hy
    have hyB := hL.free_in_blocks y (hsub1 y hy)
    have hyf := hL.blocks_fit y hyB
    have hyR : y ≠ R := fun e => ha.fresh (e ▸ hsub1 y hy)
    have hap := hA y hyB R hRB hyR
    have far : ∀ k, k = 16 ∨ k = 24 → ∀ b ∈ Bs, b ≠ R → b ≠ N → y + k ≠ b + 8 := by
      intro k hk b hb _ _
      by_cases e : y = b
      · omega
      · have := hA y hyB b hb e
        omega
    refine ⟨?_, ?_, ?_, ?_⟩
    · rw [hfr _ (headnot y hyB), hm2_ne _ hyR (by omega)]
    · rw [(flags_congr (hfl y hyB)).2]
      apply is_red_congr
      rw [hm2_ne _ (by omega) (by omega)]
    · rw [hfr _ (far 16 (Or.inl rfl)), hm2_ne _ (by omega) (by omega)]
    · rw [hfr _ (far 24 (Or.inr rfl)), hm2_ne _ (by omega) (by omega)]
  have htree : t1.InMem mS (em_get_free_blocks mS em) := by
    rw [hrootS]
    exact ColorTree.inMem_congr_red t1 _
      (fun y hy => ⟨(hnode y hy).2.1, (hnode y hy).2.2⟩) hdi
  have hsz' : ∀ b, b ∈ Bs → b ≠ N →
      (b = R ∧ get_size m b = get_size m R ∧
          get_size mS b = get_size m R + 32 + get_size m N) ∨
        (b ≠ R ∧ get_size mS b = get_size m b) := by
    intro b hb _
    by_cases e : b = R
    · left; rw [e, hsizeR, hnsv]; exact ⟨rfl, rfl, rfl⟩
    · right; exact ⟨e, get_size_congr (hszS b hb e)⟩
  have hRfar : ∀ k, k = 16 ∨ k = 24 → ∀ b ∈ Bs, b ≠ R → b ≠ N → R + k ≠ b + 8 := by
    intro k hk b hb hne _
    have := hA R hRB b hb (Ne.symm hne)
    omega
  have hRm : R ∈ Bs.filter (fun b => decide (b ≠ N)) := (hmem R).2 ⟨hRB, Ne.symm hNR⟩
  have hTm : em_get_tail m em ∈ Bs.filter (fun b => decide (b ≠ N)) :=
    (hmem _).2 ⟨ha.tail_mem, Ne.symm hN⟩
  have hTo : em_get_tail m em ∉ t1.blocks := fun hin => ha.tail_out (hsub1 _ hin)
  refine ⟨⟨⟨⟨?_, ?_, ?_, ?_, ?_, ?_, ColorTree.linksClosed htree,
    ColorTree.root_zero_or_mem htree⟩, htree, ?_, hgaps1, ?_, ?_, ?_, ?_, hRm,
    fun hin => ha.fresh (hsub1 R hin)⟩, ?_, ?_, ?_⟩, htailS,
    fun b hb hne => ⟨hszS b ((hmem b).1 hb).1 hne, hflS b ((hmem b).1 hb).1⟩⟩
  · rw [hem0]; exact hL.header_word
  · rw [hcapS]; exact hfits
  · exact fun y hy => (hmem y).2 ⟨hL.free_in_blocks y (hsub1 y hy),
      fun e => hNt1 (e ▸ hy)⟩
  · intro b hb
    have hb' := (hmem b).1 hb
    have := hL.blocks_fit b hb'.1
    have := hsz' b hb'.1 hb'.2
    rw [hcapS]
    omega
  · intro a ha' b hb hne
    have ha2 := (hmem a).1 ha'
    have hb2 := (hmem b).1 hb
    have := hL.blocks_apart a ha2.1 b hb2.1 hne
    have := hL.blocks_apart a ha2.1 N hNB ha2.2
    have := hL.blocks_apart b hb2.1 N hNB hb2.2
    have := hsz' a ha2.1 ha2.2
    have := hsz' b hb2.1 hb2.2
    omega
  · intro b hb hact
    have hb' := (hmem b).1 hb
    rw [is_block_in_active_part_congr hem0 hem16] at hact
    by_cases e : b = R
    · rw [e, next_block_unsafe_congr hmSR, hXv0] at hact ⊢
      have := hXB hact
      exact (hmem _).2 ⟨this.1, this.2.1⟩
    · rw [next_block_unsafe_congr (hszS b hb'.1 e)] at hact ⊢
      have hin := hL.chain b hb'.1 hact
      refine (hmem _).2 ⟨hin, ?_⟩
      have hv := next_block_unsafe_val m b
      have := hL.blocks_fit b hb'.1
      have := hL.blocks_fit _ hin
      have := hL.blocks_apart b hb'.1 R hRB e
      omega
  · exact pairwise_key_congr (fun y hy => get_size_congr (hnode y hy).1) hdord
  · rw [htailS]; exact hTm
  · rw [htailS]; exact hTo
  · intro y hy
    rw [hflS y (hL.free_in_blocks y (hsub1 y hy))]
    exact ha.tree_free y (hsub1 y hy)
  · intro b hb hbR hf
    have hb' := (hmem b).1 hb
    rw [hflS b hb'.1] at hf
    rw [htailS]
    rcases ha.free_tree b hb'.1 hbR hf with e | e
    · exact Or.inl e
    · exact Or.inr (hback b e hb'.2)
  · rw [hflS R hRB]; exact hRfree
  · rw [hfr _ (hRfar 16 (Or.inl rfl)), hm2_ne _ (by omega) (by omega), hRw.2.2.1]
    exact hRl
  · rw [hfr _ (hRfar 24 (Or.inr rfl)), hm2_ne _ (by omega) (by omega), hRw.2.2.2]
    exact hRr

/-- The look at the next block when it is a free block other than the tail: it leaves the
tree and the pending block takes over its extent. -/
theorem heap_next_merge {m : Mem} {em R : Nat} {t : ColorTree} {Bs : List Nat}
    (h : HeapPending m em t Bs R) (hRT : R ≠ em_get_tail m em)
    (hN : next_block m em R ≠ em_get_tail m em) (hN0 : next_block m em R ≠ 0)
    (hNf : get_is_free m (next_block m em R) = true) :
    ∃ mS Bs', free_look_next m em R = (mS, R) ∧
      (∀ b, b ∈ Bs' ↔ b ∈ Bs ∧ b ≠ next_block m em R) ∧
      HeapPending mS em (t.detach m (next_block m em R)) Bs' R ∧
      em_get_tail mS em = em_get_tail m em ∧
      (∀ b ∈ Bs', b ≠ R → mS b = m b ∧ get_is_free mS b = get_is_free m b) := by
  obtain ⟨ha, hRfree, hRl, hRr⟩ := h
  have hL := ha.layout
  have hA := hL.headers_apart
  have hRB := ha.block
  have hRf := hL.blocks_fit R hRB
  have hfits := hL.arena_fits
  have hcap : em_get_capacity m em < 2305843009213693952 := by
    have := hL.header_word
    unfold em_get_capacity get_size
    rw [Nat.shiftRight_eq_div_pow]
    omega
  obtain ⟨N, hNd⟩ : ∃ N, N = next_block m em R := ⟨_, rfl⟩
  rw [← hNd] at hN hN0 hNf ⊢
  have hNu : N = next_block_unsafe m R ∧
      is_block_in_active_part m em ( next_block_unsafe m R) = true := by
    rcases next_block_cases m em R with e | e
    · rw [← hNd] at e; exact absurd e hN0
    · rw [← hNd] at e; exact e
  have hNB : N ∈ Bs := by rw [hNu.1]; exact hL.chain R hRB hNu.2
  have hNf' := hL.blocks_fit N hNB
  have hNval : N = R + 32 + get_size m R := by
    have hu := next_block_unsafe_val m R
    rw [← hNu.1] at hu
    omega
  have hNR : N ≠ R := by omega
  have hNt : N ∈ t.blocks := by
    rcases ha.free_tree N hNB hNR hNf with e | e
    · exact absurd e hN
    · exact e
  have hE : free_look_next m em R =
      (merge_blocks_logic (em_set_free_blocks
        (detach_block_by_ptr FUEL m (em_get_free_blocks m em) N).1 em
        (detach_block_by_ptr FUEL m (em_get_free_blocks m em) N).2) em R N, R) := by
    unfold free_look_next
    dsimp only
    rw [if_neg hRT, ← hNd, if_neg hN]
    have : (N != 0 && get_is_free m N) = true := by
      rw [hNf]; simpa using hN0
    rw [if_pos this]
  rw [hE]
  have hlen : t.height ≤ FUEL := Nat.le_of_lt ha.height_lt
  have hdo := detach_block_by_ptr_ordered ha.tree ha.ordered hlen hNt ha.gaps
  have hdet := treeInv_detach_block_by_ptr hL.tree_apart FUEL (em_get_free_blocks m em) N hN0
    hL.root_in (treeInv_refl hL.closed)
  obtain ⟨d, hdd⟩ : ∃ d, d = detach_block_by_ptr FUEL m (em_get_free_blocks m em) N :=
    ⟨_, rfl⟩
  rw [← hdd] at hdo hdet ⊢
  obtain ⟨t1, ht1⟩ : ∃ x, x = t.detach m N := ⟨_, rfl⟩
  rw [← ht1] at hdo ⊢
  obtain ⟨_, hdi, hdord, hperm⟩ := hdo
  have hw := treeFrame_words hL.free_in_blocks hA (fun b hb => (hL.blocks_fit b hb).1)
    hdet.1.1
  have hRgap : ∀ y ∈ t.blocks, HeaderGap R y := fun y hy =>
    hA R hRB y (hL.free_in_blocks y hy) (fun e => ha.fresh (e ▸ hy))
  have hRw := treeFrame_gap hdet.1.1 hRgap
  have hsub1 : ∀ y ∈ t1.blocks, y ∈ t.blocks :=
    fun y hy => hperm.subset (List.mem_cons_of_mem _ hy)
  have hgN := pairwise_gap_perm hperm.symm ha.gaps
  obtain ⟨hNgap, hgaps1⟩ := List.pairwise_cons.1 hgN
  have hNt1 : N ∉ t1.blocks := fun hin => not_headerGap_self N (hNgap N hin)
  have hback : ∀ y ∈ t.blocks, y ≠ N → y ∈ t1.blocks := by
    intro y hy hne
    rcases List.mem_cons.1 (hperm.symm.subset hy) with e | e
    · exact absurd e hne
    · exact e
  have hd2 := ColorTree.root_zero_or_mem hdi
  have hd2n : d.2 % 4 = 0 ∧ d.2 < 18446744073709551616 := by
    rcases hd2 with e | e
    · rw [e]; decide
    · have := hL.blocks_fit d.2 (hL.free_in_blocks d.2 (hsub1 d.2 e))
      omega
  obtain ⟨m1, hm1⟩ : ∃ x, x = em_set_free_blocks d.1 em d.2 := ⟨_, rfl⟩
  rw [← hm1]
  have hm1_ne : ∀ x, x ≠ em + 24 → m1 x = d.1 x := by
    intro x hx; rw [hm1]; exact em_set_free_blocks_ne _ _ _ hx
  have hm1R : m1 R = m R := by rw [hm1_ne _ (by omega), (hw.2 R hRB).1]
  have hm1N : m1 N = m N := by rw [hm1_ne _ (by omega), (hw.2 N hNB).1]
  have hm1root : em_get_free_blocks m1 em = d.2 := by
    rw [hm1]; exact em_get_free_blocks_set _ _ _ hd2n.1 hd2n.2
  obtain ⟨ns, hns⟩ : ∃ x, x = wadd (wadd (get_size m1 R) SIZEOF_BLOCK) (get_size m1 N) :=
    ⟨_, rfl⟩
  have hnsv : ns = get_size m R + 32 + get_size m N := by
    rw [hns, get_size_congr hm1R, get_size_congr hm1N]
    unfold wadd
    simp only [WORD, SIZEOF_BLOCK]
    omega
  obtain ⟨m2, hm2⟩ : ∃ x, x = set_size m1 R ns := ⟨_, rfl⟩
  have hm2_ne : ∀ x, x ≠ R → m2 x = m1 x := by
    intro x hx; rw [hm2]; exact set_size_ne _ _ _ hx
  have hm2size : get_size m2 R = ns := by
    rw [hm2]; unfold get_size; rw [set_size_eq]; exact size_word _ _ (by omega)
  have hXv0 : next_block_unsafe m2 R = next_block_unsafe m N := by
    rw [next_block_unsafe_val, next_block_unsafe_val, hm2size, hnsv]
    omega
  have hm20 : m2 em = m em := by
    rw [hm2_ne _ (by omega), hm1_ne _ (by omega)]; exact hw.1 _ (by omega)
  have hm216 : m2 (em + 16) = m (em + 16) := by
    rw [hm2_ne _ (by omega), hm1_ne _ (by omega)]; exact hw.1 _ (by omega)
  have hmem : ∀ b, b ∈ Bs.filter (fun b => decide (b ≠ N)) ↔ b ∈ Bs ∧ b ≠ N :=
    fun b => by simp [List.mem_filter]
  -- the successor of the merged block
  have hXB : is_block_in_active_part m em ( next_block_unsafe m N) = true →
      next_block_unsafe m N ∈ Bs ∧ next_block_unsafe m N ≠ N ∧
        next_block_unsafe m N ≠ R := by
    intro hact
    have hin := hL.chain N hNB hact
    have hXf := hL.blocks_fit _ hin
    have hv := next_block_unsafe_val m N
    refine ⟨hin, ?_, ?_⟩ <;> omega
  have hm2_ne' : ∀ x, x ≠ R → x ≠ em + 24 → m2 x = d.1 x := by
    intro x h1 h2
    rw [hm2_ne x h1, hm1_ne x h2]
  have hm2root : em_get_free_blocks m2 em = d.2 := by
    rw [em_get_free_blocks_congr (hm2_ne _ (by omega))]
    exact hm1root
  have hfin := fun mS => @heap_next_merge_final m d.1 m2 mS em R N ns d.2 t t1 Bs ha hRfree
    hRl hRr hNB hN hNval hnsv hdet.1.1 hdi hdord hperm hm2_ne' hm2root hm2size
  refine ⟨merge_blocks_logic m1 em R N, Bs.filter (fun b => decide (b ≠ N)), rfl, hmem, ?_⟩
  rcases merge_blocks_logic_cases m1 em R N with e | ⟨e, hact⟩
  · rw [e, ← hns, ← hm2]
    exact hfin m2 (fun _ _ => rfl) (fun _ _ => rfl)
  · rw [← hns, ← hm2] at e hact
    rw [e]
    rw [hXv0] at hact ⊢
    rw [is_block_in_active_part_congr hm20 hm216] at hact
    obtain ⟨hXin, hXN, hXR⟩ := hXB hact
    refine hfin _ (fun x hx => set_prev_ne _ _ _ (hx _ hXin hXR hXN)) (fun b hb => ?_)
    by_cases e2 : b = next_block_unsafe m N
    · rw [e2, set_prev_eq]
      have e1 : wnot PREV_MASK = 3 := by decide
      rw [e1]
      exact tagged_flags _ _ hRf.2.1
    · rw [set_prev_ne _ _ _ (by omega)]

theorem free_look_prev_skip (s : Mem × Nat) (em prev : Nat)
    (h : prev = 0 ∨ get_is_free s.1 prev = false) : free_look_prev s em prev = s := by
  unfold free_look_prev
  have : (prev != 0 && get_is_free s.1 prev) = false := by
    rcases h with e | e
    · rw [e]; rfl
    · rw [e]; simp
  rw [if_neg (by rw [this]; exact Bool.false_ne_true)]

/-- `em_free_block_full(em, R)` on a block `R` that is not the tail and whose physical
predecessor is occupied: the arena stays well-formed, with an exact tree and block list;
no block other than the physical successor of `R` leaves the list. -/
theorem em_free_block_full_heap {m : Mem} {em R : Nat} {t : ColorTree} {Bs : List Nat}
    (h : HeapAt m em t Bs R) (hscr : get_is_in_scratch m R = false)
    (hRT : R ≠ em_get_tail m em)
    (hprev : get_prev m R = 0 ∨
      (get_prev m R ∈ Bs ∧ get_prev m R ≠ R ∧ get_prev m R ≠ next_block m em R ∧
        get_is_free m (get_prev m R) = false)) :
    ∃ t' Bs', Heap (em_free_block_full m em R) em t' Bs' ∧ (∀ b ∈ Bs', b ∈ Bs) ∧
      (∀ b ∈ Bs, b ≠ next_block m em R → b ∈ Bs') := by
  have hL := h.layout
  have hA := hL.headers_apart
  have hRf := hL.blocks_fit R h.block
  obtain ⟨hfr, _, _, _, hpv⟩ := free_mark_spec m R
  have hp := heap_free_mark h
  rw [em_free_block_full_eq, hscr]
  simp only [Bool.false_eq_true, if_false]
  rw [hpv]
  obtain ⟨ma, hma⟩ : ∃ x, x = free_mark m R := ⟨_, rfl⟩
  rw [← hma] at hp hfr ⊢
  have ha0 : ma em = m em := hfr _ (by omega) (by omega) (by omega)
  have ha16 : ma (em + 16) = m (em + 16) := hfr _ (by omega) (by omega) (by omega)
  have hat : em_get_tail ma em = em_get_tail m em := em_get_tail_congr ha16
  have han : next_block ma em R = next_block m em R :=
    next_block_congr ha0 ha16 (hfr _ (by omega) (by omega) (by omega))
  have hRT' : R ≠ em_get_tail ma em := by rw [hat]; exact hRT
  obtain ⟨P, hPd⟩ : ∃ x, x = get_prev m R := ⟨_, rfl⟩
  rw [← hPd] at hprev ⊢
  have hPa : P ≠ 0 → ma (P + 8) = m (P + 8) := by
    intro h0
    rcases hprev with e | e
    · exact absurd e h0
    · have := hA P e.1 R h.block e.2.1
      exact hfr _ (by omega) (by omega) (by omega)
  by_cases hN : next_block ma em R = em_get_tail ma em
  · -- the next block is the tail
    have hE : free_look_next ma em R = (em_set_tail (set_size ma R 0) em R, 0) := by
      unfold free_look_next
      dsimp only
      rw [if_neg hRT', if_pos hN]
    obtain ⟨Bs', hmem, hH, _, hfrA⟩ := heap_tail_merge hp hRT' hN
    rw [hE, free_look_prev_skip]
    · refine ⟨t, Bs', ?_, fun b hb => ((hmem b).1 hb).1, fun b hb hne => (hmem b).2 ⟨hb, ?_⟩⟩
      · unfold free_insert
        exact hH
      · rw [← hN, han]; exact hne
    · rcases hprev with e | e
      · exact Or.inl e
      · right
        have hPf := hL.blocks_fit P e.1
        have := hA P e.1 R h.block e.2.1
        have h0 : P ≠ 0 := by omega
        show get_is_free (em_set_tail (set_size ma R 0) em R) P = false
        rw [get_is_free_congr (hfrA _ (by omega) (by omega)), get_is_free_congr (hPa h0)]
        exact e.2.2.2
  · by_cases hNf : next_block ma em R ≠ 0 ∧ get_is_free ma (next_block ma em R) = true
    · -- the next block is free and merges
      obtain ⟨mS, Bs', hE, hmem, hpS, htS, hfrS⟩ := heap_next_merge hp hRT' hN hNf.1 hNf.2
      rw [hE, free_look_prev_skip]
      · have hi := heap_insert hpS (by rw [htS]; exact hRT')
        refine ⟨_, Bs', hi.1, fun b hb => ((hmem b).1 hb).1,
          fun b hb hne => (hmem b).2 ⟨hb, ?_⟩⟩
        rw [han]; exact hne
      · rcases hprev with e | e
        · exact Or.inl e
        · right
          have hPf := hL.blocks_fit P e.1
          have h0 : P ≠ 0 := by omega
          have hPin : P ∈ Bs' := (hmem P).2 ⟨e.1, by rw [han]; exact e.2.2.1⟩
          show get_is_free mS P = false
          rw [(hfrS P hPin e.2.1).2, get_is_free_congr (hPa h0)]
          exact e.2.2.2
    · -- nothing to merge
      have hE : free_look_next ma em R = (ma, R) := by
        unfold free_look_next
        dsimp only
        rw [if_neg hRT', if_neg hN]
        have : ¬ (next_block ma em R != 0 && get_is_free ma (next_block ma em R)) = true := by
          intro hc
          simp only [Bool.and_eq_true, bne_iff_ne, ne_eq] at hc
          exact hNf hc
        rw [if_neg this]
      rw [hE, free_look_prev_skip]
      · have hi := heap_insert hp hRT'
        exact ⟨_, Bs, hi.1, fun b hb => hb, fun b hb _ => hb⟩
      · rcases hprev with e | e
        · exact Or.inl e
        · right
          have hPf := hL.blocks_fit P e.1
          have h0 : P ≠ 0 := by omega
          show get_is_free ma P = false
          rw [get_is_free_congr (hPa h0)]
          exact e.2.2.2

theorem set_prev_if_flags (md : Mem) (c : Prop) [Decidable c] (f R x : Nat)
    (hR4 : R % 4 = 0) : (if c then set_prev md f R else md) x &&& 3 = md x &&& 3 := by
  split
  · by_cases e : x = f + 8
    · rw [e, set_prev_eq]
      have e1 : wnot PREV_MASK = 3 := by decide
      rw [e1]
      exact tagged_flags _ _ hR4
    · rw [set_prev_ne _ _ _ e]
  · rfl

/-- Outside the header of the remainder and the size word of the block, `split_carve`
keeps the two low bits of every word. -/
theorem split_carve_flags (m : Mem) (em B needed x : Nat)
    (hR4 : next_block_unsafe (set_size m B needed) B % 4 = 0) (hxB : x ≠ B)
    (h0 : x ≠ next_block_unsafe (set_size m B needed) B)
    (h8 : x ≠ next_block_unsafe (set_size m B needed) B + 8)
    (h16 : x ≠ next_block_unsafe (set_size m B needed) B + 16)
    (h24 : x ≠ next_block_unsafe (set_size m B needed) B + 24) :
    split_carve m em B needed x &&& 3 = m x &&& 3 := by
  unfold split_carve
  rw [set_prev_if_flags _ _ _ _ _ hR4, set_size_ne _ _ _ h0, set_prev_ne _ _ _ h8,
    (create_block_spec _ _).2.2.2.2.2.2 x h0 h8 h16 h24, set_size_ne _ _ _ hxB]

/-- `split_block` with a remainder of at least `BLOCK_MIN_SIZE` keeps the arena
well-formed, and the block stays in the list. -/
theorem split_block_heap {m : Mem} {em B needed : Nat} {t : ColorTree} {Bs : List Nat}
    (h : Heap m em t Bs) (hB : B ∈ Bs) (hocc : get_is_free m B = false)
    (hn4 : needed % 4 = 0) (hlt : needed < get_size m B)
    (h48 : 48 ≤ get_size m B - needed) :
    ∃ t' Bs', Heap (split_block m em B needed) em t' Bs' ∧ B ∈ Bs' := by
  have h' : HeapAt m em t Bs (em_get_tail m em) := h
  have hL := h'.layout
  have hBf := hL.blocks_fit B hB
  have hfits := hL.arena_fits
  have hA := hL.headers_apart
  have hc : (decide (get_size m B > needed) &&
      decide (wsub (get_size m B) needed ≥ BLOCK_MIN_SIZE)) = true := by
    have : wsub (get_size m B) needed = get_size m B - needed := by
      unfold wsub; simp only [WORD]; omega
    rw [this]
    simp only [Bool.and_eq_true, decide_eq_true_eq, BLOCK_MIN_SIZE, SIZEOF_BLOCK,
      EM_MIN_BUFFER_SIZE]
    exact ⟨hlt, h48⟩
  rw [split_block_eq, if_pos hc]
  have hflags := fun x => split_carve_flags m em B needed x
  obtain ⟨mc, hmc, hRu, hLc, hfR, hpR, hfB, hsB, hcem, hcf, hc16, hcfl, hsR, hpX⟩ :=
    split_carve_spec hL hB hocc hn4 hlt h48
  rw [hmc, hRu]
  rw [hmc, hRu] at hflags
  obtain ⟨R, hRd⟩ : ∃ R, R = B + 32 + needed := ⟨_, rfl⟩
  rw [← hRd] at hLc hfR hpR hcf hsR hflags ⊢
  have hR4 : R % 4 = 0 := by omega
  have hout : ∀ b ∈ Bs, b ≠ B →
      b + 32 + get_size m b ≤ B ∨ B + 32 + get_size m B ≤ b :=
    fun b hb hne => hL.blocks_apart b hb B hB hne
  have hRnot : R ∉ Bs := by
    intro hRB
    have := hout R hRB (by omega)
    omega
  have htB : ∀ y ∈ t.blocks, y ∈ Bs ∧ y ≠ B := by
    intro y hy
    refine ⟨hL.free_in_blocks y hy, fun e => ?_⟩
    have := h'.tree_free y hy
    rw [e, hocc] at this
    exact Bool.noConfusion this
  have hn0 : ∀ y ∈ Bs, ∀ b ∈ Bs, y ≠ b + 8 ∧ y + 16 ≠ b + 8 ∧ y + 24 ≠ b + 8 := by
    intro y hy b hb
    by_cases e : y = b
    · omega
    · have := hA y hy b hb e
      omega
  have hnode : ∀ y ∈ t.blocks, mc y = m y ∧ mc (y + 8) &&& 3 = m (y + 8) &&& 3 ∧
      mc (y + 16) = m (y + 16) ∧ mc (y + 24) = m (y + 24) := by
    intro y hy
    obtain ⟨hyB, hyne⟩ := htB y hy
    have := hout y hyB hyne
    have hyf := hL.blocks_fit y hyB
    refine ⟨?_, hflags _ hR4 (by omega) (by omega) (by omega) (by omega) (by omega), ?_, ?_⟩
    · exact hcf y hyne (by omega) (fun b hb => (hn0 y hyB b hb).1)
    · exact hcf _ (by omega) (by omega) (fun b hb => (hn0 y hyB b hb).2.1)
    · exact hcf _ (by omega) (by omega) (fun b hb => (hn0 y hyB b hb).2.2)
  have h24 : mc (em + 24) = m (em + 24) :=
    hcf _ (by omega) (by omega) (fun b hb => by
      have := hL.blocks_fit b hb
      omega)
  have htree : t.InMem mc (em_get_free_blocks mc em) := by
    rw [em_get_free_blocks_congr h24]
    exact ColorTree.inMem_congr_red t _
      (fun y hy => ⟨(flags_congr (hnode y hy).2.1).2, (hnode y hy).2.2⟩) h'.tree
  have htl : em_get_tail mc em = em_get_tail m em := em_get_tail_congr hc16
  have hat : HeapAt mc em t (R :: Bs) R := by
    refine ⟨hLc.retree rfl rfl (fun _ _ => rfl)
      (fun y hy => List.mem_cons_of_mem _ (htB y hy).1) (ColorTree.linksClosed htree)
      (ColorTree.root_zero_or_mem htree), htree, ?_, h'.gaps, ?_, ?_, ?_, ?_,
      List.mem_cons_self _ _, fun hin => hRnot (htB R hin).1⟩
    · exact pairwise_key_congr (fun y hy => get_size_congr (hnode y hy).1) h'.ordered
    · rw [htl]; exact List.mem_cons_of_mem _ h'.tail_mem
    · rw [htl]; exact h'.tail_out
    · intro y hy
      rw [hcfl y (htB y hy).1]
      exact h'.tree_free y hy
    · intro b hb hbR hf
      rcases List.mem_cons.1 hb with e | e
      · exact absurd e hbR
      · rw [hcfl b e] at hf
        rw [htl]
        by_cases e2 : b = em_get_tail m em
        · exact Or.inl e2
        · exact h'.free_tree b e e2 hf
  have hscr : get_is_in_scratch mc R = false := by
    unfold get_is_in_scratch
    rw [hfR]
    rfl
  have hRT : R ≠ em_get_tail mc em := by
    rw [htl]
    intro e
    apply hRnot
    rw [e]
    exact h'.tail_mem
  have hnb : B ≠ next_block mc em R := by
    rcases next_block_cases mc em R with e | e
    · rw [e]; omega
    · rw [e.1, next_block_unsafe_val, hsR]; omega
  obtain ⟨t', Bs', hH, _, hkeep⟩ := em_free_block_full_heap hat hscr hRT
    (Or.inr ⟨by rw [hpR]; exact List.mem_cons_of_mem _ hB, by rw [hpR]; omega,
      by rw [hpR]; exact hnb, by rw [hpR]; exact hfB⟩)
  exact ⟨t', Bs', hH, hkeep B (List.mem_cons_of_mem _ hB) hnb⟩

/-- The payload that `em_bump_trim` keeps covers the bytes handed out, also when the
computation wraps around the top of the address space. -/
theorem trim_size_bound (bump off pa : Nat) (hva : ValidAlignment pa) (hoff : 32 ≤ off)
    (hoffc : off ≤ 2305843009213693984) :
    off - 32 ≤ wsub (wsub (align_up (wadd (wadd bump off) SIZEOF_BLOCK) pa) SIZEOF_BLOCK)
        (wadd bump SIZEOF_BLOCK) ∧
      (bump % 4 = 0 →
        wsub (wsub (align_up (wadd (wadd bump off) SIZEOF_BLOCK) pa) SIZEOF_BLOCK)
          (wadd bump SIZEOF_BLOCK) % 4 = 0) := by
  rw [align_up_eq _ _ hva]
  unfold wadd wsub
  simp only [WORD, SIZEOF_BLOCK]
  simp only [ValidAlignment, List.mem_cons, List.mem_singleton, List.not_mem_nil,
    or_false] at hva
  rcases hva with rfl | rfl | rfl | rfl | rfl | rfl | rfl | rfl | rfl <;>
    refine ⟨?_, fun h4 => ?_⟩ <;> omega

theorem Heap.block_bounds {m : Mem} {em b : Nat} {t : ColorTree} {Bs : List Nat}
    (h : Heap m em t Bs) (hB : b ∈ Bs) :
    b ≠ 0 ∧ b % 4 = 0 ∧ m b < 18446744073709551616 ∧
      get_size m b < 2305843009213693952 ∧
      b + 32 + get_size m b ≤ 18446744073709551616 ∧ em + 32 ≤ b := by
  have h' : HeapAt m em t Bs (em_get_tail m em) := h
  have hL := h'.layout
  have hBf := hL.blocks_fit b hB
  have hfits := hL.arena_fits
  have hcap : em_get_capacity m em < 2305843009213693952 := by
    have := hL.header_word
    unfold em_get_capacity get_size
    rw [Nat.shiftRight_eq_div_pow]
    omega
  have hs : get_size m b = m b / 8 := by
    unfold get_size
    rw [Nat.shiftRight_eq_div_pow]
  refine ⟨by omega, hBf.2.1, by omega, by omega, by omega, hBf.1⟩

/-- A write to the offset word of the bump allocator keeps the invariant. -/
theorem bumpInv_set_offset {m : Mem} {em bump : Nat} (h : BumpInv m em bump) (v : Nat)
    (h32 : 32 ≤ v) (hv : v ≤ bump_get_capacity m bump + 32) :
    BumpInv (bump_set_offset m bump v) em bump := by
  obtain ⟨t, Bs, hH, hB, hocc, hem, _, _⟩ := h
  have h' : HeapAt m em t Bs (em_get_tail m em) := hH
  have hL := h'.layout
  have hA := hL.headers_apart
  have hBf := hL.blocks_fit bump hB
  have hne : ∀ x, x ≠ bump + 24 → bump_set_offset m bump v x = m x :=
    fun x hx => Mem.write_ne m _ hx
  have h16 : bump_set_offset m bump v (em + 16) = m (em + 16) := hne _ (by omega)
  have hcg : HeapAt (bump_set_offset m bump v) em t Bs (em_get_tail m em) := by
    refine h'.congr (hne _ (by omega)) h16 (hne _ (by omega)) ?_ ?_ ?_
    · intro b hb
      by_cases e : b = bump
      · rw [e]; exact hne _ (by omega)
      · have := hA b hb bump hB e
        exact hne _ (by omega)
    · intro b hb _
      by_cases e : b = bump
      · rw [e, hne _ (by omega)]
      · have := hA b hb bump hB e
        rw [hne _ (by omega)]
    · intro b hb
      have hbB := hL.free_in_blocks b hb
      have e : b ≠ bump := by
        intro e
        have := h'.tree_free b hb
        rw [e, hocc] at this
        exact Bool.noConfusion this
      have := hA b hbB bump hB e
      exact ⟨hne _ (by omega), hne _ (by omega)⟩
  refine ⟨t, Bs, ?_, hB, ?_, ?_, ?_, ?_⟩
  · show HeapAt _ em t Bs (em_get_tail (bump_set_offset m bump v) em)
    rw [em_get_tail_congr h16]
    exact hcg
  · rw [get_is_free_congr (hne _ (by omega))]; exact hocc
  · show bump_set_offset m bump v (bump + 16) = em
    rw [hne _ (by omega)]
    exact hem
  · rw [bump_set_offset_eq]; exact h32
  · rw [bump_set_offset_eq, bump_set_offset_cap]; exact hv

theorem rangesIn_grow {m m' : Mem} {bump : Nat} {rs : List (Nat × Nat)}
    (h : RangesIn m bump rs) (p size : Nat) (hp : bump + bump_get_offset m bump ≤ p)
    (h32 : 32 ≤ bump_get_offset m bump)
    (he : p + size ≤ bump + bump_get_offset m' bump) :
    RangesIn m' bump ((p, size) :: rs) := by
  refine ⟨fun r hr => ?_, List.pairwise_cons.2 ⟨fun r hr => ?_, h.2⟩⟩
  · rcases List.mem_cons.1 hr with e | e
    · rw [e]
      show bump + 32 ≤ p ∧ p + size ≤ bump + bump_get_offset m' bump
      exact ⟨by omega, he⟩
    · have := h.1 r e
      exact ⟨this.1, by omega⟩
  · have := h.1 r hr
    show p + size ≤ r.1 ∨ r.1 + r.2 ≤ p
    omega

/-- `em_bump_alloc` keeps the invariant. -/
theorem em_bump_alloc_inv {m : Mem} {em bump : Nat} (h : BumpInv m em bump)
    (rs : List (Nat × Nat)) (hr : RangesIn m bump rs) (size : Nat) :
    BumpInv (em_bump_alloc m bump size).1 em bump ∧
      RangesIn (em_bump_alloc m bump size).1 bump
        (if (em_bump_alloc m bump size).2 = 0 then rs
          else ((em_bump_alloc m bump size).2, size) :: rs) := by
  obtain ⟨t, Bs, hH, hB, hocc, hem, h32, hcapo⟩ := h
  obtain ⟨hb0, _, hw, _, hfit, _⟩ := hH.block_bounds hB
  have hcs := em_bump_alloc_cases m bump size hb0 h32 (by omega) hw hfit
  by_cases hs : size = 0 ∨ bump_get_capacity m bump - (bump_get_offset m bump - 32) ≤ size
  · rw [hcs.1 hs]
    exact ⟨⟨t, Bs, hH, hB, hocc, hem, h32, hcapo⟩, by rw [if_pos rfl]; exact hr⟩
  · have hs1 : size ≠ 0 := fun e => hs (Or.inl e)
    have hs2 : size < bump_get_capacity m bump - (bump_get_offset m bump - 32) := by omega
    rw [hcs.2 hs1 hs2]
    have hp : ¬ (bump + bump_get_offset m bump = 0) := by omega
    refine ⟨bumpInv_set_offset ⟨t, Bs, hH, hB, hocc, hem, h32, hcapo⟩ _ (by omega)
      (by omega), ?_⟩
    show RangesIn _ bump (if bump + bump_get_offset m bump = 0 then rs else _)
    rw [if_neg hp]
    refine rangesIn_grow hr _ _ (Nat.le_refl _) h32 ?_
    show bump + bump_get_offset m bump + size ≤ _
    rw [bump_set_offset_eq]
    omega

/-- `em_bump_alloc_aligned` keeps the invariant. -/
theorem em_bump_alloc_aligned_inv {m : Mem} {em bump : Nat} (h : BumpInv m em bump)
    (rs : List (Nat × Nat)) (hr : RangesIn m bump rs) (size a : Nat) :
    BumpInv (em_bump_alloc_aligned m bump size a).1 em bump ∧
      RangesIn (em_bump_alloc_aligned m bump size a).1 bump
        (if (em_bump_alloc_aligned m bump size a).2 = 0 then rs
          else ((em_bump_alloc_aligned m bump size a).2, size) :: rs) := by
  obtain ⟨t, Bs, hH, hB, hocc, hem, h32, hcapo⟩ := h
  obtain ⟨hb0, _, hw, _, hfit, _⟩ := hH.block_bounds hB
  by_cases hv : ValidAlignment a ∧ size ≠ 0
  swap
  · have : em_bump_alloc_aligned m bump size a = (m, 0) := by
      apply em_bump_alloc_aligned_invalid
      by_cases e : ValidAlignment a
      · right; right
        by_cases e2 : size = 0
        · exact e2
        · exact absurd ⟨e, e2⟩ hv
      · right; left; exact e
    rw [this]
    exact ⟨⟨t, Bs, hH, hB, hocc, hem, h32, hcapo⟩, by rw [if_pos rfl]; exact hr⟩
  have hcs := em_bump_alloc_aligned_cases m bump size a hb0 hv.1 hv.2 h32 (by omega) hw hfit
  obtain ⟨pad, hpd⟩ : ∃ x, x = wsub (align_up (bump + bump_get_offset m bump) a)
      (bump + bump_get_offset m bump) := ⟨_, rfl⟩
  rw [← hpd] at hcs
  by_cases hs : bump_get_capacity m bump - (bump_get_offset m bump - 32) ≤ pad + size
  · rw [hcs.1 hs]
    exact ⟨⟨t, Bs, hH, hB, hocc, hem, h32, hcapo⟩, by rw [if_pos rfl]; exact hr⟩
  · rw [(hcs.2 (by omega)).1]
    have hp : ¬ (bump + bump_get_offset m bump + pad = 0) := by omega
    refine ⟨bumpInv_set_offset ⟨t, Bs, hH, hB, hocc, hem, h32, hcapo⟩ _ (by omega)
      (by omega), ?_⟩
    show RangesIn _ bump (if bump + bump_get_offset m bump + pad = 0 then rs else _)
    rw [if_neg hp]
    refine rangesIn_grow hr _ _ (by omega) h32 ?_
    show bump + bump_get_offset m bump + pad + size ≤ _
    rw [bump_set_offset_eq]
    omega

/-- `em_bump_reset` keeps the invariant. -/
theorem em_bump_reset_inv {m : Mem} {em bump : Nat} (h : BumpInv m em bump) :
    BumpInv (em_bump_reset m bump) em bump ∧ RangesIn (em_bump_reset m bump) bump [] := by
  have hkeep := h
  obtain ⟨t, Bs, hH, hB, _, _, _, _⟩ := h
  obtain ⟨hb0, _, _, _, _, _⟩ := hH.block_bounds hB
  have : em_bump_reset m bump = bump_set_offset m bump 32 := by
    unfold em_bump_reset
    rw [if_neg hb0]
  rw [this]
  exact ⟨bumpInv_set_offset hkeep 32 (Nat.le_refl _) (by omega),
    fun r hr => absurd hr (List.not_mem_nil r), List.Pairwise.nil⟩

/-- `em_bump_trim` keeps the invariant and the offset. -/
theorem em_bump_trim_inv {m : Mem} {em bump : Nat} (h : BumpInv m em bump) :
    BumpInv (em_bump_trim m bump) em bump ∧
      bump_get_offset (em_bump_trim m bump) bump = bump_get_offset m bump := by
  have hkeep := h
  obtain ⟨t, Bs, hH, hB, hocc, hem, h32, hcapo⟩ := h
  have h' : HeapAt m em t Bs (em_get_tail m em) := hH
  have hL := h'.layout
  obtain ⟨hb0, hb4, hw, hsz, hfit, _⟩ := hH.block_bounds hB
  unfold bump_get_capacity at hcapo
  obtain ⟨off, hoffd⟩ : ∃ x, x = bump_get_offset m bump := ⟨_, rfl⟩
  rw [← hoffd] at h32 hcapo ⊢
  obtain ⟨n, hnd⟩ : ∃ x, x = wsub (wsub (align_up (wadd (wadd bump off) SIZEOF_BLOCK)
      (em_get_alignment m em)) SIZEOF_BLOCK) (wadd bump SIZEOF_BLOCK) := ⟨_, rfl⟩
  have hE : em_bump_trim m bump =
      if get_size m bump > n then split_block m em bump n else m := by
    unfold em_bump_trim
    rw [if_neg hb0]
    dsimp only
    rw [hem, ← hoffd, ← hnd]
    rfl
  have hn := trim_size_bound bump off (em_get_alignment m em) (get_alignment_valid _ _) h32
    (by omega)
  rw [← hnd] at hn
  have hBF : bump ∉ t.blocks := by
    intro hin
    have := h'.tree_free bump hin
    rw [hocc] at this
    exact Bool.noConfusion this
  rw [hE]
  by_cases hc : get_size m bump > n
  · rw [if_pos hc]
    by_cases h48 : 48 ≤ get_size m bump - n
    · obtain ⟨t', Bs', hH', hB'⟩ := split_block_heap hH hB hocc (hn.2 hb4) hc h48
      obtain ⟨h1, _, h3, h4⟩ := (split_block_spec hL hB hocc hBF (hn.2 hb4)).2 hc h48
      obtain ⟨mS, hmS, hfS, _, _⟩ := split_block_keeps hL hB hocc (hn.2 hb4)
        (Nat.le_refl n) (Nat.le_of_lt hc)
      have h4' : bump_get_offset (split_block m em bump n) bump = off := by
        rw [hoffd]; exact h4
      refine ⟨⟨t', Bs', hH', hB', ?_, ?_, ?_, ?_⟩, h4'⟩
      · rw [hmS]; exact hfS
      · show split_block m em bump n (bump + 16) = em
        rw [h3]; exact hem
      · rw [h4']; exact h32
      · rw [h4']
        show off ≤ get_size (split_block m em bump n) bump + 32
        rw [h1]
        omega
    · have := (split_block_spec hL hB hocc hBF (hn.2 hb4)).1 (fun h => h48 h.2)
      rw [this]
      exact ⟨hkeep, hoffd.symm⟩
  · rw [if_neg hc]
    exact ⟨hkeep, hoffd.symm⟩

/-- Every sequence of calls keeps the invariant. -/
theorem bump_calls_inv {em bump : Nat} : ∀ (cs : List BumpCall) (s : Mem × List (Nat × Nat)),
    BumpInv s.1 em bump → RangesIn s.1 bump s.2 →
    BumpInv (bump_calls bump s cs).1 em bump ∧
      RangesIn (bump_calls bump s cs).1 bump (bump_calls bump s cs).2
  | [], _, h1, h2 => ⟨h1, h2⟩
  | c :: cs, s, h1, h2 => by
    have hstep : BumpInv (bump_call bump s c).1 em bump ∧
        RangesIn (bump_call bump s c).1 bump (bump_call bump s c).2 := by
      cases c with
      | alloc size => exact em_bump_alloc_inv h1 s.2 h2 size
      | alloc_aligned size a => exact em_bump_alloc_aligned_inv h1 s.2 h2 size a
      | reset => exact em_bump_reset_inv h1
      | trim =>
        have ht := em_bump_trim_inv h1
        refine ⟨ht.1, fun r hr => ?_, h2.2⟩
        have := h2.1 r hr
        show bump + 32 ≤ r.1 ∧ r.1 + r.2 ≤ bump + bump_get_offset (em_bump_trim s.1 bump) bump
        rw [ht.2]
        exact this
    exact bump_calls_inv cs (bump_call bump s c) hstep.1 hstep.2

/-- The fields that `em_create_bump` writes. -/
theorem em_create_bump_fields {m0 m : Mem} {em size bump : Nat}
    (hc : em_create_bump m0 em size = (m, bump)) (hb : bump ≠ 0) :
    bump_get_em m bump = em ∧ bump_get_offset m bump = 32 := by
  unfold em_create_bump at hc
  split at hc
  · have e : bump = 0 := (congrArg Prod.snd hc).symm
    exact absurd e hb
  · split at hc
    · have e : bump = 0 := (congrArg Prod.snd hc).symm
      exact absurd e hb
    · dsimp only at hc
      split at hc
      · have e : bump = 0 := (congrArg Prod.snd hc).symm
        exact absurd e hb
      · have h1 := congrArg Prod.fst hc
        have h2 := congrArg Prod.snd hc
        dsimp only at h1 h2
        rw [← h1, ← h2]
        refine ⟨?_, bump_set_offset_eq _ _ _⟩
        unfold bump_get_em get_em bump_set_offset bump_set_em set_em
        rw [Mem.write_ne _ _ (by omega), Mem.write_eq]

/-- C5: `em_alloc_aligned(em, size, alignment)` returns NULL and leaves the memory
untouched whenever `em` is null, `size` is 0, `size` exceeds the capacity of `em`,
`alignment` is not a power of two, or `alignment` lies outside
`[sizeof(uintptr_t), 256 * sizeof(uintptr_t)] = [8, 2048]`. -/
theorem em_alloc_aligned_rejects_invalid (m : Mem) (em size alignment : Nat)
    (h : em = 0 ∨ size = 0 ∨ em_get_capacity m em < size ∨ ¬ IsPow2 alignment ∨
      alignment < 8 ∨ 2048 < alignment) :
    em_alloc_aligned m em size alignment = (m, 0) := by
  unfold em_alloc_aligned
  by_cases h1 : (em = 0 || size = 0 || decide (size > em_get_capacity m em)) = true
  · rw [if_pos h1]
  · rw [if_neg h1]
    by_cases h2 : ((alignment &&& wsub alignment 1) != 0) = true
    · rw [if_pos h2]
    · rw [if_neg h2]
      by_cases h3 : (decide (alignment < MIN_ALIGNMENT) || decide (alignment > MAX_ALIGNMENT)) = true
      · rw [if_pos h3]
      · exfalso
        simp only [Bool.or_eq_true, decide_eq_true_eq, not_or, not_lt, bne_iff_ne, ne_eq,
          not_not, gt_iff_lt] at h1 h2 h3
        have hmax : MAX_ALIGNMENT = 2048 := by decide
        have hmin : MIN_ALIGNMENT = 8 := rfl
        rw [hmax, hmin] at h3
        rcases h with h | h | h | h | h | h
        · exact h1.1.1 h
        · exact h1.1.2 h
        · omega
        · have hw : wsub alignment 1 = alignment - 1 :=
            wsub_one_of_pos (by omega) (by simp only [WORD]; omega)
          rw [hw] at h2
          exact h (isPow2_of_and_pred_eq_zero alignment (by omega) h2)
        · have := h3.1; omega
        · omega

/-- Witness for C5: a zero-size request on the arena at 4096. -/
theorem em_alloc_aligned_rejects_invalid_witness :
    em_alloc_aligned (em_create_static zero_mem 4096 1024).1 4096 0 16 =
      ((em_create_static zero_mem 4096 1024).1, 0) :=
  em_alloc_aligned_rejects_invalid _ 4096 0 16 (Or.inr (Or.inl rfl))

/-- C6: `em_free(p)` changes no memory at all whenever `p` is null, `p` is not a multiple
of the word size, the header address recovered from the word before `p` is not
word-aligned, the recovered header is marked free, its magic XOR `p` differs from
`0xDEADBEEF`, or the recovered header lies outside the bounds of the arena recorded in it. -/
theorem em_free_ignores_invalid (m : Mem) (data : Nat)
    (h : data = 0 ∨ data % 8 ≠ 0 ∨ recovered_header m data % 8 ≠ 0 ∨
      get_is_free m (recovered_header m data) = true ∨
      get_magic m (recovered_header m data) ^^^ data ≠ MAGIC ∨
      is_block_within_em m (get_em m (recovered_header m data)) (recovered_header m data)
        = false) :
    em_free m data = m := by
  unfold em_free
  by_cases h0 : data = 0
  · rw [if_pos h0]
  · rw [if_neg h0]
    by_cases h1 : (data % WORD_SIZE != 0) = true
    · rw [if_pos h1]
    · rw [if_neg h1]
      have hal : data % 8 = 0 := by
        simpa only [bne_iff_ne, ne_eq, not_not] using h1
      by_cases hc : m (wsub data WORD_SIZE) ^^^ data = MAGIC
      · have hr : recovered_header m data = wsub data SIZEOF_BLOCK := by
          unfold recovered_header
          simp only [hc, if_true]
        have hral : wsub data SIZEOF_BLOCK % 8 = 0 := by
          unfold wsub
          simp only [WORD, SIZEOF_BLOCK]
          omega
        rw [hr] at h
        simp only [hc, if_true]
        rcases h with h | h | h | h | h | h
        · exact absurd h h0
        · exact absurd hal h
        · exact absurd hral h
        · simp [h]
        · simp [is_valid_magic, h]
        · simp [h]
      · have hr : recovered_header m data = m (wsub data WORD_SIZE) ^^^ data := by
          unfold recovered_header
          simp only [hc, if_false]
        rw [hr] at h
        simp only [hc, if_false]
        by_cases h2 : ((m (wsub data WORD_SIZE) ^^^ data) % WORD_SIZE != 0) = true
        · simp only [h2, if_true]
        · simp only [h2]
          have hal2 : (m (wsub data WORD_SIZE) ^^^ data) % 8 = 0 := by
            simpa only [bne_iff_ne, ne_eq, not_not] using h2
          rcases h with h | h | h | h | h | h
          · exact absurd h h0
          · exact absurd hal h
          · exact absurd hal2 h
          · simp [h]
          · simp [is_valid_magic, h]
          · simp [h]

/-- Witness for C6: a misaligned pointer into the arena at 4096. -/
theorem em_free_ignores_invalid_witness :
    em_free (em_create_static zero_mem 4096 1024).1 4161 =
      (em_create_static zero_mem 4096 1024).1 :=
  em_free_ignores_invalid _ 4161 (Or.inr (Or.inl (by decide)))

set_option maxRecDepth 100000 in
/-- C1 (evaluation at the failing input): on the fresh arena
`em_create_static(4096, 1024)` the calls `p1 = em_alloc(512)`,
`p2 = em_alloc(free_size_in_tail)` (which absorbs the tail and leaves the tail pointer on
an occupied block), `em_free(p1)`, `p3 = em_alloc(600)` yield `p2 = 4704` (416 bytes,
never freed) and `p3 = 4160`: freeing `p1` made its block the tail although the old tail
was occupied, so the live ranges `[p3, p3 + 600)` and `[p2, p2 + 416)` overlap. -/
theorem live_ranges_overlap_after_free_before_occupied_tail :
    scenA_create.2 = 4096 ∧ scenA_alloc1.2 = 4160 ∧
      free_size_in_tail scenA_alloc1.1 4096 = 416 ∧ scenA_alloc2.2 = 4704 ∧
      em_get_tail scenA_alloc2.1 4096 = 4672 ∧ get_is_free scenA_alloc2.1 4672 = false ∧
      em_get_tail scenA_free1 4096 = 4128 ∧ get_is_free scenA_free1 4672 = false ∧
      scenA_alloc3.2 = 4160 ∧
      scenA_alloc2.2 < scenA_alloc3.2 + 600 ∧ scenA_alloc3.2 < scenA_alloc2.2 + 416 := by
  decide

set_option maxRecDepth 100000 in
/-- C3 (evaluation at the failing input): on the fresh arena
`em_create_static_aligned(4096, 152, 64)` the tail has 88 free bytes;
`em_alloc_aligned(em, 40, 64)` succeeds with `p = 4160`, but the end padding 56 exceeds
the 48 bytes left, the unsigned subtraction `free_space - full_needed_block_size` wraps,
the block gets payload size 96 > 88 and the new tail header is written at 4256, past the
arena end 4248.  The following `em_free(p)` does not find the tail behind the block and
leaves `free_size_in_tail` at `2^64 - 40` instead of 88. -/
theorem alloc_free_does_not_restore_tail_space :
    scenB_create.2 = 4096 ∧ em_get_capacity scenB_create.1 4096 = 152 ∧
      free_size_in_tail scenB_create.1 4096 = 88 ∧
      scenB_alloc.2 = 4160 ∧ get_size scenB_alloc.1 4128 = 96 ∧
      em_get_tail scenB_alloc.1 4096 = 4256 ∧
      em_get_tail scenB_free 4096 = 4256 ∧ em_get_free_blocks scenB_free 4096 = 4128 ∧
      free_size_in_tail scenB_free 4096 = 18446744073709551576 := by
  decide

set_option maxRecDepth 100000 in
/-- C4 (evaluation at the failing input): on the fresh arena `em_create_static(4096, 1024)`
with `p1 = em_alloc(512)` and `p2 = em_alloc(free_size_in_tail)`, freeing `p2` then `p1`
restores `free_size_in_tail = 960` with an empty tree, but freeing `p1` then `p2` does
not: `em_free(p1)` turns the block of `p1` into a zero-size tail in front of the live
block of `p2`; `em_free(p2)` then merges the two (the blocks are not adjacent any more:
`next_block_unsafe` of 4128 is 4160, not 4672) and inserts the tail block 4128 into the
free tree, leaving `free_size_in_tail = 512`. -/
theorem free_order_p1_p2_does_not_restore :
    free_size_in_tail scenA_create.1 4096 = 960 ∧
      scenA_alloc1.2 = 4160 ∧ scenA_alloc2.2 = 4704 ∧
      free_size_in_tail scenA_free2_free1 4096 = 960 ∧
      em_get_free_blocks scenA_free2_free1 4096 = 0 ∧
      em_get_tail scenA_free1 4096 = 4128 ∧ next_block_unsafe scenA_free1 4128 = 4160 ∧
      free_size_in_tail scenA_free1_free2 4096 = 512 ∧
      em_get_free_blocks scenA_free1_free2 4096 = 4128 ∧
      em_get_tail scenA_free1_free2 4096 = 4128 := by
  decide

set_option maxRecDepth 100000 in
/-- C7 (evaluation at the failing input): on the fresh arena `em_create_static(4096, 1024)`
let `p = em_alloc(64) = 4160` and let the caller store the four words
`0, 0, em, 0xDEADBEEF XOR p` at `p`.  The first `em_free(p)` returns the block to the tail
and clears the magic slot in front of `p`, so the second `em_free(p)` takes the word
before `p` for a breadcrumb, recovers `p` itself as header, accepts the caller's words
as an occupied block and inserts it into the free tree: the root changes from NULL
to 4160 and the words at `p + 8`, `p + 16`, `p + 24` are overwritten. -/
theorem second_free_is_not_a_noop :
    scenC_alloc.2 = 4160 ∧ em_get_tail scenC_free1 4096 = 4128 ∧
      em_get_free_blocks scenC_free1 4096 = 0 ∧ get_is_free scenC_free1 4128 = true ∧
      recovered_header scenC_free1 4160 = 4160 ∧
      em_get_free_blocks scenC_free2 4096 = 4160 ∧
      scenC_free1 4176 = 4096 ∧ scenC_free2 4176 = 0 := by
  decide

set_option maxRecDepth 100000 in
/-- C9 (evaluation at the failing input): `em_create_static_aligned(4096, 4096, 2048)`
succeeds (2048 = 256 * sizeof(uintptr_t) passes the range check), but the exponent 8
does not fit the 3 alignment bits: the arena reports alignment 8, and its tail 6112 is
not `em_get_first_block(em) = 4128`. -/
theorem create_with_alignment_2048_reports_8 :
    scenD_create.2 = 4096 ∧ em_get_alignment scenD_create.1 4096 = 8 ∧
      em_get_tail scenD_create.1 4096 = 6112 ∧
      block_data (em_get_tail scenD_create.1 4096) % 2048 = 0 ∧
      em_get_first_block scenD_create.1 4096 = 4128 := by
  decide

set_option maxRecDepth 100000 in
/-- C10 (evaluation at the failing input): for the arena
`em_create_static_aligned(4096, 4096, 2048)` the tail laid out at creation is 6112 with
2048 free bytes and the first `em_alloc(em, 64)` returns 6144; after `em_reset` the tail
is `em_get_first_block(em) = 4128` (computed from the stored alignment 8), 4032 bytes
are free and the same `em_alloc(em, 64)` returns 4160. -/
theorem reset_differs_from_creation_for_alignment_2048 :
    em_get_tail scenD_create.1 4096 = 6112 ∧ free_size_in_tail scenD_create.1 4096 = 2048 ∧
      (em_alloc scenD_create.1 4096 64).2 = 6144 ∧
      em_get_tail scenD_reset 4096 = 4128 ∧ free_size_in_tail scenD_reset 4096 = 4032 ∧
      (em_alloc scenD_reset 4096 64).2 = 4160 := by
  decide


/-- C8: an allocation that is served from the tail (the free tree holds no fitting block)
and leaves less than `BLOCK_MIN_SIZE` bytes behind `padding + size` succeeds; the block it
marks occupied stays the tail of the arena and ends where the free tail space ended, so no
new tail block exists and `free_size_in_tail` is 0; and while the free tree is empty every
further `em_alloc(em, n)` returns NULL and changes nothing. -/
theorem tail_alloc_absorbs_small_remainder (m : Mem) (em size a : Nat) (H : List Nat)
    (hL : TailLayout m em H) (hem : em ≠ 0) (hsz : 0 < size)
    (hcap : size ≤ em_get_capacity m em) (ha : ValidAlignment a)
    (htree : (find_best_fit FUEL m (em_get_free_blocks m em) size a).1 = 0)
    (hfit : tail_padding m em a + size ≤ free_size_in_tail m em)
    (hsmall : free_size_in_tail m em < tail_padding m em a + size + BLOCK_MIN_SIZE) :
    (em_alloc_aligned m em size a).2 = align_up (block_data (em_get_tail m em)) a ∧
      (em_alloc_aligned m em size a).2 ≠ 0 ∧
      get_is_free (em_alloc_aligned m em size a).1
        (em_get_tail (em_alloc_aligned m em size a).1 em) = false ∧
      is_valid_magic (em_alloc_aligned m em size a).1
        (em_get_tail (em_alloc_aligned m em size a).1 em)
        (em_alloc_aligned m em size a).2 = true ∧
      get_em (em_alloc_aligned m em size a).1
        (em_get_tail (em_alloc_aligned m em size a).1 em) = em ∧
      block_data (em_get_tail (em_alloc_aligned m em size a).1 em)
        ≤ (em_alloc_aligned m em size a).2 ∧
      block_data (em_get_tail (em_alloc_aligned m em size a).1 em) +
          get_size (em_alloc_aligned m em size a).1
            (em_get_tail (em_alloc_aligned m em size a).1 em)
        = block_data (em_get_tail m em) + free_size_in_tail m em ∧
      free_size_in_tail (em_alloc_aligned m em size a).1 em = 0 ∧
      ∀ n, em_get_free_blocks (em_alloc_aligned m em size a).1 em = 0 →
        em_alloc (em_alloc_aligned m em size a).1 em n = ((em_alloc_aligned m em size a).1, 0) := by
  have hnone := alloc_in_free_blocks_none m em size a hL.root_word htree
  have hfs0 : ¬ free_size_in_tail m em = 0 := by omega
  have hE : em_alloc_aligned m em size a = alloc_in_tail_full m em size a := by
    rw [em_alloc_aligned_valid m em size a hem hsz hcap ha, hnone]
    simp only [bne_self_eq_false, Bool.false_eq_true, if_false, if_neg hfs0]
  have hcore := tail_alloc_core m em size a H hL hsz ha hfit hsmall
  rw [← hE] at hcore
  obtain ⟨c1, c2, c3, c4, c5, c6, c7, c8, c9⟩ := hcore
  have hfits := hL.space_fits
  have hbd : block_data (em_get_tail m em) = em_get_tail m em + 32 := by
    unfold block_data wadd; simp only [WORD, SIZEOF_BLOCK]; omega
  have hbd2 : block_data (em_get_tail (em_alloc_aligned m em size a).1 em) =
      em_get_tail (em_alloc_aligned m em size a).1 em + 32 := by
    unfold block_data wadd; simp only [WORD, SIZEOF_BLOCK]; omega
  refine ⟨c1, ?_, c3, c4, c5, ?_, ?_, c8, ?_⟩
  · rw [c1, c2]; omega
  · rw [hbd2]; exact c6
  · rw [hbd2, hbd]; exact c7
  · intro n h0
    exact em_alloc_exhausted _ em n h0 (c9 h0) c8

set_option maxRecDepth 100000 in
/-- Witness for C8: after `em_alloc(em, 512)` on the arena of scenario A the tail holds 416
free bytes; `em_alloc_aligned(em, 416, 16)` takes all of them. -/
theorem tail_alloc_absorbs_small_remainder_witness :
    free_size_in_tail (em_alloc_aligned scenA_alloc1.1 4096 416 16).1 4096 = 0 :=
  (tail_alloc_absorbs_small_remainder scenA_alloc1.1 4096 416 16 []
    { root_word := by decide
      tail_free := by decide
      tail_size := by decide
      tail_left := by decide
      tail_right := by decide
      tail_within := by decide
      tail_after := by decide
      space_fits := by decide
      space_small := by decide
      apart := by
        intro x hx y hy hxy
        rw [List.mem_singleton] at hx hy
        exact absurd (hx.trans hy.symm) hxy
      closed := fun h hh => absurd hh (List.not_mem_nil h)
      root_in := Or.inl (by decide)
      nodes := fun h hh => absurd hh (List.not_mem_nil h)
      scratch := fun h => absurd h (by decide) }
    (by decide) (by decide) (by decide) (by decide) (by decide) (by decide)
    (by decide)).2.2.2.2.2.2.2.1


/-- C2: on an arena with a well-formed block list (`BlockLayout`) whose tail, as long as
it has free space, is well-formed too (`TailLayout`), every non-null pointer `p` returned by
`em_alloc_aligned(em, size, alignment)` is a multiple of `alignment`, and the block whose
header `em_free` recovers from `p` is occupied, owned by `em`, carries the magic of `p`, and
its payload contains `[p, p + size)`.  The block may come from the free tree or from the
tail. -/
theorem em_alloc_aligned_pointer_aligned_and_contained (m : Mem) (em size a : Nat)
    (F Bs : List Nat) (hB : BlockLayout m em F Bs)
    (hw : m (em + 24) < 18446744073709551616)
    (hT : free_size_in_tail m em ≠ 0 → TailLayout m em F)
    (hfs : free_size_in_tail m em + 1024 ≤ 2305843009213693952)
    (hnn : (em_alloc_aligned m em size a).2 ≠ 0) :
    (em_alloc_aligned m em size a).2 % a = 0 ∧
      get_is_free (em_alloc_aligned m em size a).1
        (recovered_header (em_alloc_aligned m em size a).1
          (em_alloc_aligned m em size a).2) = false ∧
      get_em (em_alloc_aligned m em size a).1
        (recovered_header (em_alloc_aligned m em size a).1
          (em_alloc_aligned m em size a).2) = em ∧
      is_valid_magic (em_alloc_aligned m em size a).1
        (recovered_header (em_alloc_aligned m em size a).1
          (em_alloc_aligned m em size a).2)
        (em_alloc_aligned m em size a).2 = true ∧
      block_data (recovered_header (em_alloc_aligned m em size a).1
          (em_alloc_aligned m em size a).2) ≤ (em_alloc_aligned m em size a).2 ∧
      (em_alloc_aligned m em size a).2 + size ≤
        block_data (recovered_header (em_alloc_aligned m em size a).1
          (em_alloc_aligned m em size a).2) +
        get_size (em_alloc_aligned m em size a).1
          (recovered_header (em_alloc_aligned m em size a).1
            (em_alloc_aligned m em size a).2) := by
  obtain ⟨mF, p, h, hE, _, hpa, h1, h2, h3, h4, h5, h6⟩ :=
    em_alloc_aligned_spec hB hw hT hfs hnn
  rw [hE]
  dsimp only
  rw [h4]
  exact ⟨hpa, h1, h2, h3, h5, h6⟩

set_option maxRecDepth 100000 in
/-- Witness for C2: after `p1 = em_alloc(em, 64)`, `p2 = em_alloc(em, 64)`, `em_free(p1)`
the request `em_alloc_aligned(em, 8, 16)` is served from the free tree (with a split). -/
theorem em_alloc_aligned_pointer_aligned_and_contained_witness :
    (em_alloc_aligned scenE_free1 4096 8 16).2 % 16 = 0 :=
  (em_alloc_aligned_pointer_aligned_and_contained scenE_free1 4096 8 16
    [4128] [4128, 4224, 4320]
    { header_word := by decide
      arena_fits := by decide
      free_in_blocks := by decide
      blocks_fit := by decide
      blocks_apart := by decide
      chain := by decide
      closed := by unfold LinksClosed; decide
      root_in := by decide }
    (by decide)
    (fun _ => {
      root_word := by decide
      tail_free := by decide
      tail_size := by decide
      tail_left := by decide
      tail_right := by decide
      tail_within := by decide
      tail_after := by decide
      space_fits := by decide
      space_small := by decide
      apart := by unfold HeadersApart; decide
      closed := by unfold LinksClosed; decide
      root_in := by decide
      nodes := by decide
      scratch := fun h => absurd h (by decide) })
    (by decide) (by decide)).1


set_option maxRecDepth 100000 in
/-- C12 (code): in scenario G the free tree holds the block at 4128, which the best-fit
search accepts for `(16, 16)`, and the tail pointer rests on the occupied block at 5088
with no free tail space.  `em_alloc_aligned(em, 16, 16)` returns 4160 inside that block,
but the remainder of the split becomes the tail: the tail pointer moves to 4176 and
`free_size_in_tail` grows from 0 to 3984, a range that covers the live allocation at 5120. -/
theorem tree_allocation_moves_tail_onto_remainder :
    scenG_create.2 = 4096 ∧ scenG_alloc1.2 = 5120 ∧
      (find_best_fit FUEL scenG_alloc1.1 (em_get_free_blocks scenG_alloc1.1 4096) 16 16).1
        = 4128 ∧
      get_size scenG_alloc1.1 4128 = 928 ∧
      em_get_tail scenG_alloc1.1 4096 = 5088 ∧
      get_is_free scenG_alloc1.1 5088 = false ∧
      free_size_in_tail scenG_alloc1.1 4096 = 0 ∧
      scenG_alloc2.2 = 4160 ∧
      em_get_tail scenG_alloc2.1 4096 = 4176 ∧
      free_size_in_tail scenG_alloc2.1 4096 = 3984 := by
  decide

set_option maxRecDepth 100000 in
/-- C13 (code): in scenario H the blocks of `a`, `b`, `c` lie at 4128, 4288, 4448 and `c`
absorbed the tail, so the tail pointer rests on the block of `c`.  After `em_free(a)` and
`em_free(b)`, in either order, the free tree is empty: the merged range became the tail at
4128, whose free space of 960 bytes covers the live block of `c`. -/
theorem merged_blocks_become_tail_before_occupied_tail :
    scenH_allocA.2 = 4160 ∧ scenH_allocB.2 = 4320 ∧ scenH_allocC.2 = 4480 ∧
      em_get_tail scenH_allocC.1 4096 = 4448 ∧
      em_get_free_blocks scenH_freeAB 4096 = 0 ∧ em_get_tail scenH_freeAB 4096 = 4128 ∧
      get_is_free scenH_freeAB 4448 = false ∧ free_size_in_tail scenH_freeAB 4096 = 960 ∧
      em_get_free_blocks scenH_freeBA 4096 = 0 ∧ em_get_tail scenH_freeBA 4096 = 4128 ∧
      get_is_free scenH_freeBA 4448 = false ∧ free_size_in_tail scenH_freeBA 4096 = 960 := by
  decide

/-- C17: while the scratch flag of an arena is set, `em_alloc_scratch_aligned` and
`em_create_scratch_aligned` return NULL and leave the memory as it is. -/
theorem scratch_calls_rejected_while_scratch_active (m : Mem) (em size a : Nat)
    (h : em_get_has_scratch m em = true) :
    em_alloc_scratch_aligned m em size a = (m, 0) ∧
      em_create_scratch_aligned m em size a = (m, 0) := by
  refine ⟨?_, ?_⟩
  · unfold em_alloc_scratch_aligned
    simp only [h, Bool.or_true, Bool.true_or, if_true]
  · unfold em_create_scratch_aligned
    simp only [h, Bool.or_true, Bool.true_or, if_true]

set_option maxRecDepth 100000 in
/-- Witness for C17: the arena of scenario G after `em_alloc_scratch_aligned(em, 64, 16)`. -/
theorem scratch_calls_rejected_while_scratch_active_witness :
    em_alloc_scratch_aligned (em_alloc_scratch_aligned scenG_create.1 4096 64 16).1 4096 32 16
      = ((em_alloc_scratch_aligned scenG_create.1 4096 64 16).1, 0) :=
  (scratch_calls_rejected_while_scratch_active _ 4096 32 16 (by decide)).1

set_option maxRecDepth 100000 in
/-- C18 (code): `nested = em_create_nested(parent, 1000)` takes a block of payload 1008
from the parent (free tail space 4032 before, 2992 after) and stores 1000 in its size
word; `em_destroy(nested)` then frees a block of payload 1000, finds no tail behind it
and puts it into the free tree: the free tail space of the parent stays 2992. -/
theorem nested_destroy_does_not_restore_tail_space :
    free_size_in_tail scenG_create.1 4096 = 4032 ∧ scenI_nested.2 = 4128 ∧
      free_size_in_tail scenI_nested.1 4096 = 2992 ∧
      free_size_in_tail scenI_destroy 4096 = 2992 ∧
      em_get_free_blocks scenI_destroy 4096 = 4128 := by
  decide

set_option maxRecDepth 100000 in
/-- C19 (code): for `size = 64`, between `BLOCK_MIN_SIZE = 48` and `EM_MIN_SIZE = 80`, both
`em_create_nested_aligned` and `em_create_scratch_aligned` return NULL only after the
allocation from the parent has been made and `em_set_is_nested` has written through the
NULL arena (the word at address 16): the free tail space of the parent drops from 4032
to 3936 (nested) and to 3920 with the scratch flag left set (scratch). -/
theorem nested_creation_with_small_size_leaks_and_writes_through_null :
    free_size_in_tail scenG_create.1 4096 = 4032 ∧ scenG_create.1 16 = 0 ∧
      scenJ_nested.2 = 0 ∧ free_size_in_tail scenJ_nested.1 4096 = 3936 ∧
      scenJ_nested.1 16 = 2 ∧
      scenJ_scratch.2 = 0 ∧ free_size_in_tail scenJ_scratch.1 4096 = 3920 ∧
      em_get_has_scratch scenJ_scratch.1 4096 = true ∧ scenJ_scratch.1 16 = 2 := by
  decide


/-- C20: `em_calloc(em, nmemb, size)` returns NULL and leaves the memory as it is when
`em` is null, when `nmemb * size` exceeds `SIZE_MAX` (the product taken without
wrap-around) or when it is 0.  Otherwise it returns the pointer of
`em_alloc(em, nmemb * size)`; on failure the memory is that of `em_alloc`, on success all
`nmemb * size` bytes from the pointer on are zero and every other byte is as `em_alloc`
left it. -/
theorem em_calloc_null_or_zeroed_alloc (m : Mem) (em nmemb size : Nat) :
    ((em = 0 ∨ SIZE_MAX < nmemb * size ∨ nmemb * size = 0) →
        em_calloc m em nmemb size = (m, 0)) ∧
      (em ≠ 0 → nmemb * size ≤ SIZE_MAX → nmemb * size ≠ 0 →
        (em_calloc m em nmemb size).2 = (em_alloc m em (nmemb * size)).2 ∧
        ((em_alloc m em (nmemb * size)).2 = 0 →
          em_calloc m em nmemb size = em_alloc m em (nmemb * size)) ∧
        ((em_alloc m em (nmemb * size)).2 ≠ 0 →
          (∀ i, i < nmemb * size →
            byte_at (em_calloc m em nmemb size).1 ((em_calloc m em nmemb size).2 + i) = 0) ∧
          (∀ x, (x < (em_alloc m em (nmemb * size)).2 ∨
              (em_alloc m em (nmemb * size)).2 + nmemb * size ≤ x) →
            byte_at (em_calloc m em nmemb size).1 x =
              byte_at (em_alloc m em (nmemb * size)).1 x))) := by
  refine ⟨em_calloc_overflow m em nmemb size, ?_⟩
  intro hem hle _
  rw [em_calloc_eq m em nmemb size hem hle]
  obtain ⟨r, hr⟩ : ∃ r, r = em_alloc m em (nmemb * size) := ⟨_, rfl⟩
  rw [← hr]
  by_cases h0 : r.2 = 0
  · have hb : ¬ ((r.2 != 0) = true) := by simp [h0]
    rw [if_neg hb]
    exact ⟨rfl, fun _ => rfl, fun h => absurd h0 h⟩
  · have hb : (r.2 != 0) = true := by simpa using h0
    rw [if_pos hb]
    refine ⟨rfl, fun h => absurd h h0, fun _ => ⟨?_, ?_⟩⟩
    · intro i hi
      show byte_at (memset_zero r.1 r.2 (nmemb * size)) (r.2 + i) = 0
      rw [byte_at_memset_zero, if_pos ⟨by omega, by omega⟩]
    · intro x hx
      show byte_at (memset_zero r.1 r.2 (nmemb * size)) x = byte_at r.1 x
      rw [byte_at_memset_zero, if_neg (by omega)]

set_option maxRecDepth 100000 in
/-- Witness for C20: `em_calloc(em, 3, 5)` on the arena of scenario A returns what
`em_alloc(em, 15)` returns. -/
theorem em_calloc_null_or_zeroed_alloc_witness :
    (em_calloc scenA_create.1 4096 3 5).2 = (em_alloc scenA_create.1 4096 (3 * 5)).2 :=
  ((em_calloc_null_or_zeroed_alloc scenA_create.1 4096 3 5).2 (by decide) (by decide)
    (by decide)).1

/-- C15: a successful `em_alloc_scratch_aligned(em, size, a)` on a well-formed arena
(`ScratchLayout`) returns a pointer `p` that is a multiple of `a`; the range `[p, p + size)`
starts after the header of the tail block and ends at or before the last word of the arena
(`scratch_size_spot`, which lies inside the arena); and the free tail space after the call
is at most its value before the call minus `size`. -/
theorem scratch_alloc_aligned_inside_and_shrinks_tail (m mS : Mem) (em size a p : Nat)
    (hL : ScratchLayout m em)
    (hr : em_alloc_scratch_aligned m em size a = (mS, p)) (hp : p ≠ 0) :
    p % a = 0 ∧ em_get_tail m em + SIZEOF_BLOCK ≤ p ∧
      p + size ≤ scratch_size_spot m em ∧
      scratch_size_spot m em + WORD_SIZE ≤ em + em_get_capacity m em ∧
      size ≤ free_size_in_tail m em ∧
      free_size_in_tail mS em ≤ free_size_in_tail m em - size := by
  obtain ⟨ha, hsz, hpa, h1, h2, h3, hscr, hfree, hfs, hfr, h24, hsp, s4, s5, s6, s7, s8⟩ :=
    scratch_state_spec m mS em size a p hL hr hp
  have hgeo := hL.tail_after
  have hin := hL.tail_inside
  have hflag : em_get_has_scratch mS em = true := by
    unfold em_get_has_scratch
    rw [h24]
    exact flag_or_two_ne _
  have hspot : scratch_size_spot m em + WORD_SIZE ≤ em + em_get_capacity m em := by
    simp only [WORD_SIZE]; omega
  have hafter := free_size_in_tail_scratch m mS em p hL hfree h2 (by omega) h3
    (hfr _ (Or.inl (by omega)) (by omega) (by omega))
    (hfr _ (Or.inl (by omega)) (by omega) (by omega))
    (hfr _ (Or.inl (by omega)) (by omega) (by omega))
    (hfr _ (Or.inl (by omega)) (by omega) (by omega)) hflag hsp
  refine ⟨hpa, ?_, h1, hspot, ?_, ?_⟩
  · simp only [SIZEOF_BLOCK]; omega
  · omega
  · omega

set_option maxRecDepth 100000 in
/-- Witness for C15: `em_alloc_scratch_aligned(em, 64, 16)` on the arena of scenario G. -/
theorem scratch_alloc_aligned_inside_and_shrinks_tail_witness :
    (em_alloc_scratch_aligned scenG_create.1 4096 64 16).2 % 16 = 0 :=
  (scratch_alloc_aligned_inside_and_shrinks_tail scenG_create.1
    (em_alloc_scratch_aligned scenG_create.1 4096 64 16).1 4096 64 16
    (em_alloc_scratch_aligned scenG_create.1 4096 64 16).2
    ⟨by decide, by decide, by decide, by decide, by decide⟩ rfl (by decide)).1

/-- C16: let `p` be the pointer of a successful `em_alloc_scratch_aligned(em, size, a)` on
a well-formed arena, and let `m1` be any memory that differs from the memory after that
call only inside `[p, p + size)`.  Then `em_free(p)` only clears the scratch flag of the
arena: afterwards the flag is clear, the arena header, every block header and every other
word outside the scratch region (its header, `[p, p + size)` and the size word at the end
of the arena) hold what they held before the scratch allocation, so the tail pointer and
the root of the free tree are the same, and the free tail space is the one from before the
scratch allocation. -/
theorem em_free_scratch_restores_arena (m mS m1 : Mem) (em size a p : Nat)
    (hL : ScratchLayout m em) (hw : m (em + 24) < 18446744073709551616)
    (hfirst : em_get_first_block m em ≤ em_get_tail m em)
    (hr : em_alloc_scratch_aligned m em size a = (mS, p)) (hp : p ≠ 0)
    (hm1 : ∀ x, (x < p ∨ p + size ≤ x) → m1 x = mS x) :
    em_free m1 p = em_set_has_scratch m1 em false ∧
      em_get_has_scratch (em_free m1 p) em = false ∧
      (∀ x, (x < p - SIZEOF_BLOCK ∨ p + size ≤ x) → x ≠ scratch_size_spot m em →
        em_free m1 p x = m x) ∧
      em_get_tail (em_free m1 p) em = em_get_tail m em ∧
      em_get_free_blocks (em_free m1 p) em = em_get_free_blocks m em ∧
      free_size_in_tail (em_free m1 p) em = free_size_in_tail m em := by
  have hE := em_free_scratch_pointer m mS m1 em size a p hL hfirst hr hp hm1
  obtain ⟨ha, hsz, hpa, h1, h2, h3, hscr, hfree, hfs, hfr, h24, hsp, s4, s5, s6, s7, s8⟩ :=
    scratch_state_spec m mS em size a p hL hr hp
  have hgeo := hL.tail_after
  have hin := hL.tail_inside
  rw [hE]
  have hclear : m (em + 24) &&& HAS_SCRATCH_FLAG = 0 := by
    unfold em_get_has_scratch at hscr
    simpa using hscr
  have hflagword : em_set_has_scratch m1 em false (em + 24) = m (em + 24) := by
    unfold em_set_has_scratch
    simp only [Mem.write_eq, Bool.false_eq_true, if_false]
    rw [hm1 _ (Or.inl (by omega)), h24]
    exact scratch_flag_round_trip _ hw hclear
  have hframe : ∀ x, (x < p - SIZEOF_BLOCK ∨ p + size ≤ x) → x ≠ scratch_size_spot m em →
      em_set_has_scratch m1 em false x = m x := by
    intro x hx hx2
    simp only [SIZEOF_BLOCK] at hx
    by_cases hx3 : x = em + 24
    · rw [hx3]; exact hflagword
    · have e1 : em_set_has_scratch m1 em false x = m1 x := by
        unfold em_set_has_scratch
        exact Mem.write_ne _ _ hx3
      rw [e1, hm1 x (by omega)]
      exact hfr x (by omega) hx2 hx3
  have g0 := hframe em (Or.inl (by simp only [SIZEOF_BLOCK]; omega)) (by omega)
  have g8 := hframe (em + 8) (Or.inl (by simp only [SIZEOF_BLOCK]; omega)) (by omega)
  have g16 := hframe (em + 16) (Or.inl (by simp only [SIZEOF_BLOCK]; omega)) (by omega)
  have g24 := hflagword
  have gt0 := hframe (em_get_tail m em) (Or.inl (by simp only [SIZEOF_BLOCK]; omega))
    (by omega)
  have gt8 := hframe (em_get_tail m em + 8) (Or.inl (by simp only [SIZEOF_BLOCK]; omega))
    (by omega)
  have htail : em_get_tail (em_set_has_scratch m1 em false) em = em_get_tail m em := by
    unfold em_get_tail
    rw [g16]
  refine ⟨rfl, has_scratch_cleared m1 em, hframe, htail, ?_, ?_⟩
  · unfold em_get_free_blocks
    rw [g24]
  · have t0 : em_get_tail m em ≠ 0 := by omega
    have f1 : get_is_free (em_set_has_scratch m1 em false)
        (em_get_tail (em_set_has_scratch m1 em false) em) = true := by
      rw [htail, get_is_free_congr gt8]; exact hfree
    have c1 : effective_capacity (em_set_has_scratch m1 em false) em =
        em_get_capacity m em := by
      unfold effective_capacity
      rw [has_scratch_cleared m1 em]
      simp only [Bool.false_eq_true, if_false]
      unfold em_get_capacity
      exact get_size_congr g0
    have c2 : effective_capacity m em = em_get_capacity m em := by
      unfold effective_capacity
      rw [hscr]
      simp only [Bool.false_eq_true, if_false]
    rw [free_size_in_tail_eq _ em (by rw [htail]; exact t0) f1,
      free_size_in_tail_eq m em t0 hfree, c1, c2, htail, get_size_congr gt0]

set_option maxRecDepth 100000 in
/-- Witness for C16: `em_free(p)` right after `p = em_alloc_scratch_aligned(em, 64, 16)` on
the arena of scenario G. -/
theorem em_free_scratch_restores_arena_witness :
    free_size_in_tail
        (em_free (em_alloc_scratch_aligned scenG_create.1 4096 64 16).1
          (em_alloc_scratch_aligned scenG_create.1 4096 64 16).2) 4096 =
      free_size_in_tail scenG_create.1 4096 :=
  (em_free_scratch_restores_arena scenG_create.1
    (em_alloc_scratch_aligned scenG_create.1 4096 64 16).1
    (em_alloc_scratch_aligned scenG_create.1 4096 64 16).1 4096 64 16
    (em_alloc_scratch_aligned scenG_create.1 4096 64 16).2
    ⟨by decide, by decide, by decide, by decide, by decide⟩ (by decide) (by decide) rfl
    (by decide) (fun _ _ => rfl)).2.2.2.2.2

set_option maxRecDepth 100000 in
/-- C14 (as stated, refuted): in scenario K the free tree is the block at 4224 (32 bytes,
payload 4256) with the block at 4128 (16 bytes, payload 4160) as its left child, ordered
by the key of `insert_block`.  For the request of 16 bytes at alignment 64 the block at
4128 fits without padding, yet `find_best_fit` returns NULL: the root is large enough for
16 bytes but not for its padding of 32 bytes, and the search goes on to the right only. -/
theorem find_best_fit_skips_fitting_block_left_of_padded_node :
    scenK_tree.InMem scenK_free (em_get_free_blocks scenK_free 4096) ∧
      scenK_tree.Ordered scenK_free ∧
      4128 ∈ scenK_tree.blocks ∧ FitsRequest scenK_free 16 64 4128 ∧
      get_size scenK_free 4224 = 32 ∧ ¬ FitsRequest scenK_free 16 64 4224 ∧
      (find_best_fit FUEL scenK_free (em_get_free_blocks scenK_free 4096) 16 64).1 = 0 := by
  decide

/-- C14 (amended): for every free tree ordered by the key of `insert_block` and every
request, `find_best_fit` returns NULL or a tree block `b` with
`size(b) ≥ size + (align_up(payload(b), a) - payload(b))`.  If moreover no tree block is
large enough for `size` alone and too small once its padding is added, the returned block
has minimum payload size among all tree blocks that satisfy the inequality, and NULL is
returned only if no tree block satisfies it. -/
theorem find_best_fit_smallest_fit_without_padded_misfit (m : Mem) (t : FreeTree)
    (root size a fuel : Nat) (hin : t.InMem m root) (hord : t.Ordered m)
    (hfuel : t.height ≤ fuel) (ha : ValidAlignment a)
    (hw : ∀ b ∈ t.blocks, m b < WORD ∧ b + SIZEOF_BLOCK + a ≤ WORD) :
    ((find_best_fit fuel m root size a).1 = 0 ∨
        ((find_best_fit fuel m root size a).1 ∈ t.blocks ∧
          FitsRequest m size a (find_best_fit fuel m root size a).1)) ∧
      ((∀ b ∈ t.blocks, size ≤ get_size m b → FitsRequest m size a b) →
        ((find_best_fit fuel m root size a).1 = 0 →
          ∀ b ∈ t.blocks, ¬ FitsRequest m size a b) ∧
        (∀ b ∈ t.blocks, FitsRequest m size a b →
          get_size m (find_best_fit fuel m root size a).1 ≤ get_size m b)) := by
  rw [find_best_fit_fst]
  have hiff : ∀ b ∈ t.blocks, Fits m size a b ↔ FitsRequest m size a b :=
    fun b hb => fits_iff_fitsRequest m size a b ha (hw b hb).1 (hw b hb).2
  obtain ⟨i1, i2⟩ := @find_best_fit_loop_tree m size a t fuel 0 0 root 0
    hin hord hfuel
  refine ⟨?_, ?_⟩
  · rcases i1 with i1 | ⟨i1, i1b, _⟩
    · exact Or.inl i1
    · exact Or.inr ⟨i1, (hiff _ i1).1 i1b⟩
  · intro hno
    have i3 := i2 (fun b hb hs => (hiff b hb).2 (hno b hb hs))
    refine ⟨?_, ?_⟩
    · intro h0 b hb hfit
      exact (i3 b hb ((hiff b hb).2 hfit)).1 h0
    · intro b hb hfit
      exact (i3 b hb ((hiff b hb).2 hfit)).2

set_option maxRecDepth 100000 in
/-- Witness for C14 (amended): the tree of scenario K and the request of 16 bytes at
alignment 16, for which both blocks need no padding; the returned block is at most as large
as the fitting block at 4224. -/
theorem find_best_fit_smallest_fit_without_padded_misfit_witness :
    get_size scenK_free
        (find_best_fit FUEL scenK_free (em_get_free_blocks scenK_free 4096) 16 16).1 ≤
      get_size scenK_free 4224 :=
  ((find_best_fit_smallest_fit_without_padded_misfit scenK_free scenK_tree
    (em_get_free_blocks scenK_free 4096) 16 16 FUEL (by decide) (by decide) (by decide)
    (by decide) (by decide)).2 (by decide)).2 4224 (by decide) (by decide)

/-- C11: on an arena with a well-formed block list and tail (as for C2), lying behind the
first 2048 bytes of the address space and ending below its top, with every listed block at
or behind the first block, a successful `em_alloc_aligned(em, size, alignment)` with result
`p` leaves a block `h` such that: the header-recovery rule of `em_free` applied to `p`
yields `h`; when `p` is not `h + sizeof(Block)` the word before `p` is `h XOR p`; `h` is
not free, `magic(h) XOR p` is `0xDEADBEEF`, `get_em(h)` is `em`, and `h` lies within the
bounds of `em`; and the payload of `h` holds `[p, p + size)`. -/
theorem em_alloc_aligned_header_recovered_and_valid (m : Mem) (em size a : Nat)
    (F Bs : List Nat) (hB : BlockLayout m em F Bs)
    (hw : m (em + 24) < 18446744073709551616)
    (hT : free_size_in_tail m em ≠ 0 → TailLayout m em F)
    (hfs : free_size_in_tail m em + 1024 ≤ 2305843009213693952)
    (hlow : 2048 ≤ em) (harena : em + em_get_capacity m em < 18446744073709551616)
    (hfirst : ∀ b ∈ Bs, em_get_first_block m em ≤ b)
    (hnn : (em_alloc_aligned m em size a).2 ≠ 0) :
    ∃ mF p h, em_alloc_aligned m em size a = (mF, p) ∧ p ≠ 0 ∧
      recovered_header mF p = h ∧
      (p ≠ h + SIZEOF_BLOCK → mF (p - WORD_SIZE) = h ^^^ p) ∧
      get_is_free mF h = false ∧ get_magic mF h ^^^ p = MAGIC ∧ get_em mF h = em ∧
      is_block_within_em mF em h = true ∧
      h + SIZEOF_BLOCK ≤ p ∧ p + size ≤ h + SIZEOF_BLOCK + get_size mF h := by
  obtain ⟨mF, p, h, hE, hp0, _, hfree, hem, hmagic, hrec, hbd, hin, _, hsz, hfem, hhp, hloc⟩ :=
    em_alloc_aligned_full_spec hB hw hT hfs hnn
  have hemF := hfem hlow
  -- where the block lies
  have hbounds : em_get_first_block m em ≤ h ∧ p + size ≤ em + em_get_capacity m em := by
    rcases hloc with ⟨hBs, hle⟩ | ⟨h0, hge, hle⟩
    · have := (hB.blocks_fit h hBs).2.2
      exact ⟨hfirst h hBs, by omega⟩
    · have := tail_space_inside (hT h0) h0 hB.header_word harena
      exact ⟨by omega, by omega⟩
  have hbdh : block_data h = h + 32 := by
    unfold block_data wadd; simp only [WORD, SIZEOF_BLOCK]; omega
  have hwithin : is_block_within_em mF em h = true := by
    rw [is_block_within_em_congr hemF]
    unfold is_block_within_em
    have hwa : wadd em (em_get_capacity m em) = em + em_get_capacity m em := by
      unfold wadd; simp only [WORD]; omega
    rw [hwa]
    simp only [Bool.and_eq_true, decide_eq_true_eq]
    omega
  have hmg : get_magic mF h ^^^ p = MAGIC := by
    unfold is_valid_magic at hmagic
    simpa using hmagic
  refine ⟨mF, p, h, hE, hp0, hrec, ?_, hfree, hmg, hem, hwithin, hhp, ?_⟩
  · intro hne
    exact breadcrumb_of_recovered_header mF p h hrec (by omega) (by omega) hne
  · rw [hbdh] at hin
    exact hin

set_option maxRecDepth 100000 in
/-- Witness for C11: after `em_alloc(em, 16)` on the arena of scenario G the tail payload
starts at 4208; `em_alloc_aligned(em, 24, 32)` is served from the tail with a padding of 16
bytes, so that the header is found through the word before the pointer. -/
theorem em_alloc_aligned_header_recovered_and_valid_witness :
    (em_alloc_aligned scenK_alloc1.1 4096 24 32).2 ≠ 0 ∧
      is_block_within_em (em_alloc_aligned scenK_alloc1.1 4096 24 32).1 4096
        (recovered_header (em_alloc_aligned scenK_alloc1.1 4096 24 32).1
          (em_alloc_aligned scenK_alloc1.1 4096 24 32).2) = true := by
  obtain ⟨mF, p, h, hE, hp0, hrec, _, _, _, _, hwithin, _⟩ :=
    em_alloc_aligned_header_recovered_and_valid scenK_alloc1.1 4096 24 32
      [] [4128, 4176]
      { header_word := by decide
        arena_fits := by decide
        free_in_blocks := by decide
        blocks_fit := by decide
        blocks_apart := by decide
        chain := by decide
        closed := by unfold LinksClosed; decide
        root_in := by decide }
      (by decide)
      (fun _ => {
        root_word := by decide
        tail_free := by decide
        tail_size := by decide
        tail_left := by decide
        tail_right := by decide
        tail_within := by decide
        tail_after := by decide
        space_fits := by decide
        space_small := by decide
        apart := by unfold HeadersApart; decide
        closed := by unfold LinksClosed; decide
        root_in := by decide
        nodes := by decide
        scratch := fun h => absurd h (by decide) })
      (by decide) (by decide) (by decide) (by decide) (by decide)
  rw [hE]
  subst hrec
  exact ⟨hp0, hwithin⟩

/-- C21: `em_bump_alloc(bump, size)` returns NULL and leaves the memory (hence the offset)
as it is when `bump` is null.  On a well-formed bump allocator (offset at least
`sizeof(Bump)`, at most `capacity` bytes handed out, the block inside the address space)
it returns NULL and leaves the memory as it is exactly when `size` is 0 or
`size >= capacity - (offset - sizeof(Bump))`; otherwise it returns `bump + offset`, which
is not NULL, increases the offset by exactly `size` and writes no other word, and a second
successful allocation returns the first pointer plus the first size. -/
theorem em_bump_alloc_null_or_advances (m : Mem) (bump size size2 : Nat) :
    (bump = 0 → em_bump_alloc m bump size = (m, 0)) ∧
      (bump ≠ 0 → 32 ≤ bump_get_offset m bump →
        bump_get_offset m bump - 32 ≤ bump_get_capacity m bump →
        m bump < 18446744073709551616 →
        bump + 32 + bump_get_capacity m bump ≤ 18446744073709551616 →
        ((size = 0 ∨ bump_get_capacity m bump - (bump_get_offset m bump - SIZEOF_BUMP) ≤ size) →
          em_bump_alloc m bump size = (m, 0)) ∧
        (size ≠ 0 →
          size < bump_get_capacity m bump - (bump_get_offset m bump - SIZEOF_BUMP) →
          (em_bump_alloc m bump size).2 = bump + bump_get_offset m bump ∧
          (em_bump_alloc m bump size).2 ≠ 0 ∧
          bump_get_offset (em_bump_alloc m bump size).1 bump =
            bump_get_offset m bump + size ∧
          (em_bump_alloc m bump size).1 =
            bump_set_offset m bump (bump_get_offset m bump + size) ∧
          (size2 ≠ 0 →
            size2 < bump_get_capacity m bump -
              (bump_get_offset m bump + size - SIZEOF_BUMP) →
            (em_bump_alloc (em_bump_alloc m bump size).1 bump size2).2 =
              (em_bump_alloc m bump size).2 + size))) := by
  refine ⟨?_, ?_⟩
  · intro h
    unfold em_bump_alloc
    rw [if_pos h]
  · intro hb hoff hcap hw hfit
    obtain ⟨c1, c2⟩ := em_bump_alloc_cases m bump size hb hoff hcap hw hfit
    refine ⟨c1, ?_⟩
    intro h0 hlt
    simp only [SIZEOF_BUMP] at hlt
    have heq := c2 h0 hlt
    rw [heq]
    refine ⟨rfl, by omega, bump_set_offset_eq _ _ _, rfl, ?_⟩
    intro h20 hlt2
    simp only [SIZEOF_BUMP] at hlt2
    obtain ⟨m1, hm1⟩ : ∃ x, x = bump_set_offset m bump (bump_get_offset m bump + size) :=
      ⟨_, rfl⟩
    rw [← hm1]
    have o1 : bump_get_offset m1 bump = bump_get_offset m bump + size := by
      rw [hm1]; exact bump_set_offset_eq _ _ _
    have k1 : bump_get_capacity m1 bump = bump_get_capacity m bump := by
      rw [hm1]; exact bump_set_offset_cap _ _ _
    have w1 : m1 bump = m bump := by
      rw [hm1]; exact Mem.write_ne m _ (by omega)
    obtain ⟨_, d2⟩ := em_bump_alloc_cases m1 bump size2 hb (by rw [o1]; omega)
      (by rw [o1, k1]; omega) (by rw [w1]; exact hw) (by rw [k1]; exact hfit)
    rw [d2 h20 (by rw [o1, k1]; omega), o1]
    show bump + (bump_get_offset m bump + size) = bump + bump_get_offset m bump + size
    omega

set_option maxRecDepth 100000 in
/-- Witness for C21: a bump allocator of 256 bytes on the arena of scenario G; two
allocations of 40 and 24 bytes are contiguous. -/
theorem em_bump_alloc_null_or_advances_witness :
    (em_bump_alloc (em_bump_alloc scenL_bump.1 scenL_bump.2 40).1 scenL_bump.2 24).2 =
      (em_bump_alloc scenL_bump.1 scenL_bump.2 40).2 + 40 :=
  (((em_bump_alloc_null_or_advances scenL_bump.1 scenL_bump.2 40 24).2 (by decide)
    (by decide) (by decide) (by decide) (by decide)).2 (by decide) (by decide)).2.2.2.2
    (by decide) (by decide)

/-- C22: `em_bump_alloc_aligned(bump, size, a)` returns NULL and leaves the memory (hence
the offset) as it is when `bump` is null, `a` is not a power of two in `[8, 2048]` or
`size` is 0.  On a well-formed bump allocator (as for C21) it also does so when the
alignment padding plus `size` is at least the remaining capacity
`capacity - (offset - sizeof(Bump))`; and every non-null result `p` is a multiple of `a`,
satisfies `p >= bump + offset` for the old offset, and the only word written is the
offset, which becomes `(p - bump) + size`. -/
theorem em_bump_alloc_aligned_aligned_and_advances (m : Mem) (bump size a : Nat) :
    ((bump = 0 ∨ ¬ IsPow2 a ∨ a < 8 ∨ 2048 < a ∨ size = 0) →
        em_bump_alloc_aligned m bump size a = (m, 0)) ∧
      (bump ≠ 0 → 32 ≤ bump_get_offset m bump →
        bump_get_offset m bump - 32 ≤ bump_get_capacity m bump →
        m bump < 18446744073709551616 →
        bump + 32 + bump_get_capacity m bump ≤ 18446744073709551616 →
        (bump_get_capacity m bump - (bump_get_offset m bump - SIZEOF_BUMP) ≤
            wsub (align_up (bump + bump_get_offset m bump) a)
              (bump + bump_get_offset m bump) + size →
          em_bump_alloc_aligned m bump size a = (m, 0)) ∧
        ((em_bump_alloc_aligned m bump size a).2 ≠ 0 →
          (em_bump_alloc_aligned m bump size a).2 % a = 0 ∧
          bump + bump_get_offset m bump ≤ (em_bump_alloc_aligned m bump size a).2 ∧
          bump_get_offset (em_bump_alloc_aligned m bump size a).1 bump =
            ((em_bump_alloc_aligned m bump size a).2 - bump) + size ∧
          (em_bump_alloc_aligned m bump size a).1 =
            bump_set_offset m bump
              (((em_bump_alloc_aligned m bump size a).2 - bump) + size))) := by
  refine ⟨?_, ?_⟩
  · intro h
    apply em_bump_alloc_aligned_invalid
    rcases h with h | h | h | h | h
    · exact Or.inl h
    · refine Or.inr (Or.inl (fun hv => h ?_))
      obtain ⟨k, _, hk⟩ := validAlignment_pow a hv
      exact ⟨k, hk⟩
    · refine Or.inr (Or.inl (fun hv => ?_))
      simp only [ValidAlignment, List.mem_cons, List.mem_singleton, List.not_mem_nil,
        or_false] at hv
      omega
    · refine Or.inr (Or.inl (fun hv => ?_))
      simp only [ValidAlignment, List.mem_cons, List.mem_singleton, List.not_mem_nil,
        or_false] at hv
      omega
    · exact Or.inr (Or.inr h)
  · intro hb hoff hcap hw hfit
    by_cases hv : ValidAlignment a ∧ size ≠ 0
    · obtain ⟨c1, c2⟩ := em_bump_alloc_aligned_cases m bump size a hb hv.1 hv.2 hoff hcap
        hw hfit
      refine ⟨c1, ?_⟩
      intro hnn
      by_cases hlt : wsub (align_up (bump + bump_get_offset m bump) a)
          (bump + bump_get_offset m bump) + size <
          bump_get_capacity m bump - (bump_get_offset m bump - 32)
      · obtain ⟨heq, hmod⟩ := c2 hlt
        rw [heq]
        dsimp only
        obtain ⟨pad, hpad⟩ : ∃ x, x = wsub (align_up (bump + bump_get_offset m bump) a)
            (bump + bump_get_offset m bump) := ⟨_, rfl⟩
        rw [← hpad] at hmod ⊢
        have e1 : bump + bump_get_offset m bump + pad - bump + size =
            bump_get_offset m bump + (pad + size) := by omega
        rw [e1]
        exact ⟨hmod, by omega, bump_set_offset_eq _ _ _, rfl⟩
      · rw [c1 (by omega)] at hnn
        exact absurd rfl hnn
    · have hnull : em_bump_alloc_aligned m bump size a = (m, 0) := by
        apply em_bump_alloc_aligned_invalid
        by_cases h1 : ValidAlignment a
        · exact Or.inr (Or.inr (by
            by_contra h0
            exact hv ⟨h1, h0⟩))
        · exact Or.inr (Or.inl h1)
      refine ⟨fun _ => hnull, ?_⟩
      intro hnn
      rw [hnull] at hnn
      exact absurd rfl hnn

set_option maxRecDepth 100000 in
/-- Witness for C22: on the bump allocator of scenario L, after 8 bytes were handed out,
`em_bump_alloc_aligned(bump, 24, 64)` returns a multiple of 64. -/
theorem em_bump_alloc_aligned_aligned_and_advances_witness :
    (em_bump_alloc_aligned (em_bump_alloc scenL_bump.1 scenL_bump.2 8).1 scenL_bump.2 24
      64).2 % 64 = 0 :=
  (((em_bump_alloc_aligned_aligned_and_advances (em_bump_alloc scenL_bump.1 scenL_bump.2 8).1
    scenL_bump.2 24 64).2 (by decide) (by decide) (by decide) (by decide) (by decide)).2
    (by decide)).1

set_option maxRecDepth 100000 in
/-- C25 (code): on the arena of scenario B (capacity 152, alignment 64) the free tail space
is 88 bytes.  `alloc_in_tail_full(em, 40, 64)` succeeds with the pointer 4160,
but the payload size written into the block at 4128 is 96: the end padding of 56 bytes
exceeds the 48 bytes that remain, `free_space - full_needed_block_size` wraps around and
passes the test against `BLOCK_MIN_SIZE`.  The block ends at 4256 and the new tail header
is written there, behind the end of the arena at 4248, and `free_size_in_tail` grows from
88 to `2^64 - 40`. -/
theorem tail_allocation_writes_size_beyond_free_space :
    scenB_create.2 = 4096 ∧ free_size_in_tail scenB_create.1 4096 = 88 ∧
      wadd 4096 (em_get_capacity scenB_create.1 4096) = 4248 ∧
      scenB_tail.2 = 4160 ∧ get_size scenB_tail.1 4128 = 96 ∧
      next_block_unsafe scenB_tail.1 4128 = 4256 ∧
      em_get_tail scenB_tail.1 4096 = 4256 ∧
      free_size_in_tail scenB_tail.1 4096 = 18446744073709551576 := by
  decide

set_option maxRecDepth 100000 in
/-- C26 (code): `em_create_static_aligned(4096, 80, 1024)` succeeds on a region of 80 bytes
that ends at 4176: the capacity is 80, but the first block is placed at 5088, where its
header (and the offset word at 5080 in front of it) is written outside the region, and
`free_size_in_tail` wraps around to `2^64 - 944`, far above the capacity. -/
theorem create_static_aligned_places_first_block_outside_region :
    scenM_create.2 = 4096 ∧ em_get_capacity scenM_create.1 4096 = 80 ∧
      em_get_first_block scenM_create.1 4096 = 5088 ∧
      em_get_tail scenM_create.1 4096 = 5088 ∧
      zero_mem 5080 = 0 ∧ scenM_create.1 5080 = 1985 ∧
      zero_mem 5096 = 0 ∧ scenM_create.1 5096 = 1 ∧
      free_size_in_tail scenM_create.1 4096 = 18446744073709550672 := by
  decide

set_option maxRecDepth 100000 in
/-- C27 (code): `em_create_nested(parent, 1000)` takes the block at 4128 with a payload of
1008 bytes, so the next header (the tail) lies at 5168 with `prev = 4128`; but the creation
of the nested arena stores its capacity 1000 in the size word of the block, and
`next_block(parent, 4128)` is 5160.  The same holds for the block of a later
`em_alloc(parent, 64)`, which is the block at 5168. -/
theorem nested_creation_breaks_prev_next_chain :
    scenI_nested.2 = 4128 ∧ get_size scenI_nested.1 4128 = 1000 ∧
      em_get_tail scenI_nested.1 4096 = 5168 ∧ get_prev scenI_nested.1 5168 = 4128 ∧
      next_block scenI_nested.1 4096 (get_prev scenI_nested.1 5168) = 5160 ∧
      scenI_alloc.2 = 5200 ∧ recovered_header scenI_alloc.1 5200 = 5168 ∧
      get_prev scenI_alloc.1 5168 = 4128 ∧
      next_block scenI_alloc.1 4096 (get_prev scenI_alloc.1 5168) = 5160 := by
  decide

set_option maxRecDepth 100000 in
/-- C28 (code): in scenario A the allocation `p2` absorbs the tail, `em_free(p1)` makes the
block at 4128 the tail in front of the occupied block of `p2`, and `em_free(p2)` then
merges that block into the tail and inserts the tail into the free tree: the root of the
tree is the tail block itself. -/
theorem tail_block_inserted_into_free_tree :
    em_get_tail scenA_free1 4096 = 4128 ∧ em_get_free_blocks scenA_free1 4096 = 0 ∧
      get_is_free scenA_free1 4672 = false ∧
      em_get_tail scenA_free1_free2 4096 = 4128 ∧
      em_get_free_blocks scenA_free1_free2 4096 = 4128 ∧
      get_is_free scenA_free1_free2 4128 = true := by
  decide

/-- C23: `em_bump_trim(bump)` on a bump allocator whose block is an occupied block of a
well-formed parent arena (offset at least `sizeof(Bump)`, at most `capacity` bytes handed
out, the aligned end inside the address space) never changes the offset and leaves a
capacity of at least `offset - sizeof(Bump)`.  The capacity is unchanged when the part that
could be returned, `capacity - trim_payload`, is smaller than `BLOCK_MIN_SIZE`; otherwise
it becomes `trim_payload = align_up(bump + offset + sizeof(Block), parent alignment)
- 2*sizeof(Block) - bump`, the payload address of the block split off behind it is a
multiple of the parent alignment, and that block is marked free. -/
theorem em_bump_trim_keeps_offset_and_handed_out_bytes (m : Mem) (bump : Nat)
    (F Bs : List Nat) (hbump : bump ≠ 0)
    (hL : BlockLayout m (bump_get_em m bump) F Bs) (hB : bump ∈ Bs) (hBF : bump ∉ F)
    (hocc : get_is_free m bump = false)
    (hoff : SIZEOF_BUMP ≤ bump_get_offset m bump)
    (hcap : bump_get_offset m bump - SIZEOF_BUMP ≤ bump_get_capacity m bump)
    (htop : bump + bump_get_offset m bump + SIZEOF_BLOCK +
      em_get_alignment m (bump_get_em m bump) ≤ WORD) :
    bump_get_offset (em_bump_trim m bump) bump = bump_get_offset m bump ∧
      bump_get_offset m bump - SIZEOF_BUMP ≤ bump_get_capacity (em_bump_trim m bump) bump ∧
      (bump_get_capacity m bump - trim_payload m bump < BLOCK_MIN_SIZE →
        bump_get_capacity (em_bump_trim m bump) bump = bump_get_capacity m bump) ∧
      (BLOCK_MIN_SIZE ≤ bump_get_capacity m bump - trim_payload m bump →
        bump_get_capacity (em_bump_trim m bump) bump = trim_payload m bump ∧
        (bump + SIZEOF_BLOCK + trim_payload m bump + SIZEOF_BLOCK) %
          em_get_alignment m (bump_get_em m bump) = 0 ∧
        get_is_free (em_bump_trim m bump) (bump + SIZEOF_BLOCK + trim_payload m bump)
          = true) := by
  simp only [SIZEOF_BUMP, SIZEOF_BLOCK, WORD, BLOCK_MIN_SIZE, EM_MIN_BUFFER_SIZE] at *
  obtain ⟨hn, hnlo, hnal, hn4⟩ := trim_payload_eq m bump hoff htop
  have hb4 := (hL.blocks_fit bump hB).2.1
  have hsp := split_block_spec hL hB hocc hBF (hn4 hb4)
  obtain ⟨n, hnd⟩ : ∃ x, x = trim_payload m bump := ⟨_, rfl⟩
  rw [← hnd] at hn hnlo hnal hsp ⊢
  have hE : em_bump_trim m bump =
      if bump_get_capacity m bump > n then split_block m (bump_get_em m bump) bump n
      else m := by
    unfold em_bump_trim
    rw [if_neg hbump]
    dsimp only
    rw [hn]
  unfold bump_get_capacity bump_get_offset at *
  by_cases hc : get_size m bump > n
  · rw [if_pos hc] at hE
    by_cases h48 : 48 ≤ get_size m bump - n
    · obtain ⟨h1, h2, _, h4⟩ := hsp.2 hc h48
      rw [hE]
      refine ⟨h4, ?_, ?_, ?_⟩
      · rw [h1]; exact hnlo
      · intro h; omega
      · intro _; exact ⟨h1, hnal, h2⟩
    · have := hsp.1 (fun h => h48 h.2)
      rw [hE, this]
      refine ⟨rfl, hcap, fun _ => rfl, fun h => absurd h h48⟩
  · rw [if_neg hc] at hE
    rw [hE]
    refine ⟨rfl, hcap, fun _ => rfl, fun h => ?_⟩
    omega

set_option maxRecDepth 100000 in
/-- Witness for C23: the bump allocator of scenario L (capacity 256 at 4128 in the arena at
4096) has handed out 40 bytes; trimming keeps the offset 72 and leaves the capacity 48. -/
theorem em_bump_trim_keeps_offset_and_handed_out_bytes_witness :
    bump_get_offset (em_bump_trim scenL_alloc.1 4128) 4128 = 72 ∧
      bump_get_capacity (em_bump_trim scenL_alloc.1 4128) 4128 = 48 ∧
      get_is_free (em_bump_trim scenL_alloc.1 4128) 4208 = true := by
  obtain ⟨h1, _, _, h4⟩ :=
    em_bump_trim_keeps_offset_and_handed_out_bytes scenL_alloc.1 4128 [] [4128, 4416]
      (by decide)
      { header_word := by decide
        arena_fits := by decide
        free_in_blocks := by decide
        blocks_fit := by decide
        blocks_apart := by decide
        chain := by decide
        closed := by unfold LinksClosed; decide
        root_in := by decide }
      (by decide) (by decide) (by decide) (by decide) (by decide) (by decide)
  obtain ⟨h5, _, h7⟩ := h4 (by decide)
  have e1 : bump_get_offset scenL_alloc.1 4128 = 72 := by decide
  have e2 : trim_payload scenL_alloc.1 4128 = 48 := by decide
  rw [e1] at h1
  rw [e2] at h5 h7
  exact ⟨h1, h5, h7⟩

/-- C29: let `t` be the free tree below `root` in memory `m`, ordered by the key (payload
size ascending, then `ctz` of the payload address ascending, then header address descending),
with headers that do not overlap, and of a height below the fuel.  Then
`insert_block(root, x)` of a block `x` that is not null, has null links and overlaps no node
leaves a tree that is ordered by the key and whose blocks are those of `t` and `x`; and
`detach_block_by_ptr(root, x)` for a node `x` of `t` finds `x` with its walk and leaves,
after the balance pass on the root, a tree that is ordered by the key and whose blocks are
those of `t` without `x`. -/
theorem insert_block_and_detach_keep_tree_ordered (m : Mem) (t : FreeTree)
    (root x fuel : Nat) (hi : t.InMem m root) (ho : t.Ordered m)
    (hs : t.blocks.Pairwise HeaderGap) (hf : t.height < fuel) :
    (x ≠ 0 → get_left_tree m x = 0 → get_right_tree m x = 0 →
        (∀ y ∈ t.blocks, HeaderGap x y) →
        ∃ t' : FreeTree,
          t'.InMem (insert_block fuel m root x).1 (insert_block fuel m root x).2 ∧
          t'.Ordered (insert_block fuel m root x).1 ∧ t'.blocks.Perm (x :: t.blocks)) ∧
      (x ∈ t.blocks →
        (find_by_ptr_loop m x (get_size m x) (min_exponent_of (block_data x))
          fuel root 0).1 = x ∧
        ∃ t' : FreeTree,
          t'.InMem (detach_block_by_ptr fuel m root x).1
            (detach_block_by_ptr fuel m root x).2 ∧
          t'.Ordered (detach_block_by_ptr fuel m root x).1 ∧
          (x :: t'.blocks).Perm t.blocks) := by
  have hci : (t.paint m).InMem m root := FreeTree.paint_inMem hi
  have hcb : (t.paint m).blocks = t.blocks := by
    rw [← ColorTree.blocks_shape, FreeTree.shape_paint]
  have hch : (t.paint m).height = t.height := by
    rw [← ColorTree.height_shape, FreeTree.shape_paint]
  have hco : (t.paint m).blocks.Pairwise (key_before m) := by
    rw [hcb]
    exact (FreeTree.ordered_iff m t).1 ho
  constructor
  · intro hx hl hr hg
    obtain ⟨h1, h2, h3⟩ := @insert_block_ordered m (t.paint m) root x fuel hci hco
      (by omega) hx hl hr (by rw [hcb]; exact List.pairwise_cons.2 ⟨hg, hs⟩)
    refine ⟨((t.paint m).insert m x).shape, ColorTree.shape_inMem h1, ?_, ?_⟩
    · rw [FreeTree.ordered_iff, ColorTree.blocks_shape]
      exact h2
    · rw [ColorTree.blocks_shape, ← hcb]
      exact h3
  · intro hx
    obtain ⟨h0, h1, h2, h3⟩ := @detach_block_by_ptr_ordered m (t.paint m) root x fuel hci hco
      (by omega) (by rw [hcb]; exact hx) (by rw [hcb]; exact hs)
    refine ⟨h0, ((t.paint m).detach m x).shape, ColorTree.shape_inMem h1, ?_, ?_⟩
    · rw [FreeTree.ordered_iff, ColorTree.blocks_shape]
      exact h2
    · rw [ColorTree.blocks_shape, ← hcb]
      exact h3

set_option maxRecDepth 100000 in
/-- Witness for C29: in scenario K the free tree has the root 4224 with the left child 4128;
the walk of `detach_block_by_ptr` to 4128 finds it, and the root 4224 is left. -/
theorem insert_block_and_detach_keep_tree_ordered_witness :
    scenK_tree.InMem scenK_free (em_get_free_blocks scenK_free 4096) ∧
      scenK_tree.Ordered scenK_free ∧
      (find_by_ptr_loop scenK_free 4128 (get_size scenK_free 4128)
        (min_exponent_of (block_data 4128)) FUEL
        (em_get_free_blocks scenK_free 4096) 0).1 = 4128 ∧
      (detach_block_by_ptr FUEL scenK_free (em_get_free_blocks scenK_free 4096) 4128).2
        = 4224 :=
  ⟨by decide, by decide,
    ((insert_block_and_detach_keep_tree_ordered scenK_free scenK_tree
      (em_get_free_blocks scenK_free 4096) 4128 FUEL (by decide) (by decide) (by decide)
      (by decide)).2 (by decide)).1,
    by decide⟩

set_option maxRecDepth 100000 in
/-- C30, as stated, fails.  In scenario N the first aligned allocation inserts its padding
block 4128 into the empty tree, and the root of the free tree is red afterwards.  After the
third allocation the tree satisfies the invariants below its red root; the allocation of 64
bytes then detaches the black leaf 4400 and inserts the remainder 4496, and the path
through the red node 4496 has no black node while the path through 4128 has one. -/
theorem free_tree_root_red_and_black_counts_differ :
    scenN_tree1.InMem scenN_alloc1.1 (em_get_free_blocks scenN_alloc1.1 4096) ∧
      ¬ scenN_tree1.IsLLRB ∧
      scenN_tree3.InMem scenN_alloc3.1 (em_get_free_blocks scenN_alloc3.1 4096) ∧
      scenN_tree3.blacken.Valid ∧
      scenN_alloc4.2 = 4432 ∧
      scenN_tree4.InMem scenN_alloc4.1 (em_get_free_blocks scenN_alloc4.1 4096) ∧
      ¬ scenN_tree4.blacken.Valid ∧
      scenN_tree4.left.blackHeight = 0 ∧ scenN_tree4.right.blackHeight = 1 := by
  decide

/-- C30, amended: after every sequence of `insert_block` calls that starts from the empty
tree, with blocks that are not null, have null links, are red and do not overlap, the free
tree holds exactly these blocks and satisfies the colour invariants once its root is taken
as black: no right child is red, no red node other than the root has a red child, and all
paths from the root to a null link have the same number of black nodes. -/
theorem insert_blocks_keep_colour_invariants_below_root (m : Mem) (bs : List Nat)
    (fuel : Nat)
    (hb : ∀ b ∈ bs, b ≠ 0 ∧ get_left_tree m b = 0 ∧ get_right_tree m b = 0 ∧
      is_red m b = true)
    (hs : bs.Pairwise HeaderGap) (hf : bs.length < fuel) :
    ∃ t : ColorTree,
      t.InMem (insert_blocks fuel (m, 0) bs).1 (insert_blocks fuel (m, 0) bs).2 ∧
      t.blocks.Perm bs ∧ t.blacken.Valid := by
  obtain ⟨t, h1, h2, h3⟩ := insert_blocks_refines fuel bs (m, 0) .nil rfl trivial hb
    (by simpa [ColorTree.blocks] using hs) (by simpa [ColorTree.blocks] using hf)
  exact ⟨t, h1, by simpa [ColorTree.blocks] using h2, h3⟩

set_option maxRecDepth 100000 in
/-- Witness for the amended C30: three headers at 64, 128 and 192 in the zero memory are
inserted one after the other; the tree that is left is not empty. -/
theorem insert_blocks_keep_colour_invariants_below_root_witness :
    [64, 128, 192].Pairwise HeaderGap ∧
      (insert_blocks FUEL (zero_mem, 0) [64, 128, 192]).2 ≠ 0 := by
  obtain ⟨t, h1, h2, _⟩ :=
    insert_blocks_keep_colour_invariants_below_root zero_mem [64, 128, 192] FUEL
      (by decide) (by decide) (by decide)
  refine ⟨by decide, ?_⟩
  have hn : t ≠ .nil := by
    rintro rfl
    have := h2.length_eq
    simp [ColorTree.blocks] at this
  exact (ColorTree.root_mem h1 hn).1


/-- C31: let `t` be the free tree below `root` in memory (any shape, of a height within
the fuel), with block headers that are 64-bit words below the top of the address space, and
let the alignment be valid.  Every non-null block `b` that `find_best_fit` returns is a
block of the tree with `size(b) ≥ size + (align_up(payload(b), alignment) - payload(b))`;
the parent it reports is NULL exactly when `b` is the root, and otherwise it is a node of
the tree whose left or right link is `b`. -/
theorem find_best_fit_result_fits_and_parent_links_to_it (m : Mem) (t : FreeTree)
    (root size a fuel : Nat) (hin : t.InMem m root) (hfuel : t.height ≤ fuel)
    (ha : ValidAlignment a)
    (hw : ∀ b ∈ t.blocks, m b < WORD ∧ b + SIZEOF_BLOCK + a ≤ WORD)
    (hb : (find_best_fit fuel m root size a).1 ≠ 0) :
    (find_best_fit fuel m root size a).1 ∈ t.blocks ∧
      FitsRequest m size a (find_best_fit fuel m root size a).1 ∧
      ((find_best_fit fuel m root size a).2 = 0 ↔
        (find_best_fit fuel m root size a).1 = root) ∧
      ((find_best_fit fuel m root size a).2 ≠ 0 →
        (find_best_fit fuel m root size a).2 ∈ t.blocks ∧
        (get_left_tree m (find_best_fit fuel m root size a).2 =
            (find_best_fit fuel m root size a).1 ∨
          get_right_tree m (find_best_fit fuel m root size a).2 =
            (find_best_fit fuel m root size a).1)) := by
  have hroot : root ≠ 0 := by
    intro h0
    apply hb
    unfold find_best_fit
    rw [if_pos h0]
  have e : find_best_fit fuel m root size a = find_best_fit_loop m size a fuel 0 0 root 0 := by
    unfold find_best_fit
    rw [if_neg hroot]
  rw [e] at hb ⊢
  have ih := @find_best_fit_loop_parent m size a t fuel 0 0 root 0 hin hfuel
  generalize find_best_fit_loop m size a fuel 0 0 root 0 = res at ih hb ⊢
  rcases ih with ih | ⟨i1, i2, i3⟩
  · rw [ih] at hb
    exact absurd rfl hb
  · refine ⟨i1, (fits_iff_fitsRequest m size a _ ha (hw _ i1).1 (hw _ i1).2).1 i2, ?_, ?_⟩
    · rcases i3 with ⟨e1, e2⟩ | ⟨e1, e2⟩
      · exact ⟨fun _ => e1, fun _ => e2⟩
      · have hn := FreeTree.blocks_ne_zero t _ hin _ e1
        have hc := FreeTree.root_not_child hin e1
        constructor
        · intro h0; exact absurd h0 hn
        · intro hr
          rcases e2 with e2 | e2
          · exact absurd (e2.trans hr) hc.1
          · exact absurd (e2.trans hr) hc.2
    · intro hp
      rcases i3 with ⟨e1, e2⟩ | ⟨e1, e2⟩
      · exact absurd e2 hp
      · exact ⟨e1, e2⟩

set_option maxRecDepth 100000 in
/-- Witness for C31: the tree of scenario K (root 4224 with left child 4128) and the request
of 16 bytes at alignment 16; the search returns the block at 4128 and reports a parent
that links to it. -/
theorem find_best_fit_result_fits_and_parent_links_to_it_witness :
    get_left_tree scenK_free
        (find_best_fit FUEL scenK_free (em_get_free_blocks scenK_free 4096) 16 16).2 =
        (find_best_fit FUEL scenK_free (em_get_free_blocks scenK_free 4096) 16 16).1 ∨
      get_right_tree scenK_free
        (find_best_fit FUEL scenK_free (em_get_free_blocks scenK_free 4096) 16 16).2 =
        (find_best_fit FUEL scenK_free (em_get_free_blocks scenK_free 4096) 16 16).1 :=
  ((find_best_fit_result_fits_and_parent_links_to_it scenK_free scenK_tree
    (em_get_free_blocks scenK_free 4096) 16 16 FUEL (by decide) (by decide) (by decide)
    (by decide) (by decide)).2.2.2 (by decide)).2

/-- C32: let `t` be the free tree below `root`, ordered by the key of `insert_block` and of
a height within the fuel, and let no block of the tree need alignment padding for the
alignment `a`.  Then `find_best_fit(root, size, a)` returns NULL iff no block of the tree
has payload size `≥ size`, and otherwise it returns a block of the tree whose payload size
is the minimum of the payload sizes `≥ size` in the tree. -/
theorem find_best_fit_minimum_size_without_padding (m : Mem) (t : FreeTree)
    (root size a fuel : Nat) (hin : t.InMem m root) (hord : t.Ordered m)
    (hfuel : t.height ≤ fuel)
    (hpad : ∀ b ∈ t.blocks, align_up (block_data b) a = block_data b) :
    ((find_best_fit fuel m root size a).1 = 0 ↔ ∀ b ∈ t.blocks, get_size m b < size) ∧
      ((find_best_fit fuel m root size a).1 ≠ 0 →
        (find_best_fit fuel m root size a).1 ∈ t.blocks ∧
        size ≤ get_size m (find_best_fit fuel m root size a).1 ∧
        ∀ b ∈ t.blocks, size ≤ get_size m b →
          get_size m (find_best_fit fuel m root size a).1 ≤ get_size m b) := by
  rw [find_best_fit_fst]
  have hiff : ∀ b ∈ t.blocks, Fits m size a b ↔ size ≤ get_size m b :=
    fun b hb => fits_of_no_padding m size a b (hpad b hb)
  obtain ⟨i1, i2⟩ := @find_best_fit_loop_tree m size a t fuel 0 0 root 0 hin hord hfuel
  have i3 := i2 (fun b hb hs => (hiff b hb).2 hs)
  generalize (find_best_fit_loop m size a fuel 0 0 root 0).1 = res at i1 i3 ⊢
  refine ⟨⟨?_, ?_⟩, ?_⟩
  · intro h0 b hb
    by_contra hge
    exact (i3 b hb ((hiff b hb).2 (by omega))).1 h0
  · intro hall
    rcases i1 with i1 | ⟨i1, i1b, _⟩
    · exact i1
    · have := hall _ i1
      have := (hiff _ i1).1 i1b
      omega
  · intro hne
    rcases i1 with i1 | ⟨i1, i1b, _⟩
    · exact absurd i1 hne
    · exact ⟨i1, (hiff _ i1).1 i1b, fun b hb hs => (i3 b hb ((hiff b hb).2 hs)).2⟩

set_option maxRecDepth 100000 in
/-- Witness for C32: the tree of scenario K (payloads of 32 bytes at 4256 and of 16 bytes at
4160, both word-aligned) and the request of 20 bytes at alignment 8: the block returned is
in the tree and holds at least 20 bytes. -/
theorem find_best_fit_minimum_size_without_padding_witness :
    (find_best_fit FUEL scenK_free (em_get_free_blocks scenK_free 4096) 20 8).1 ∈
        scenK_tree.blocks ∧
      20 ≤ get_size scenK_free
        (find_best_fit FUEL scenK_free (em_get_free_blocks scenK_free 4096) 20 8).1 :=
  ⟨((find_best_fit_minimum_size_without_padding scenK_free scenK_tree
      (em_get_free_blocks scenK_free 4096) 20 8 FUEL (by decide) (by decide) (by decide)
      (by decide)).2 (by decide)).1,
    ((find_best_fit_minimum_size_without_padding scenK_free scenK_tree
      (em_get_free_blocks scenK_free 4096) 20 8 FUEL (by decide) (by decide) (by decide)
      (by decide)).2 (by decide)).2.1⟩

set_option maxRecDepth 100000 in
/-- C39 (evaluation at the failing input): for every header word and every size `s`,
`get_size` after `set_size(block, s)` is `s` modulo `2^61`, while the alignment bits and the
word that holds `prev`, `is_free` and the colour are kept.  The size `2^61` is at most
`SIZE_MASK`, the bound that the size setter and `em_create_static_aligned` accept, but it
is shifted out of the word: `get_size` after `set_size(block, 2^61)` is 0, the arena
`em_create_static(4096, 2^61)` is created with capacity 0, and the "negative" size
`(size_t)-4096` is accepted too and leaves the capacity `2^61 - 4096`. -/
theorem set_size_loses_sizes_from_2_pow_61 :
    (∀ (m : Mem) (b s : Nat),
        get_size (set_size m b s) b = s % 2305843009213693952 ∧
        get_alignment (set_size m b s) b = get_alignment m b ∧
        get_prev (set_size m b s) b = get_prev m b ∧
        get_is_free (set_size m b s) b = get_is_free m b ∧
        get_color (set_size m b s) b = get_color m b) ∧
      (2305843009213693952 : Nat) ≤ SIZE_MASK ∧
      get_size (set_size zero_mem 4096 2305843009213693952) 4096 = 0 ∧
      (em_create_static zero_mem 4096 2305843009213693952).2 = 4096 ∧
      em_get_capacity (em_create_static zero_mem 4096 2305843009213693952).1 4096 = 0 ∧
      (18446744073709547520 : Nat) ≤ SIZE_MASK ∧
      (em_create_static zero_mem 4096 18446744073709547520).2 = 4096 ∧
      em_get_capacity (em_create_static zero_mem 4096 18446744073709547520).1 4096 =
        2305843009213689856 := by
  refine ⟨fun m b s => ?_, by decide, by decide, by decide, by decide, by decide, by decide,
    by decide⟩
  obtain ⟨h1, h2, h3⟩ := set_size_spec m b s
  have e8 : set_size m b s (b + 8) = m (b + 8) := h3 _ (by omega)
  refine ⟨h1, h2, get_prev_congr e8, get_is_free_congr e8, ?_⟩
  unfold get_color
  rw [e8]

/-- C40 (evaluation at the failing input): for the eight alignments `8 << e`, `e < 8`
(8 to 1024), and every header word, `set_alignment` stores `e` in the low three bits,
`get_alignment` returns the alignment and `get_size` is unchanged.  For the ninth accepted
alignment `2048 = MAX_ALIGNMENT` the exponent 8 does not fit: on a zero header word
`get_alignment` returns 8 afterwards, the low three bits are 0 and `get_size` has changed
from 0 to 1. -/
theorem set_alignment_2048_spills_into_size_field :
    (∀ (m : Mem) (b : Nat) (e : Fin 8),
        set_alignment m b (8 <<< e.val) b &&& ALIGNMENT_MASK = e.val ∧
        get_alignment (set_alignment m b (8 <<< e.val)) b = 8 <<< e.val ∧
        get_size (set_alignment m b (8 <<< e.val)) b = get_size m b) ∧
      MAX_ALIGNMENT = 2048 ∧
      get_alignment (set_alignment zero_mem 4096 2048) 4096 = 8 ∧
      set_alignment zero_mem 4096 2048 4096 &&& ALIGNMENT_MASK = 0 ∧
      get_size zero_mem 4096 = 0 ∧
      get_size (set_alignment zero_mem 4096 2048) 4096 = 1 := by
  refine ⟨fun m b e => ?_, by decide, by decide, by decide, by decide, by decide⟩
  obtain ⟨h1, h2, h3, _⟩ := set_alignment_spec m b e.val e.isLt
  exact ⟨h1, h2, h3⟩


set_option maxRecDepth 100000 in
/-- C33 (counterexample): three calls of `split_block` that pass the split test and shrink
the block, but leave no remainder of payload `full - needed - sizeof(Block)`.
(1) Scenario P, a free tail behind the block: the bump block at 4224 (payload 256) is
followed by the free tail at 4512.  `split_block(em, 4224, 64)`, the call that
`em_bump_trim` makes, shrinks the block to 64 bytes, and `em_free_block_full` merges the
remainder at 4320 into the tail: it is the new tail with payload 0, not 160.
(2) Scenario V, a free block behind the block: the occupied block at 4128 (payload 128) is
followed by the free block at 4288 (payload 128).  `split_block(em, 4128, 64)` merges the
remainder at 4224 with it: its payload is `32 + 32 + 128 = 192`, not 32.
(3) Scenario A, the occupied tail behind the block: the block at 4128 (payload 512) is
followed by the occupied block at 4672, on which the tail pointer rests.
`split_block(em, 4128, 64)` turns the remainder at 4224 into the tail with payload 0, in
front of the occupied block: `em_free_block_full` tests `next == tail` without testing
that the tail is free. -/
theorem split_block_remainder_coalesces_with_successor :
    (get_size scenP_bump.1 4224 = 256 ∧ get_is_free scenP_bump.1 4224 = false ∧
      next_block scenP_bump.1 4096 4224 = 4512 ∧ em_get_tail scenP_bump.1 4096 = 4512 ∧
      get_is_free scenP_bump.1 4512 = true ∧
      BLOCK_MIN_SIZE ≤ 256 - 64 ∧
      get_size (split_block scenP_bump.1 4096 4224 64) 4224 = 64 ∧
      get_size (split_block scenP_bump.1 4096 4224 64) 4320 = 0 ∧
      get_size (split_block scenP_bump.1 4096 4224 64) 4320 ≠ 256 - 64 - SIZEOF_BLOCK ∧
      em_get_tail (split_block scenP_bump.1 4096 4224 64) 4096 = 4320) ∧
      (get_size scenV_free 4128 = 128 ∧ get_is_free scenV_free 4128 = false ∧
        next_block scenV_free 4096 4128 = 4288 ∧ get_is_free scenV_free 4288 = true ∧
        get_size scenV_free 4288 = 128 ∧ em_get_tail scenV_free 4096 = 4608 ∧
        BLOCK_MIN_SIZE ≤ 128 - 64 ∧
        get_size (split_block scenV_free 4096 4128 64) 4128 = 64 ∧
        get_size (split_block scenV_free 4096 4128 64) 4224 = 192 ∧
        get_size (split_block scenV_free 4096 4128 64) 4224 ≠ 128 - 64 - SIZEOF_BLOCK) ∧
      (get_size scenA_alloc2.1 4128 = 512 ∧ get_is_free scenA_alloc2.1 4128 = false ∧
        next_block scenA_alloc2.1 4096 4128 = 4672 ∧
        em_get_tail scenA_alloc2.1 4096 = 4672 ∧ get_is_free scenA_alloc2.1 4672 = false ∧
        BLOCK_MIN_SIZE ≤ 512 - 64 ∧
        get_size (split_block scenA_alloc2.1 4096 4128 64) 4128 = 64 ∧
        get_size (split_block scenA_alloc2.1 4096 4128 64) 4224 = 0 ∧
        get_size (split_block scenA_alloc2.1 4096 4128 64) 4224 ≠
          512 - 64 - SIZEOF_BLOCK ∧
        em_get_tail (split_block scenA_alloc2.1 4096 4128 64) 4096 = 4224 ∧
        get_is_free (split_block scenA_alloc2.1 4096 4128 64) 4672 = false) := by
  refine ⟨by decide, by decide, by decide⟩

set_option maxRecDepth 100000 in
/-- C33 (amended): let `b` be an occupied block of a well-formed block list (`BlockLayout`)
that contains the tail, let `needed` be a multiple of 4, and let the block that physically
follows `b`, if there is one in the active part, be occupied and not the tail (a free
successor or a free tail is coalesced with the remainder, and the occupied tail is the case
of the defect shown in the counterexample).  With
`full = size(b)`: if `full > needed` and `full - needed ≥ BLOCK_MIN_SIZE`,
`split_block(em, b, needed)` sets `size(b) = needed` and leaves a free block at
`payload(b) + needed` with payload `full - needed - sizeof(Block)` and `prev = b`, and the
block that follows gets `prev = remainder`; otherwise the memory is unchanged.  Hence
`full = needed + sizeof(Block) + EM_MIN_BUFFER_SIZE` leaves a free block of exactly
`EM_MIN_BUFFER_SIZE` bytes, and a larger `needed` leaves the memory as it is.  In scenario
Q, the allocation of `288 - 32 - 16` bytes from the free block of payload 288 leaves the
free block at 4400 with payload 16 as the root of the free tree, and the allocation of one
byte more leaves no free block. -/
theorem split_block_carves_remainder_before_occupied_block (m : Mem) (em b needed : Nat)
    (F Bs : List Nat) (hL : BlockLayout m em F Bs) (hb : b ∈ Bs)
    (hocc : get_is_free m b = false) (hn4 : needed % 4 = 0)
    (hT : em_get_tail m em ∈ Bs)
    (hnext : next_block m em b = 0 ∨
      (next_block m em b ≠ em_get_tail m em ∧ get_is_free m (next_block m em b) = false)) :
    ((get_size m b > needed ∧ get_size m b - needed ≥ BLOCK_MIN_SIZE) →
        get_size (split_block m em b needed) b = needed ∧
        get_is_free (split_block m em b needed) (block_data b + needed) = true ∧
        get_size (split_block m em b needed) (block_data b + needed) =
          get_size m b - needed - SIZEOF_BLOCK ∧
        get_prev (split_block m em b needed) (block_data b + needed) = b ∧
        (next_block m em b ≠ 0 →
          get_prev (split_block m em b needed) (next_block m em b) =
            block_data b + needed)) ∧
      (¬ (get_size m b > needed ∧ get_size m b - needed ≥ BLOCK_MIN_SIZE) →
        split_block m em b needed = m) ∧
      (get_size m b = needed + SIZEOF_BLOCK + EM_MIN_BUFFER_SIZE →
        get_is_free (split_block m em b needed) (block_data b + needed) = true ∧
        get_size (split_block m em b needed) (block_data b + needed) =
          EM_MIN_BUFFER_SIZE) ∧
      (get_size m b < needed + SIZEOF_BLOCK + EM_MIN_BUFFER_SIZE →
        split_block m em b needed = m) ∧
      (get_size scenQ_merged 4128 = 288 ∧ get_is_free scenQ_merged 4128 = true ∧
        scenQ_fit.2 = 4160 ∧ em_get_free_blocks scenQ_fit.1 4096 = 4400 ∧
        get_is_free scenQ_fit.1 4400 = true ∧
        get_size scenQ_fit.1 4400 = EM_MIN_BUFFER_SIZE) ∧
      (scenQ_full.2 = 4160 ∧ em_get_free_blocks scenQ_full.1 4096 = 0 ∧
        get_size scenQ_full.1 4128 = 288) := by
  have hbf := hL.blocks_fit b hb
  have hfits := hL.arena_fits
  have hsplit : get_size m b > needed → get_size m b - needed ≥ BLOCK_MIN_SIZE →
      get_size (split_block m em b needed) b = needed ∧
        get_is_free (split_block m em b needed) (block_data b + needed) = true ∧
        get_size (split_block m em b needed) (block_data b + needed) =
          get_size m b - needed - SIZEOF_BLOCK ∧
        get_prev (split_block m em b needed) (block_data b + needed) = b ∧
        (next_block m em b ≠ 0 →
          get_prev (split_block m em b needed) (next_block m em b) =
            block_data b + needed) := by
    intro h1 h2
    have hd : block_data b = b + 32 := by
      unfold block_data wadd
      simp only [WORD, SIZEOF_BLOCK]
      omega
    have h48 : 48 ≤ get_size m b - needed := by
      simp only [BLOCK_MIN_SIZE, SIZEOF_BLOCK, EM_MIN_BUFFER_SIZE] at h2
      exact h2
    rw [hd]
    exact split_block_plain hL hb hocc hn4 hT hnext h1 h48
  have hkeep : ¬ (get_size m b > needed ∧ get_size m b - needed ≥ BLOCK_MIN_SIZE) →
      split_block m em b needed = m := by
    intro hc
    have hc2 : ¬ ((decide (get_size m b > needed) &&
        decide (wsub (get_size m b) needed ≥ BLOCK_MIN_SIZE)) = true) := by
      intro h
      simp only [Bool.and_eq_true, decide_eq_true_eq] at h
      apply hc
      refine ⟨h.1, ?_⟩
      have : wsub (get_size m b) needed = get_size m b - needed := by
        unfold wsub; simp only [WORD]; omega
      rw [← this]
      exact h.2
    rw [split_block_eq, if_neg hc2]
  refine ⟨fun h => hsplit h.1 h.2, hkeep, ?_, ?_, by decide, by decide⟩
  · intro h
    have h1 : get_size m b > needed := by
      simp only [SIZEOF_BLOCK, EM_MIN_BUFFER_SIZE] at h; omega
    have h2 : get_size m b - needed ≥ BLOCK_MIN_SIZE := by
      simp only [SIZEOF_BLOCK, EM_MIN_BUFFER_SIZE, BLOCK_MIN_SIZE] at h ⊢; omega
    obtain ⟨_, s2, s3, _⟩ := hsplit h1 h2
    refine ⟨s2, ?_⟩
    rw [s3]
    simp only [SIZEOF_BLOCK, EM_MIN_BUFFER_SIZE] at h ⊢
    omega
  · intro h
    apply hkeep
    intro hc
    have := hc.2
    simp only [SIZEOF_BLOCK, EM_MIN_BUFFER_SIZE, BLOCK_MIN_SIZE] at h this
    omega

set_option maxRecDepth 100000 in
/-- Witness for C33: scenario P, `split_block(em, 4128, 16)` on the occupied block at 4128
(payload 64) in front of the occupied bump block at 4224: the block shrinks to 16 bytes,
the remainder at 4176 is free with payload `64 - 16 - 32 = 16` and `prev = 4128`, and the
block at 4224 gets `prev = 4176`. -/
theorem split_block_carves_remainder_before_occupied_block_witness :
    get_size (split_block scenP_bump.1 4096 4128 16) 4128 = 16 ∧
      get_is_free (split_block scenP_bump.1 4096 4128 16) 4176 = true ∧
      get_size (split_block scenP_bump.1 4096 4128 16) 4176 = 16 ∧
      get_prev (split_block scenP_bump.1 4096 4128 16) 4176 = 4128 ∧
      get_prev (split_block scenP_bump.1 4096 4128 16) 4224 = 4176 := by
  obtain ⟨h1, _⟩ :=
    split_block_carves_remainder_before_occupied_block scenP_bump.1 4096 4128 16 []
      [4128, 4224, 4512]
      { header_word := by decide
        arena_fits := by decide
        free_in_blocks := by decide
        blocks_fit := by decide
        blocks_apart := by decide
        chain := by decide
        closed := by unfold LinksClosed; decide
        root_in := by decide }
      (by decide) (by decide) (by decide) (by decide) (Or.inr (by decide))
  have hc : get_size scenP_bump.1 4128 > 16 ∧
      get_size scenP_bump.1 4128 - 16 ≥ BLOCK_MIN_SIZE := by decide
  have e1 : block_data 4128 + 16 = 4176 := by decide
  have e2 : get_size scenP_bump.1 4128 - 16 - SIZEOF_BLOCK = 16 := by decide
  have e3 : next_block scenP_bump.1 4096 4128 = 4224 := by decide
  obtain ⟨a1, a2, a3, a4, a5⟩ := h1 hc
  rw [e1] at a2 a3 a4
  rw [e2] at a3
  have a6 := a5 (by rw [e3]; decide)
  rw [e3, e1] at a6
  exact ⟨a1, a2, a3, a4, a6⟩

/-- C36: let `em_create_static_aligned(memory, size, alignment)` succeed for a legal
alignment (a power of two from 8 to 2048) and a buffer at least 4096 bytes below the top
of the address space, whatever the buffer held before.  Let `first` be the block that the
call lays out, which is the tail of the fresh arena.  Then `get_parent_em(first)` is the
arena.  When there is a gap after the arena header (`first > em + sizeof(EM)`), the word
just before `first` is `((first - em) << 1) | 1`, its low bit is 1 and `first` minus the
offset it carries is `em`; when `first` immediately follows the header, the word before it
(the `free_blocks` word of the header) has low bit 0 and `first - sizeof(EM)` is `em`.  For
alignments up to 1024, `first` is the block that `em_get_first_block(em)` computes. -/
theorem get_parent_em_of_first_block_is_arena (m : Mem) (memory size alignment : Nat)
    (ha : ValidAlignment alignment) (hmem : memory + 4096 ≤ WORD)
    (hres : (em_create_static_aligned m memory size alignment).2 ≠ 0) :
    ∃ mF em first, em_create_static_aligned m memory size alignment = (mF, em) ∧
      em_get_tail mF em = first ∧ em + SIZEOF_EM ≤ first ∧
      get_parent_em mF first = em ∧
      (em + SIZEOF_EM < first →
        mF (first - WORD_SIZE) = (wshl (first - em) 1 ||| 1) ∧
        mF (first - WORD_SIZE) &&& 1 = 1 ∧
        first - (mF (first - WORD_SIZE) >>> 1) = em) ∧
      (first = em + SIZEOF_EM →
        mF (first - WORD_SIZE) = mF (em + 24) ∧ mF (em + 24) &&& 1 = 0 ∧
        first - SIZEOF_EM = em) ∧
      (alignment ≤ 1024 → em_get_first_block mF em = first) := by
  obtain ⟨mF, em, first, h1, h2, h3, h4, h5, h6, h7⟩ :=
    em_create_static_aligned_parent m memory size alignment ha
      (by simp only [WORD] at hmem; exact hmem) hres
  refine ⟨mF, em, first, h1, h2, h3, h4, h5, ?_, h7⟩
  intro hfe
  have e : first - WORD_SIZE = em + 24 := by
    simp only [WORD_SIZE, SIZEOF_EM] at hfe ⊢
    omega
  obtain ⟨a1, a2⟩ := h6 hfe
  rw [e] at a1 ⊢
  exact ⟨rfl, a1, a2⟩

set_option maxRecDepth 100000 in
/-- Witness for C36: the call of `test_static_em_detector_coverage`,
`em_create_static_aligned(4097, 1024, 64)`, on a buffer filled with the byte `0xFE`.  The
arena is at 4104, the first block at 4192, the word at 4184 is `(88 << 1) | 1 = 177`, and
`get_parent_em` of the first block is the arena.  With alignment 2048 on the same buffer
(scenario R) the block laid out at 6112 has the arena 4096 as its parent as well, while
`em_get_first_block(em)` computes 4128, where no block was laid out and `get_parent_em`
yields a word of the old buffer contents. -/
theorem get_parent_em_of_first_block_is_arena_witness :
    (get_parent_em scenR_test.1 4192 = 4104 ∧ scenR_test.1 4184 = 177 ∧
        em_get_first_block scenR_test.1 4104 = 4192) ∧
      (scenR_create.2 = 4096 ∧ em_get_tail scenR_create.1 4096 = 6112 ∧
        get_parent_em scenR_create.1 6112 = 4096 ∧
        em_get_first_block scenR_create.1 4096 = 4128 ∧
        get_parent_em scenR_create.1 4128 = 18374403900871474940) := by
  obtain ⟨mF, em, first, h1, h2, _, h4, h5, _, h7⟩ :=
    get_parent_em_of_first_block_is_arena fill_mem 4097 1024 64 (by decide) (by decide)
      (by decide)
  have e : scenR_test = (mF, em) := h1
  have em_eq : em = 4104 := by
    have : scenR_test.2 = em := by rw [e]
    rw [← this]
    decide
  have mF_eq : scenR_test.1 = mF := by rw [e]
  have first_eq : first = 4192 := by
    rw [← h2, ← mF_eq, em_eq]
    decide
  rw [← mF_eq, em_eq, first_eq] at h4 h5 h7
  have h5a := (h5 (by decide)).1
  have h7a := h7 (by decide)
  refine ⟨⟨h4, ?_, h7a⟩, by decide⟩
  have e2 : (4192 : Nat) - WORD_SIZE = 4184 := by decide
  rw [e2] at h5a
  rw [h5a]
  decide

set_option maxRecDepth 100000 in
/-- C37 (evaluation at the failing inputs): on the arena `em_create_static(4096, 4096)`
(alignment 16), after `a = em_alloc(em, 64)`, `em_alloc(em, 64)` and `em_free(a)`, the call
`em_alloc(em, 1)` takes the free block at 4128 and splits it at the word-aligned size 8:
the occupied block keeps a payload of 8 bytes, less than `EM_MIN_BUFFER_SIZE`, and the
payload of the remainder at 4168 starts at 4200, which is not 16-aligned.  On an arena of
alignment 8 the tail path does the same for `em_alloc(em, 8)`, and after `em_free` the
block of 8 bytes is a node of the free tree. -/
theorem blocks_smaller_than_min_buffer_size_are_laid_out :
    (get_size scenS_free 4128 = 64 ∧ get_is_free scenS_free 4128 = true ∧
        scenS_small.2 = 4160 ∧ get_is_free scenS_small.1 4128 = false ∧
        get_size scenS_small.1 4128 = 8 ∧ 8 < EM_MIN_BUFFER_SIZE ∧
        next_block scenS_small.1 4096 4128 = 4168 ∧
        get_is_free scenS_small.1 4168 = true ∧ block_data 4168 % 16 = 8) ∧
      (em_get_alignment scenT_create.1 4096 = 8 ∧ scenT_alloc1.2 = 4160 ∧
        get_is_free scenT_alloc1.1 4128 = false ∧ get_size scenT_alloc1.1 4128 = 8 ∧
        get_is_free scenT_free 4128 = true ∧ get_size scenT_free 4128 = 8 ∧
        em_get_free_blocks scenT_free 4096 = 4128 ∧ em_get_tail scenT_free 4096 = 4208) := by
  decide


/-- C34: a tail allocation `alloc_in_tail_full(em, size, a)` that fits the free tail space,
on an arena with a well-formed free tail `T` (`TailLayout`), the free tree `t` in memory
with all its nodes in front of the tail, and the chain `P` of the blocks that `next_block`
visits from the first block up to `T`.  With `pad` the front padding:
if `a` exceeds the alignment of the arena and `pad ≥ BLOCK_MIN_SIZE`, the old tail header
`T` becomes a free block of payload `pad - sizeof(Block)` that is a node of the free tree
in memory (the tree `t` with `T` inserted), the returned pointer is `T + sizeof(Block) +
pad`, the header of the allocated block starts exactly `sizeof(Block)` before it, so that
the word before the pointer is the magic word of that header and not a breadcrumb, and
`count_blocks_in_em` grows by one more than in an allocation without front split: by
`1 + d` instead of `d`, where `d` is 1 when a block follows the allocated block and 0 when
the allocation took all the tail space.  If `0 < pad < BLOCK_MIN_SIZE`, no front block is
created: `T` itself is the allocated, occupied block, it holds `pad + size` bytes, and the
word before the pointer is the breadcrumb `T XOR pointer`. -/
theorem tail_allocation_front_split_or_padding_inside_block (m : Mem)
    (em size a T pad : Nat) (t : ColorTree) (P : List Nat)
    (hT : T = em_get_tail m em) (hpad : pad = tail_padding m em a)
    (hL : TailLayout m em t.blocks) (hin : t.InMem m (em_get_free_blocks m em))
    (hgap : t.blocks.Pairwise HeaderGap) (hheight : t.height < FUEL)
    (hbefore : ∀ h ∈ t.blocks, h + SIZEOF_BLOCK ≤ T)
    (hchain : ChainTo m em (em_get_first_block m em) P T)
    (hP : ∀ x ∈ P, em + SIZEOF_EM ≤ x ∧ x + SIZEOF_BLOCK + get_size m x ≤ T)
    (hPA : HeadersApart (P ++ t.blocks)) (hlen : P.length + 3 ≤ FUEL)
    (hsz : 0 < size) (ha : ValidAlignment a)
    (hfs : free_size_in_tail m em + 1024 ≤ 2305843009213693952)
    (hw : T + free_size_in_tail m em + 1088 ≤ WORD)
    (hword : m em < WORD) (harena : em + em_get_capacity m em < WORD)
    (hfit : pad + size ≤ free_size_in_tail m em) :
    count_blocks_in_em m em = P.length + 1 ∧
      (a > em_get_alignment m em → pad ≥ BLOCK_MIN_SIZE →
        ∃ mF, alloc_in_tail_full m em size a = (mF, T + SIZEOF_BLOCK + pad) ∧
          get_is_free mF T = true ∧ get_size mF T = pad - SIZEOF_BLOCK ∧
          (t.insert (set_size m T (pad - SIZEOF_BLOCK)) T).InMem mF
            (em_get_free_blocks mF em) ∧
          T ∈ (t.insert (set_size m T (pad - SIZEOF_BLOCK)) T).blocks ∧
          next_block mF em T = T + pad ∧
          get_is_free mF (T + pad) = false ∧ size ≤ get_size mF (T + pad) ∧
          recovered_header mF (T + SIZEOF_BLOCK + pad) = T + pad ∧
          T + pad + SIZEOF_BLOCK = T + SIZEOF_BLOCK + pad ∧
          mF (T + SIZEOF_BLOCK + pad - WORD_SIZE) = get_magic mF (T + pad) ∧
          get_magic mF (T + pad) ^^^ (T + SIZEOF_BLOCK + pad) = MAGIC ∧
          count_blocks_in_em mF em = count_blocks_in_em m em + 1 +
            (if next_block mF em (T + pad) = 0 then 0 else 1)) ∧
      (¬ (a > em_get_alignment m em ∧ pad ≥ BLOCK_MIN_SIZE) →
        ∃ mF, alloc_in_tail_full m em size a = (mF, T + SIZEOF_BLOCK + pad) ∧
          get_is_free mF T = false ∧ pad + size ≤ get_size mF T ∧
          recovered_header mF (T + SIZEOF_BLOCK + pad) = T ∧
          (0 < pad →
            mF (T + SIZEOF_BLOCK + pad - WORD_SIZE) = T ^^^ (T + SIZEOF_BLOCK + pad)) ∧
          count_blocks_in_em mF em = count_blocks_in_em m em +
            (if next_block mF em T = 0 then 0 else 1)) := by
  have hw2 : T + 32 + free_size_in_tail m em + 1056 ≤ 18446744073709551616 := by
    simp only [WORD] at hw; omega
  have hword2 : m em < 18446744073709551616 := hword
  have harena2 : em + em_get_capacity m em < 18446744073709551616 := harena
  have hcount0 : count_blocks_in_em m em = P.length + 1 := by
    have hgeo := hL.tail_after
    have htsz := hL.tail_size
    rw [← hT] at hgeo htsz
    apply count_blocks_to_last hchain (by omega) _ hlen
    apply next_block_of_last
    rw [← hT]
    unfold next_block_unsafe block_data
    rw [htsz]
    unfold wadd; simp only [WORD, SIZEOF_BLOCK]; omega
  refine ⟨hcount0, ?_, ?_⟩
  · intro hal h48
    obtain ⟨mF, f1, f2, f3, f4, f5, f6, f7, f8, f9, _, f11⟩ :=
      tail_alloc_front_split m em size a T pad t P hT hpad hL hin hgap hheight hbefore
        hchain hP hPA hlen hsz ha hfs hw2 hword2 harena2 hfit hal h48
    have h48b : 48 ≤ pad := h48
    have hmem : T ∈ (t.insert (set_size m T (pad - 32)) T).blocks :=
      (ColorTree.insert_perm _ T t).symm.subset (List.mem_cons_self _ _)
    have e24 : T + 32 + pad - 8 = T + pad + 24 := by omega
    refine ⟨mF, f1, f2, f3, f4, hmem, f9, f5, f6, f7, by simp only [SIZEOF_BLOCK]; omega,
      ?_, ?_, ?_⟩
    · show mF (T + 32 + pad - 8) = mF (T + pad + 24)
      rw [e24]
    · show mF (T + pad + 24) ^^^ (T + 32 + pad) = MAGIC
      rw [← e24]; exact f8
    · rw [f11, hcount0]
  · intro hno
    obtain ⟨mF, g1, g2, g3, g4, g5, _, g7⟩ :=
      tail_alloc_no_front_split m em size a T pad t.blocks P hT hpad hL hchain hP hlen hsz ha
        hfs hw2 hfit hno
    exact ⟨mF, g1, g2, g3, g4, g5, by rw [g7, hcount0]⟩

set_option maxRecDepth 100000 in
/-- Witness for C34: scenario U, the fresh arena at 4104 of alignment 8 whose tail 4136 has
its payload at 4168.  `alloc_in_tail_full(em, 50, 128)` has 56 bytes of padding: the old
tail is the free block of 24 bytes at the root of the free tree, the pointer is 4224, the
header of the allocated block is 4192, and the block count grows from 1 to 3.  With
alignment 16 (8 bytes of padding) the pointer 4176 lies in the block at 4136, the word at
4168 is `4136 XOR 4176`, and the block count is 2, as with alignment 8. -/
theorem tail_allocation_front_split_or_padding_inside_block_witness :
    (scenU_split.2 = 4224 ∧ get_is_free scenU_split.1 4136 = true ∧
        get_size scenU_split.1 4136 = 24 ∧ em_get_free_blocks scenU_split.1 4104 = 4136 ∧
        recovered_header scenU_split.1 4224 = 4192 ∧
        count_blocks_in_em scenU_split.1 4104 = 3) ∧
      (scenU_small.2 = 4176 ∧ recovered_header scenU_small.1 4176 = 4136 ∧
        scenU_small.1 4168 = 120 ∧ count_blocks_in_em scenU_small.1 4104 = 2) := by
  have hlay : TailLayout scenU_create.1 4104 ColorTree.nil.blocks :=
    { root_word := by decide
      tail_free := by decide
      tail_size := by decide
      tail_left := by decide
      tail_right := by decide
      tail_within := by decide
      tail_after := by decide
      space_fits := by decide
      space_small := by decide
      apart := by
        intro x hx y hy hxy
        have hx2 : x = em_get_tail scenU_create.1 4104 := List.mem_singleton.1 hx
        have hy2 : y = em_get_tail scenU_create.1 4104 := List.mem_singleton.1 hy
        exact absurd (hx2.trans hy2.symm) hxy
      closed := fun h hh => absurd hh (List.not_mem_nil h)
      root_in := Or.inl (by decide)
      nodes := fun h hh => absurd hh (List.not_mem_nil h)
      scratch := fun h => absurd h (by decide) }
  have hA : HeadersApart (([] : List Nat) ++ ColorTree.nil.blocks) :=
    fun x hx => absurd hx (List.not_mem_nil x)
  obtain ⟨c0, hfront, _⟩ :=
    tail_allocation_front_split_or_padding_inside_block scenU_create.1 4104 50 128 4136 56
      ColorTree.nil [] (by decide) (by decide) hlay (by decide) List.Pairwise.nil (by decide)
      (fun h hh => absurd hh (List.not_mem_nil h)) (by decide)
      (fun x hx => absurd hx (List.not_mem_nil x)) hA (by decide) (by decide) (by decide)
      (by decide) (by decide) (by decide) (by decide) (by decide)
  obtain ⟨_, _, hsmall⟩ :=
    tail_allocation_front_split_or_padding_inside_block scenU_create.1 4104 50 16 4136 8
      ColorTree.nil [] (by decide) (by decide) hlay (by decide) List.Pairwise.nil (by decide)
      (fun h hh => absurd hh (List.not_mem_nil h)) (by decide)
      (fun x hx => absurd hx (List.not_mem_nil x)) hA (by decide) (by decide) (by decide)
      (by decide) (by decide) (by decide) (by decide) (by decide)
  obtain ⟨mF, f1, f2, f3, f4, _, _, _, _, f9, _, _, _, f13⟩ := hfront (by decide) (by decide)
  obtain ⟨mG, g1, _, _, g4, g5, g6⟩ := hsmall (by decide)
  have eF : scenU_split = (mF, 4136 + SIZEOF_BLOCK + 56) := f1
  have eG : scenU_small = (mG, 4136 + SIZEOF_BLOCK + 8) := g1
  have mF_eq : scenU_split.1 = mF := by rw [eF]
  have mG_eq : scenU_small.1 = mG := by rw [eG]
  rw [← mF_eq] at f2 f3 f4 f9 f13
  rw [← mG_eq] at g4 g5 g6
  have nF : next_block scenU_split.1 4104 (4136 + 56) ≠ 0 := by decide
  have nG : next_block scenU_small.1 4104 4136 ≠ 0 := by decide
  rw [if_neg nF, c0] at f13
  rw [if_neg nG, c0] at g6
  refine ⟨⟨by decide, f2, f3, ?_, f9, f13⟩, ⟨by decide, g4, ?_, g6⟩⟩
  · decide
  · have h := g5 (by decide)
    have e : 4136 + SIZEOF_BLOCK + 8 - WORD_SIZE = 4168 := by decide
    rw [e] at h
    rw [h]
    decide

/-- C38: for a bump allocator `bump` created by `em_create_bump` as an occupied block of a
parent arena `em` that is well-formed after the creation (exact free tree `t` and block
list `Bs`), every sequence `cs` of `em_bump_alloc`, `em_bump_alloc_aligned`,
`em_bump_reset` and `em_bump_trim` calls leaves `sizeof(Bump) <= offset <= capacity +
sizeof(Bump)`; the remaining space `capacity - offset + sizeof(Bump)` is computed without
wrap-around; every range `(p, size)` handed out since the last reset starts at or behind the
first payload byte and ends inside the payload of the backing block; and these ranges are
pairwise disjoint. -/
theorem bump_offset_stays_between_header_and_capacity (m0 m : Mem) (em size bump : Nat)
    (t : ColorTree) (Bs : List Nat) (cs : List BumpCall)
    (hc : em_create_bump m0 em size = (m, bump)) (hb : bump ≠ 0)
    (hH : Heap m em t Bs) (hB : bump ∈ Bs) (hocc : get_is_free m bump = false) :
    SIZEOF_BUMP ≤ bump_get_offset (bump_calls bump (m, []) cs).1 bump ∧
      bump_get_offset (bump_calls bump (m, []) cs).1 bump ≤
        bump_get_capacity (bump_calls bump (m, []) cs).1 bump + SIZEOF_BUMP ∧
      wadd (wsub (bump_get_capacity (bump_calls bump (m, []) cs).1 bump)
          (bump_get_offset (bump_calls bump (m, []) cs).1 bump)) SIZEOF_BUMP =
        bump_get_capacity (bump_calls bump (m, []) cs).1 bump + SIZEOF_BUMP -
          bump_get_offset (bump_calls bump (m, []) cs).1 bump ∧
      (∀ r ∈ (bump_calls bump (m, []) cs).2, bump + SIZEOF_BUMP ≤ r.1 ∧
        r.1 + r.2 ≤ bump + SIZEOF_BLOCK +
          bump_get_capacity (bump_calls bump (m, []) cs).1 bump) ∧
      (bump_calls bump (m, []) cs).2.Pairwise
        (fun a b => a.1 + a.2 ≤ b.1 ∨ b.1 + b.2 ≤ a.1) := by
  obtain ⟨hem, hoff⟩ := em_create_bump_fields hc hb
  have h0 : BumpInv m em bump :=
    ⟨t, Bs, hH, hB, hocc, hem, by rw [hoff], by rw [hoff]; omega⟩
  have hr0 : RangesIn m bump [] :=
    ⟨fun r hr => absurd hr (List.not_mem_nil r), List.Pairwise.nil⟩
  obtain ⟨hI, hR⟩ := bump_calls_inv cs (m, []) h0 hr0
  obtain ⟨mF, hmF⟩ : ∃ x, x = (bump_calls bump (m, []) cs).1 := ⟨_, rfl⟩
  rw [← hmF] at hI hR ⊢
  obtain ⟨t', Bs', hH', hB', _, _, h32, hcapo⟩ := hI
  obtain ⟨_, _, hw, _, _, _⟩ := hH'.block_bounds hB'
  have hrem := bump_remaining mF bump h32 (by omega) hw
  simp only [SIZEOF_BUMP, SIZEOF_BLOCK] at hrem ⊢
  refine ⟨h32, hcapo, by rw [hrem]; omega, fun r hr => ?_, hR.2⟩
  have := hR.1 r hr
  omega

set_option maxRecDepth 100000 in
/-- Witness for C38: the bump allocator of scenario L (256 bytes at 4128 in the arena at
4096, whose only other block is the tail at 4416 and whose free tree is empty), with the
calls `alloc(40)`, `trim`, `alloc_aligned(8, 16)`, `reset`, `alloc(8)`. -/
theorem bump_offset_stays_between_header_and_capacity_witness :
    SIZEOF_BUMP ≤ bump_get_offset (bump_calls scenL_bump.2 (scenL_bump.1, [])
        [.alloc 40, .trim, .alloc_aligned 8 16, .reset, .alloc 8]).1 scenL_bump.2 ∧
      bump_get_offset (bump_calls scenL_bump.2 (scenL_bump.1, [])
          [.alloc 40, .trim, .alloc_aligned 8 16, .reset, .alloc 8]).1 scenL_bump.2 ≤
        bump_get_capacity (bump_calls scenL_bump.2 (scenL_bump.1, [])
          [.alloc 40, .trim, .alloc_aligned 8 16, .reset, .alloc 8]).1 scenL_bump.2 +
          SIZEOF_BUMP :=
  have hL : BlockLayout scenL_bump.1 scenG_create.2 ColorTree.nil.blocks [4128, 4416] :=
    ⟨by decide, by decide, by decide, by decide, by decide, by decide,
      fun h hh => absurd hh (List.not_mem_nil h), by decide⟩
  have hH : Heap scenL_bump.1 scenG_create.2 ColorTree.nil [4128, 4416] :=
    ⟨hL, by show em_get_free_blocks scenL_bump.1 scenG_create.2 = 0; decide,
      List.Pairwise.nil, List.Pairwise.nil, by decide, by decide, by decide, by decide,
      by decide, by decide⟩
  have h := bump_offset_stays_between_header_and_capacity scenG_create.1 scenL_bump.1
    scenG_create.2 256 scenL_bump.2 ColorTree.nil [4128, 4416]
    [.alloc 40, .trim, .alloc_aligned 8 16, .reset, .alloc 8] rfl (by decide) hH
    (by decide) (by decide)
  ⟨h.1, h.2.1⟩

end EasyMemory
